import Mathlib

/-! # Template instantiation and on-demand user credentials (NATS secrets backend)

A shallow embedding of `paths_creds_user.go` and the parts of
`paths_issue_user.go` it reads, followed by theorems about the embedded
functions.

Conventions of the embedding.

* A Go `string` is a `Str`, a list of characters.  The Go code indexes bytes;
  the bytes it compares against (`{`, `}`, `=`, `,`, `"`) are ASCII and the
  texts it scans are valid UTF-8 (the output of `json.Marshal`), where a
  byte-wise scan for ASCII bytes and a character-wise scan meet the same
  positions.
* A Go `map[string]string` is a list of key/value pairs, in the order in which
  `range` visits them (an order Go leaves unspecified); theorems quantify over
  every such list.
* `int64` values are integers, wrapped explicitly where the code can overflow.
-/

namespace NatsBackend

/-- A Go string. -/
abbrev Str := List Char

/-! ## The `strings` and `unicode` functions the code calls -/

/-- Go `unicode.IsSpace`: the Latin-1 white space characters and the other
code points with the Unicode White_Space property. -/
def isSpace (c : Char) : Bool :=
  let n := c.toNat
  (9 ≤ n && n ≤ 13) || n == 32 || n == 0x85 || n == 0xA0 || n == 0x1680 ||
  (0x2000 ≤ n && n ≤ 0x200A) || n == 0x2028 || n == 0x2029 || n == 0x202F ||
  n == 0x205F || n == 0x3000

/-- Go `strings.TrimSpace`: the string without its leading and trailing white
space. -/
def trimSpace (s : Str) : Str :=
  ((s.dropWhile isSpace).reverse.dropWhile isSpace).reverse

/-- Go slice expression `s[start:end]` (for `start ≤ end ≤ len(s)`). -/
def slice (s : Str) (start stop : Nat) : Str :=
  (s.drop start).take (stop - start)

/-- Non-overlapping replacement, leftmost match first, for a non-empty `old`.
The fuel bounds the number of positions visited. -/
def replaceFrom (old new : Str) : Nat → Str → Str
  | 0, s => s
  | _ + 1, [] => []
  | fuel + 1, c :: cs =>
    if old.isPrefixOf (c :: cs) then
      new ++ replaceFrom old new fuel ((c :: cs).drop old.length)
    else
      c :: replaceFrom old new fuel cs

/-- Go `strings.ReplaceAll(s, old, new)`.  For an empty `old` Go inserts `new`
before every character and at the end. -/
def replaceAll (s old new : Str) : Str :=
  match old with
  | [] => new ++ s.flatMap (fun c => c :: new)
  | _ :: _ => replaceFrom old new s.length s

/-! ## `findTemplateVariables` -/

/-- The inner loop of `findTemplateVariables`,
`for j := start; j < len(templateStr)-1; j++`, returning the first `j` with
`templateStr[j] == '}' && templateStr[j+1] == '}'`, or `none` for `end == -1`. -/
def findClosing (templateStr : Str) : Nat → Nat → Option Nat
  | 0, _ => none
  | fuel + 1, j =>
    if j + 1 < templateStr.length then
      if templateStr[j]? = some '}' ∧ templateStr[j + 1]? = some '}' then some j
      else findClosing templateStr fuel (j + 1)
    else none

/-- The outer loop of `findTemplateVariables`,
`for i := 0; i < len(templateStr)-1; i++`, with the two accumulators
`variableList` (the result slice `variables`) and `variableMap` (the names already seen). -/
def findLoop (templateStr : Str) : Nat → Nat → List Str → List Str → List Str
  | 0, _, variableList, _ => variableList
  | fuel + 1, i, variableList, variableMap =>
    if i + 1 < templateStr.length then
      if templateStr[i]? = some '{' ∧ templateStr[i + 1]? = some '{' then
        let start := i + 2
        match findClosing templateStr templateStr.length start with
        | some stop =>
          let variableName := trimSpace (slice templateStr start stop)
          if variableName ≠ [] ∧ variableName ∉ variableMap then
            findLoop templateStr fuel (stop + 1 + 1) (variableList ++ [variableName])
              (variableName :: variableMap)
          else
            findLoop templateStr fuel (stop + 1 + 1) variableList variableMap
        | none => findLoop templateStr fuel (i + 1) variableList variableMap
      else findLoop templateStr fuel (i + 1) variableList variableMap
    else variableList

/-- Go `findTemplateVariables`: the names between `{{` and the next `}}`,
trimmed, without blanks and repetitions. -/
def findTemplateVariables (templateStr : Str) : List Str :=
  findLoop templateStr templateStr.length 0 [] []

/-! ## Placeholder occurrences, stated on the text itself -/

/-- The text before the first `}}` of `s` and the text after that `}}`. -/
def splitAtClose : Str → Option (Str × Str)
  | [] => none
  | [_] => none
  | c :: d :: rest =>
    if c = '}' ∧ d = '}' then some ([], rest)
    else (splitAtClose (d :: rest)).map fun p => (c :: p.1, p.2)

/-- The placeholder occurrences of a text, left to right: at the first `{{`
the text up to the next `}}` is an occurrence, and the scan goes on behind
that `}}`.  The fuel bounds the number of steps. -/
def placeholdersFrom : Nat → Str → List Str
  | 0, _ => []
  | _ + 1, [] => []
  | _ + 1, [_] => []
  | fuel + 1, c :: d :: rest =>
    if c = '{' ∧ d = '{' then
      match splitAtClose rest with
      | some (content, after) => content :: placeholdersFrom fuel after
      | none => placeholdersFrom fuel (d :: rest)
    else placeholdersFrom fuel (d :: rest)

/-- The raw texts between `{{` and the next `}}`, in the order of the scan. -/
def placeholders (s : Str) : List Str := placeholdersFrom s.length s

/-- The placeholder names of a text with repetitions, in the order of the
scan: the occurrences trimmed of surrounding white space, blank ones left
out. -/
def placeholderNames (s : Str) : List Str :=
  ((placeholders s).map trimSpace).filter (fun n => decide (n ≠ []))

/-- Each distinct element once, at the place of its first occurrence. -/
def firstOccurrences : List Str → List Str
  | [] => []
  | n :: ns => n :: (firstOccurrences ns).filter (fun m => decide (m ≠ n))

/-- The accumulation performed by the loop of `findTemplateVariables` on the
trimmed occurrences. -/
def collectNames : List Str → List Str → List Str → List Str
  | variableList, _, [] => variableList
  | variableList, variableMap, n :: ns =>
    if n ≠ [] ∧ n ∉ variableMap then
      collectNames (variableList ++ [n]) (n :: variableMap) ns
    else collectNames variableList variableMap ns

/-- A text without `{` and without `}`. -/
def braceFree (s : Str) : Prop := '{' ∉ s ∧ '}' ∉ s

instance (s : Str) : Decidable (braceFree s) := by
  unfold braceFree
  infer_instance

/-! ## `encoding/json`, as far as the claims object needs it

The encoder follows `json.Marshal` (compact output, struct fields in declaration
order, `omitempty`, HTML-safe string escapes); the decoder follows
`json.Unmarshal` (white space between tokens, the JSON string escapes, members
matched to struct fields by name, also case-insensitively, a later member
decoded over an earlier one, `null` leaving a field as it is). -/

/-- A JSON document.  A number keeps its literal text. -/
inductive JVal where
  | null
  | bool (b : Bool)
  | num (literal : Str)
  | str (s : Str)
  | arr (items : List JVal)
  | obj (members : List (Str × JVal))

/-- Lower-case hexadecimal digit of a number below 16. -/
def hexDigit (n : Nat) : Char :=
  if n < 10 then Char.ofNat (48 + n) else Char.ofNat (87 + n)

/-- The text the encoder writes for one character of a string: `"` and `\` get
a backslash, line feed, carriage return and tab their letter, the other
control characters and `<`, `>`, `&`, U+2028, U+2029 a `\u` escape.  (Newer Go
releases write `\b` and `\f` for two of the control characters; the decoder
reads both forms alike.) -/
def escapeChar (c : Char) : Str :=
  if c = '"' then ['\\', '"']
  else if c = '\\' then ['\\', '\\']
  else if c = '\n' then ['\\', 'n']
  else if c = '\r' then ['\\', 'r']
  else if c = '\t' then ['\\', 't']
  else if c.toNat < 0x20 ∨ c = '<' ∨ c = '>' ∨ c = '&' then
    ['\\', 'u', '0', '0', hexDigit (c.toNat / 16), hexDigit (c.toNat % 16)]
  else if c.toNat = 0x2028 then ['\\', 'u', '2', '0', '2', '8']
  else if c.toNat = 0x2029 then ['\\', 'u', '2', '0', '2', '9']
  else [c]

/-- A string as a JSON string literal. -/
def encodeString (s : Str) : Str :=
  '"' :: s.flatMap escapeChar ++ ['"']

mutual
/-- The compact JSON text of a document. -/
def render : JVal → Str
  | .null => ['n', 'u', 'l', 'l']
  | .bool b => if b then ['t', 'r', 'u', 'e'] else ['f', 'a', 'l', 's', 'e']
  | .num literal => literal
  | .str s => encodeString s
  | .arr [] => ['[', ']']
  | .arr (v :: vs) => '[' :: render v ++ renderItems vs ++ [']']
  | .obj [] => ['{', '}']
  | .obj ((k, v) :: ms) =>
    '{' :: encodeString k ++ ':' :: render v ++ renderMembers ms ++ ['}']
/-- The array elements after the first, each behind a comma. -/
def renderItems : List JVal → Str
  | [] => []
  | v :: vs => ',' :: render v ++ renderItems vs
/-- The object members after the first, each behind a comma. -/
def renderMembers : List (Str × JVal) → Str
  | [] => []
  | (k, v) :: ms => ',' :: encodeString k ++ ':' :: render v ++ renderMembers ms
end

/-- JSON white space. -/
def isJsonSpace (c : Char) : Bool :=
  c = ' ' || c = '\t' || c = '\n' || c = '\r'

/-- The text behind its leading JSON white space. -/
def skipSpace (s : Str) : Str := s.dropWhile isJsonSpace

/-- Value of a hexadecimal digit. -/
def hexVal (c : Char) : Option Nat :=
  let n := c.toNat
  if 48 ≤ n ∧ n ≤ 57 then some (n - 48)
  else if 97 ≤ n ∧ n ≤ 102 then some (n - 87)
  else if 65 ≤ n ∧ n ≤ 70 then some (n - 55)
  else none

/-- The character a one-letter escape stands for. -/
def unescape (e : Char) : Option Char :=
  if e = '"' then some '"'
  else if e = '\\' then some '\\'
  else if e = '/' then some '/'
  else if e = 'b' then some (Char.ofNat 8)
  else if e = 'f' then some (Char.ofNat 12)
  else if e = 'n' then some '\n'
  else if e = 'r' then some '\r'
  else if e = 't' then some '\t'
  else none

/-- A piece of a string literal: a character, or the UTF-16 unit of a `\u`
escape. -/
inductive StrTok where
  | chr (c : Char)
  | unit (n : Nat)

/-- Where the reader of a string literal stands: between characters, behind a
backslash, or inside a `\u` escape with `count` hexadecimal digits read and
their value `acc`. -/
inductive ScanState where
  | plain
  | escape
  | hex (count acc : Nat)

/-- The pieces of a string literal from a reader state on, and the text behind
the closing quote.  A control character, an unknown escape or a text that ends
inside the literal is an error. -/
def scanFrom : ScanState → Str → Option (List StrTok × Str)
  | _, [] => none
  | ScanState.plain, c :: rest =>
    if c = '"' then some ([], rest)
    else if c = '\\' then scanFrom ScanState.escape rest
    else if c.toNat < 0x20 then none
    else (scanFrom ScanState.plain rest).map fun p => (StrTok.chr c :: p.1, p.2)
  | ScanState.escape, e :: rest =>
    if e = 'u' then scanFrom (ScanState.hex 0 0) rest
    else
      match unescape e with
      | some ch => (scanFrom ScanState.plain rest).map fun p => (StrTok.chr ch :: p.1, p.2)
      | none => none
  | ScanState.hex count acc, h :: rest =>
    match hexVal h with
    | none => none
    | some x =>
      if count = 3 then
        (scanFrom ScanState.plain rest).map fun p => (StrTok.unit (acc * 16 + x) :: p.1, p.2)
      else scanFrom (ScanState.hex (count + 1) (acc * 16 + x)) rest

/-- The pieces of a string literal whose opening quote has been read, and the
text behind its closing quote. -/
def scanString (s : Str) : Option (List StrTok × Str) := scanFrom ScanState.plain s

/-- The character of a `\u` escape that is not half of a surrogate pair: a
lone surrogate reads as the replacement character U+FFFD. -/
def unitChar (h : Nat) : Char :=
  if 0xD800 ≤ h ∧ h < 0xE000 then Char.ofNat 0xFFFD else Char.ofNat h

/-- The characters of the pieces: a surrogate pair is one character. -/
def decodeToks : List StrTok → Str
  | [] => []
  | StrTok.chr c :: ts => c :: decodeToks ts
  | [StrTok.unit h] => [unitChar h]
  | StrTok.unit h :: StrTok.chr c :: ts => unitChar h :: decodeToks (StrTok.chr c :: ts)
  | StrTok.unit h :: StrTok.unit l :: ts =>
    if (0xD800 ≤ h ∧ h < 0xDC00) ∧ (0xDC00 ≤ l ∧ l < 0xE000) then
      Char.ofNat (0x10000 + (h - 0xD800) * 0x400 + (l - 0xDC00)) :: decodeToks ts
    else unitChar h :: decodeToks (StrTok.unit l :: ts)

/-- The string of a literal whose opening quote has been read, and the text
behind its closing quote. -/
def parseStringBody (s : Str) : Option (Str × Str) :=
  (scanString s).map fun p => (decodeToks p.1, p.2)

/-- Decimal digit. -/
def isDigit (c : Char) : Bool := 48 ≤ c.toNat && c.toNat ≤ 57

/-- One or more digits, and the text behind them. -/
def scanDigits (s : Str) : Option (Str × Str) :=
  if s.takeWhile isDigit = [] then none
  else some (s.takeWhile isDigit, s.dropWhile isDigit)

/-- The integer part of a number: `0`, or a non-zero digit and more digits. -/
def scanInt : Str → Option (Str × Str)
  | [] => none
  | c :: rest =>
    if c = '0' then some (['0'], rest)
    else if isDigit c then some (c :: rest.takeWhile isDigit, rest.dropWhile isDigit)
    else none

/-- The optional fraction of a number. -/
def scanFrac : Str → Option (Str × Str)
  | [] => some ([], [])
  | c :: rest =>
    if c = '.' then (scanDigits rest).map fun p => ('.' :: p.1, p.2)
    else some ([], c :: rest)

/-- The optional exponent of a number. -/
def scanExp : Str → Option (Str × Str)
  | [] => some ([], [])
  | c :: rest =>
    if c = 'e' ∨ c = 'E' then
      match rest with
      | [] => none
      | d :: rest2 =>
        if d = '+' ∨ d = '-' then (scanDigits rest2).map fun p => (c :: d :: p.1, p.2)
        else (scanDigits (d :: rest2)).map fun p => (c :: p.1, p.2)
    else some ([], c :: rest)

/-- The unsigned part of a number literal and the text behind it. -/
def scanUnsigned (s : Str) : Option (Str × Str) :=
  match scanInt s with
  | none => none
  | some (i, s2) =>
    match scanFrac s2 with
    | none => none
    | some (f, s3) =>
      match scanExp s3 with
      | none => none
      | some (e, s4) => some (i ++ f ++ e, s4)

/-- A number literal and the text behind it. -/
def scanNumber : Str → Option (Str × Str)
  | [] => none
  | c :: rest =>
    if c = '-' then (scanUnsigned rest).map fun p => ('-' :: p.1, p.2)
    else scanUnsigned (c :: rest)

mutual
/-- One JSON value at the head of a text, and the text behind it.  The fuel
bounds the nesting and the number of elements; a text of length `n` needs no
more than `n + 1`. -/
def parseValue : Nat → Str → Option (JVal × Str)
  | 0, _ => none
  | fuel + 1, s =>
    match skipSpace s with
    | [] => none
    | c :: rest =>
      if c = '"' then
        (parseStringBody rest).map fun p => (JVal.str p.1, p.2)
      else if c = '[' then
        match skipSpace rest with
        | [] => none
        | d :: rest2 =>
          if d = ']' then some (JVal.arr [], rest2)
          else
            match parseValue fuel (d :: rest2) with
            | none => none
            | some (v, rest3) =>
              (parseItems fuel rest3).map fun p => (JVal.arr (v :: p.1), p.2)
      else if c = '{' then
        match skipSpace rest with
        | [] => none
        | d :: rest2 =>
          if d = '}' then some (JVal.obj [], rest2)
          else
            match parseMember fuel (d :: rest2) with
            | none => none
            | some (m, rest3) =>
              (parseMembers fuel rest3).map fun p => (JVal.obj (m :: p.1), p.2)
      else if ['t', 'r', 'u', 'e'].isPrefixOf (c :: rest) then
        some (JVal.bool true, rest.drop 3)
      else if ['f', 'a', 'l', 's', 'e'].isPrefixOf (c :: rest) then
        some (JVal.bool false, rest.drop 4)
      else if ['n', 'u', 'l', 'l'].isPrefixOf (c :: rest) then
        some (JVal.null, rest.drop 3)
      else (scanNumber (c :: rest)).map fun p => (JVal.num p.1, p.2)
/-- The remaining elements of an array, up to its `]`. -/
def parseItems : Nat → Str → Option (List JVal × Str)
  | 0, _ => none
  | fuel + 1, s =>
    match skipSpace s with
    | [] => none
    | c :: rest =>
      if c = ']' then some ([], rest)
      else if c = ',' then
        match parseValue fuel rest with
        | none => none
        | some (v, rest2) => (parseItems fuel rest2).map fun p => (v :: p.1, p.2)
      else none
/-- One member `"key": value` of an object. -/
def parseMember : Nat → Str → Option ((Str × JVal) × Str)
  | 0, _ => none
  | fuel + 1, s =>
    match skipSpace s with
    | [] => none
    | c :: rest =>
      if c = '"' then
        match parseStringBody rest with
        | none => none
        | some (k, rest2) =>
          match skipSpace rest2 with
          | [] => none
          | d :: rest3 =>
            if d = ':' then
              (parseValue fuel rest3).map fun p => ((k, p.1), p.2)
            else none
      else none
/-- The remaining members of an object, up to its `}`. -/
def parseMembers : Nat → Str → Option (List (Str × JVal) × Str)
  | 0, _ => none
  | fuel + 1, s =>
    match skipSpace s with
    | [] => none
    | c :: rest =>
      if c = '}' then some ([], rest)
      else if c = ',' then
        match parseMember fuel rest with
        | none => none
        | some (m, rest2) => (parseMembers fuel rest2).map fun p => (m :: p.1, p.2)
      else none
end

/-- A whole text as one JSON document: one value, white space around it. -/
def parseDocument (s : Str) : Option JVal :=
  match parseValue (s.length + 1) s with
  | none => none
  | some (v, rest) => if skipSpace rest = [] then some v else none

/-- The decimal digits of a natural number; the fuel bounds their number. -/
def natDigits : Nat → Nat → Str
  | 0, _ => []
  | fuel + 1, n =>
    if n < 10 then [Char.ofNat (48 + n)]
    else natDigits fuel (n / 10) ++ [Char.ofNat (48 + n % 10)]

/-- The literal the encoder writes for an integer. -/
def intLit (n : Int) : Str :=
  if n < 0 then '-' :: natDigits (n.natAbs + 1) n.natAbs
  else natDigits (n.natAbs + 1) n.natAbs

/-- The value of a run of digits. -/
def digitsValue (ds : Str) : Nat :=
  ds.foldl (fun acc c => acc * 10 + (c.toNat - 48)) 0

/-- A number literal read into an `int64` field (`strconv.ParseInt`): digits
with an optional sign, within the range of the type. -/
def parseInt64 (literal : Str) : Option Int :=
  let neg := literal.head? = some '-'
  let ds := if neg then literal.tail else literal
  if ds ≠ [] ∧ ds.all isDigit = true then
    let v : Int := if neg then - (digitsValue ds : Int) else (digitsValue ds : Int)
    if - (2 : Int) ^ 63 ≤ v ∧ v < (2 : Int) ^ 63 then some v else none
  else none

/-- The folding under which the decoder compares a member name with a field
name: ASCII letters in upper case, the long s as `S`, the Kelvin sign as `K`. -/
def foldChar (c : Char) : Char :=
  let n := c.toNat
  if 97 ≤ n ∧ n ≤ 122 then Char.ofNat (n - 32)
  else if n = 0x17F then 'S'
  else if n = 0x212A then 'K'
  else c

/-- A member name `key` addresses the struct field with JSON name `name`. -/
def keyMatches (key : Str) (name : String) : Bool :=
  key.map foldChar == name.toList.map foldChar

/-! ## The claims object and its JSON form -/

/-- Modelled from the spec: the common part of a claims object (`ClaimsData`,
declared outside these sources), with the fields the code assigns (`Subject`,
`Issuer`, `Expires`) and the audience the tests set.  JSON names: `aud` and
`sub` as in the tests, `exp` and `iss` as in the NATS token format. -/
structure ClaimsData where
  Audience : Str
  Expires : Int
  Issuer : Str
  Subject : Str
  deriving DecidableEq

/-- Modelled from the spec: a subject permission of the claims object, with the
`allow` list the tests set. -/
structure Permission where
  Allow : List Str
  deriving DecidableEq

/-- Modelled from the spec: the `nats` part of a user claims object, with the
publish and subscribe permissions of the tests and the `IssuerAccount` the
code assigns (JSON name `issuer_account` as in the NATS token format). -/
structure User where
  Pub : Permission
  Sub : Permission
  IssuerAccount : Str
  deriving DecidableEq

/-- Modelled from the spec: `v1alpha1.UserClaims`, a nested claims object
whose string leaves may hold placeholders. -/
structure UserClaims where
  ClaimsData : ClaimsData
  User : User
  deriving DecidableEq

/-- The claims object with every field at its zero value. -/
def UserClaims.zero : UserClaims :=
  { ClaimsData := { Audience := [], Expires := 0, Issuer := [], Subject := [] },
    User := { Pub := { Allow := [] }, Sub := { Allow := [] }, IssuerAccount := [] } }

/-- The string leaves of a claims object, in the order of its JSON form. -/
def UserClaims.leaves (c : UserClaims) : List Str :=
  [c.ClaimsData.Audience, c.ClaimsData.Issuer, c.ClaimsData.Subject] ++
    c.User.Pub.Allow ++ c.User.Sub.Allow ++ [c.User.IssuerAccount]

/-- The claims object with `f` applied to every string leaf. -/
def UserClaims.mapLeaves (f : Str → Str) (c : UserClaims) : UserClaims :=
  { ClaimsData :=
      { Audience := f c.ClaimsData.Audience, Expires := c.ClaimsData.Expires,
        Issuer := f c.ClaimsData.Issuer, Subject := f c.ClaimsData.Subject },
    User :=
      { Pub := { Allow := c.User.Pub.Allow.map f },
        Sub := { Allow := c.User.Sub.Allow.map f },
        IssuerAccount := f c.User.IssuerAccount } }

/-- A string field tagged `omitempty`. -/
def stringMember (name : String) (s : Str) : List (Str × JVal) :=
  if s = [] then [] else [(name.toList, JVal.str s)]

/-- An integer field tagged `omitempty`. -/
def intMember (name : String) (n : Int) : List (Str × JVal) :=
  if n = 0 then [] else [(name.toList, JVal.num (intLit n))]

/-- A string slice field tagged `omitempty`. -/
def stringsMember (name : String) (l : List Str) : List (Str × JVal) :=
  if l = [] then [] else [(name.toList, JVal.arr (l.map JVal.str))]

/-- JSON form of a permission. -/
def Permission.toJson (p : Permission) : JVal :=
  JVal.obj (stringsMember "allow" p.Allow)

/-- JSON form of the `nats` part; a struct member is written also when all of
its fields are empty. -/
def User.toJson (u : User) : JVal :=
  JVal.obj ([("pub".toList, u.Pub.toJson), ("sub".toList, u.Sub.toJson)] ++
    stringMember "issuer_account" u.IssuerAccount)

/-- JSON form of a claims object: the embedded common fields first, then
`nats`. -/
def UserClaims.toJson (c : UserClaims) : JVal :=
  JVal.obj (stringMember "aud" c.ClaimsData.Audience ++ intMember "exp" c.ClaimsData.Expires ++
    stringMember "iss" c.ClaimsData.Issuer ++ stringMember "sub" c.ClaimsData.Subject ++
    [("nats".toList, c.User.toJson)])

/-- Go `json.Marshal(template)` for a claims object; it has no failing case for
this type. -/
def marshal (c : UserClaims) : Str := render c.toJson

/-- A JSON value decoded into a string field. -/
def decodeString (old : Str) : JVal → Option Str
  | JVal.null => some old
  | JVal.str s => some s
  | _ => none

/-- A JSON value decoded into an `int64` field. -/
def decodeInt (old : Int) : JVal → Option Int
  | JVal.null => some old
  | JVal.num literal => parseInt64 literal
  | _ => none

/-- The elements of an array decoded into strings, each into a fresh element. -/
def decodeStringItems : List JVal → Option (List Str)
  | [] => some []
  | v :: vs =>
    match decodeString [] v, decodeStringItems vs with
    | some s, some ss => some (s :: ss)
    | _, _ => none

/-- A JSON value decoded into a string slice field: `null` empties it, an
array replaces it. -/
def decodeStrings : JVal → Option (List Str)
  | JVal.null => some []
  | JVal.arr items => decodeStringItems items
  | _ => none

/-- One member decoded into a permission. -/
def Permission.setMember (p : Permission) (m : Str × JVal) : Option Permission :=
  if keyMatches m.1 "allow" then (decodeStrings m.2).map fun l => { p with Allow := l }
  else some p

/-- A JSON value decoded into a permission. -/
def Permission.decode (old : Permission) : JVal → Option Permission
  | JVal.null => some old
  | JVal.obj members => members.foldlM Permission.setMember old
  | _ => none

/-- One member decoded into the `nats` part. -/
def User.setMember (u : User) (m : Str × JVal) : Option User :=
  if keyMatches m.1 "pub" then (u.Pub.decode m.2).map fun p => { u with Pub := p }
  else if keyMatches m.1 "sub" then (u.Sub.decode m.2).map fun p => { u with Sub := p }
  else if keyMatches m.1 "issuer_account" then
    (decodeString u.IssuerAccount m.2).map fun s => { u with IssuerAccount := s }
  else some u

/-- A JSON value decoded into the `nats` part. -/
def User.decode (old : User) : JVal → Option User
  | JVal.null => some old
  | JVal.obj members => members.foldlM User.setMember old
  | _ => none

/-- One member decoded into a claims object; a member that names no field is
skipped. -/
def UserClaims.setMember (c : UserClaims) (m : Str × JVal) : Option UserClaims :=
  if keyMatches m.1 "aud" then
    (decodeString c.ClaimsData.Audience m.2).map fun s =>
      { c with ClaimsData := { c.ClaimsData with Audience := s } }
  else if keyMatches m.1 "exp" then
    (decodeInt c.ClaimsData.Expires m.2).map fun n =>
      { c with ClaimsData := { c.ClaimsData with Expires := n } }
  else if keyMatches m.1 "iss" then
    (decodeString c.ClaimsData.Issuer m.2).map fun s =>
      { c with ClaimsData := { c.ClaimsData with Issuer := s } }
  else if keyMatches m.1 "sub" then
    (decodeString c.ClaimsData.Subject m.2).map fun s =>
      { c with ClaimsData := { c.ClaimsData with Subject := s } }
  else if keyMatches m.1 "nats" then
    (c.User.decode m.2).map fun u => { c with User := u }
  else some c

/-- A JSON document decoded into a fresh claims object. -/
def UserClaims.decode : JVal → Option UserClaims
  | JVal.null => some UserClaims.zero
  | JVal.obj members => members.foldlM UserClaims.setMember UserClaims.zero
  | _ => none

/-- Go `json.Unmarshal([]byte(templateStr), &processedClaims)`; `none` stands
for a returned error. -/
def unmarshal (templateStr : Str) : Option UserClaims :=
  match parseDocument templateStr with
  | none => none
  | some v => UserClaims.decode v

/-! ## `applyTemplateParameters` -/

/-- The errors of the embedded functions, one constructor for each
`fmt.Errorf` of the code; `cause` is the error printed into the message. -/
inductive Error where
  | storageFailure
  | malformedEntry
  | library (text : Str)
  | templateRequiresParameters (requiredVars : List Str)
  | missingRequiredTemplateParameters (missingVars : List Str)
  | couldNotUnmarshalProcessedTemplate
  | couldNotReadUserTemplate (cause : Error)
  | userTemplateNotFound
  | couldNotApplyTemplateParameters (cause : Error)
  | couldNotGenerateJWT (cause : Error)
  | couldNotReadUserNkey (cause : Error)
  | userNkeyNotFound
  | couldNotCreateKeypairFromSeed (cause : Error)
  | couldNotGetSeed (cause : Error)
  | couldNotFormatUserCreds (cause : Error)
  | couldNotReadAccountNkey (cause : Error)
  | accountNkeyDoesNotExist (account : Str)
  | couldNotReadSigningNkey (cause : Error)
  | accountSigningNkeyDoesNotExist (useSigningKey : Str)
  | userNkeyDoesNotExist
  | couldNotConvertClaims (cause : Error)
  | couldNotEncodeJwt (cause : Error)
  deriving DecidableEq

/-- The names a missing-parameter error lists, for the two errors of
`applyTemplateParameters` that report missing parameters. -/
def Error.missingNames : Error → Option (List Str)
  | Error.templateRequiresParameters requiredVars => some requiredVars
  | Error.missingRequiredTemplateParameters missingVars => some missingVars
  | _ => none

/-- A Go `map[string]string`, as its entries in the order in which `range`
visits them. -/
abbrev Parameters := List (Str × Str)

/-- Go `_, exists := parameters[key]`. -/
def Parameters.has (parameters : Parameters) (key : Str) : Bool :=
  parameters.any fun p => p.1 == key

/-- Go `fmt.Sprintf("{{%s}}", key)`. -/
def placeholder (key : Str) : Str := '{' :: '{' :: key ++ ['}', '}']

/-- The replacement loop of `applyTemplateParameters`:
`for key, value := range parameters` with
`templateStr = strings.ReplaceAll(templateStr, placeholder, value)`. -/
def substituteParameters (templateStr : Str) (parameters : Parameters) : Str :=
  parameters.foldl (fun t p => replaceAll t (placeholder p.1) p.2) templateStr

/-- Go `applyTemplateParameters`.  The claims object Go returns next to an
error is left out. -/
def applyTemplateParameters (template : UserClaims) (parameters : Parameters) :
    Except Error UserClaims :=
  let templateStr := marshal template
  let requiredVars := findTemplateVariables templateStr
  if 0 < requiredVars.length ∧ parameters.length = 0 then
    Except.error (Error.templateRequiresParameters requiredVars)
  else
    let missingVars := requiredVars.filter fun v => !parameters.has v
    if 0 < requiredVars.length ∧ 0 < missingVars.length then
      Except.error (Error.missingRequiredTemplateParameters missingVars)
    else
      match unmarshal (substituteParameters templateStr parameters) with
      | some processedClaims => Except.ok processedClaims
      | none => Except.error Error.couldNotUnmarshalProcessedTemplate

/-! ## Auxiliary notions for the JSON form -/

/-- A text the encoder writes as it is: no character of it is escaped. -/
def jsonPlain (s : Str) : Prop := ∀ c, c ∈ s → escapeChar c = [c]

instance (s : Str) : Decidable (jsonPlain s) := by
  unfold jsonPlain
  infer_instance

/-- The encoded body of a string literal. -/
def encodeBody (s : Str) : Str := s.flatMap escapeChar

mutual
/-- The document with `f` applied to every string value (member names stay). -/
def JVal.mapValues (f : Str → Str) : JVal → JVal
  | JVal.null => JVal.null
  | JVal.bool b => JVal.bool b
  | JVal.num literal => JVal.num literal
  | JVal.str s => JVal.str (f s)
  | JVal.arr items => JVal.arr (mapItems f items)
  | JVal.obj members => JVal.obj (mapMembers f members)
/-- The elements with `f` applied to every string value. -/
def mapItems (f : Str → Str) : List JVal → List JVal
  | [] => []
  | v :: vs => v.mapValues f :: mapItems f vs
/-- The members with `f` applied to every string value. -/
def mapMembers (f : Str → Str) : List (Str × JVal) → List (Str × JVal)
  | [] => []
  | (k, v) :: ms => (k, v.mapValues f) :: mapMembers f ms
end

mutual
/-- A document as the encoder writes claims objects: every number is an
integer literal and no member name holds a `{`. -/
def JVal.canonical : JVal → Prop
  | JVal.null => True
  | JVal.bool _ => True
  | JVal.num literal => ∃ n : Int, literal = intLit n
  | JVal.str _ => True
  | JVal.arr items => canonicalItems items
  | JVal.obj members => canonicalMembers members
/-- Every element is canonical. -/
def canonicalItems : List JVal → Prop
  | [] => True
  | v :: vs => v.canonical ∧ canonicalItems vs
/-- Every member has a name without `{` and a canonical value. -/
def canonicalMembers : List (Str × JVal) → Prop
  | [] => True
  | (k, v) :: ms => '{' ∉ k ∧ v.canonical ∧ canonicalMembers ms
end

/-- The text behind a value ends the value: it is empty or starts with `,`,
`]` or `}`. -/
def terminated (rest : Str) : Prop :=
  rest = [] ∨ ∃ c tl, rest = c :: tl ∧ (c = ',' ∨ c = ']' ∨ c = '}')

/-! ## Stored records and the storage backend -/

/-- Modelled from the spec: the status flags of an identity (`IssueStatus`,
declared outside these sources; the tests name its fields). -/
structure IssueStatus where
  Nkey : Bool
  JWT : Bool
  deriving DecidableEq

/-- Go `IssueUserStatus`. -/
structure IssueUserStatus where
  User : IssueStatus
  deriving DecidableEq

/-- Go `IssueUserStorage`. -/
structure IssueUserStorage where
  Operator : Str
  Account : Str
  User : Str
  UseSigningKey : Str
  ClaimsTemplate : UserClaims
  ExpirationS : Int
  Status : IssueUserStatus
  deriving DecidableEq

/-- Go `IssueUserParameters`. -/
structure IssueUserParameters where
  Operator : Str
  Account : Str
  User : Str
  UseSigningKey : Str
  ClaimsTemplate : UserClaims
  ExpirationS : Int
  deriving DecidableEq

/-- Modelled from the spec: the address of a key pair (`NkeyParameters`,
declared outside these sources): operator, account, user, and the name of a
signing key of the account. -/
structure NkeyParameters where
  Operator : Str
  Account : Str
  User : Str
  Signing : Str
  deriving DecidableEq

/-- Modelled from the spec: a stored key pair; the store keeps the seed only,
the public key is always derived. -/
structure NKeyStorage where
  Seed : Str
  deriving DecidableEq

/-- Modelled from the spec: the issue record of an account (declared outside
these sources), as far as its identity. -/
structure IssueAccountStorage where
  Operator : Str
  Account : Str
  deriving DecidableEq

/-- Modelled from the spec: the issue record of an operator (declared outside
these sources), as far as its identity. -/
structure IssueOperatorStorage where
  Operator : Str
  deriving DecidableEq

/-- What a storage path holds. -/
inductive Entry where
  | nkey (n : NKeyStorage)
  | userIssue (issue : IssueUserStorage)
  | accountIssue (issue : IssueAccountStorage)
  | operatorIssue (issue : IssueOperatorStorage)
  | accountToken (token : Str)
  deriving DecidableEq

/-- Modelled from the spec: the durable key-value store behind
`logical.Storage` (get, put, delete by path, no transactions).  `entries` are
the stored paths; `faults` scripts the backend: each call takes the next flag,
and `true` makes that call fail with a storage error (no flag left: the call
succeeds). -/
structure Storage where
  entries : List (Str × Entry)
  faults : List Bool
  deriving DecidableEq

/-- One `Get` of the backend. -/
def Storage.get (storage : Storage) (path : Str) : Except Error (Option Entry) × Storage :=
  match storage.faults with
  | true :: rest => (Except.error Error.storageFailure, { storage with faults := rest })
  | false :: rest => (Except.ok (storage.entries.lookup path), { storage with faults := rest })
  | [] => (Except.ok (storage.entries.lookup path), storage)

/-- Go `getUserIssuePath`. -/
def getUserIssuePath (operator account user : Str) : Str :=
  "issue/operator/".toList ++ operator ++ "/account/".toList ++ account ++
    "/user/".toList ++ user

/-- Modelled from the spec: the storage path of an account key pair
(`nkey/operator/{op}/account/{acc}`, the path the tests address). -/
def getAccountNkeyPath (operator account : Str) : Str :=
  "nkey/operator/".toList ++ operator ++ "/account/".toList ++ account

/-- Modelled from the spec: the storage path of a signing key pair of an
account, addressed by a secondary name under the account path. -/
def getAccountSigningNkeyPath (operator account signing : Str) : Str :=
  "nkey/operator/".toList ++ operator ++ "/account/".toList ++ account ++
    "/signing/".toList ++ signing

/-- Modelled from the spec: the storage path of a user key pair
(`nkey/operator/{op}/account/{acc}/user/{user}`, the path the tests address). -/
def getUserNkeyPath (operator account user : Str) : Str :=
  "nkey/operator/".toList ++ operator ++ "/account/".toList ++ account ++
    "/user/".toList ++ user

/-- Modelled from the spec: reading a key pair (`get(path) → keypair | absent`);
an entry of another kind is a decoding error. -/
def readNkey (storage : Storage) (path : Str) : Except Error (Option NKeyStorage) × Storage :=
  match storage.get path with
  | (Except.error err, storage) => (Except.error err, storage)
  | (Except.ok none, storage) => (Except.ok none, storage)
  | (Except.ok (some (Entry.nkey n)), storage) => (Except.ok (some n), storage)
  | (Except.ok (some _), storage) => (Except.error Error.malformedEntry, storage)

/-- Modelled from the spec: `readAccountNkey`. -/
def readAccountNkey (storage : Storage) (p : NkeyParameters) :
    Except Error (Option NKeyStorage) × Storage :=
  readNkey storage (getAccountNkeyPath p.Operator p.Account)

/-- Modelled from the spec: `readAccountSigningNkey`. -/
def readAccountSigningNkey (storage : Storage) (p : NkeyParameters) :
    Except Error (Option NKeyStorage) × Storage :=
  readNkey storage (getAccountSigningNkeyPath p.Operator p.Account p.Signing)

/-- Modelled from the spec: `readUserNkey`. -/
def readUserNkey (storage : Storage) (p : NkeyParameters) :
    Except Error (Option NKeyStorage) × Storage :=
  readNkey storage (getUserNkeyPath p.Operator p.Account p.User)

/-- Go `readUserIssue`, over `getFromStorage[IssueUserStorage]` (modelled from
the spec: `read(path) → templateObject | absent`). -/
def readUserIssue (storage : Storage) (params : IssueUserParameters) :
    Except Error (Option IssueUserStorage) × Storage :=
  let path := getUserIssuePath params.Operator params.Account params.User
  match storage.get path with
  | (Except.error err, storage) => (Except.error err, storage)
  | (Except.ok none, storage) => (Except.ok none, storage)
  | (Except.ok (some (Entry.userIssue issue)), storage) => (Except.ok (some issue), storage)
  | (Except.ok (some _), storage) => (Except.error Error.malformedEntry, storage)

/-! ## Keys, time and tokens -/

/-- A key pair handle of the `nkeys` library. -/
structure KeyPair where
  handle : Str
  deriving DecidableEq

/-- A point in time: seconds since the Unix epoch and nanoseconds within the
second (`0 ≤ nsec < 10^9`). -/
structure Time where
  sec : Int
  nsec : Int
  deriving DecidableEq

/-- The signed token, as the claims object handed to the encoder and the key
pair that signed it; the text encoding and the signature themselves are not
modelled. -/
structure Token where
  claims : UserClaims
  signedBy : KeyPair
  deriving DecidableEq

/-- What the code takes from outside: the `nkeys` library (`FromSeed`,
`PublicKey`, `Seed`), the conversion and encoding of claims (`v1alpha1.Convert`
and `Encode`, each either passing or failing with an error) and the clock
(`time.Now()`). -/
structure Env where
  FromSeed : Str → Except Error KeyPair
  PublicKey : KeyPair → Except Error Str
  Seed : KeyPair → Except Error Str
  ConvertError : UserClaims → Option Error
  EncodeError : UserClaims → KeyPair → Option Error
  Now : Time

/-- Two's complement wrap-around of an integer into `int64`. -/
def wrapInt64 (x : Int) : Int := (x + 2 ^ 63) % 2 ^ 64 - 2 ^ 63

/-- Go `time.Second`, in nanoseconds. -/
def Second : Int := 1000000000

/-- Go `time.Duration(n) * time.Second`: an `int64` product, which wraps around. -/
def durationSeconds (n : Int) : Int := wrapInt64 (wrapInt64 n * Second)

/-- Go `Time.Add(d)` for a duration of `d` nanoseconds: whole seconds and the
remainder (both truncated towards zero) are added apart, with a carry. -/
def Time.Add (t : Time) (d : Int) : Time :=
  let dsec := Int.tdiv d 1000000000
  let nsec := t.nsec + Int.tmod d 1000000000
  if nsec ≥ 1000000000 then { sec := t.sec + (dsec + 1), nsec := nsec - 1000000000 }
  else if nsec < 0 then { sec := t.sec + (dsec - 1), nsec := nsec + 1000000000 }
  else { sec := t.sec + dsec, nsec := nsec }

/-- Go `Time.Unix()`. -/
def Time.Unix (t : Time) : Int := t.sec

/-! ## `generateUserJWT` and `generateUserCreds` -/

/-- The choice of the signing seed in `generateUserJWT`: the account's own
seed for an empty `useSigningKey`, else the seed of the signing key of that
name, which has to exist. -/
def signingSeed (storage : Storage) (issue : IssueUserStorage) (accountNkey : NKeyStorage) :
    Except Error Str × Storage :=
  if issue.UseSigningKey = [] then (Except.ok accountNkey.Seed, storage)
  else
    match readAccountSigningNkey storage
        { Operator := issue.Operator, Account := issue.Account, User := [],
          Signing := issue.UseSigningKey } with
    | (Except.error err, storage) => (Except.error (Error.couldNotReadSigningNkey err), storage)
    | (Except.ok none, storage) =>
      (Except.error (Error.accountSigningNkeyDoesNotExist issue.UseSigningKey), storage)
    | (Except.ok (some signingNkey), storage) => (Except.ok signingNkey.Seed, storage)

/-- The claims object of `generateUserJWT` after "Set required fields" and
"Set expiration if configured", with the expiry the function returns. -/
def stampClaims (env : Env) (issue : IssueUserStorage) (claims : UserClaims)
    (accountPublicKey signingPublicKey userPublicKey : Str) : UserClaims × Int :=
  let claims : UserClaims :=
    if issue.UseSigningKey ≠ [] then
      { claims with User := { claims.User with IssuerAccount := accountPublicKey } }
    else claims
  let claims : UserClaims :=
    { claims with ClaimsData := { claims.ClaimsData with Subject := userPublicKey } }
  let claims : UserClaims :=
    { claims with ClaimsData := { claims.ClaimsData with Issuer := signingPublicKey } }
  if issue.ExpirationS > 0 then
    let expiresAt := (env.Now.Add (durationSeconds issue.ExpirationS)).Unix
    ({ claims with ClaimsData := { claims.ClaimsData with Expires := expiresAt } }, expiresAt)
  else (claims, 0)

/-- Go `generateUserJWT`: the token and `expiresAt`, or the error; next to it
the storage after the call. -/
def generateUserJWT (env : Env) (storage : Storage) (issue : IssueUserStorage)
    (claims : UserClaims) : Except Error (Token × Int) × Storage :=
  match readAccountNkey storage
      { Operator := issue.Operator, Account := issue.Account, User := [], Signing := [] } with
  | (Except.error err, storage) => (Except.error (Error.couldNotReadAccountNkey err), storage)
  | (Except.ok none, storage) =>
    (Except.error (Error.accountNkeyDoesNotExist issue.Account), storage)
  | (Except.ok (some accountNkey), storage) =>
    match env.FromSeed accountNkey.Seed with
    | Except.error err => (Except.error err, storage)
    | Except.ok accountKeyPair =>
      match env.PublicKey accountKeyPair with
      | Except.error err => (Except.error err, storage)
      | Except.ok accountPublicKey =>
        match signingSeed storage issue accountNkey with
        | (Except.error err, storage) => (Except.error err, storage)
        | (Except.ok seed, storage) =>
          match env.FromSeed seed with
          | Except.error err => (Except.error err, storage)
          | Except.ok signingKeyPair =>
            match env.PublicKey signingKeyPair with
            | Except.error err => (Except.error err, storage)
            | Except.ok signingPublicKey =>
              match readUserNkey storage
                  { Operator := issue.Operator, Account := issue.Account, User := issue.User,
                    Signing := [] } with
              | (Except.error err, storage) =>
                (Except.error (Error.couldNotReadUserNkey err), storage)
              | (Except.ok none, storage) => (Except.error Error.userNkeyDoesNotExist, storage)
              | (Except.ok (some userNkey), storage) =>
                match env.FromSeed userNkey.Seed with
                | Except.error err => (Except.error err, storage)
                | Except.ok userKeyPair =>
                  match env.PublicKey userKeyPair with
                  | Except.error err => (Except.error err, storage)
                  | Except.ok userPublicKey =>
                    match stampClaims env issue claims accountPublicKey signingPublicKey
                        userPublicKey with
                    | (claims, expiresAt) =>
                      match env.ConvertError claims with
                      | some err => (Except.error (Error.couldNotConvertClaims err), storage)
                      | none =>
                        match env.EncodeError claims signingKeyPair with
                        | some err => (Except.error (Error.couldNotEncodeJwt err), storage)
                        | none =>
                          (Except.ok ({ claims := claims, signedBy := signingKeyPair },
                            expiresAt), storage)

/-- Go `UserCredsParameters`. -/
structure UserCredsParameters where
  Operator : Str
  Account : Str
  User : Str
  Parameters : Parameters
  deriving DecidableEq

/-- A piece of a credentials file: literal text, the text of a token, a seed. -/
inductive CredsPart where
  | text (s : Str)
  | token (t : Token)
  | seed (s : Str)
  deriving DecidableEq

/-- Go `UserCredsData`; `Creds` is the credentials file as its pieces in
order. -/
structure UserCredsData where
  Operator : Str
  Account : Str
  User : Str
  Creds : List CredsPart
  Parameters : Parameters
  ExpiresAt : Int
  deriving DecidableEq

/-- The `jwt.FormatUserConfig` of the NATS library: the token block, then the
seed block; a seed that is not a user seed (prefix `SU`) is refused. -/
def FormatUserConfig (jwtString : Token) (seed : Str) : Except Error (List CredsPart) :=
  if ['S', 'U'].isPrefixOf (trimSpace seed) then
    Except.ok
      [CredsPart.text "-----BEGIN NATS USER JWT-----\n".toList,
       CredsPart.token jwtString,
       CredsPart.text "\n------END NATS USER JWT------\n\n".toList,
       CredsPart.text ("************************* IMPORTANT *************************\n" ++
         "NKEY Seed printed below can be used to sign and prove identity.\n" ++
         "NKEYs are sensitive and should be treated as secrets.\n\n" ++
         "-----BEGIN USER NKEY SEED-----\n").toList,
       CredsPart.seed seed,
       CredsPart.text ("\n------END USER NKEY SEED------\n\n" ++
         "*************************************************************\n").toList]
  else Except.error (Error.library "nkey seed is not an user seed".toList)

/-- Go `generateUserCreds`: the credentials or the error; next to it the
storage after the call. -/
def generateUserCreds (env : Env) (storage : Storage) (params : UserCredsParameters) :
    Except Error UserCredsData × Storage :=
  match readUserIssue storage
      { Operator := params.Operator, Account := params.Account, User := params.User,
        UseSigningKey := [], ClaimsTemplate := UserClaims.zero, ExpirationS := 0 } with
  | (Except.error err, storage) => (Except.error (Error.couldNotReadUserTemplate err), storage)
  | (Except.ok none, storage) => (Except.error Error.userTemplateNotFound, storage)
  | (Except.ok (some issue), storage) =>
    match applyTemplateParameters issue.ClaimsTemplate params.Parameters with
    | Except.error err => (Except.error (Error.couldNotApplyTemplateParameters err), storage)
    | Except.ok processedClaims =>
      match generateUserJWT env storage issue processedClaims with
      | (Except.error err, storage) => (Except.error (Error.couldNotGenerateJWT err), storage)
      | (Except.ok (jwtToken, expiresAt), storage) =>
        match readUserNkey storage
            { Operator := params.Operator, Account := params.Account, User := params.User,
              Signing := [] } with
        | (Except.error err, storage) => (Except.error (Error.couldNotReadUserNkey err), storage)
        | (Except.ok none, storage) => (Except.error Error.userNkeyNotFound, storage)
        | (Except.ok (some userNkey), storage) =>
          match env.FromSeed userNkey.Seed with
          | Except.error err => (Except.error (Error.couldNotCreateKeypairFromSeed err), storage)
          | Except.ok userKeyPair =>
            match env.Seed userKeyPair with
            | Except.error err => (Except.error (Error.couldNotGetSeed err), storage)
            | Except.ok seed =>
              match FormatUserConfig jwtToken seed with
              | Except.error err => (Except.error (Error.couldNotFormatUserCreds err), storage)
              | Except.ok creds =>
                (Except.ok
                  { Operator := params.Operator, Account := params.Account, User := params.User,
                    Creds := creds, Parameters := params.Parameters, ExpiresAt := expiresAt },
                  storage)

/-! ## A small world to evaluate the functions in -/

deriving instance DecidableEq for Except

/-- A stand-in for the key library: every seed is accepted, the key pair
remembers it, and the public key is the seed behind the letter `P`. -/
def demoEnv (now : Time) : Env :=
  { FromSeed := fun seed => Except.ok { handle := seed }
    PublicKey := fun kp => Except.ok ('P' :: kp.handle)
    Seed := fun kp => Except.ok kp.handle
    ConvertError := fun _ => none
    EncodeError := fun _ _ => none
    Now := now }

/-- An issue record of user `u1` of account `acc1` of operator `op1`. -/
def demoIssue (useSigningKey : Str) (expirationS : Int) (template : UserClaims) :
    IssueUserStorage :=
  { Operator := "op1".toList, Account := "acc1".toList, User := "u1".toList,
    UseSigningKey := useSigningKey, ClaimsTemplate := template, ExpirationS := expirationS,
    Status := { User := { Nkey := true, JWT := false } } }

/-- A store with the key pairs of `acc1`, of its signing key `sk1` and of
`u1`, and with the given issue record of `u1`. -/
def demoStorage (issue : IssueUserStorage) : Storage :=
  { entries :=
      [(getAccountNkeyPath "op1".toList "acc1".toList, Entry.nkey { Seed := "SAacc".toList }),
       (getAccountSigningNkeyPath "op1".toList "acc1".toList "sk1".toList,
         Entry.nkey { Seed := "SAsig".toList }),
       (getUserNkeyPath "op1".toList "acc1".toList "u1".toList,
         Entry.nkey { Seed := "SUusr".toList }),
       (getUserIssuePath "op1".toList "acc1".toList "u1".toList, Entry.userIssue issue)],
    faults := [] }

/-- A claims template whose audience is `aud`. -/
def demoTemplate (aud : Str) : UserClaims :=
  { UserClaims.zero with
    ClaimsData := { UserClaims.zero.ClaimsData with Audience := aud } }

/-! ## Issuing and deleting users -/

/-- The backend answers its next call: the next flag of the fault script, if
there is one, does not make the call fail. -/
def Storage.answers (storage : Storage) : Prop := storage.faults.head? ≠ some true

instance (storage : Storage) : Decidable storage.answers := by
  unfold Storage.answers
  infer_instance

/-- One `Put` of the backend: the entry at `path` is replaced or added. -/
def Storage.put (storage : Storage) (path : Str) (entry : Entry) :
    Except Error Unit × Storage :=
  let entries := (path, entry) :: storage.entries.filter fun e => e.1 ≠ path
  match storage.faults with
  | true :: rest => (Except.error Error.storageFailure, { storage with faults := rest })
  | false :: rest => (Except.ok (), { entries := entries, faults := rest })
  | [] => (Except.ok (), { storage with entries := entries })

/-- One `Delete` of the backend; deleting a path that holds nothing is not an
error. -/
def Storage.delete (storage : Storage) (path : Str) : Except Error Unit × Storage :=
  let entries := storage.entries.filter fun e => e.1 ≠ path
  match storage.faults with
  | true :: rest => (Except.error Error.storageFailure, { storage with faults := rest })
  | false :: rest => (Except.ok (), { entries := entries, faults := rest })
  | [] => (Except.ok (), { storage with entries := entries })

/-- Modelled from the spec: `storeInStorage` (declared outside these sources),
the `put` of the store. -/
def storeInStorage (storage : Storage) (path : Str) (entry : Entry) :
    Except Error Unit × Storage :=
  storage.put path entry

/-- Modelled from the spec: `deleteFromStorage` (declared outside these
sources), the `delete` of the store. -/
def deleteFromStorage (storage : Storage) (path : Str) : Except Error Unit × Storage :=
  storage.delete path

/-- Modelled from the spec: `getFromStorage[IssueUserStorage]` (declared
outside these sources): the record at `path`, or absent; an entry of another
kind is a decoding error. -/
def getUserIssueFromStorage (storage : Storage) (path : Str) :
    Except Error (Option IssueUserStorage) × Storage :=
  match storage.get path with
  | (Except.error err, storage) => (Except.error err, storage)
  | (Except.ok none, storage) => (Except.ok none, storage)
  | (Except.ok (some (Entry.userIssue issue)), storage) => (Except.ok (some issue), storage)
  | (Except.ok (some _), storage) => (Except.error Error.malformedEntry, storage)

/-- Modelled from the spec: the storage path of an account's issue record
(`issue/operator/{op}/account/{acc}`, the path the tests address). -/
def getAccountIssuePath (operator account : Str) : Str :=
  "issue/operator/".toList ++ operator ++ "/account/".toList ++ account

/-- Modelled from the spec: the storage path of an operator's issue record
(`issue/operator/{op}`, the path the tests address). -/
def getOperatorIssuePath (operator : Str) : Str :=
  "issue/operator/".toList ++ operator

/-- Modelled from the spec: the storage path of an account's persisted token
(`jwt/operator/{op}/account/{acc}`, the path the tests address). -/
def getAccountJwtPath (operator account : Str) : Str :=
  "jwt/operator/".toList ++ operator ++ "/account/".toList ++ account

/-- Modelled from the spec: `readAccountIssue` (declared outside these
sources), the account's issue record or absent. -/
def readAccountIssue (storage : Storage) (operator account : Str) :
    Except Error (Option IssueAccountStorage) × Storage :=
  match storage.get (getAccountIssuePath operator account) with
  | (Except.error err, storage) => (Except.error err, storage)
  | (Except.ok none, storage) => (Except.ok none, storage)
  | (Except.ok (some (Entry.accountIssue issue)), storage) => (Except.ok (some issue), storage)
  | (Except.ok (some _), storage) => (Except.error Error.malformedEntry, storage)

/-- Modelled from the spec: `readOperatorIssue` (declared outside these
sources), the operator's issue record or absent. -/
def readOperatorIssue (storage : Storage) (operator : Str) :
    Except Error (Option IssueOperatorStorage) × Storage :=
  match storage.get (getOperatorIssuePath operator) with
  | (Except.error err, storage) => (Except.error err, storage)
  | (Except.ok none, storage) => (Except.ok none, storage)
  | (Except.ok (some (Entry.operatorIssue issue)), storage) => (Except.ok (some issue), storage)
  | (Except.ok (some _), storage) => (Except.error Error.malformedEntry, storage)

/-- What the issue and delete paths take from outside these sources, next to
the key library and the clock of `Env`: the constant `DefaultPushUser`, the
generation of a fresh user key pair (`CreateUserSeed`: its seed, or the error
of the key library), the rebuilding of an account's token after its
revocation ledger got an entry for a public key at a time (`AccountToken`),
and the collaborator `refreshAccountResolvers`, which acts on the storage in
a way these sources do not show. -/
structure Collaborators where
  env : Env
  DefaultPushUser : Str
  CreateUserSeed : Except Error Str
  AccountToken : IssueAccountStorage → Str → Int → Except Error Str
  refreshAccountResolvers : Storage → IssueOperatorStorage → Except Error Unit × Storage

/-- Modelled from the spec: `addUserNkey` (declared outside these sources),
the `ensure` of the key material store: an existing key pair is returned as
it is, else a new one is generated and persisted. -/
def addUserNkey (c : Collaborators) (storage : Storage) (p : NkeyParameters) :
    Except Error Unit × Storage :=
  match readUserNkey storage p with
  | (Except.error err, storage) => (Except.error err, storage)
  | (Except.ok (some _), storage) => (Except.ok (), storage)
  | (Except.ok none, storage) =>
    match c.CreateUserSeed with
    | Except.error err => (Except.error err, storage)
    | Except.ok seed =>
      storeInStorage storage (getUserNkeyPath p.Operator p.Account p.User)
        (Entry.nkey { Seed := seed })

/-- Modelled from the spec: `deleteUserNkey` (declared outside these sources),
the `delete` of the key material store: idempotent, absent is not an error. -/
def deleteUserNkey (storage : Storage) (p : NkeyParameters) : Except Error Unit × Storage :=
  deleteFromStorage storage (getUserNkeyPath p.Operator p.Account p.User)

/-- Modelled from the spec: `addUserToRevocationList` (declared outside these
sources): "append a Revocation Ledger entry for the user's public key, then
rebuild and re-persist the Account token".  The ledger is part of the
account's claims, which the account record of this development does not
carry; kept are the calls of the step: the user's key pair is read and its
public key derived (no key pair stored: nothing to revoke), the account's
issue record is written back, and the rebuilt token is written to the
account's token path. -/
def addUserToRevocationList (c : Collaborators) (storage : Storage)
    (account : IssueAccountStorage) (issue : IssueUserStorage) : Except Error Unit × Storage :=
  match readUserNkey storage
      { Operator := issue.Operator, Account := issue.Account, User := issue.User,
        Signing := [] } with
  | (Except.error err, storage) => (Except.error err, storage)
  | (Except.ok none, storage) => (Except.ok (), storage)
  | (Except.ok (some userNkey), storage) =>
    match c.env.FromSeed userNkey.Seed with
    | Except.error err => (Except.error err, storage)
    | Except.ok userKeyPair =>
      match c.env.PublicKey userKeyPair with
      | Except.error err => (Except.error err, storage)
      | Except.ok userPublicKey =>
        match storeInStorage storage (getAccountIssuePath account.Operator account.Account)
            (Entry.accountIssue account) with
        | (Except.error err, storage) => (Except.error err, storage)
        | (Except.ok (), storage) =>
          match c.AccountToken account userPublicKey c.env.Now.Unix with
          | Except.error err => (Except.error err, storage)
          | Except.ok token =>
            storeInStorage storage (getAccountJwtPath account.Operator account.Account)
              (Entry.accountToken token)

/-- The zero value of `IssueUserStorage`. -/
def IssueUserStorage.zero : IssueUserStorage :=
  { Operator := [], Account := [], User := [], UseSigningKey := [],
    ClaimsTemplate := UserClaims.zero, ExpirationS := 0,
    Status := { User := { Nkey := false, JWT := false } } }

/-- Go `storeUserIssue`. -/
def storeUserIssue (storage : Storage) (params : IssueUserParameters) :
    Except Error IssueUserStorage × Storage :=
  let path := getUserIssuePath params.Operator params.Account params.User
  match getUserIssueFromStorage storage path with
  | (Except.error err, storage) => (Except.error err, storage)
  | (Except.ok found, storage) =>
    let issue : IssueUserStorage :=
      match found with
      | some issue => issue
      | none => IssueUserStorage.zero
    let issue : IssueUserStorage :=
      { issue with
        ClaimsTemplate := params.ClaimsTemplate
        ExpirationS := params.ExpirationS
        Operator := params.Operator
        Account := params.Account
        User := params.User
        UseSigningKey := params.UseSigningKey }
    match storeInStorage storage path (Entry.userIssue issue) with
    | (Except.error err, storage) => (Except.error err, storage)
    | (Except.ok (), storage) => (Except.ok issue, storage)

/-- Go `storeUserIssueUpdate`. -/
def storeUserIssueUpdate (storage : Storage) (issue : IssueUserStorage) :
    Except Error IssueUserStorage × Storage :=
  let path := getUserIssuePath issue.Operator issue.Account issue.User
  match storeInStorage storage path (Entry.userIssue issue) with
  | (Except.error err, storage) => (Except.error err, storage)
  | (Except.ok (), storage) => (Except.ok issue, storage)

/-- Go `issueUserNKeys`. -/
def issueUserNKeys (c : Collaborators) (storage : Storage) (issue : IssueUserStorage) :
    Except Error Unit × Storage :=
  let p : NkeyParameters :=
    { Operator := issue.Operator, Account := issue.Account, User := issue.User, Signing := [] }
  match readUserNkey storage p with
  | (Except.error err, storage) => (Except.error err, storage)
  | (Except.ok (some _), storage) => (Except.ok (), storage)
  | (Except.ok none, storage) =>
    match addUserNkey c storage p with
    | (Except.error err, storage) => (Except.error err, storage)
    | (Except.ok (), storage) => (Except.ok (), storage)

/-- Go `updateUserStatus`: the issue record with the recomputed status, and the
storage after the read. -/
def updateUserStatus (storage : Storage) (issue : IssueUserStorage) :
    IssueUserStorage × Storage :=
  match readUserNkey storage
      { Operator := issue.Operator, Account := issue.Account, User := issue.User,
        Signing := [] } with
  | (Except.ok (some _), storage) =>
    ({ issue with Status := { User := { issue.Status.User with Nkey := true } } }, storage)
  | (_, storage) =>
    ({ issue with Status := { User := { issue.Status.User with Nkey := false } } }, storage)

/-- Go `refreshUser`. -/
def refreshUser (c : Collaborators) (storage : Storage) (issue : IssueUserStorage) :
    Except Error Unit × Storage :=
  match issueUserNKeys c storage issue with
  | (Except.error err, storage) => (Except.error err, storage)
  | (Except.ok (), storage) =>
    match updateUserStatus storage issue with
    | (issue, storage) =>
      match storeUserIssueUpdate storage issue with
      | (Except.error err, storage) => (Except.error err, storage)
      | (Except.ok _, storage) =>
        if issue.User = c.DefaultPushUser then
          match readOperatorIssue storage issue.Operator with
          | (Except.error err, storage) => (Except.error err, storage)
          | (Except.ok none, storage) => (Except.ok (), storage)
          | (Except.ok (some op), storage) =>
            match c.refreshAccountResolvers storage op with
            | (Except.error err, storage) => (Except.error err, storage)
            | (Except.ok (), storage) => (Except.ok (), storage)
        else (Except.ok (), storage)

/-- Go `addUserIssue`. -/
def addUserIssue (c : Collaborators) (storage : Storage) (params : IssueUserParameters) :
    Except Error Unit × Storage :=
  match storeUserIssue storage params with
  | (Except.error err, storage) => (Except.error err, storage)
  | (Except.ok issue, storage) => refreshUser c storage issue

/-- Go `deleteUserIssue`. -/
def deleteUserIssue (c : Collaborators) (storage : Storage) (params : IssueUserParameters) :
    Except Error Unit × Storage :=
  match readUserIssue storage params with
  | (Except.error err, storage) => (Except.error err, storage)
  | (Except.ok none, storage) => (Except.ok (), storage)
  | (Except.ok (some issue), storage) =>
    match readAccountIssue storage issue.Operator issue.Account with
    | (Except.error err, storage) => (Except.error err, storage)
    | (Except.ok account, storage) =>
      let revoked : Except Error Unit × Storage :=
        match account with
        | some account => addUserToRevocationList c storage account issue
        | none => (Except.ok (), storage)
      match revoked with
      | (Except.error err, storage) => (Except.error err, storage)
      | (Except.ok (), storage) =>
        match deleteUserNkey storage
            { Operator := issue.Operator, Account := issue.Account, User := issue.User,
              Signing := [] } with
        | (Except.error err, storage) => (Except.error err, storage)
        | (Except.ok (), storage) =>
          deleteFromStorage storage
            (getUserIssuePath issue.Operator issue.Account issue.User)

/-- The record stored at the issue path of a user, if there is one, carries
the names of that user, as every record written by `storeUserIssue` does. -/
def Storage.ownRecord (storage : Storage) (operator account user : Str) : Prop :=
  match storage.entries.lookup (getUserIssuePath operator account user) with
  | some (Entry.userIssue issue) =>
    issue.Operator = operator ∧ issue.Account = account ∧ issue.User = user
  | _ => True

instance (storage : Storage) (operator account user : Str) :
    Decidable (storage.ownRecord operator account user) := by
  unfold Storage.ownRecord
  split <;> infer_instance

/-! ## Request parameters and `pathReadUserCreds` -/

/-- Go `strings.Split(s, sep)` for a one-character separator: the pieces
between the separators, one more than there are separators. -/
def split (sep : Char) : Str → List Str
  | [] => [[]]
  | c :: rest =>
    if c = sep then [] :: split sep rest
    else
      match split sep rest with
      | [] => [[c]]
      | piece :: pieces => (c :: piece) :: pieces

/-- Go `strings.SplitN(s, sep, 2)` for a one-character separator: the text
before the first separator and the text behind it, or `s` alone when it holds
no separator. -/
def splitN2 (sep : Char) (s : Str) : List Str :=
  if sep ∈ s then [s.takeWhile fun c => c ≠ sep, (s.dropWhile fun c => c ≠ sep).drop 1]
  else [s]

/-- Go `m[key] = value` on a map kept as its list of entries: the value of a
present key is replaced, a new key is added. -/
def Parameters.set (m : Parameters) (key value : Str) : Parameters :=
  if m.has key then m.map fun p => if p.1 = key then (key, value) else p
  else m ++ [(key, value)]

/-- The two errors of `parseKeyValueString`, each with the entry it prints. -/
inductive FormatError where
  | invalidPair (pair : Str)
  | emptyKey (pair : Str)
  deriving DecidableEq

/-- The loop of `parseKeyValueString` over the entries: the error, if any, and
the map as the loop leaves it. -/
def parsePairs : List Str → Parameters → Option FormatError × Parameters
  | [], result => (none, result)
  | pair :: pairs, result =>
    let parts := splitN2 '=' (trimSpace pair)
    if parts.length ≠ 2 then (some (FormatError.invalidPair pair), result)
    else
      let key := trimSpace (parts.getD 0 [])
      let value := trimSpace (parts.getD 1 [])
      if key = [] then (some (FormatError.emptyKey pair), result)
      else parsePairs pairs (result.set key value)

/-- Go `parseKeyValueString`: the returned error (`none` for `nil`) and the
result map after the call. -/
def parseKeyValueString (input : Str) (result : Parameters) :
    Option FormatError × Parameters :=
  if input = [] then (none, result)
  else parsePairs (split ',' input) result

/-- Go `json.Unmarshal([]byte(text), &result)` for a `map[string]string`:
whether the returned error is nil, and the map after the call.  A text that
is not JSON leaves the map alone; `null` empties it; an object sets every
member, a `null` or mistyped value as the empty string, the mistyped one with
an error at the end; any other document is an error. -/
def unmarshalParameters (text : Str) (result : Parameters) : Bool × Parameters :=
  match parseDocument text with
  | none => (false, result)
  | some JVal.null => (true, [])
  | some (JVal.obj members) =>
    members.foldl
      (fun (acc : Bool × Parameters) (m : Str × JVal) =>
        match m.2 with
        | JVal.str s => (acc.1, acc.2.set m.1 s)
        | JVal.null => (acc.1, acc.2.set m.1 [])
        | _ => (false, acc.2.set m.1 []))
      (true, result)
  | some _ => (false, result)

/-- The texts declared outside these sources: the constant
`InvalidParametersError` and the messages of the errors that the storage
layer and the JSON decoder raise. -/
structure Texts where
  InvalidParametersError : Str
  storageFailure : Str
  malformedEntry : Str
  unmarshalError : Str

/-- Go `fmt.Sprintf("%v", names)` for a `[]string`. -/
def formatNames (names : List Str) : Str :=
  '[' :: (" ".toList.intercalate names) ++ [']']

/-- Go `err.Error()`: the message of an error. -/
def Error.text (texts : Texts) : Error → Str
  | Error.storageFailure => texts.storageFailure
  | Error.malformedEntry => texts.malformedEntry
  | Error.library text => text
  | Error.templateRequiresParameters requiredVars =>
    "template requires parameters but none provided: ".toList ++ formatNames requiredVars
  | Error.missingRequiredTemplateParameters missingVars =>
    "missing required template parameters: ".toList ++ formatNames missingVars
  | Error.couldNotUnmarshalProcessedTemplate =>
    "could not unmarshal processed template: ".toList ++ texts.unmarshalError
  | Error.couldNotReadUserTemplate cause =>
    "could not read user template: ".toList ++ cause.text texts
  | Error.userTemplateNotFound => "user template not found".toList
  | Error.couldNotApplyTemplateParameters cause =>
    "could not apply template parameters: ".toList ++ cause.text texts
  | Error.couldNotGenerateJWT cause => "could not generate JWT: ".toList ++ cause.text texts
  | Error.couldNotReadUserNkey cause => "could not read user nkey: ".toList ++ cause.text texts
  | Error.userNkeyNotFound => "user nkey not found".toList
  | Error.couldNotCreateKeypairFromSeed cause =>
    "could not create keypair from seed: ".toList ++ cause.text texts
  | Error.couldNotGetSeed cause => "could not get seed: ".toList ++ cause.text texts
  | Error.couldNotFormatUserCreds cause =>
    "could not format user creds: ".toList ++ cause.text texts
  | Error.couldNotReadAccountNkey cause =>
    "could not read account nkey: ".toList ++ cause.text texts
  | Error.accountNkeyDoesNotExist account =>
    "account nkey does not exist: ".toList ++ account
  | Error.couldNotReadSigningNkey cause =>
    "could not read signing nkey: ".toList ++ cause.text texts
  | Error.accountSigningNkeyDoesNotExist useSigningKey =>
    "account signing nkey does not exist: ".toList ++ useSigningKey
  | Error.userNkeyDoesNotExist => "user nkey does not exist".toList
  | Error.couldNotConvertClaims cause =>
    "could not convert claims to nats jwt: ".toList ++ cause.text texts
  | Error.couldNotEncodeJwt cause => "could not encode jwt: ".toList ++ cause.text texts

/-- Modelled from the spec: the request as the routing layer hands it to a
handler (`framework.FieldData`, declared outside these sources): whether
`data.Validate()` passes, the three path fields, and the `parameters` field
(`none` when `data.Get` gives nil). -/
structure FieldData where
  valid : Bool
  operator : Str
  account : Str
  user : Str
  parameters : Option Str
  deriving DecidableEq

/-- The response of a handler: `logical.ErrorResponse(message)`, or the
response built by `createResponseUserCredsData`. -/
inductive Response where
  | errorResponse (message : Str)
  | credsData (data : UserCredsData)
  deriving DecidableEq

/-- The Go error a handler returns next to its response. -/
inductive HandlerError where
  | ErrInvalidRequest
  deriving DecidableEq

/-- The parsing of the `parameters` field in `pathReadUserCreds`: JSON first,
then the `key=value` form on the same map; `none` stands for the rejection of
both. -/
def requestParameters (field : Option Str) : Option Parameters :=
  match field with
  | none => some []
  | some paramStr =>
    if paramStr = [] then some []
    else
      match unmarshalParameters paramStr [] with
      | (true, parameters) => some parameters
      | (false, parameters) =>
        match parseKeyValueString paramStr parameters with
        | (none, parameters) => some parameters
        | (some _, _) => none

/-- Go `pathReadUserCreds`: the response, the Go error (`none` for `nil`), and
the storage after the call. -/
def pathReadUserCreds (env : Env) (texts : Texts) (storage : Storage) (data : FieldData) :
    (Response × Option HandlerError) × Storage :=
  if data.valid = false then
    ((Response.errorResponse texts.InvalidParametersError,
      some HandlerError.ErrInvalidRequest), storage)
  else
    match requestParameters data.parameters with
    | none =>
      ((Response.errorResponse
          "Invalid parameters format. Use key=value,key2=value2 or JSON".toList,
        some HandlerError.ErrInvalidRequest), storage)
    | some parameters =>
      match generateUserCreds env storage
          { Operator := data.operator, Account := data.account, User := data.user,
            Parameters := parameters } with
      | (Except.error err, storage) =>
        ((Response.errorResponse ("GeneratingCredsFailedError: ".toList ++ err.text texts),
          none), storage)
      | (Except.ok credsData, storage) => ((Response.credsData credsData, none), storage)

/-- A stand-in for the collaborators: the push user is called `default-push`,
a fresh user key pair has the seed `SUnew`, the rebuilt account token names
the revoked key, and the resolver refresh leaves the storage alone. -/
def demoCollaborators (now : Time) : Collaborators :=
  { env := demoEnv now
    DefaultPushUser := "default-push".toList
    CreateUserSeed := Except.ok "SUnew".toList
    AccountToken := fun _ userPublicKey _ => Except.ok ("revoked:".toList ++ userPublicKey)
    refreshAccountResolvers := fun storage _ => (Except.ok (), storage) }

/-- The parameters of an issue request for user `u1` of account `acc1` of
operator `op1`. -/
def demoParams (useSigningKey : Str) (expirationS : Int) (template : UserClaims) :
    IssueUserParameters :=
  { Operator := "op1".toList, Account := "acc1".toList, User := "u1".toList,
    UseSigningKey := useSigningKey, ClaimsTemplate := template, ExpirationS := expirationS }

/-- The store of `demoStorage` with the issue record of account `acc1` added. -/
def demoStorageWithAccount (issue : IssueUserStorage) : Storage :=
  { entries :=
      (getAccountIssuePath "op1".toList "acc1".toList,
        Entry.accountIssue { Operator := "op1".toList, Account := "acc1".toList }) ::
      (demoStorage issue).entries,
    faults := [] }

/-- A store that holds nothing and never fails. -/
def emptyStorage : Storage := { entries := [], faults := [] }

/-- Stand-in texts for the messages declared outside these sources. -/
def demoTexts : Texts :=
  { InvalidParametersError := "invalid parameters".toList
    storageFailure := "storage failure".toList
    malformedEntry := "malformed entry".toList
    unmarshalError := "invalid JSON".toList }

/-- What `deleteUserIssue` for `u1` leaves of `demoStorageWithAccount`: the
account's rebuilt token and issue record and the key pairs of the account. -/
def demoStorageAfterDelete : Storage :=
  { entries :=
      [(getAccountJwtPath "op1".toList "acc1".toList,
         Entry.accountToken "revoked:PSUusr".toList),
       (getAccountIssuePath "op1".toList "acc1".toList,
         Entry.accountIssue { Operator := "op1".toList, Account := "acc1".toList }),
       (getAccountNkeyPath "op1".toList "acc1".toList, Entry.nkey { Seed := "SAacc".toList }),
       (getAccountSigningNkeyPath "op1".toList "acc1".toList "sk1".toList,
         Entry.nkey { Seed := "SAsig".toList })],
    faults := [] }

/-- A read request for the credentials of `u1`, with the parameters text
given. -/
def demoRequest (parameters : Option Str) : FieldData :=
  { valid := true, operator := "op1".toList, account := "acc1".toList, user := "u1".toList,
    parameters := parameters }

/-- The store of `demoStorageWithAccount` behind a backend with the given
fault script. -/
def demoStorageFailing (issue : IssueUserStorage) (faults : List Bool) : Storage :=
  { entries := (demoStorageWithAccount issue).entries, faults := faults }

/-- An issue record of the push user `default-push` of account `SYS` of
operator `op1`. -/
def demoPushIssue : IssueUserStorage :=
  { Operator := "op1".toList, Account := "SYS".toList, User := "default-push".toList,
    UseSigningKey := [], ClaimsTemplate := UserClaims.zero, ExpirationS := 0,
    Status := { User := { Nkey := false, JWT := false } } }

/-- The demo collaborators with a resolver refresh that always fails. -/
def demoCollaboratorsFailing (now : Time) : Collaborators :=
  { demoCollaborators now with
    refreshAccountResolvers := fun storage _ =>
      (Except.error (Error.library "resolver unreachable".toList), storage) }

/-- A store that holds the issue record of operator `op1` and nothing else. -/
def demoStorageWithOperator : Storage :=
  { entries :=
      [(getOperatorIssuePath "op1".toList, Entry.operatorIssue { Operator := "op1".toList })],
    faults := [] }

/-- The token that the demo store and key library give for user `u1` issued
without signing key and expiration, from the empty template. -/
def demoToken : Token :=
  { claims :=
      { ClaimsData :=
          { Audience := [], Expires := 0, Issuer := "PSAacc".toList,
            Subject := "PSUusr".toList },
        User := { Pub := { Allow := [] }, Sub := { Allow := [] }, IssuerAccount := [] } },
    signedBy := { handle := "SAacc".toList } }

/-- The credentials of user `u1` at the demo store: the bundle of `demoToken`
and the seed `SUusr`. -/
def demoCredsData : UserCredsData :=
  { Operator := "op1".toList, Account := "acc1".toList, User := "u1".toList,
    Creds :=
      [CredsPart.text "-----BEGIN NATS USER JWT-----\n".toList,
       CredsPart.token demoToken,
       CredsPart.text "\n------END NATS USER JWT------\n\n".toList,
       CredsPart.text
         ("************************* IMPORTANT *************************\n" ++
          "NKEY Seed printed below can be used to sign and prove identity.\n" ++
          "NKEYs are sensitive and should be treated as secrets.\n\n" ++
          "-----BEGIN USER NKEY SEED-----\n").toList,
       CredsPart.seed "SUusr".toList,
       CredsPart.text ("\n------END USER NKEY SEED------\n\n" ++
         "*************************************************************\n").toList],
    Parameters := [], ExpiresAt := 0 }

/-- The store of `demoStorageWithOperator` after the push user has got its key
pair. -/
def demoStoragePushKey : Storage :=
  { entries :=
      [(getUserNkeyPath "op1".toList "SYS".toList "default-push".toList,
         Entry.nkey { Seed := "SUnew".toList }),
       (getOperatorIssuePath "op1".toList, Entry.operatorIssue { Operator := "op1".toList })],
    faults := [] }

/-- The store of `demoStoragePushKey` after the record of the push user has been
written. -/
def demoStoragePushIssued : Storage :=
  { entries :=
      [(getUserIssuePath "op1".toList "SYS".toList "default-push".toList,
         Entry.userIssue
           { demoPushIssue with Status := { User := { Nkey := true, JWT := false } } }),
       (getUserNkeyPath "op1".toList "SYS".toList "default-push".toList,
         Entry.nkey { Seed := "SUnew".toList }),
       (getOperatorIssuePath "op1".toList, Entry.operatorIssue { Operator := "op1".toList })],
    faults := [] }

/-- A store that holds nothing, behind a backend whose sixth call fails. -/
def emptyStorageSixthFails : Storage :=
  { entries := [], faults := [false, false, false, false, false, true] }

/-- The store of `demoStorage` with the issue record of `u1`, behind a backend
whose fourth call fails. -/
def demoStorageFourthFails : Storage :=
  { entries := (demoStorage (demoIssue [] 0 UserClaims.zero)).entries,
    faults := [false, false, false, true] }

/-- The store of `demoStorage` after the given issue record of `u1` has been
written again: the record comes first. -/
def demoStorageRewritten (issue : IssueUserStorage) (faults : List Bool) : Storage :=
  { entries :=
      [(getUserIssuePath "op1".toList "acc1".toList "u1".toList, Entry.userIssue issue),
       (getAccountNkeyPath "op1".toList "acc1".toList, Entry.nkey { Seed := "SAacc".toList }),
       (getAccountSigningNkeyPath "op1".toList "acc1".toList "sk1".toList,
         Entry.nkey { Seed := "SAsig".toList }),
       (getUserNkeyPath "op1".toList "acc1".toList "u1".toList,
         Entry.nkey { Seed := "SUusr".toList })],
    faults := faults }

/-- The issue record of `u1` with the key flag cleared. -/
def demoIssueFlagCleared : IssueUserStorage :=
  { demoIssue [] 0 UserClaims.zero with
    Status := { User := { Nkey := false, JWT := false } } }

/-- The token that the demo store and key library give for user `u1` issued
without signing key, with the given audience and expiry. -/
def demoTokenFor (aud : Str) (expires : Int) : Token :=
  { claims :=
      { ClaimsData :=
          { Audience := aud, Expires := expires, Issuer := "PSAacc".toList,
            Subject := "PSUusr".toList },
        User := { Pub := { Allow := [] }, Sub := { Allow := [] }, IssuerAccount := [] } },
    signedBy := { handle := "SAacc".toList } }

/-- The credentials of user `u1` at the demo store for the given parameters:
the bundle of `demoTokenFor` and the seed `SUusr`. -/
def demoCredsFor (aud : Str) (expires : Int) (parameters : Parameters) : UserCredsData :=
  { Operator := "op1".toList, Account := "acc1".toList, User := "u1".toList,
    Creds :=
      [CredsPart.text "-----BEGIN NATS USER JWT-----\n".toList,
       CredsPart.token (demoTokenFor aud expires),
       CredsPart.text "\n------END NATS USER JWT------\n\n".toList,
       CredsPart.text
         ("************************* IMPORTANT *************************\n" ++
          "NKEY Seed printed below can be used to sign and prove identity.\n" ++
          "NKEYs are sensitive and should be treated as secrets.\n\n" ++
          "-----BEGIN USER NKEY SEED-----\n").toList,
       CredsPart.seed "SUusr".toList,
       CredsPart.text ("\n------END USER NKEY SEED------\n\n" ++
         "*************************************************************\n").toList],
    Parameters := parameters, ExpiresAt := expires }

/-- The request for the credentials of `u1` with the given parameters. -/
def demoCredsParams (parameters : Parameters) : UserCredsParameters :=
  { Operator := "op1".toList, Account := "acc1".toList, User := "u1".toList,
    Parameters := parameters }

/-- The claims object without its timestamp-bearing field `Expires`. -/
def staticClaims (c : UserClaims) : UserClaims :=
  { c with ClaimsData := { c.ClaimsData with Expires := 0 } }

/-! ## The entries of a `key=value` text -/

/-- The key that `parseKeyValueString` takes from an entry:
`strings.TrimSpace(parts[0])`. -/
def entryKey (pair : Str) : Str := trimSpace ((splitN2 '=' (trimSpace pair)).getD 0 [])

/-- The value that `parseKeyValueString` takes from an entry:
`strings.TrimSpace(parts[1])`. -/
def entryValue (pair : Str) : Str := trimSpace ((splitN2 '=' (trimSpace pair)).getD 1 [])

/-- An entry that `parseKeyValueString` rejects: it holds no `=`, or its key is
blank. -/
def rejected (pair : Str) : Prop := '=' ∉ pair ∨ entryKey pair = []

instance (pair : Str) : Decidable (rejected pair) := by
  unfold rejected
  infer_instance

/-- The text `k1=v1,k2=v2,...` of a list of keys and values. -/
def joinEntries (entries : List (Str × Str)) : Str :=
  ",".toList.intercalate (entries.map fun e => e.1 ++ '=' :: e.2)

/-! ## The scan of `findTemplateVariables` with its index reads logged -/

/-- The byte indices that Go reads for `s[j] == c && s[j+1] == c`: index `j`,
and index `j + 1` when the first comparison holds. -/
def pairReads (s : Str) (j : Nat) (c : Char) : List Nat :=
  if s[j]? = some c then [j, j + 1] else [j]

/-- The loop `findClosing` with a log: its result, the indices it reads, and
whether it ended through its condition or its `break` (at no fuel: whether
the condition `j < len(templateStr)-1` is false). -/
def findClosingLog (templateStr : Str) : Nat → Nat → Option Nat × List Nat × Bool
  | 0, j => (none, [], decide (¬ j + 1 < templateStr.length))
  | fuel + 1, j =>
    if j + 1 < templateStr.length then
      if templateStr[j]? = some '}' ∧ templateStr[j + 1]? = some '}' then
        (some j, pairReads templateStr j '}', true)
      else
        let rest := findClosingLog templateStr fuel (j + 1)
        (rest.1, pairReads templateStr j '}' ++ rest.2.1, rest.2.2)
    else (none, [], true)

/-- What a run of the outer loop of `findTemplateVariables` did: the list it
returns, the values of `i` at which the body ran, the indices read, the
bounds of the slice expressions evaluated, and whether every loop ended
through its condition or its `break`. -/
structure ScanLog where
  result : List Str
  visited : List Nat
  reads : List Nat
  slices : List (Nat × Nat)
  finished : Bool
  deriving DecidableEq

/-- The log of a run that ends before the body. -/
def ScanLog.stop (result : List Str) (finished : Bool) : ScanLog :=
  { result := result, visited := [], reads := [], slices := [], finished := finished }

/-- The log of one iteration at index `i` followed by the rest of the run. -/
def ScanLog.step (i : Nat) (reads : List Nat) (slice : Option (Nat × Nat))
    (innerFinished : Bool) (rest : ScanLog) : ScanLog :=
  { result := rest.result
    visited := i :: rest.visited
    reads := reads ++ rest.reads
    slices := slice.toList ++ rest.slices
    finished := innerFinished && rest.finished }

/-- The loop `findLoop` with a log. -/
def findLoopLog (templateStr : Str) : Nat → Nat → List Str → List Str → ScanLog
  | 0, i, variableList, _ =>
    ScanLog.stop variableList (decide (¬ i + 1 < templateStr.length))
  | fuel + 1, i, variableList, variableMap =>
    if i + 1 < templateStr.length then
      if templateStr[i]? = some '{' ∧ templateStr[i + 1]? = some '{' then
        let start := i + 2
        match findClosingLog templateStr templateStr.length start with
        | (some stop, reads, innerFinished) =>
          let variableName := trimSpace (slice templateStr start stop)
          if variableName ≠ [] ∧ variableName ∉ variableMap then
            ScanLog.step i (pairReads templateStr i '{' ++ reads) (some (start, stop))
              innerFinished
              (findLoopLog templateStr fuel (stop + 1 + 1) (variableList ++ [variableName])
                (variableName :: variableMap))
          else
            ScanLog.step i (pairReads templateStr i '{' ++ reads) (some (start, stop))
              innerFinished (findLoopLog templateStr fuel (stop + 1 + 1) variableList variableMap)
        | (none, reads, innerFinished) =>
          ScanLog.step i (pairReads templateStr i '{' ++ reads) none innerFinished
            (findLoopLog templateStr fuel (i + 1) variableList variableMap)
      else
        ScanLog.step i (pairReads templateStr i '{') none true
          (findLoopLog templateStr fuel (i + 1) variableList variableMap)
    else ScanLog.stop variableList true

/-- The log of a run from index `i` is in order: every read is inside the
text, the body ran at indices from `i` on that strictly increase, and every
slice `[start:stop]` lies inside the text behind a `{{` at `start - 2`, with
no later iteration before the index behind its `}}`. -/
def ScanLog.inOrder (s : Str) (i : Nat) (log : ScanLog) : Prop :=
  (∀ r ∈ log.reads, r < s.length) ∧
  (∀ v ∈ log.visited, i ≤ v) ∧
  log.visited.Pairwise (fun a b => a < b) ∧
  (∀ p ∈ log.slices, i + 2 ≤ p.1 ∧ p.1 ≤ p.2 ∧ p.2 + 1 < s.length ∧
    ∀ v ∈ log.visited, v + 2 ≤ p.1 ∨ p.2 + 2 ≤ v)

/-! # Theorems -/

/-! ### Basic facts -/

theorem splitAtClose_length {s a b : Str} (h : splitAtClose s = some (a, b)) :
    a.length + 2 + b.length = s.length := by
  induction s using List.rec generalizing a b with
  | nil => simp [splitAtClose] at h
  | cons c t ih =>
    cases t with
    | nil => simp [splitAtClose] at h
    | cons d rest =>
      rw [splitAtClose] at h
      split at h
      · simp only [Option.some.injEq, Prod.mk.injEq] at h
        obtain ⟨rfl, rfl⟩ := h
        simp; omega
      · cases hs : splitAtClose (d :: rest) with
        | none => simp [hs] at h
        | some p =>
          obtain ⟨p1, p2⟩ := p
          simp only [hs, Option.map_some', Option.some.injEq, Prod.mk.injEq] at h
          obtain ⟨rfl, rfl⟩ := h
          have := ih hs
          simp at this ⊢; omega

theorem splitAtClose_eq {s a b : Str} (h : splitAtClose s = some (a, b)) :
    s = a ++ '}' :: '}' :: b := by
  induction s using List.rec generalizing a b with
  | nil => simp [splitAtClose] at h
  | cons c t ih =>
    cases t with
    | nil => simp [splitAtClose] at h
    | cons d rest =>
      rw [splitAtClose] at h
      split at h
      · rename_i hc
        simp only [Option.some.injEq, Prod.mk.injEq] at h
        obtain ⟨rfl, rfl⟩ := h
        simp [hc.1, hc.2]
      · cases hs : splitAtClose (d :: rest) with
        | none => simp [hs] at h
        | some p =>
          obtain ⟨p1, p2⟩ := p
          simp only [hs, Option.map_some', Option.some.injEq, Prod.mk.injEq] at h
          obtain ⟨rfl, rfl⟩ := h
          have := ih hs
          simp [this]

theorem placeholdersFrom_fuel (fuel fuel2 : Nat) (s : Str)
    (h1 : s.length ≤ fuel) (h2 : s.length ≤ fuel2) :
    placeholdersFrom fuel s = placeholdersFrom fuel2 s := by
  induction fuel generalizing fuel2 s with
  | zero =>
    have : s = [] := List.length_eq_zero.mp (by omega)
    subst this
    cases fuel2 <;> simp [placeholdersFrom]
  | succ n ih =>
    cases fuel2 with
    | zero =>
      have : s = [] := List.length_eq_zero.mp (by omega)
      subst this
      simp [placeholdersFrom]
    | succ m =>
      match s with
      | [] => simp [placeholdersFrom]
      | [_] => simp [placeholdersFrom]
      | c :: d :: rest =>
        simp only [List.length_cons] at h1 h2
        simp only [placeholdersFrom]
        split
        · cases hs : splitAtClose rest with
          | none =>
            simp only
            exact ih m (d :: rest) (by simp; omega) (by simp; omega)
          | some p =>
            obtain ⟨content, after⟩ := p
            have hl := splitAtClose_length hs
            simp only
            rw [ih m after (by omega) (by omega)]
        · exact ih m (d :: rest) (by simp; omega) (by simp; omega)

theorem placeholders_nil : placeholders [] = [] := by
  simp [placeholders, placeholdersFrom]

theorem placeholders_single (c : Char) : placeholders [c] = [] := by
  simp [placeholders, placeholdersFrom]

theorem placeholders_cons_cons (c d : Char) (rest : Str) :
    placeholders (c :: d :: rest) =
      if c = '{' ∧ d = '{' then
        match splitAtClose rest with
        | some (content, after) => content :: placeholders after
        | none => placeholders (d :: rest)
      else placeholders (d :: rest) := by
  simp only [placeholders, List.length_cons, placeholdersFrom]
  split
  · cases hs : splitAtClose rest with
    | none => simp only
    | some p =>
      obtain ⟨content, after⟩ := p
      have hl := splitAtClose_length hs
      simp only
      rw [placeholdersFrom_fuel (rest.length + 1) after.length after (by omega) (by omega)]
  · rfl

/-! ### The index loop computes the scan -/

theorem drop_two_step {s : Str} {j : Nat} (h : j + 1 < s.length) :
    ∃ c d, s[j]? = some c ∧ s[j + 1]? = some d ∧ s.drop j = c :: d :: s.drop (j + 2) := by
  have h0 : j < s.length := by omega
  refine ⟨s[j], s[j + 1], ?_, ?_, ?_⟩
  · exact List.getElem?_eq_getElem h0
  · exact List.getElem?_eq_getElem h
  · rw [List.drop_eq_getElem_cons h0, List.drop_eq_getElem_cons h]

theorem drop_short {s : Str} {j : Nat} (h : ¬ j + 1 < s.length) :
    s.drop j = [] ∨ ∃ c, s.drop j = [c] := by
  have hl : (s.drop j).length ≤ 1 := by simp; omega
  match hd : s.drop j with
  | [] => exact Or.inl rfl
  | [c] => exact Or.inr ⟨c, rfl⟩
  | _ :: _ :: _ => simp [hd] at hl

theorem findClosing_eq (s : Str) (fuel j : Nat) (h : s.length ≤ fuel + j) :
    findClosing s fuel j = (splitAtClose (s.drop j)).map (fun p => j + p.1.length) := by
  induction fuel generalizing j with
  | zero =>
    have : s.drop j = [] := List.drop_eq_nil_of_le (by omega)
    simp [findClosing, this, splitAtClose]
  | succ n ih =>
    rw [findClosing]
    by_cases hj : j + 1 < s.length
    · obtain ⟨c, d, hc, hd, hdrop⟩ := drop_two_step hj
      rw [if_pos hj, hdrop, splitAtClose, hc, hd]
      by_cases hcd : c = '}' ∧ d = '}'
      · simp [hcd.1, hcd.2]
      · have hcd2 : ¬ (some c = some '}' ∧ some d = some '}') := by simpa using hcd
        rw [if_neg hcd, if_neg hcd2, ih (j + 1) (by omega)]
        have hd1 : s.drop (j + 1) = d :: s.drop (j + 2) := by
          have := congrArg List.tail hdrop
          simpa using this
        rw [hd1]
        cases splitAtClose (d :: s.drop (j + 2)) with
        | none => rfl
        | some p => simp; omega
    · rw [if_neg hj]
      rcases drop_short hj with h0 | ⟨c, h1⟩
      · simp [h0, splitAtClose]
      · simp [h1, splitAtClose]

theorem slice_of_split {s content after : Str} {i : Nat}
    (h : splitAtClose (s.drop i) = some (content, after)) :
    slice s i (i + content.length) = content ∧ s.drop (i + content.length + 1 + 1) = after := by
  have he := splitAtClose_eq h
  constructor
  · simp [slice, he]
  · have : s.drop (i + content.length + 1 + 1) = (s.drop i).drop (content.length + 2) := by
      rw [List.drop_drop]; congr 1
    rw [this, he]
    simp [List.drop_append]

theorem findLoop_eq (s : Str) (fuel i : Nat) (variableList variableMap : List Str)
    (h : s.length ≤ fuel + i) :
    findLoop s fuel i variableList variableMap =
      collectNames variableList variableMap ((placeholders (s.drop i)).map trimSpace) := by
  induction fuel generalizing i variableList variableMap with
  | zero =>
    have : s.drop i = [] := List.drop_eq_nil_of_le (by omega)
    simp [findLoop, this, placeholders_nil, collectNames]
  | succ n ih =>
    rw [findLoop]
    by_cases hi : i + 1 < s.length
    · obtain ⟨c, d, hc, hd, hdrop⟩ := drop_two_step hi
      have hd1 : s.drop (i + 1) = d :: s.drop (i + 2) := by
        have := congrArg List.tail hdrop
        simpa using this
      rw [if_pos hi, hdrop, placeholders_cons_cons, hc, hd]
      by_cases hcd : c = '{' ∧ d = '{'
      · have hcd2 : (some c = some '{' ∧ some d = some '{') := by simpa using hcd
        rw [if_pos hcd, if_pos hcd2]
        simp only
        rw [findClosing_eq s s.length (i + 2) (by omega)]
        cases hs : splitAtClose (s.drop (i + 2)) with
        | none =>
          simp only [Option.map_none']
          rw [ih (i + 1) _ _ (by omega), hd1]
        | some p =>
          obtain ⟨content, after⟩ := p
          obtain ⟨hsl, hdr⟩ := slice_of_split hs
          have hlen := splitAtClose_length hs
          simp only [List.length_drop] at hlen
          simp only [Option.map_some', hsl, List.map_cons, collectNames]
          split
          · rw [ih _ _ _ (by omega), hdr]
          · rw [ih _ _ _ (by omega), hdr]
      · have hcd2 : ¬ (some c = some '{' ∧ some d = some '{') := by simpa using hcd
        rw [if_neg hcd, if_neg hcd2, ih (i + 1) _ _ (by omega), hd1]
    · rw [if_neg hi]
      rcases drop_short hi with h0 | ⟨c, h1⟩
      · simp [h0, placeholders_nil, collectNames]
      · simp [h1, placeholders_single, collectNames]

theorem findTemplateVariables_eq_collect (s : Str) :
    findTemplateVariables s = collectNames [] [] ((placeholders s).map trimSpace) := by
  rw [findTemplateVariables, findLoop_eq s s.length 0 [] [] (by omega)]
  simp

/-! ### The accumulation keeps first occurrences -/

theorem collectNames_eq (variableList variableMap ns : List Str)
    (hm : ∀ x, x ∈ variableMap ↔ x ∈ variableList) :
    collectNames variableList variableMap ns =
      variableList ++ (firstOccurrences (ns.filter (fun n => decide (n ≠ [])))).filter
        (fun n => decide (n ∉ variableList)) := by
  induction ns generalizing variableList variableMap with
  | nil => simp [collectNames, firstOccurrences]
  | cons n ns ih =>
    rw [collectNames]
    by_cases hn : n = []
    · have : ¬ (n ≠ [] ∧ n ∉ variableMap) := by simp [hn]
      rw [if_neg this, ih _ _ hm]
      simp [hn]
    · by_cases hv : n ∈ variableMap
      · have : ¬ (n ≠ [] ∧ n ∉ variableMap) := by simp [hv]
        have hv2 : n ∈ variableList := (hm n).1 hv
        rw [if_neg this, ih _ _ hm]
        simp only [ne_eq, hn, not_false_eq_true, decide_True, List.filter_cons_of_pos,
          firstOccurrences, List.append_cancel_left_eq]
        rw [List.filter_cons_of_neg (by simpa using hv2), List.filter_filter]
        apply List.filter_congr
        intro x _
        by_cases hx : x = n
        · subst hx; simp [hv2]
        · simp [hx]
      · have : (n ≠ [] ∧ n ∉ variableMap) := ⟨hn, hv⟩
        have hv2 : n ∉ variableList := fun h => hv ((hm n).2 h)
        rw [if_pos this, ih (variableList ++ [n]) (n :: variableMap)
          (by intro x; simp [hm x]; tauto)]
        simp only [ne_eq, hn, not_false_eq_true, decide_True, List.filter_cons_of_pos,
          firstOccurrences, List.append_assoc, List.singleton_append,
          List.append_cancel_left_eq]
        rw [List.filter_cons_of_pos (by simpa using hv2), List.filter_filter]
        congr 1
        apply List.filter_congr
        intro x _
        by_cases hx : x = n
        · subst hx; simp
        · simp [hx]

theorem findTemplateVariables_eq (s : Str) :
    findTemplateVariables s = firstOccurrences (placeholderNames s) := by
  rw [findTemplateVariables_eq_collect, collectNames_eq [] [] _ (by simp), placeholderNames]
  simp

theorem mem_firstOccurrences (l : List Str) (x : Str) :
    x ∈ firstOccurrences l ↔ x ∈ l := by
  induction l with
  | nil => simp [firstOccurrences]
  | cons n ns ih =>
    simp only [firstOccurrences, List.mem_cons, List.mem_filter, ih]
    by_cases hx : x = n
    · simp [hx]
    · simp [hx]

theorem nodup_firstOccurrences (l : List Str) : (firstOccurrences l).Nodup := by
  induction l with
  | nil => simp [firstOccurrences]
  | cons n ns ih =>
    rw [firstOccurrences, List.nodup_cons]
    exact ⟨by simp [List.mem_filter], ih.filter _⟩

theorem indexOf_cons_same (a : Str) (l : List Str) : (a :: l).indexOf a = 0 := by
  simp [List.indexOf_cons]

theorem indexOf_cons_other {a x : Str} (l : List Str) (h : x ≠ a) :
    (x :: l).indexOf a = l.indexOf a + 1 := by
  rw [List.indexOf_cons]
  have hxa : (x == a) = false := by simp [h]
  rw [hxa]; rfl

theorem indexOf_filter_lt (p : Str → Bool) (l : List Str) (a b : Str)
    (ha : p a = true) (hb : p b = true) :
    (l.filter p).indexOf a < (l.filter p).indexOf b ↔ l.indexOf a < l.indexOf b := by
  induction l with
  | nil => simp
  | cons x xs ih =>
    by_cases hx : p x = true
    · rw [List.filter_cons_of_pos hx]
      by_cases hax : x = a <;> by_cases hbx : x = b
      · subst hax; subst hbx; simp
      · subst hax; simp [indexOf_cons_same, indexOf_cons_other _ hbx]
      · subst hbx; simp [indexOf_cons_same, indexOf_cons_other _ hax]
      · simp [indexOf_cons_other _ hax, indexOf_cons_other _ hbx, ih]
    · rw [List.filter_cons_of_neg hx]
      have hax : x ≠ a := by rintro rfl; exact hx ha
      have hbx : x ≠ b := by rintro rfl; exact hx hb
      simp [indexOf_cons_other _ hax, indexOf_cons_other _ hbx, ih]

theorem indexOf_firstOccurrences_lt (l : List Str) (a b : Str) :
    (firstOccurrences l).indexOf a < (firstOccurrences l).indexOf b ↔
      l.indexOf a < l.indexOf b := by
  induction l with
  | nil => simp [firstOccurrences]
  | cons n ns ih =>
    rw [firstOccurrences]
    by_cases han : n = a <;> by_cases hbn : n = b
    · subst han; subst hbn; simp
    · subst han; simp [indexOf_cons_same, indexOf_cons_other _ hbn]
    · subst hbn; simp [indexOf_cons_same, indexOf_cons_other _ han]
    · simp only [indexOf_cons_other _ han, indexOf_cons_other _ hbn,
        Nat.add_lt_add_iff_right]
      rw [indexOf_filter_lt _ _ a b (by simpa using Ne.symm han) (by simpa using Ne.symm hbn), ih]

/-! ### The first placeholder of a text -/

theorem splitAtClose_at (t : Str) (k : Nat)
    (h0 : t[k]? = some '}') (h1 : t[k + 1]? = some '}')
    (hfirst : ∀ k2, k2 < k → ¬ (t[k2]? = some '}' ∧ t[k2 + 1]? = some '}')) :
    splitAtClose t = some (t.take k, t.drop (k + 2)) := by
  induction k generalizing t with
  | zero =>
    match t, h0, h1 with
    | c :: d :: rest, h0, h1 =>
      simp only [List.getElem?_cons_zero, List.getElem?_cons_succ, Option.some.injEq] at h0 h1
      subst h0; subst h1
      simp [splitAtClose]
  | succ k ih =>
    match t, h0, h1, hfirst with
    | [], h0, _, _ => simp at h0
    | [_], h0, h1, _ => simp at h1
    | c :: d :: rest, h0, h1, hfirst =>
      have hz := hfirst 0 (by omega)
      simp only [List.getElem?_cons_zero, List.getElem?_cons_succ, Option.some.injEq] at hz
      rw [splitAtClose, if_neg hz]
      have := ih (d :: rest) (by simpa using h0) (by simpa using h1)
        (by
          intro k2 hk2
          have := hfirst (k2 + 1) (by omega)
          simpa using this)
      rw [this]
      simp

theorem placeholders_skip (s : Str) (p : Nat) (hp : p + 1 < s.length)
    (hfirst : ∀ p2, p2 < p → ¬ (s[p2]? = some '{' ∧ s[p2 + 1]? = some '{'))
    (i : Nat) (hi : i ≤ p) :
    placeholders (s.drop i) = placeholders (s.drop p) := by
  generalize hn : p - i = n
  induction n generalizing i with
  | zero =>
    have : i = p := by omega
    rw [this]
  | succ n ih =>
    have hip : i < p := by omega
    obtain ⟨c, d, hc, hd, hdrop⟩ := drop_two_step (show i + 1 < s.length by omega)
    have hd1 : s.drop (i + 1) = d :: s.drop (i + 2) := by
      have := congrArg List.tail hdrop
      simpa using this
    have hno := hfirst i hip
    rw [hc, hd] at hno
    have hcd : ¬ (c = '{' ∧ d = '{') := by simpa using hno
    rw [hdrop, placeholders_cons_cons, if_neg hcd, ← hd1]
    exact ih (i + 1) (by omega) (by omega)

theorem placeholders_first (s : Str) (p q : Nat)
    (hp : s[p]? = some '{' ∧ s[p + 1]? = some '{')
    (hfirst : ∀ p2, p2 < p → ¬ (s[p2]? = some '{' ∧ s[p2 + 1]? = some '{'))
    (hq : p + 2 ≤ q ∧ s[q]? = some '}' ∧ s[q + 1]? = some '}')
    (hqfirst : ∀ q2, p + 2 ≤ q2 → q2 < q → ¬ (s[q2]? = some '}' ∧ s[q2 + 1]? = some '}')) :
    placeholders s = slice s (p + 2) q :: placeholders (s.drop (q + 2)) := by
  have hlen : p + 1 < s.length := by
    by_contra hcon
    have : s[p + 1]? = none := List.getElem?_eq_none (by omega)
    rw [this] at hp
    exact absurd hp.2 (by simp)
  have h0 := placeholders_skip s p hlen hfirst 0 (by omega)
  rw [List.drop_zero] at h0
  obtain ⟨c, d, hc, hd, hdrop⟩ := drop_two_step hlen
  rw [hp.1] at hc
  rw [hp.2] at hd
  simp only [Option.some.injEq] at hc hd
  subst hc; subst hd
  have hq' : q = (p + 2) + (q - (p + 2)) := by omega
  have hsplit := splitAtClose_at (s.drop (p + 2)) (q - (p + 2))
    (by rw [List.getElem?_drop, ← hq']; exact hq.2.1)
    (by rw [List.getElem?_drop, ← Nat.add_assoc, ← hq']; exact hq.2.2)
    (by
      intro k2 hk2
      have := hqfirst (p + 2 + k2) (by omega) (by omega)
      rw [List.getElem?_drop, List.getElem?_drop, ← Nat.add_assoc]
      exact this)
  rw [h0, hdrop, placeholders_cons_cons, if_pos ⟨rfl, rfl⟩, hsplit]
  simp only [slice, List.drop_drop]
  congr 3
  omega

theorem trimSpace_eq_nil_iff (s : Str) : trimSpace s = [] ↔ s.all isSpace = true := by
  unfold trimSpace
  rw [List.reverse_eq_nil_iff, List.dropWhile_eq_nil_iff]
  constructor
  · intro h
    have hd : s.dropWhile isSpace = [] := by
      by_contra hne
      have h1 := List.head_dropWhile_not isSpace s hne
      have h2 := h _ (List.mem_reverse.mpr (List.head_mem hne))
      rw [h2] at h1
      exact absurd h1 (by simp)
    rw [List.dropWhile_eq_nil_iff] at hd
    simpa [List.all_eq_true] using hd
  · intro h
    have hd : s.dropWhile isSpace = [] := by
      rw [List.dropWhile_eq_nil_iff]
      simpa [List.all_eq_true] using h
    rw [hd]
    simp

theorem head_firstOccurrences (l : List Str) : (firstOccurrences l).head? = l.head? := by
  cases l <;> simp [firstOccurrences]

/-! ### Reading the store -/

theorem Storage.get_spec (storage : Storage) (path : Str) :
    (storage.get path).2.entries = storage.entries ∧
    ∀ r, (storage.get path).1 = Except.ok r → r = storage.entries.lookup path := by
  unfold Storage.get
  split
  · exact ⟨rfl, fun r h => by simp at h⟩
  · exact ⟨rfl, fun r h => by simpa using h.symm⟩
  · exact ⟨rfl, fun r h => by simpa using h.symm⟩

theorem readNkey_entries (storage : Storage) (path : Str) :
    (readNkey storage path).2.entries = storage.entries := by
  have hg := (Storage.get_spec storage path).1
  unfold readNkey
  split <;> rename_i heq <;> rw [heq] at hg <;> exact hg

theorem readNkey_some {storage storage2 : Storage} {path : Str} {n : NKeyStorage}
    (h : readNkey storage path = (Except.ok (some n), storage2)) :
    storage.entries.lookup path = some (Entry.nkey n) := by
  have hg := (Storage.get_spec storage path).2
  unfold readNkey at h
  split at h <;> rename_i heq <;> rw [heq] at hg
  · simp at h
  · simp at h
  · simp only [Prod.mk.injEq, Except.ok.injEq, Option.some.injEq] at h
    rw [← h.1]
    exact (hg _ rfl).symm
  · simp at h

theorem readNkey_none {storage storage2 : Storage} {path : Str}
    (h : readNkey storage path = (Except.ok none, storage2)) :
    storage.entries.lookup path = none := by
  have hg := (Storage.get_spec storage path).2
  unfold readNkey at h
  split at h <;> rename_i heq <;> rw [heq] at hg
  · simp at h
  · exact (hg _ rfl).symm
  · simp at h
  · simp at h

theorem signingSeed_entries (storage : Storage) (issue : IssueUserStorage)
    (accountNkey : NKeyStorage) :
    (signingSeed storage issue accountNkey).2.entries = storage.entries := by
  unfold signingSeed
  split
  · rfl
  · have hr := readNkey_entries storage
      (getAccountSigningNkeyPath issue.Operator issue.Account issue.UseSigningKey)
    unfold readAccountSigningNkey
    split <;> rename_i heq <;> rw [heq] at hr <;> exact hr

theorem signingSeed_ok {storage storage2 : Storage} {issue : IssueUserStorage}
    {accountNkey : NKeyStorage} {seed : Str}
    (h : signingSeed storage issue accountNkey = (Except.ok seed, storage2)) :
    if issue.UseSigningKey = [] then seed = accountNkey.Seed
    else storage.entries.lookup
      (getAccountSigningNkeyPath issue.Operator issue.Account issue.UseSigningKey)
        = some (Entry.nkey { Seed := seed }) := by
  unfold signingSeed at h
  split at h
  · rename_i hu
    rw [if_pos hu]
    simp only [Prod.mk.injEq, Except.ok.injEq] at h
    exact h.1.symm
  · rename_i hu
    rw [if_neg hu]
    unfold readAccountSigningNkey at h
    split at h
    · simp at h
    · simp at h
    · rename_i signingNkey st heq
      simp only [Prod.mk.injEq, Except.ok.injEq] at h
      rw [← h.1]
      exact readNkey_some heq

/-- What a successful `generateUserJWT` has read and computed. -/
theorem generateUserJWT_ok {env : Env} {storage storage2 : Storage} {issue : IssueUserStorage}
    {claims : UserClaims} {token : Token} {expiresAt : Int}
    (h : generateUserJWT env storage issue claims = (Except.ok (token, expiresAt), storage2)) :
    ∃ accountNkey accountKeyPair accountPublicKey seed signingPublicKey
        userNkey userKeyPair userPublicKey,
      storage.entries.lookup (getAccountNkeyPath issue.Operator issue.Account)
        = some (Entry.nkey accountNkey) ∧
      env.FromSeed accountNkey.Seed = Except.ok accountKeyPair ∧
      env.PublicKey accountKeyPair = Except.ok accountPublicKey ∧
      (if issue.UseSigningKey = [] then seed = accountNkey.Seed
        else storage.entries.lookup
          (getAccountSigningNkeyPath issue.Operator issue.Account issue.UseSigningKey)
            = some (Entry.nkey { Seed := seed })) ∧
      env.FromSeed seed = Except.ok token.signedBy ∧
      env.PublicKey token.signedBy = Except.ok signingPublicKey ∧
      storage.entries.lookup (getUserNkeyPath issue.Operator issue.Account issue.User)
        = some (Entry.nkey userNkey) ∧
      env.FromSeed userNkey.Seed = Except.ok userKeyPair ∧
      env.PublicKey userKeyPair = Except.ok userPublicKey ∧
      token.claims =
        (stampClaims env issue claims accountPublicKey signingPublicKey userPublicKey).1 ∧
      expiresAt =
        (stampClaims env issue claims accountPublicKey signingPublicKey userPublicKey).2 ∧
      storage2.entries = storage.entries := by
  unfold generateUserJWT at h
  split at h
  · simp at h
  · simp at h
  · rename_i accountNkey st1 h1
    have e1 : st1.entries = storage.entries := by
      have := readNkey_entries storage (getAccountNkeyPath issue.Operator issue.Account)
      unfold readAccountNkey at h1
      rw [h1] at this
      exact this
    split at h
    · simp at h
    · rename_i accountKeyPair h2
      split at h
      · simp at h
      · rename_i accountPublicKey h3
        split at h
        · simp at h
        · rename_i seed st2 h4
          have e2 : st2.entries = st1.entries := by
            have := signingSeed_entries st1 issue accountNkey
            rw [h4] at this
            exact this
          split at h
          · simp at h
          · rename_i signingKeyPair h5
            split at h
            · simp at h
            · rename_i signingPublicKey h6
              split at h
              · simp at h
              · simp at h
              · rename_i userNkey st3 h7
                have e3 : st3.entries = st2.entries := by
                  have := readNkey_entries st2
                    (getUserNkeyPath issue.Operator issue.Account issue.User)
                  unfold readUserNkey at h7
                  rw [h7] at this
                  exact this
                split at h
                · simp at h
                · rename_i userKeyPair h8
                  split at h
                  · simp at h
                  · rename_i userPublicKey h9
                    split at h
                    rename_i stamped expires h10
                    split at h
                    · simp at h
                    · split at h
                      · simp at h
                      · simp only [Prod.mk.injEq, Except.ok.injEq] at h
                        obtain ⟨⟨ht, he⟩, hs⟩ := h
                        subst ht; subst he; subst hs
                        refine ⟨accountNkey, accountKeyPair, accountPublicKey, seed,
                          signingPublicKey, userNkey, userKeyPair, userPublicKey,
                          ?_, h2, h3, ?_, h5, h6, ?_, h8, h9, ?_, ?_, ?_⟩
                        · exact readNkey_some h1
                        · have := signingSeed_ok h4
                          rw [e1] at this
                          exact this
                        · have := readNkey_some h7
                          rw [e2, e1] at this
                          exact this
                        · rw [h10]
                        · rw [h10]
                        · rw [e3, e2, e1]

theorem stampClaims_issuer (env : Env) (issue : IssueUserStorage) (claims : UserClaims)
    (a s u : Str) : (stampClaims env issue claims a s u).1.ClaimsData.Issuer = s := by
  unfold stampClaims
  by_cases h1 : issue.UseSigningKey ≠ [] <;> by_cases h2 : issue.ExpirationS > 0 <;>
    simp [h1, h2]

theorem stampClaims_subject (env : Env) (issue : IssueUserStorage) (claims : UserClaims)
    (a s u : Str) : (stampClaims env issue claims a s u).1.ClaimsData.Subject = u := by
  unfold stampClaims
  by_cases h1 : issue.UseSigningKey ≠ [] <;> by_cases h2 : issue.ExpirationS > 0 <;>
    simp [h1, h2]

theorem stampClaims_issuerAccount (env : Env) (issue : IssueUserStorage) (claims : UserClaims)
    (a s u : Str) (h : issue.UseSigningKey ≠ []) :
    (stampClaims env issue claims a s u).1.User.IssuerAccount = a := by
  unfold stampClaims
  by_cases h2 : issue.ExpirationS > 0 <;> simp [h, h2]

theorem stampClaims_expires (env : Env) (issue : IssueUserStorage) (claims : UserClaims)
    (a s u : Str) (h : issue.ExpirationS > 0) :
    (stampClaims env issue claims a s u).1.ClaimsData.Expires =
        (env.Now.Add (durationSeconds issue.ExpirationS)).Unix ∧
      (stampClaims env issue claims a s u).2 =
        (env.Now.Add (durationSeconds issue.ExpirationS)).Unix := by
  unfold stampClaims
  rw [if_pos h]
  exact ⟨rfl, rfl⟩

theorem generateUserJWT_fails_without_signing_key (env : Env) (storage : Storage)
    (issue : IssueUserStorage) (claims : UserClaims)
    (hkey : issue.UseSigningKey ≠ [])
    (habsent : storage.entries.lookup
      (getAccountSigningNkeyPath issue.Operator issue.Account issue.UseSigningKey) = none) :
    ∃ err, (generateUserJWT env storage issue claims).1 = Except.error err := by
  cases hres : (generateUserJWT env storage issue claims).1 with
  | error err => exact ⟨err, rfl⟩
  | ok r =>
    obtain ⟨token, expiresAt⟩ := r
    have h : generateUserJWT env storage issue claims =
        (Except.ok (token, expiresAt), (generateUserJWT env storage issue claims).2) := by
      rw [← hres]
    obtain ⟨_, _, _, seed, _, _, _, _, _, _, _, hseed, _⟩ := generateUserJWT_ok h
    rw [if_neg hkey, habsent] at hseed
    exact absurd hseed (by simp)

theorem readUserIssue_spec (storage : Storage) (params : IssueUserParameters) :
    (readUserIssue storage params).2.entries = storage.entries ∧
    ∀ issue, (readUserIssue storage params).1 = Except.ok (some issue) →
      storage.entries.lookup (getUserIssuePath params.Operator params.Account params.User)
        = some (Entry.userIssue issue) := by
  have hg := Storage.get_spec storage
    (getUserIssuePath params.Operator params.Account params.User)
  unfold readUserIssue
  simp only
  split <;> rename_i heq <;> rw [heq] at hg
  · exact ⟨hg.1, fun issue h => by simp at h⟩
  · exact ⟨hg.1, fun issue h => by simp at h⟩
  · refine ⟨hg.1, fun issue h => ?_⟩
    simp only [Except.ok.injEq, Option.some.injEq] at h
    rw [← h]
    exact (hg.2 _ rfl).symm
  · exact ⟨hg.1, fun issue h => by simp at h⟩

theorem wrapInt64_of_range (x : Int) (h1 : -9223372036854775808 ≤ x)
    (h2 : x ≤ 9223372036854775807) : wrapInt64 x = x := by
  unfold wrapInt64
  norm_num
  omega

/-- Within the range of `time.Duration` (up to 9223372036 seconds) the expiry
of `generateUserJWT` is the current Unix time plus `ExpirationS`. -/
theorem expiry_in_range (now : Time) (expirationS : Int)
    (hns : 0 ≤ now.nsec ∧ now.nsec < 1000000000)
    (h1 : 0 < expirationS) (h2 : expirationS ≤ 9223372036) :
    (now.Add (durationSeconds expirationS)).Unix = now.Unix + expirationS := by
  have hw : durationSeconds expirationS = expirationS * 1000000000 := by
    unfold durationSeconds Second
    rw [wrapInt64_of_range expirationS (by omega) (by omega),
      wrapInt64_of_range _ (by omega) (by omega)]
  rw [hw]
  unfold Time.Add Time.Unix
  simp only [Int.mul_tdiv_cancel _ (show (1000000000 : Int) ≠ 0 by decide), Int.mul_tmod_left,
    Int.add_zero]
  rw [if_neg (by omega), if_neg (by omega)]

/-! ### `strings.ReplaceAll` -/

theorem replaceFrom_fuel (old new : Str) (hold : old ≠ []) (fuel fuel2 : Nat) (s : Str)
    (h1 : s.length ≤ fuel) (h2 : s.length ≤ fuel2) :
    replaceFrom old new fuel s = replaceFrom old new fuel2 s := by
  induction fuel generalizing fuel2 s with
  | zero =>
    have : s = [] := List.length_eq_zero.mp (by omega)
    subst this
    cases fuel2 <;> simp [replaceFrom]
  | succ n ih =>
    cases fuel2 with
    | zero =>
      have : s = [] := List.length_eq_zero.mp (by omega)
      subst this
      simp [replaceFrom]
    | succ m =>
      match s with
      | [] => simp [replaceFrom]
      | c :: cs =>
        simp only [List.length_cons] at h1 h2
        have hpos : 0 < old.length := List.length_pos.mpr hold
        simp only [replaceFrom]
        split
        · rw [ih m _ (by simp; omega) (by simp; omega)]
        · rw [ih m _ (by omega) (by omega)]

theorem replaceAll_nil (old new : Str) (hold : old ≠ []) : replaceAll [] old new = [] := by
  cases old with
  | nil => exact absurd rfl hold
  | cons a as => simp [replaceAll, replaceFrom]

theorem replaceAll_cons (old new : Str) (hold : old ≠ []) (c : Char) (cs : Str) :
    replaceAll (c :: cs) old new =
      if old.isPrefixOf (c :: cs) then new ++ replaceAll ((c :: cs).drop old.length) old new
      else c :: replaceAll cs old new := by
  cases old with
  | nil => exact absurd rfl hold
  | cons a as =>
    simp only [replaceAll, List.length_cons, replaceFrom]
    split
    · rw [replaceFrom_fuel (a :: as) new hold cs.length (List.drop as.length cs).length _
        (by simp) (by simp)]
      simp
    · rfl

theorem replaceAll_cons_skip (old new : Str) (hold : old ≠ []) (c : Char) (cs : Str)
    (h : old.isPrefixOf (c :: cs) = false) :
    replaceAll (c :: cs) old new = c :: replaceAll cs old new := by
  rw [replaceAll_cons old new hold, h]
  simp

theorem placeholder_ne_nil (k : Str) : placeholder k ≠ [] := by
  simp [placeholder]

theorem placeholder_not_prefix_of_head (k : Str) (c : Char) (cs : Str) (h : c ≠ '{') :
    (placeholder k).isPrefixOf (c :: cs) = false := by
  simp [placeholder, List.isPrefixOf, Ne.symm h]

theorem placeholder_not_prefix_of_second (k : Str) (c d : Char) (cs : Str) (h : d ≠ '{') :
    (placeholder k).isPrefixOf (c :: d :: cs) = false := by
  simp [placeholder, List.isPrefixOf, Ne.symm h]

theorem placeholder_not_prefix_single (k : Str) (c : Char) :
    (placeholder k).isPrefixOf [c] = false := by
  simp [placeholder, List.isPrefixOf]

/-- A text without `{` passes through the replacement of a placeholder. -/
theorem replaceAll_append_of_no_lbrace (k new : Str) (x y : Str) (hx : '{' ∉ x) :
    replaceAll (x ++ y) (placeholder k) new = x ++ replaceAll y (placeholder k) new := by
  induction x with
  | nil => rfl
  | cons c cs ih =>
    have hc : c ≠ '{' := fun h => hx (by simp [h])
    have hcs : '{' ∉ cs := fun h => hx (List.mem_cons_of_mem _ h)
    rw [List.cons_append, replaceAll_cons_skip _ _ (placeholder_ne_nil k) _ _
      (placeholder_not_prefix_of_head k c _ hc), ih hcs]
    rfl

theorem replaceAll_of_no_lbrace (k new : Str) (x : Str) (hx : '{' ∉ x) :
    replaceAll x (placeholder k) new = x := by
  have := replaceAll_append_of_no_lbrace k new x [] hx
  rw [List.append_nil, replaceAll_nil _ _ (placeholder_ne_nil k), List.append_nil] at this
  exact this

/-! ### Placeholders under substitution -/

theorem splitAtClose_append_close (a z : Str) (ha : '}' ∉ a) :
    splitAtClose (a ++ '}' :: '}' :: z) = some (a, z) := by
  induction a with
  | nil => simp [splitAtClose]
  | cons c cs ih =>
    have hc : c ≠ '}' := fun h => ha (by simp [h])
    have hcs : '}' ∉ cs := fun h => ha (List.mem_cons_of_mem _ h)
    have hne : ∃ d rest, cs ++ '}' :: '}' :: z = d :: rest := by
      cases cs with
      | nil => exact ⟨_, _, rfl⟩
      | cons d ds => exact ⟨_, _, rfl⟩
    obtain ⟨d, rest, hd⟩ := hne
    rw [List.cons_append, hd, splitAtClose, if_neg (by simp [hc]), ← hd, ih hcs]
    rfl

theorem splitAtClose_append_isSome (a z : Str) :
    (splitAtClose (a ++ '}' :: '}' :: z)).isSome = true := by
  induction a with
  | nil => simp [splitAtClose]
  | cons c cs ih =>
    have hne : ∃ d rest, cs ++ '}' :: '}' :: z = d :: rest := by
      cases cs with
      | nil => exact ⟨_, _, rfl⟩
      | cons d ds => exact ⟨_, _, rfl⟩
    obtain ⟨d, rest, hd⟩ := hne
    rw [List.cons_append, hd, splitAtClose]
    split
    · rfl
    · rw [← hd]
      cases hs : splitAtClose (cs ++ '}' :: '}' :: z) with
      | none => rw [hs] at ih; simp at ih
      | some p => rfl

theorem splitAtClose_none_tail {c : Char} {x : Str} (h : splitAtClose (c :: x) = none) :
    splitAtClose x = none := by
  cases x with
  | nil => rfl
  | cons d rest =>
    rw [splitAtClose] at h
    split at h
    · simp at h
    · cases hs : splitAtClose (d :: rest) with
      | none => rfl
      | some p => rw [hs] at h; simp at h

theorem splitAtClose_none_cons {c : Char} {x : Str} (hc : c ≠ '}')
    (h : splitAtClose x = none) : splitAtClose (c :: x) = none := by
  cases x with
  | nil => rfl
  | cons d rest =>
    rw [splitAtClose, if_neg (by simp [hc]), h]
    rfl

theorem placeholders_of_no_close (x : Str) (h : splitAtClose x = none) :
    placeholders x = [] := by
  induction x with
  | nil => exact placeholders_nil
  | cons c cs ih =>
    cases cs with
    | nil => exact placeholders_single c
    | cons d rest =>
      have h1 := splitAtClose_none_tail h
      have h2 := splitAtClose_none_tail h1
      rw [placeholders_cons_cons, h2]
      simp only [ite_self]
      exact ih h1

theorem not_prefix_of_no_close (k : Str) (x : Str) (h : splitAtClose x = none) :
    (placeholder k).isPrefixOf x = false := by
  by_contra hcon
  have hp : (placeholder k).isPrefixOf x = true := by simpa using hcon
  rw [List.isPrefixOf_iff_prefix] at hp
  obtain ⟨z, hz⟩ := hp
  have := splitAtClose_append_isSome ('{' :: '{' :: k) z
  have hx : x = ('{' :: '{' :: k) ++ '}' :: '}' :: z := by
    rw [← hz]; simp [placeholder]
  rw [← hx, h] at this
  simp at this

theorem replaceAll_of_no_close (k new : Str) (x : Str) (h : splitAtClose x = none) :
    replaceAll x (placeholder k) new = x := by
  induction x with
  | nil => exact replaceAll_nil _ _ (placeholder_ne_nil k)
  | cons c cs ih =>
    rw [replaceAll_cons_skip _ _ (placeholder_ne_nil k) _ _ (not_prefix_of_no_close k _ h),
      ih (splitAtClose_none_tail h)]

theorem placeholders_cons_of_ne (c : Char) (x : Str) (hc : c ≠ '{') :
    placeholders (c :: x) = placeholders x := by
  cases x with
  | nil => rw [placeholders_single, placeholders_nil]
  | cons d rest => rw [placeholders_cons_cons, if_neg (by simp [hc])]

theorem placeholders_append_of_no_lbrace (v x : Str) (hv : '{' ∉ v) :
    placeholders (v ++ x) = placeholders x := by
  induction v with
  | nil => rfl
  | cons c cs ih =>
    have hc : c ≠ '{' := fun h => hv (by simp [h])
    have hcs : '{' ∉ cs := fun h => hv (List.mem_cons_of_mem _ h)
    rw [List.cons_append, placeholders_cons_of_ne _ _ hc, ih hcs]

theorem close_prefix_iff (k content after : Str) (hk : '}' ∉ k) (hc : '}' ∉ content) :
    (k ++ ['}', '}']) <+: (content ++ '}' :: '}' :: after) ↔ content = k := by
  induction k generalizing content with
  | nil =>
    cases content with
    | nil => simp
    | cons c cs =>
      have : c ≠ '}' := fun h => hc (by simp [h])
      simp [List.cons_prefix_cons, Ne.symm this]
  | cons a as ih =>
    have ha : a ≠ '}' := fun h => hk (by simp [h])
    have has : '}' ∉ as := fun h => hk (List.mem_cons_of_mem _ h)
    cases content with
    | nil => simp [List.cons_prefix_cons, ha]
    | cons c cs =>
      have hcs : '}' ∉ cs := fun h => hc (List.mem_cons_of_mem _ h)
      rw [List.cons_append, List.cons_append, List.cons_prefix_cons, ih cs has hcs]
      constructor
      · rintro ⟨rfl, rfl⟩; rfl
      · intro h; cases h; exact ⟨rfl, rfl⟩

theorem placeholder_prefix_iff (k content after : Str) (hk : '}' ∉ k) (hc : '}' ∉ content) :
    (placeholder k).isPrefixOf ('{' :: '{' :: (content ++ '}' :: '}' :: after)) = true ↔
      content = k := by
  rw [List.isPrefixOf_iff_prefix, placeholder]
  simp only [List.cons_append, List.cons_prefix_cons, true_and]
  exact close_prefix_iff k content after hk hc

/-- Replacing the placeholder of a brace-free name by a brace-free value
removes the occurrences of that name and leaves the other occurrences,
provided every occurrence in the text is brace-free. -/
theorem placeholders_replaceAll (k v : Str) (hk : braceFree k) (hv : braceFree v) (t : Str)
    (ht : ∀ r, r ∈ placeholders t → braceFree r) :
    placeholders (replaceAll t (placeholder k) v) =
      (placeholders t).filter (fun r => decide (r ≠ k)) := by
  generalize hn : t.length = n
  induction n using Nat.strong_induction_on generalizing t with
  | _ n ih =>
    match t, ht, hn with
    | [], _, _ => simp [replaceAll_nil _ _ (placeholder_ne_nil k), placeholders_nil]
    | [c], _, _ =>
      rw [replaceAll_cons_skip _ _ (placeholder_ne_nil k) _ _
        (placeholder_not_prefix_single k c), replaceAll_nil _ _ (placeholder_ne_nil k)]
      simp [placeholders_single]
    | c :: d :: rest, ht, hn =>
      by_cases hcd : c = '{' ∧ d = '{'
      · obtain ⟨rfl, rfl⟩ := hcd
        cases hs : splitAtClose rest with
        | none =>
          have hnone : splitAtClose ('{' :: '{' :: rest) = none :=
            splitAtClose_none_cons (by decide) (splitAtClose_none_cons (by decide) hs)
          rw [replaceAll_of_no_close _ _ _ hnone, placeholders_of_no_close _ hnone]
          rfl
        | some p =>
          obtain ⟨content, after⟩ := p
          have hrest := splitAtClose_eq hs
          have hl := splitAtClose_length hs
          have hpl : placeholders ('{' :: '{' :: rest) = content :: placeholders after := by
            rw [placeholders_cons_cons, if_pos ⟨rfl, rfl⟩, hs]
          have hcontent : braceFree content := ht content (by rw [hpl]; simp)
          have hafter : ∀ r, r ∈ placeholders after → braceFree r :=
            fun r hr => ht r (by rw [hpl]; simp [hr])
          have ih2 := ih after.length (by simp at hn; omega) after hafter rfl
          by_cases hck : content = k
          · subst hck
            have hpre : (placeholder content).isPrefixOf ('{' :: '{' :: rest) = true := by
              rw [hrest]
              exact (placeholder_prefix_iff content content after hk.2 hk.2).2 rfl
            have hdrop : ('{' :: '{' :: rest).drop (placeholder content).length = after := by
              rw [hrest]
              simp [placeholder]
            rw [replaceAll_cons _ _ (placeholder_ne_nil _), if_pos hpre, hdrop,
              placeholders_append_of_no_lbrace _ _ hv.1, ih2, hpl]
            simp
          · have hpre : (placeholder k).isPrefixOf ('{' :: '{' :: rest) = false := by
              rw [hrest, Bool.eq_false_iff, ne_eq,
                placeholder_prefix_iff k content after hk.2 hcontent.2]
              exact hck
            have hsecond : (placeholder k).isPrefixOf ('{' :: rest) = false := by
              rw [hrest]
              cases content with
              | nil => exact placeholder_not_prefix_of_second k _ _ _ (by decide)
              | cons e es =>
                have he : e ≠ '{' := fun h => hcontent.1 (by simp [h])
                exact placeholder_not_prefix_of_second k _ _ _ he
            have hrep : replaceAll ('{' :: '{' :: rest) (placeholder k) v =
                '{' :: '{' :: (content ++ '}' :: '}' :: replaceAll after (placeholder k) v) := by
              rw [replaceAll_cons_skip _ _ (placeholder_ne_nil k) _ _ hpre,
                replaceAll_cons_skip _ _ (placeholder_ne_nil k) _ _ hsecond, hrest,
                replaceAll_append_of_no_lbrace _ _ _ _ hcontent.1,
                replaceAll_cons_skip _ _ (placeholder_ne_nil k) _ _
                  (placeholder_not_prefix_of_head k '}' _ (by decide)),
                replaceAll_cons_skip _ _ (placeholder_ne_nil k) _ _
                  (placeholder_not_prefix_of_head k '}' _ (by decide))]
            rw [hrep, placeholders_cons_cons, if_pos ⟨rfl, rfl⟩,
              splitAtClose_append_close content _ hcontent.2]
            simp only
            rw [ih2, hpl]
            simp [hck]
      · have hpre : (placeholder k).isPrefixOf (c :: d :: rest) = false := by
          by_cases hc : c = '{'
          · exact placeholder_not_prefix_of_second k _ _ _ (fun h => hcd ⟨hc, h⟩)
          · exact placeholder_not_prefix_of_head k _ _ hc
        have hpl : placeholders (c :: d :: rest) = placeholders (d :: rest) := by
          rw [placeholders_cons_cons, if_neg hcd]
        have ih2 := ih (d :: rest).length (by simp at hn ⊢; omega) (d :: rest)
          (by rw [← hpl]; exact ht) rfl
        rw [replaceAll_cons_skip _ _ (placeholder_ne_nil k) _ _ hpre, hpl, ← ih2]
        by_cases hc : c = '{'
        · have hd : d ≠ '{' := fun h => hcd ⟨hc, h⟩
          rw [replaceAll_cons_skip _ _ (placeholder_ne_nil k) _ _
            (placeholder_not_prefix_of_head k d rest hd), placeholders_cons_cons,
            if_neg (by simp [hd])]
        · exact placeholders_cons_of_ne _ _ hc

/-- After the replacement loop over brace-free names and values, the remaining
occurrences are those whose text is no parameter name. -/
theorem placeholders_substituteParameters (parameters : Parameters)
    (hp : ∀ p, p ∈ parameters → braceFree p.1 ∧ braceFree p.2) (t : Str)
    (ht : ∀ r, r ∈ placeholders t → braceFree r) :
    placeholders (substituteParameters t parameters) =
      (placeholders t).filter (fun r => !parameters.has r) := by
  induction parameters generalizing t with
  | nil => simp [substituteParameters, Parameters.has]
  | cons p ps ih =>
    have hp1 := hp p (by simp)
    have hps : ∀ p2, p2 ∈ ps → braceFree p2.1 ∧ braceFree p2.2 :=
      fun p2 h => hp p2 (List.mem_cons_of_mem _ h)
    have hstep := placeholders_replaceAll p.1 p.2 hp1.1 hp1.2 t ht
    have ht2 : ∀ r, r ∈ placeholders (replaceAll t (placeholder p.1) p.2) → braceFree r := by
      intro r hr
      rw [hstep, List.mem_filter] at hr
      exact ht r hr.1
    have := ih hps (replaceAll t (placeholder p.1) p.2) ht2
    simp only [substituteParameters, List.foldl_cons] at this ⊢
    rw [this, hstep, List.filter_filter]
    apply List.filter_congr
    intro r _
    simp only [Parameters.has, List.any_cons, Bool.not_or, ne_eq, decide_not,
      Bool.and_comm]
    congr 1
    by_cases h : p.1 = r
    · simp [h]
    · simp [h, Ne.symm h]

/-- A placeholder written with white space around its name is extracted under
the trimmed name, but the replacement looks for the name without white space:
with the map `name ↦ x` the template with audience `{{ name }}` passes the
check of the parameters and comes back unchanged. -/
theorem padded_placeholder_stays :
    findTemplateVariables (marshal (demoTemplate (placeholder " name ".toList)))
      = ["name".toList] ∧
    applyTemplateParameters (demoTemplate (placeholder " name ".toList))
        [("name".toList, ['x'])]
      = Except.ok (demoTemplate (placeholder " name ".toList)) := by
  decide

/-! ### String literals: decoding what the encoder wrote -/

theorem hexVal_hexDigit : ∀ m, m < 16 → hexVal (hexDigit m) = some m := by decide

theorem decodeToks_unit (h : Nat) (ts : List StrTok) (hh : ¬ (0xD800 ≤ h ∧ h < 0xDC00)) :
    decodeToks (StrTok.unit h :: ts) = unitChar h :: decodeToks ts := by
  match ts with
  | [] => simp [decodeToks]
  | StrTok.chr c :: ts => simp [decodeToks]
  | StrTok.unit l :: ts =>
    rw [decodeToks, if_neg (fun hc => hh hc.1)]

theorem unitChar_toNat (c : Char) (h : c.toNat < 0xD800) : unitChar c.toNat = c := by
  unfold unitChar
  rw [if_neg (by omega)]
  exact Char.ofNat_toNat c

/-- One encoded character is read back as one piece that decodes to it. -/
theorem scanString_escapeChar (c : Char) (rest : Str) :
    ∃ t, scanString (escapeChar c ++ rest) =
        (scanString rest).map (fun p => (t :: p.1, p.2)) ∧
      ∀ ts, decodeToks (t :: ts) = c :: decodeToks ts := by
  unfold escapeChar
  split
  · rename_i h; subst h
    exact ⟨StrTok.chr '"', by simp [scanString, scanFrom, unescape], fun ts => rfl⟩
  split
  · rename_i h; subst h
    exact ⟨StrTok.chr '\\', by simp [scanString, scanFrom, unescape], fun ts => rfl⟩
  split
  · rename_i h; subst h
    exact ⟨StrTok.chr '\n', by simp [scanString, scanFrom, unescape], fun ts => rfl⟩
  split
  · rename_i h; subst h
    exact ⟨StrTok.chr '\r', by simp [scanString, scanFrom, unescape], fun ts => rfl⟩
  split
  · rename_i h; subst h
    exact ⟨StrTok.chr '\t', by simp [scanString, scanFrom, unescape], fun ts => rfl⟩
  split
  · rename_i h
    have hlt : c.toNat < 256 := by
      rcases h with h | h | h | h
      · omega
      · subst h; decide
      · subst h; decide
      · subst h; decide
    refine ⟨StrTok.unit c.toNat, ?_, fun ts => ?_⟩
    · have h1 := hexVal_hexDigit (c.toNat / 16) (by omega)
      have h2 := hexVal_hexDigit (c.toNat % 16) (by omega)
      have h0 : hexVal '0' = some 0 := by decide
      have hval : c.toNat / 16 * 16 + c.toNat % 16 = c.toNat := by omega
      simp [scanString, scanFrom, h0, h1, h2, hval]
    · rw [decodeToks_unit _ _ (by omega), unitChar_toNat _ (by omega)]
  split
  · rename_i h
    refine ⟨StrTok.unit c.toNat, ?_, fun ts => ?_⟩
    · have h2 : hexVal '2' = some 2 := by decide
      have h0 : hexVal '0' = some 0 := by decide
      have h8 : hexVal '8' = some 8 := by decide
      simp [scanString, scanFrom, h0, h2, h8, h]
    · rw [decodeToks_unit _ _ (by omega), unitChar_toNat _ (by omega)]
  split
  · rename_i h
    refine ⟨StrTok.unit c.toNat, ?_, fun ts => ?_⟩
    · have h2 : hexVal '2' = some 2 := by decide
      have h0 : hexVal '0' = some 0 := by decide
      have h9 : hexVal '9' = some 9 := by decide
      simp [scanString, scanFrom, h0, h2, h9, h]
    · rw [decodeToks_unit _ _ (by omega), unitChar_toNat _ (by omega)]
  · rename_i h1 h2 _ _ _ h6 _ _
    refine ⟨StrTok.chr c, ?_, fun ts => rfl⟩
    have h6' : ¬ c.toNat < 32 := fun h => h6 (Or.inl h)
    simp [scanString, scanFrom, h1, h2, h6']

theorem scanString_encodeBody (s rest : Str) :
    ∃ toks, scanString (encodeBody s ++ '"' :: rest) = some (toks, rest) ∧
      decodeToks toks = s := by
  induction s with
  | nil => exact ⟨[], by simp [encodeBody, scanString, scanFrom], rfl⟩
  | cons c cs ih =>
    obtain ⟨toks, hscan, hdec⟩ := ih
    obtain ⟨t, ht, htd⟩ := scanString_escapeChar c (encodeBody cs ++ '"' :: rest)
    refine ⟨t :: toks, ?_, ?_⟩
    · have : encodeBody (c :: cs) ++ '"' :: rest =
          escapeChar c ++ (encodeBody cs ++ '"' :: rest) := by
        simp [encodeBody]
      rw [this, ht, hscan]
      rfl
    · rw [htd, hdec]

theorem parseStringBody_encodeBody (s rest : Str) :
    parseStringBody (encodeBody s ++ '"' :: rest) = some (s, rest) := by
  obtain ⟨toks, hscan, hdec⟩ := scanString_encodeBody s rest
  rw [parseStringBody, hscan]
  simp [hdec]

theorem encodeString_eq (s : Str) : encodeString s = '"' :: (encodeBody s ++ ['"']) := rfl

/-! ### Number literals -/

theorem natDigits_fuel (fuel fuel2 n : Nat) (h1 : n < fuel) (h2 : n < fuel2) :
    natDigits fuel n = natDigits fuel2 n := by
  induction fuel generalizing fuel2 n with
  | zero => omega
  | succ k ih =>
    cases fuel2 with
    | zero => omega
    | succ m =>
      simp only [natDigits]
      split
      · rfl
      · rw [ih m (n / 10) (by omega) (by omega)]

theorem natDigits_small (n : Nat) (h : n < 10) :
    natDigits (n + 1) n = [Char.ofNat (48 + n)] := by
  simp [natDigits, h]

theorem natDigits_large (n : Nat) (h : 10 ≤ n) :
    natDigits (n + 1) n = natDigits (n / 10 + 1) (n / 10) ++ [Char.ofNat (48 + n % 10)] := by
  rw [natDigits, if_neg (by omega), natDigits_fuel n (n / 10 + 1) (n / 10) (by omega) (by omega)]

theorem digit_facts : ∀ d, d < 10 →
    isDigit (Char.ofNat (48 + d)) = true ∧ (Char.ofNat (48 + d)).toNat - 48 = d ∧
    (d ≠ 0 → Char.ofNat (48 + d) ≠ '0') := by
  decide

theorem natDigits_all_digits (n : Nat) : ∀ c, c ∈ natDigits (n + 1) n → isDigit c = true := by
  induction n using Nat.strong_induction_on with
  | _ n ih =>
    intro c hc
    by_cases h : n < 10
    · rw [natDigits_small n h] at hc
      simp only [List.mem_singleton] at hc
      rw [hc]
      exact (digit_facts n h).1
    · rw [natDigits_large n (by omega), List.mem_append] at hc
      rcases hc with hc | hc
      · exact ih (n / 10) (by omega) c hc
      · simp only [List.mem_singleton] at hc
        rw [hc]
        exact (digit_facts (n % 10) (by omega)).1

theorem digitsValue_append (a : Str) (c : Char) :
    digitsValue (a ++ [c]) = digitsValue a * 10 + (c.toNat - 48) := by
  simp [digitsValue, List.foldl_append]

theorem digitsValue_natDigits (n : Nat) : digitsValue (natDigits (n + 1) n) = n := by
  induction n using Nat.strong_induction_on with
  | _ n ih =>
    by_cases h : n < 10
    · rw [natDigits_small n h]
      have := (digit_facts n h).2.1
      simp [digitsValue, this]
    · rw [natDigits_large n (by omega), digitsValue_append, ih (n / 10) (by omega),
        (digit_facts (n % 10) (by omega)).2.1]
      omega

theorem natDigits_head (n : Nat) (hn : 0 < n) :
    ∃ d tl, natDigits (n + 1) n = d :: tl ∧ d ≠ '0' := by
  induction n using Nat.strong_induction_on with
  | _ n ih =>
    by_cases h : n < 10
    · rw [natDigits_small n h]
      exact ⟨_, [], rfl, (digit_facts n h).2.2 (by omega)⟩
    · obtain ⟨d, tl, heq, hd⟩ := ih (n / 10) (by omega) (by omega)
      rw [natDigits_large n (by omega), heq]
      exact ⟨d, tl ++ [Char.ofNat (48 + n % 10)], rfl, hd⟩

theorem natDigits_ne_nil (n : Nat) : natDigits (n + 1) n ≠ [] := by
  by_cases h : n < 10
  · rw [natDigits_small n h]; simp
  · rw [natDigits_large n (by omega)]; simp

/-- The text behind a value starts with no character that continues a number. -/
theorem terminated_head {rest : Str} (h : terminated rest) :
    rest = [] ∨ ∃ c tl, rest = c :: tl ∧ isDigit c = false ∧ c ≠ '.' ∧ c ≠ 'e' ∧ c ≠ 'E' := by
  rcases h with h | ⟨c, tl, h, hc⟩
  · exact Or.inl h
  · refine Or.inr ⟨c, tl, h, ?_⟩
    rcases hc with rfl | rfl | rfl <;> decide

theorem takeWhile_digits (a rest : Str) (ha : ∀ c, c ∈ a → isDigit c = true)
    (hr : terminated rest) :
    (a ++ rest).takeWhile isDigit = a ∧ (a ++ rest).dropWhile isDigit = rest := by
  rw [List.takeWhile_append_of_pos ha, List.dropWhile_append_of_pos ha]
  rcases terminated_head hr with h | ⟨c, tl, h, hc, _⟩
  · subst h; simp
  · subst h
    simp [List.takeWhile, List.dropWhile, hc]

theorem scanFrac_terminated {rest : Str} (hr : terminated rest) :
    scanFrac rest = some ([], rest) := by
  rcases terminated_head hr with h | ⟨c, tl, h, _, hc, _⟩
  · subst h; rfl
  · subst h
    rw [scanFrac, if_neg hc]

theorem scanExp_terminated {rest : Str} (hr : terminated rest) :
    scanExp rest = some ([], rest) := by
  rcases terminated_head hr with h | ⟨c, tl, h, _, _, hc1, hc2⟩
  · subst h; rfl
  · subst h
    simp [scanExp, hc1, hc2]

theorem scanUnsigned_natDigits (n : Nat) (rest : Str) (hr : terminated rest) :
    scanUnsigned (natDigits (n + 1) n ++ rest) = some (natDigits (n + 1) n, rest) := by
  have hint : scanInt (natDigits (n + 1) n ++ rest) = some (natDigits (n + 1) n, rest) := by
    by_cases hn : n = 0
    · subst hn
      rfl
    · obtain ⟨d, tl, heq, hd⟩ := natDigits_head n (by omega)
      have hall := natDigits_all_digits n
      rw [heq] at hall ⊢
      have hdig : isDigit d = true := hall d (by simp)
      have htl : ∀ c, c ∈ tl → isDigit c = true := fun c hc => hall c (by simp [hc])
      obtain ⟨h1, h2⟩ := takeWhile_digits tl rest htl hr
      rw [List.cons_append, scanInt, if_neg hd, if_pos hdig, h1, h2]
  rw [scanUnsigned, hint]
  simp only
  rw [scanFrac_terminated hr]
  simp only
  rw [scanExp_terminated hr]
  simp

theorem intLit_nonneg (n : Int) (h : 0 ≤ n) : intLit n = natDigits (n.natAbs + 1) n.natAbs := by
  rw [intLit, if_neg (by omega)]

theorem intLit_neg (n : Int) (h : n < 0) :
    intLit n = '-' :: natDigits (n.natAbs + 1) n.natAbs := by
  rw [intLit, if_pos h]

theorem natDigits_head_digit (n : Nat) :
    ∃ d tl, natDigits (n + 1) n = d :: tl ∧ isDigit d = true := by
  have hne := natDigits_ne_nil n
  have hall := natDigits_all_digits n
  match hd : natDigits (n + 1) n with
  | [] => exact absurd hd hne
  | d :: tl =>
    rw [hd] at hall
    exact ⟨d, tl, rfl, hall d (by simp)⟩

/-- The first character of an integer literal is a digit or the sign. -/
theorem intLit_head (n : Int) : ∃ c tl, intLit n = c :: tl ∧ (isDigit c = true ∨ c = '-') := by
  by_cases h : n < 0
  · exact ⟨'-', _, intLit_neg n h, Or.inr rfl⟩
  · obtain ⟨d, tl, heq, hd⟩ := natDigits_head_digit n.natAbs
    exact ⟨d, tl, by rw [intLit_nonneg n (by omega), heq], Or.inl hd⟩

theorem scanNumber_intLit (n : Int) (rest : Str) (hr : terminated rest) :
    scanNumber (intLit n ++ rest) = some (intLit n, rest) := by
  by_cases h : n < 0
  · rw [intLit_neg n h, List.cons_append, scanNumber, if_pos rfl,
      scanUnsigned_natDigits _ _ hr]
    rfl
  · rw [intLit_nonneg n (by omega)]
    obtain ⟨d, tl, heq, hd⟩ := natDigits_head_digit n.natAbs
    have hneg : d ≠ '-' := by
      rintro rfl
      exact absurd hd (by decide)
    have := scanUnsigned_natDigits n.natAbs rest hr
    rw [heq] at this ⊢
    rw [List.cons_append, scanNumber, if_neg hneg]
    exact this

theorem parseInt64_intLit (n : Int) (h1 : -(2 : Int) ^ 63 ≤ n) (h2 : n < (2 : Int) ^ 63) :
    parseInt64 (intLit n) = some n := by
  have hall := natDigits_all_digits n.natAbs
  have hne := natDigits_ne_nil n.natAbs
  have hval := digitsValue_natDigits n.natAbs
  by_cases h : n < 0
  · rw [intLit_neg n h]
    have hv : -((n.natAbs : Nat) : Int) = n := by omega
    simp only [parseInt64, List.head?_cons, List.tail_cons, if_true, ne_eq, hne,
      not_false_eq_true, List.all_eq_true, true_and, hval, hv]
    rw [if_pos (fun c hc => hall c hc), if_pos ⟨h1, h2⟩]
  · rw [intLit_nonneg n (by omega)]
    obtain ⟨d, tl, heq, hd⟩ := natDigits_head_digit n.natAbs
    have hneg : d ≠ '-' := by
      rintro rfl
      exact absurd hd (by decide)
    have hv : ((n.natAbs : Nat) : Int) = n := by omega
    have hhead : (natDigits (n.natAbs + 1) n.natAbs).head? ≠ some '-' := by
      rw [heq]; simpa using hneg
    simp only [parseInt64, hhead, if_false, ne_eq, hne, not_false_eq_true, List.all_eq_true,
      true_and, hval, hv, decide_False, Bool.false_eq_true]
    rw [if_pos (fun c hc => hall c hc), if_pos ⟨h1, h2⟩]

/-! ### Parsing what the encoder wrote -/

theorem skipSpace_cons (c : Char) (s : Str) (h : isJsonSpace c = false) :
    skipSpace (c :: s) = c :: s := by
  simp [skipSpace, List.dropWhile, h]

theorem parseValue_string (fuel : Nat) (body : Str) :
    parseValue (fuel + 1) ('"' :: body) =
      (parseStringBody body).map fun p => (JVal.str p.1, p.2) := by
  rw [parseValue, skipSpace_cons _ _ (by decide)]
  simp

theorem digit_or_sign_facts {c : Char} (h : isDigit c = true ∨ c = '-') :
    isJsonSpace c = false ∧ c ≠ '"' ∧ c ≠ '[' ∧ c ≠ '{' ∧ c ≠ 't' ∧ c ≠ 'f' ∧ c ≠ 'n' ∧
      c ≠ ']' ∧ c ≠ '}' := by
  rcases h with h | rfl
  · refine ⟨?_, ?_, ?_, ?_, ?_, ?_, ?_, ?_, ?_⟩
    · have e1 : c ≠ ' ' := by rintro rfl; exact absurd h (by decide)
      have e2 : c ≠ '\t' := by rintro rfl; exact absurd h (by decide)
      have e3 : c ≠ '\n' := by rintro rfl; exact absurd h (by decide)
      have e4 : c ≠ '\r' := by rintro rfl; exact absurd h (by decide)
      simp [isJsonSpace, e1, e2, e3, e4]
    all_goals (rintro rfl; exact absurd h (by decide))
  · decide

theorem parseValue_number (fuel : Nat) (c : Char) (tl : Str)
    (h : isDigit c = true ∨ c = '-') :
    parseValue (fuel + 1) (c :: tl) =
      (scanNumber (c :: tl)).map fun p => (JVal.num p.1, p.2) := by
  obtain ⟨h0, h1, h2, h3, h4, h5, h6, _, _⟩ := digit_or_sign_facts h
  rw [parseValue, skipSpace_cons _ _ h0]
  simp [h1, h2, h3, List.isPrefixOf, Ne.symm h4, Ne.symm h5, Ne.symm h6]

theorem parseValue_null (fuel : Nat) (rest : Str) :
    parseValue (fuel + 1) ('n' :: 'u' :: 'l' :: 'l' :: rest) = some (JVal.null, rest) := by
  rw [parseValue, skipSpace_cons _ _ (by decide)]
  simp [List.isPrefixOf]

theorem parseValue_true (fuel : Nat) (rest : Str) :
    parseValue (fuel + 1) ('t' :: 'r' :: 'u' :: 'e' :: rest) = some (JVal.bool true, rest) := by
  rw [parseValue, skipSpace_cons _ _ (by decide)]
  simp [List.isPrefixOf]

theorem parseValue_false (fuel : Nat) (rest : Str) :
    parseValue (fuel + 1) ('f' :: 'a' :: 'l' :: 's' :: 'e' :: rest)
      = some (JVal.bool false, rest) := by
  rw [parseValue, skipSpace_cons _ _ (by decide)]
  simp [List.isPrefixOf]

theorem parseValue_empty_array (fuel : Nat) (rest : Str) :
    parseValue (fuel + 1) ('[' :: ']' :: rest) = some (JVal.arr [], rest) := by
  rw [parseValue, skipSpace_cons _ _ (by decide)]
  simp [skipSpace_cons _ _ (show isJsonSpace ']' = false by decide)]

theorem parseValue_empty_object (fuel : Nat) (rest : Str) :
    parseValue (fuel + 1) ('{' :: '}' :: rest) = some (JVal.obj [], rest) := by
  rw [parseValue, skipSpace_cons _ _ (by decide)]
  simp [skipSpace_cons _ _ (show isJsonSpace '}' = false by decide)]

theorem parseValue_array (fuel : Nat) (d : Char) (body : Str)
    (hs : isJsonSpace d = false) (hd : d ≠ ']') :
    parseValue (fuel + 1) ('[' :: d :: body) =
      match parseValue fuel (d :: body) with
      | none => none
      | some (v, rest3) => (parseItems fuel rest3).map fun p => (JVal.arr (v :: p.1), p.2) := by
  rw [parseValue, skipSpace_cons _ _ (by decide)]
  simp [skipSpace_cons _ _ hs, hd]

theorem parseValue_object (fuel : Nat) (body : Str) :
    parseValue (fuel + 1) ('{' :: '"' :: body) =
      match parseMember fuel ('"' :: body) with
      | none => none
      | some (m, rest3) =>
        (parseMembers fuel rest3).map fun p => (JVal.obj (m :: p.1), p.2) := by
  rw [parseValue, skipSpace_cons _ _ (by decide)]
  simp [skipSpace_cons _ _ (show isJsonSpace '"' = false by decide)]

theorem parseItems_close (fuel : Nat) (rest : Str) :
    parseItems (fuel + 1) (']' :: rest) = some ([], rest) := by
  rw [parseItems, skipSpace_cons _ _ (by decide)]
  simp

theorem parseItems_comma (fuel : Nat) (body : Str) :
    parseItems (fuel + 1) (',' :: body) =
      match parseValue fuel body with
      | none => none
      | some (v, rest2) => (parseItems fuel rest2).map fun p => (v :: p.1, p.2) := by
  rw [parseItems, skipSpace_cons _ _ (by decide)]
  simp

theorem parseMembers_close (fuel : Nat) (rest : Str) :
    parseMembers (fuel + 1) ('}' :: rest) = some ([], rest) := by
  rw [parseMembers, skipSpace_cons _ _ (by decide)]
  simp

theorem parseMembers_comma (fuel : Nat) (body : Str) :
    parseMembers (fuel + 1) (',' :: body) =
      match parseMember fuel body with
      | none => none
      | some (m, rest2) => (parseMembers fuel rest2).map fun p => (m :: p.1, p.2) := by
  rw [parseMembers, skipSpace_cons _ _ (by decide)]
  simp

theorem parseMember_encoded (fuel : Nat) (k body : Str) :
    parseMember (fuel + 1) ('"' :: (encodeBody k ++ '"' :: ':' :: body)) =
      (parseValue fuel body).map fun p => ((k, p.1), p.2) := by
  rw [parseMember, skipSpace_cons _ _ (by decide)]
  simp [parseStringBody_encodeBody, skipSpace_cons _ _ (show isJsonSpace ':' = false by decide)]

/-- A rendered value starts with a character that is no white space and no
closing bracket. -/
theorem render_head (J : JVal) (hc : J.canonical) :
    ∃ d tl, render J = d :: tl ∧ isJsonSpace d = false ∧ d ≠ ']' := by
  cases J with
  | null => exact ⟨'n', _, rfl, by decide, by decide⟩
  | bool b =>
    cases b
    · exact ⟨'f', _, rfl, by decide, by decide⟩
    · exact ⟨'t', _, rfl, by decide, by decide⟩
  | num literal =>
    obtain ⟨n, rfl⟩ := hc
    obtain ⟨c, tl, heq, hc⟩ := intLit_head n
    obtain ⟨h0, _, _, _, _, _, _, h7, _⟩ := digit_or_sign_facts hc
    exact ⟨c, tl, by simp only [render]; exact heq, h0, h7⟩
  | str s => exact ⟨'"', _, rfl, by decide, by decide⟩
  | arr items =>
    cases items with
    | nil => exact ⟨'[', _, rfl, by decide, by decide⟩
    | cons v vs => exact ⟨'[', _, rfl, by decide, by decide⟩
  | obj members =>
    cases members with
    | nil => exact ⟨'{', _, rfl, by decide, by decide⟩
    | cons m ms =>
      obtain ⟨k, v⟩ := m
      exact ⟨'{', _, rfl, by decide, by decide⟩

theorem terminated_items (vs : List JVal) (rest : Str) :
    terminated (renderItems vs ++ ']' :: rest) := by
  cases vs with
  | nil => exact Or.inr ⟨']', rest, rfl, Or.inr (Or.inl rfl)⟩
  | cons v vs => exact Or.inr ⟨',', _, rfl, Or.inl rfl⟩

theorem terminated_members (ms : List (Str × JVal)) (rest : Str) :
    terminated (renderMembers ms ++ '}' :: rest) := by
  cases ms with
  | nil => exact Or.inr ⟨'}', rest, rfl, Or.inr (Or.inr rfl)⟩
  | cons m ms =>
    obtain ⟨k, v⟩ := m
    exact Or.inr ⟨',', _, rfl, Or.inl rfl⟩

/-- With enough fuel the parser reads a rendered canonical document back, and
leaves the text behind it. -/
theorem parse_render (fuel : Nat) :
    (∀ J rest, J.canonical → terminated rest → (render J).length < fuel →
      parseValue fuel (render J ++ rest) = some (J, rest)) ∧
    (∀ vs rest, canonicalItems vs → (renderItems vs).length < fuel →
      parseItems fuel (renderItems vs ++ ']' :: rest) = some (vs, rest)) ∧
    (∀ k v rest, v.canonical → terminated rest → (render v).length + 1 < fuel →
      parseMember fuel ('"' :: (encodeBody k ++ '"' :: ':' :: (render v ++ rest)))
        = some ((k, v), rest)) ∧
    (∀ ms rest, canonicalMembers ms → (renderMembers ms).length < fuel →
      parseMembers fuel (renderMembers ms ++ '}' :: rest) = some (ms, rest)) := by
  induction fuel with
  | zero =>
    refine ⟨fun _ _ _ _ h => absurd h (by omega), fun _ _ _ h => absurd h (by omega),
      fun _ _ _ _ _ h => absurd h (by omega), fun _ _ _ h => absurd h (by omega)⟩
  | succ fuel ih =>
    obtain ⟨ihV, ihI, ihM, ihMs⟩ := ih
    have hV : ∀ J rest, J.canonical → terminated rest → (render J).length < fuel + 1 →
        parseValue (fuel + 1) (render J ++ rest) = some (J, rest) := by
      intro J rest hc ht hlen
      cases J with
      | null => simpa [render] using parseValue_null fuel rest
      | bool b =>
        cases b
        · simpa [render] using parseValue_false fuel rest
        · simpa [render] using parseValue_true fuel rest
      | num literal =>
        obtain ⟨n, rfl⟩ := hc
        obtain ⟨c, tl, heq, hcs⟩ := intLit_head n
        have hn := scanNumber_intLit n rest ht
        simp only [render]
        rw [heq] at hn ⊢
        rw [List.cons_append] at hn ⊢
        rw [parseValue_number fuel c _ hcs, hn]
        rfl
      | str s =>
        have : render (JVal.str s) ++ rest = '"' :: (encodeBody s ++ '"' :: rest) := by
          simp [render, encodeString, encodeBody]
        rw [this, parseValue_string, parseStringBody_encodeBody]
        rfl
      | arr items =>
        cases items with
        | nil => simpa [render] using parseValue_empty_array fuel rest
        | cons v vs =>
          obtain ⟨hcv, hcvs⟩ := hc
          obtain ⟨d, tl, hd, hs, hne⟩ := render_head v hcv
          have hlen2 : (render v).length + (renderItems vs).length + 2 < fuel + 1 := by
            simp [render] at hlen; omega
          have h1 := ihV v (renderItems vs ++ ']' :: rest) hcv (terminated_items vs rest)
            (by omega)
          have h2 := ihI vs rest hcvs (by omega)
          have : render (JVal.arr (v :: vs)) ++ rest =
              '[' :: (render v ++ (renderItems vs ++ ']' :: rest)) := by
            simp [render]
          rw [this]
          rw [hd] at h1 ⊢
          rw [List.cons_append] at h1 ⊢
          rw [parseValue_array fuel d _ hs hne, h1]
          simp only
          rw [h2]
          rfl
      | obj members =>
        cases members with
        | nil => simpa [render] using parseValue_empty_object fuel rest
        | cons m ms =>
          obtain ⟨k, v⟩ := m
          obtain ⟨_, hcv, hcms⟩ := hc
          have hlen2 : (render v).length + (renderMembers ms).length + 2 < fuel + 1 := by
            simp [render, encodeString] at hlen; omega
          have h1 := ihM k v (renderMembers ms ++ '}' :: rest) hcv
            (terminated_members ms rest) (by simp [render, encodeString] at hlen; omega)
          have h2 := ihMs ms rest hcms (by omega)
          have : render (JVal.obj ((k, v) :: ms)) ++ rest =
              '{' :: '"' :: (encodeBody k ++ '"' :: ':' ::
                (render v ++ (renderMembers ms ++ '}' :: rest))) := by
            simp [render, encodeString, encodeBody]
          rw [this, parseValue_object, h1]
          simp only
          rw [h2]
          rfl
    refine ⟨hV, ?_, ?_, ?_⟩
    · intro vs rest hc hlen
      cases vs with
      | nil => simpa [renderItems] using parseItems_close fuel rest
      | cons v vs =>
        obtain ⟨hcv, hcvs⟩ := hc
        have hlen2 : (render v).length + (renderItems vs).length + 1 < fuel + 1 := by
          simp [renderItems] at hlen; omega
        have h1 := ihV v (renderItems vs ++ ']' :: rest) hcv (terminated_items vs rest)
          (by omega)
        have h2 := ihI vs rest hcvs (by omega)
        have : renderItems (v :: vs) ++ ']' :: rest =
            ',' :: (render v ++ (renderItems vs ++ ']' :: rest)) := by
          simp [renderItems]
        rw [this, parseItems_comma, h1]
        simp only
        rw [h2]
        rfl
    · intro k v rest hc ht hlen
      rw [parseMember_encoded, ihV v rest hc ht (by omega)]
      rfl
    · intro ms rest hc hlen
      cases ms with
      | nil => simpa [renderMembers] using parseMembers_close fuel rest
      | cons m ms =>
        obtain ⟨k, v⟩ := m
        obtain ⟨_, hcv, hcms⟩ := hc
        have hlen2 : (render v).length + (renderMembers ms).length + 1 < fuel + 1 := by
          simp [renderMembers, encodeString] at hlen; omega
        have h1 := ihM k v (renderMembers ms ++ '}' :: rest) hcv (terminated_members ms rest)
          (by simp [renderMembers, encodeString] at hlen; omega)
        have h2 := ihMs ms rest hcms (by omega)
        have : renderMembers ((k, v) :: ms) ++ '}' :: rest =
            ',' :: '"' :: (encodeBody k ++ '"' :: ':' ::
              (render v ++ (renderMembers ms ++ '}' :: rest))) := by
          simp [renderMembers, encodeString, encodeBody]
        rw [this, parseMembers_comma, h1]
        simp only
        rw [h2]
        rfl

/-! ### Replacement inside the JSON text -/

theorem hexDigit_ne_lbrace : ∀ m, m < 16 → hexDigit m ≠ '{' := by decide

theorem escapeChar_cases (c : Char) :
    escapeChar c = [c] ∨ ∃ tl, escapeChar c = '\\' :: tl := by
  unfold escapeChar
  repeat' split
  all_goals first
    | exact Or.inl rfl
    | exact Or.inr ⟨_, rfl⟩

theorem plain_char_facts {c : Char} (h : escapeChar c = [c]) : c ≠ '\\' ∧ c ≠ '"' := by
  constructor
  · rintro rfl
    exact absurd h (by decide)
  · rintro rfl
    exact absurd h (by decide)

theorem escapeChar_no_lbrace (c : Char) (hc : c ≠ '{') : '{' ∉ escapeChar c := by
  unfold escapeChar
  split
  · decide
  split
  · decide
  split
  · decide
  split
  · decide
  split
  · decide
  split
  · rename_i h
    have hlt : c.toNat < 256 := by
      rcases h with h | h | h | h
      · omega
      · subst h; decide
      · subst h; decide
      · subst h; decide
    have h1 := hexDigit_ne_lbrace (c.toNat / 16) (by omega)
    have h2 := hexDigit_ne_lbrace (c.toNat % 16) (by omega)
    simp [Ne.symm h1, Ne.symm h2]
  split
  · decide
  split
  · decide
  · simp [Ne.symm hc]

theorem jsonPlain_cons {c : Char} {s : Str} (h : jsonPlain (c :: s)) :
    escapeChar c = [c] ∧ jsonPlain s :=
  ⟨h c (by simp), fun d hd => h d (List.mem_cons_of_mem _ hd)⟩

theorem encodeBody_cons (c : Char) (s : Str) :
    encodeBody (c :: s) = escapeChar c ++ encodeBody s := by
  simp [encodeBody]

theorem encodeBody_append (a b : Str) : encodeBody (a ++ b) = encodeBody a ++ encodeBody b := by
  simp [encodeBody]

theorem encodeBody_plain (s : Str) (h : jsonPlain s) : encodeBody s = s := by
  induction s with
  | nil => rfl
  | cons c cs ih =>
    obtain ⟨hc, hcs⟩ := jsonPlain_cons h
    rw [encodeBody_cons, hc, ih hcs]
    rfl

theorem jsonPlain_placeholder (k : Str) (h : jsonPlain k) : jsonPlain (placeholder k) := by
  intro c hc
  simp only [placeholder, List.cons_append, List.mem_cons, List.mem_append,
    List.mem_singleton] at hc
  rcases hc with rfl | rfl | hc | rfl | rfl | hc
  · decide
  · decide
  · exact h c hc
  · decide
  · decide
  · simp at hc

/-- A plain text starts the encoded body exactly when it starts the string. -/
theorem isPrefixOf_encodeBody (p : Str) (hp : jsonPlain p) (s : Str) :
    p.isPrefixOf (encodeBody s) = p.isPrefixOf s := by
  induction p generalizing s with
  | nil => simp [List.isPrefixOf]
  | cons a as ih =>
    obtain ⟨ha, has⟩ := jsonPlain_cons hp
    cases s with
    | nil => simp [encodeBody, List.isPrefixOf]
    | cons c cs =>
      rw [encodeBody_cons]
      rcases escapeChar_cases c with hc | ⟨tl, hc⟩
      · rw [hc]
        show (a == c && as.isPrefixOf (encodeBody cs)) = (a == c && as.isPrefixOf cs)
        rw [ih has]
      · have hne : c ≠ a := by
          rintro rfl
          rw [ha] at hc
          simp only [List.cons.injEq] at hc
          exact (plain_char_facts ha).1 hc.1
        have hb : a ≠ '\\' := (plain_char_facts ha).1
        rw [hc]
        show (a == '\\' && as.isPrefixOf (tl ++ encodeBody cs)) = (a == c && as.isPrefixOf cs)
        have e1 : (a == '\\') = false := by simp [hb]
        have e2 : (a == c) = false := by simp [Ne.symm hne]
        rw [e1, e2]
        rfl

theorem not_prefix_across_quote (p : Str) (hp : '"' ∉ p) (x rest : Str) :
    p.isPrefixOf (x ++ '"' :: rest) = p.isPrefixOf x := by
  induction p generalizing x with
  | nil => simp [List.isPrefixOf]
  | cons a as ih =>
    have ha : a ≠ '"' := fun h => hp (by simp [h])
    have has : '"' ∉ as := fun h => hp (List.mem_cons_of_mem _ h)
    cases x with
    | nil => simp [List.isPrefixOf, ha]
    | cons c cs =>
      show (a == c && as.isPrefixOf (cs ++ '"' :: rest)) = (a == c && as.isPrefixOf cs)
      rw [ih has]

theorem placeholder_no_quote (k : Str) (h : jsonPlain k) : '"' ∉ placeholder k := by
  intro hq
  have := (jsonPlain_placeholder k h) '"' hq
  exact absurd this (by decide)

theorem replaceAll_placeholder_append (k v z : Str) :
    replaceAll (placeholder k ++ z) (placeholder k) v = v ++ replaceAll z (placeholder k) v := by
  have hcons : placeholder k ++ z = '{' :: ('{' :: k ++ ['}', '}'] ++ z) := by
    simp [placeholder]
  have hpre : (placeholder k).isPrefixOf (placeholder k ++ z) = true := by
    rw [List.isPrefixOf_iff_prefix]
    exact List.prefix_append _ _
  rw [hcons, replaceAll_cons _ _ (placeholder_ne_nil k), ← hcons, if_pos hpre, List.drop_left]

/-- A quote ends every match: the replacement works on both sides of it apart. -/
theorem replaceAll_quote (k v : Str) (hk : jsonPlain k) (x rest : Str) :
    replaceAll (x ++ '"' :: rest) (placeholder k) v =
      replaceAll x (placeholder k) v ++ '"' :: replaceAll rest (placeholder k) v := by
  generalize hn : x.length = n
  induction n using Nat.strong_induction_on generalizing x with
  | _ n ih =>
    cases x with
    | nil =>
      rw [List.nil_append, replaceAll_cons_skip _ _ (placeholder_ne_nil k) _ _
        (placeholder_not_prefix_of_head k '"' _ (by decide)),
        replaceAll_nil _ _ (placeholder_ne_nil k)]
      rfl
    | cons c cs =>
      have hq := not_prefix_across_quote (placeholder k) (placeholder_no_quote k hk)
        (c :: cs) rest
      by_cases hpre : (placeholder k).isPrefixOf (c :: cs) = true
      · rw [List.isPrefixOf_iff_prefix] at hpre
        obtain ⟨z, hz⟩ := hpre
        have hzlen : z.length < n := by
          have := congrArg List.length hz
          simp [placeholder] at this hn
          omega
        rw [← hz, List.append_assoc, replaceAll_placeholder_append,
          replaceAll_placeholder_append, ih z.length hzlen z rfl, List.append_assoc]
      · have hpre2 : (placeholder k).isPrefixOf (c :: cs) = false := Bool.eq_false_iff.mpr hpre
        rw [hpre2] at hq
        rw [List.cons_append] at hq ⊢
        rw [replaceAll_cons_skip _ _ (placeholder_ne_nil k) _ _ hq,
          replaceAll_cons_skip _ _ (placeholder_ne_nil k) _ _ hpre2,
          ih cs.length (by simp at hn; omega) cs rfl]
        rfl

/-- Replacing a plain placeholder by a plain value in the encoded body of a
string is replacing it in the string. -/
theorem replaceAll_encodeBody (k v : Str) (hk : jsonPlain k) (hv : jsonPlain v) (s : Str) :
    replaceAll (encodeBody s) (placeholder k) v =
      encodeBody (replaceAll s (placeholder k) v) := by
  generalize hn : s.length = n
  induction n using Nat.strong_induction_on generalizing s with
  | _ n ih =>
    cases s with
    | nil =>
      rw [replaceAll_nil _ _ (placeholder_ne_nil k)]
      exact replaceAll_nil _ _ (placeholder_ne_nil k)
    | cons c cs =>
      have hP := jsonPlain_placeholder k hk
      by_cases hpre : (placeholder k).isPrefixOf (c :: cs) = true
      · rw [List.isPrefixOf_iff_prefix] at hpre
        obtain ⟨z, hz⟩ := hpre
        have hzlen : z.length < n := by
          have := congrArg List.length hz
          simp [placeholder] at this hn
          omega
        rw [← hz, encodeBody_append, encodeBody_plain _ hP, replaceAll_placeholder_append,
          replaceAll_placeholder_append, encodeBody_append, encodeBody_plain _ hv,
          ih z.length hzlen z rfl]
      · have hpre2 : (placeholder k).isPrefixOf (c :: cs) = false := Bool.eq_false_iff.mpr hpre
        have ih2 := ih cs.length (by simp at hn; omega) cs rfl
        rw [replaceAll_cons_skip _ _ (placeholder_ne_nil k) _ _ hpre2, encodeBody_cons,
          encodeBody_cons]
        by_cases hc : c = '{'
        · subst hc
          have hesc : escapeChar '{' = ['{'] := by decide
          have hF := isPrefixOf_encodeBody (placeholder k) hP ('{' :: cs)
          rw [hpre2, encodeBody_cons, hesc] at hF
          rw [hesc]
          simp only [List.singleton_append] at hF ⊢
          rw [replaceAll_cons_skip _ _ (placeholder_ne_nil k) _ _ hF, ih2]
        · rw [replaceAll_append_of_no_lbrace _ _ _ _ (escapeChar_no_lbrace c hc), ih2]

theorem intLit_no_lbrace (n : Int) : '{' ∉ intLit n := by
  have hall := natDigits_all_digits n.natAbs
  have hd : ∀ c, c ∈ natDigits (n.natAbs + 1) n.natAbs → c ≠ '{' := by
    intro c hc
    rintro rfl
    exact absurd (hall _ hc) (by decide)
  by_cases h : n < 0
  · rw [intLit_neg n h]
    intro hm
    rcases List.mem_cons.mp hm with h1 | h1
    · exact absurd h1 (by decide)
    · exact hd _ h1 rfl
  · rw [intLit_nonneg n (by omega)]
    intro hm
    exact hd _ hm rfl

theorem replaceAll_skip_char (k v : Str) (c : Char) (rest : Str) (hc : c ≠ '{') :
    replaceAll (c :: rest) (placeholder k) v = c :: replaceAll rest (placeholder k) v :=
  replaceAll_cons_skip _ _ (placeholder_ne_nil k) _ _ (placeholder_not_prefix_of_head k c _ hc)

theorem replaceAll_skip_lbrace (k v : Str) (d : Char) (rest : Str) (hd : d ≠ '{') :
    replaceAll ('{' :: d :: rest) (placeholder k) v =
      '{' :: replaceAll (d :: rest) (placeholder k) v :=
  replaceAll_cons_skip _ _ (placeholder_ne_nil k) _ _
    (placeholder_not_prefix_of_second k '{' d _ hd)

/-- An encoded string literal under the replacement. -/
theorem replaceAll_encodeString (k v : Str) (hk : jsonPlain k) (hv : jsonPlain v)
    (s rest : Str) :
    replaceAll (encodeString s ++ rest) (placeholder k) v =
      encodeString (replaceAll s (placeholder k) v) ++ replaceAll rest (placeholder k) v := by
  have h1 : encodeString s ++ rest = '"' :: (encodeBody s ++ '"' :: rest) := by
    simp [encodeString, encodeBody]
  rw [h1, replaceAll_skip_char _ _ _ _ (by decide), replaceAll_quote k v hk,
    replaceAll_encodeBody k v hk hv]
  simp [encodeString, encodeBody]

mutual
/-- The replacement applied to a rendered document is the rendering of the
document with the replacement applied to its string values. -/
theorem replaceAll_render (k v : Str) (hk : jsonPlain k) (hv : jsonPlain v) :
    ∀ (J : JVal) (rest : Str), J.canonical →
      replaceAll (render J ++ rest) (placeholder k) v =
        render (J.mapValues fun s => replaceAll s (placeholder k) v) ++
          replaceAll rest (placeholder k) v
  | JVal.null, rest, _ => by
    simp only [render, JVal.mapValues]
    exact replaceAll_append_of_no_lbrace k v _ rest (by decide)
  | JVal.bool true, rest, _ => by
    simp only [render, JVal.mapValues, if_true]
    exact replaceAll_append_of_no_lbrace k v _ rest (by decide)
  | JVal.bool false, rest, _ => by
    simp only [render, JVal.mapValues]
    exact replaceAll_append_of_no_lbrace k v _ rest (by decide)
  | JVal.num literal, rest, hc => by
    obtain ⟨n, rfl⟩ := hc
    simp only [render, JVal.mapValues]
    exact replaceAll_append_of_no_lbrace k v _ rest (intLit_no_lbrace n)
  | JVal.str s, rest, _ => by
    simp only [render, JVal.mapValues]
    exact replaceAll_encodeString k v hk hv s rest
  | JVal.arr [], rest, _ => by
    simp only [render, JVal.mapValues, mapItems]
    exact replaceAll_append_of_no_lbrace k v _ rest (by decide)
  | JVal.arr (x :: xs), rest, hc => by
    have h1 := replaceAll_render k v hk hv x (renderItems xs ++ ']' :: rest) hc.1
    have h2 := replaceAll_renderItems k v hk hv xs (']' :: rest) hc.2
    simp only [render, JVal.mapValues, mapItems, List.cons_append, List.append_assoc,
      List.singleton_append, List.nil_append]
    rw [replaceAll_skip_char _ _ _ _ (by decide), h1, h2,
      replaceAll_skip_char _ _ _ _ (by decide)]
  | JVal.obj [], rest, _ => by
    simp only [render, JVal.mapValues, mapMembers, List.cons_append, List.nil_append]
    rw [replaceAll_skip_lbrace _ _ _ _ (by decide), replaceAll_skip_char _ _ _ _ (by decide)]
  | JVal.obj ((key, x) :: ms), rest, hc => by
    have h1 := replaceAll_render k v hk hv x (renderMembers ms ++ '}' :: rest) hc.2.1
    have h2 := replaceAll_renderMembers k v hk hv ms ('}' :: rest) hc.2.2
    have hkey := replaceAll_of_no_lbrace k v key hc.1
    have h3 := replaceAll_encodeString k v hk hv key
      (':' :: (render x ++ (renderMembers ms ++ '}' :: rest)))
    have hq : ∃ tl, encodeString key = '"' :: tl := ⟨_, rfl⟩
    obtain ⟨tl, htl⟩ := hq
    simp only [render, JVal.mapValues, mapMembers, List.cons_append, List.append_assoc,
      List.singleton_append, List.nil_append]
    rw [htl, List.cons_append, replaceAll_skip_lbrace _ _ _ _ (by decide), ← List.cons_append,
      ← htl, h3, hkey, replaceAll_skip_char _ _ _ _ (by decide), h1, h2,
      replaceAll_skip_char _ _ _ _ (by decide)]
/-- The replacement applied to rendered array elements. -/
theorem replaceAll_renderItems (k v : Str) (hk : jsonPlain k) (hv : jsonPlain v) :
    ∀ (xs : List JVal) (rest : Str), canonicalItems xs →
      replaceAll (renderItems xs ++ rest) (placeholder k) v =
        renderItems (mapItems (fun s => replaceAll s (placeholder k) v) xs) ++
          replaceAll rest (placeholder k) v
  | [], rest, _ => by
    simp only [renderItems, mapItems, List.nil_append]
  | x :: xs, rest, hc => by
    have h1 := replaceAll_render k v hk hv x (renderItems xs ++ rest) hc.1
    have h2 := replaceAll_renderItems k v hk hv xs rest hc.2
    simp only [renderItems, mapItems, List.cons_append, List.append_assoc]
    rw [replaceAll_skip_char _ _ _ _ (by decide), h1, h2]
/-- The replacement applied to rendered object members. -/
theorem replaceAll_renderMembers (k v : Str) (hk : jsonPlain k) (hv : jsonPlain v) :
    ∀ (ms : List (Str × JVal)) (rest : Str), canonicalMembers ms →
      replaceAll (renderMembers ms ++ rest) (placeholder k) v =
        renderMembers (mapMembers (fun s => replaceAll s (placeholder k) v) ms) ++
          replaceAll rest (placeholder k) v
  | [], rest, _ => by
    simp only [renderMembers, mapMembers, List.nil_append]
  | (key, x) :: ms, rest, hc => by
    have h1 := replaceAll_render k v hk hv x (renderMembers ms ++ rest) hc.2.1
    have h2 := replaceAll_renderMembers k v hk hv ms rest hc.2.2
    have hkey := replaceAll_of_no_lbrace k v key hc.1
    have h3 := replaceAll_encodeString k v hk hv key
      (':' :: (render x ++ (renderMembers ms ++ rest)))
    simp only [renderMembers, mapMembers, List.cons_append, List.append_assoc]
    rw [replaceAll_skip_char _ _ _ _ (by decide), h3, hkey,
      replaceAll_skip_char _ _ _ _ (by decide), h1, h2]
end

/-! ### The replacement loop on the JSON text -/

mutual
theorem canonical_mapValues (f : Str → Str) :
    ∀ (J : JVal), J.canonical → (J.mapValues f).canonical
  | JVal.null, h => by simpa [JVal.mapValues] using h
  | JVal.bool _, h => by simpa [JVal.mapValues] using h
  | JVal.num _, h => by simpa [JVal.mapValues] using h
  | JVal.str _, _ => by simp [JVal.mapValues, JVal.canonical]
  | JVal.arr xs, h => by
    simp only [JVal.mapValues, JVal.canonical] at h ⊢
    exact canonicalItems_mapItems f xs h
  | JVal.obj ms, h => by
    simp only [JVal.mapValues, JVal.canonical] at h ⊢
    exact canonicalMembers_mapMembers f ms h
theorem canonicalItems_mapItems (f : Str → Str) :
    ∀ (xs : List JVal), canonicalItems xs → canonicalItems (mapItems f xs)
  | [], _ => by simp [mapItems, canonicalItems]
  | x :: xs, h => by
    simp only [mapItems, canonicalItems] at h ⊢
    exact ⟨canonical_mapValues f x h.1, canonicalItems_mapItems f xs h.2⟩
theorem canonicalMembers_mapMembers (f : Str → Str) :
    ∀ (ms : List (Str × JVal)), canonicalMembers ms → canonicalMembers (mapMembers f ms)
  | [], _ => by simp [mapMembers, canonicalMembers]
  | (key, x) :: ms, h => by
    simp only [mapMembers, canonicalMembers] at h ⊢
    exact ⟨h.1, canonical_mapValues f x h.2.1, canonicalMembers_mapMembers f ms h.2.2⟩
end

mutual
theorem mapValues_mapValues (f g : Str → Str) :
    ∀ (J : JVal), (J.mapValues f).mapValues g = J.mapValues (fun s => g (f s))
  | JVal.null => by simp [JVal.mapValues]
  | JVal.bool _ => by simp [JVal.mapValues]
  | JVal.num _ => by simp [JVal.mapValues]
  | JVal.str _ => by simp [JVal.mapValues]
  | JVal.arr xs => by
    simp only [JVal.mapValues]
    rw [mapItems_mapItems f g xs]
  | JVal.obj ms => by
    simp only [JVal.mapValues]
    rw [mapMembers_mapMembers f g ms]
theorem mapItems_mapItems (f g : Str → Str) :
    ∀ (xs : List JVal), mapItems g (mapItems f xs) = mapItems (fun s => g (f s)) xs
  | [] => by simp [mapItems]
  | x :: xs => by
    simp only [mapItems]
    rw [mapValues_mapValues f g x, mapItems_mapItems f g xs]
theorem mapMembers_mapMembers (f g : Str → Str) :
    ∀ (ms : List (Str × JVal)),
      mapMembers g (mapMembers f ms) = mapMembers (fun s => g (f s)) ms
  | [] => by simp [mapMembers]
  | (key, x) :: ms => by
    simp only [mapMembers]
    rw [mapValues_mapValues f g x, mapMembers_mapMembers f g ms]
end

mutual
theorem mapValues_same :
    ∀ (J : JVal), J.mapValues (fun s => s) = J
  | JVal.null => by simp [JVal.mapValues]
  | JVal.bool _ => by simp [JVal.mapValues]
  | JVal.num _ => by simp [JVal.mapValues]
  | JVal.str _ => by simp [JVal.mapValues]
  | JVal.arr xs => by
    simp only [JVal.mapValues]
    rw [mapItems_same xs]
  | JVal.obj ms => by
    simp only [JVal.mapValues]
    rw [mapMembers_same ms]
theorem mapItems_same :
    ∀ (xs : List JVal), mapItems (fun s => s) xs = xs
  | [] => by simp [mapItems]
  | x :: xs => by
    simp only [mapItems]
    rw [mapValues_same x, mapItems_same xs]
theorem mapMembers_same :
    ∀ (ms : List (Str × JVal)), mapMembers (fun s => s) ms = ms
  | [] => by simp [mapMembers]
  | (key, x) :: ms => by
    simp only [mapMembers]
    rw [mapValues_same x, mapMembers_same ms]
end

/-- The replacement loop over plain names and values, applied to a rendered
canonical document, is the rendering of the document with the loop applied
to its string values. -/
theorem substituteParameters_render (parameters : Parameters)
    (hp : ∀ p, p ∈ parameters → jsonPlain p.1 ∧ jsonPlain p.2) (J : JVal) (hc : J.canonical) :
    substituteParameters (render J) parameters =
      render (J.mapValues fun s => substituteParameters s parameters) := by
  induction parameters generalizing J with
  | nil =>
    simp only [substituteParameters, List.foldl_nil]
    rw [mapValues_same]
  | cons p ps ih =>
    have hp1 := hp p (by simp)
    have hps : ∀ p2, p2 ∈ ps → jsonPlain p2.1 ∧ jsonPlain p2.2 :=
      fun p2 h => hp p2 (List.mem_cons_of_mem _ h)
    have hstep := replaceAll_render p.1 p.2 hp1.1 hp1.2 J [] hc
    rw [List.append_nil, replaceAll_nil _ _ (placeholder_ne_nil _), List.append_nil] at hstep
    have hc2 := canonical_mapValues (fun s => replaceAll s (placeholder p.1) p.2) J hc
    have := ih hps _ hc2
    simp only [substituteParameters, List.foldl_cons] at this ⊢
    rw [hstep, this, mapValues_mapValues]

theorem parseDocument_render (J : JVal) (hc : J.canonical) :
    parseDocument (render J) = some J := by
  have := (parse_render ((render J).length + 1)).1 J [] hc (Or.inl rfl) (by omega)
  rw [List.append_nil] at this
  rw [parseDocument, this]
  simp [skipSpace]

theorem substituteParameters_of_no_lbrace (parameters : Parameters) (s : Str)
    (hs : '{' ∉ s) : substituteParameters s parameters = s := by
  induction parameters with
  | nil => rfl
  | cons p ps ih =>
    simp only [substituteParameters, List.foldl_cons] at ih ⊢
    rw [replaceAll_of_no_lbrace _ _ _ hs, ih]

theorem substituteParameters_nil (parameters : Parameters) :
    substituteParameters [] parameters = [] :=
  substituteParameters_of_no_lbrace parameters [] (by simp)

theorem lookup_mem {parameters : Parameters} {v value : Str}
    (h : parameters.lookup v = some value) : (v, value) ∈ parameters := by
  induction parameters with
  | nil => simp at h
  | cons p ps ih =>
    obtain ⟨k, val⟩ := p
    rw [List.lookup_cons] at h
    by_cases hk : v = k
    · subst hk
      simp at h
      simp [h]
    · have : (v == k) = false := by simp [hk]
      rw [this] at h
      exact List.mem_cons_of_mem _ (ih h)

/-- A string that is one placeholder `{{v}}` becomes the value of `v`. -/
theorem substituteParameters_placeholder (parameters : Parameters)
    (hp : ∀ p, p ∈ parameters → braceFree p.1 ∧ braceFree p.2) (v value : Str)
    (h : parameters.lookup v = some value) :
    substituteParameters (placeholder v) parameters = value := by
  have hv : braceFree v := (hp _ (lookup_mem h)).1
  induction parameters with
  | nil => simp at h
  | cons p ps ih =>
    obtain ⟨k, val⟩ := p
    have hp1 := hp (k, val) (by simp)
    have hps : ∀ p2, p2 ∈ ps → braceFree p2.1 ∧ braceFree p2.2 :=
      fun p2 h => hp p2 (List.mem_cons_of_mem _ h)
    rw [List.lookup_cons] at h
    simp only [substituteParameters, List.foldl_cons]
    by_cases hk : v = k
    · subst hk
      simp only [beq_self_eq_true, Option.some.injEq] at h
      subst h
      have := replaceAll_placeholder_append v val []
      rw [List.append_nil, replaceAll_nil _ _ (placeholder_ne_nil _), List.append_nil] at this
      rw [this]
      exact substituteParameters_of_no_lbrace ps val hp1.2.1
    · have hbeq : (v == k) = false := by simp [hk]
      rw [hbeq] at h
      have hsame : replaceAll (placeholder v) (placeholder k) val = placeholder v := by
        have hform : placeholder v = '{' :: '{' :: (v ++ '}' :: '}' :: []) := by
          simp [placeholder]
        have hfirst : (placeholder k).isPrefixOf ('{' :: '{' :: (v ++ '}' :: '}' :: []))
            = false := by
          rw [Bool.eq_false_iff, ne_eq, placeholder_prefix_iff k v [] hp1.1.2 hv.2]
          exact hk
        have hrest : '{' ∉ v ++ '}' :: '}' :: [] := by
          intro hm
          rcases List.mem_append.mp hm with h1 | h1
          · exact hv.1 h1
          · simp at h1
        have hsecond : ∃ d tl, v ++ '}' :: '}' :: [] = d :: tl ∧ d ≠ '{' := by
          cases v with
          | nil => exact ⟨'}', _, rfl, by decide⟩
          | cons e es => exact ⟨e, _, rfl, fun he => hv.1 (by simp [he])⟩
        obtain ⟨d, tl, hd, hne⟩ := hsecond
        rw [hform, replaceAll_cons_skip _ _ (placeholder_ne_nil k) _ _ hfirst]
        rw [hd] at hrest ⊢
        rw [replaceAll_skip_lbrace _ _ _ _ hne, replaceAll_of_no_lbrace _ _ _ hrest]
      rw [hsame]
      exact ih hps h

/-! ### Decoding the JSON form of a claims object -/

theorem mapValues_obj (f : Str → Str) (ms : List (Str × JVal)) :
    (JVal.obj ms).mapValues f = JVal.obj (mapMembers f ms) := by
  simp [JVal.mapValues]

theorem mapValues_str (f : Str → Str) (s : Str) :
    (JVal.str s).mapValues f = JVal.str (f s) := by
  simp [JVal.mapValues]

theorem mapValues_num (f : Str → Str) (s : Str) :
    (JVal.num s).mapValues f = JVal.num s := by
  simp [JVal.mapValues]

theorem mapValues_arr (f : Str → Str) (xs : List JVal) :
    (JVal.arr xs).mapValues f = JVal.arr (mapItems f xs) := by
  simp [JVal.mapValues]

theorem mapMembers_nil (f : Str → Str) : mapMembers f [] = [] := by
  simp [mapMembers]

theorem mapMembers_cons (f : Str → Str) (k : Str) (v : JVal) (ms : List (Str × JVal)) :
    mapMembers f ((k, v) :: ms) = (k, v.mapValues f) :: mapMembers f ms := by
  simp [mapMembers]

theorem mapMembers_append (f : Str → Str) (a b : List (Str × JVal)) :
    mapMembers f (a ++ b) = mapMembers f a ++ mapMembers f b := by
  induction a with
  | nil => simp [mapMembers_nil]
  | cons m ms ih =>
    obtain ⟨k, v⟩ := m
    simp [mapMembers_cons, ih]

theorem decodeStringItems_map (f : Str → Str) (l : List Str) :
    decodeStringItems (mapItems f (l.map JVal.str)) = some (l.map f) := by
  induction l with
  | nil => simp [mapItems, decodeStringItems]
  | cons s ss ih =>
    simp only [List.map_cons, mapItems, mapValues_str, decodeStringItems, decodeString, ih]

theorem decode_toJson_permission (f : Str → Str) (p : Permission) :
    Permission.decode { Allow := [] } (p.toJson.mapValues f)
      = some { Allow := p.Allow.map f } := by
  have hk : keyMatches "allow".toList "allow" = true := by decide
  obtain ⟨l⟩ := p
  by_cases hl : l = []
  · subst hl
    simp only [Permission.toJson, stringsMember, if_true, mapValues_obj, mapMembers_nil,
      Permission.decode, List.foldlM_nil, List.map_nil]
    rfl
  · simp only [Permission.toJson, stringsMember, if_neg hl, mapValues_obj, mapMembers_cons,
      mapMembers_nil, mapValues_arr, Permission.decode, List.foldlM_cons, List.foldlM_nil,
      Permission.setMember, hk, if_true, decodeStrings, decodeStringItems_map]
    rfl

theorem decode_toJson_user (f : Str → Str) (hf : f [] = []) (u : User) :
    User.decode UserClaims.zero.User (u.toJson.mapValues f)
      = some { Pub := { Allow := u.Pub.Allow.map f }, Sub := { Allow := u.Sub.Allow.map f },
               IssuerAccount := f u.IssuerAccount } := by
  have k1 : keyMatches "pub".toList "pub" = true := by decide
  have k2 : keyMatches "sub".toList "pub" = false := by decide
  have k3 : keyMatches "sub".toList "sub" = true := by decide
  have k4 : keyMatches "issuer_account".toList "pub" = false := by decide
  have k5 : keyMatches "issuer_account".toList "sub" = false := by decide
  have k6 : keyMatches "issuer_account".toList "issuer_account" = true := by decide
  obtain ⟨pub, sub, ia⟩ := u
  have hp := decode_toJson_permission f pub
  have hs := decode_toJson_permission f sub
  by_cases hia : ia = []
  · subst hia
    simp only [User.toJson, stringMember, if_true, List.append_nil, mapValues_obj,
      mapMembers_cons, mapMembers_nil, User.decode, List.foldlM_cons, List.foldlM_nil,
      User.setMember, k1, k2, k3, UserClaims.zero, hp, hs, Option.map_some', Option.bind_eq_bind,
      Option.some_bind, Bool.false_eq_true, if_false, hf]
    rfl
  · simp only [User.toJson, stringMember, if_neg hia, mapValues_obj, List.cons_append,
      List.nil_append, mapMembers_cons, mapMembers_nil, mapValues_str, User.decode,
      List.foldlM_cons, List.foldlM_nil, User.setMember, k1, k2, k3, k4, k5, k6,
      UserClaims.zero, hp, hs, Option.map_some', Option.bind_eq_bind, Option.some_bind,
      Bool.false_eq_true, if_false, if_true, decodeString]
    rfl

/-- Decoding the JSON form of a claims object, with `f` applied to its string
values, gives the claims object with `f` applied to its string leaves. -/
theorem decode_toJson_claims (f : Str → Str) (hf : f [] = []) (c : UserClaims)
    (h1 : -(2 : Int) ^ 63 ≤ c.ClaimsData.Expires) (h2 : c.ClaimsData.Expires < (2 : Int) ^ 63) :
    UserClaims.decode (c.toJson.mapValues f) = some (c.mapLeaves f) := by
  have a1 : keyMatches "aud".toList "aud" = true := by decide
  have e1 : keyMatches "exp".toList "aud" = false := by decide
  have e2 : keyMatches "exp".toList "exp" = true := by decide
  have i1 : keyMatches "iss".toList "aud" = false := by decide
  have i2 : keyMatches "iss".toList "exp" = false := by decide
  have i3 : keyMatches "iss".toList "iss" = true := by decide
  have s1 : keyMatches "sub".toList "aud" = false := by decide
  have s2 : keyMatches "sub".toList "exp" = false := by decide
  have s3 : keyMatches "sub".toList "iss" = false := by decide
  have s4 : keyMatches "sub".toList "sub" = true := by decide
  have n1 : keyMatches "nats".toList "aud" = false := by decide
  have n2 : keyMatches "nats".toList "exp" = false := by decide
  have n3 : keyMatches "nats".toList "iss" = false := by decide
  have n4 : keyMatches "nats".toList "sub" = false := by decide
  have n5 : keyMatches "nats".toList "nats" = true := by decide
  obtain ⟨⟨aud, exp, iss, sub⟩, user⟩ := c
  have hu := decode_toJson_user f hf user
  have hexp := parseInt64_intLit exp h1 h2
  have step1 : ∀ c0 : UserClaims, c0.ClaimsData.Audience = [] →
      (mapMembers f (stringMember "aud" aud)).foldlM UserClaims.setMember c0 =
        some { c0 with ClaimsData := { c0.ClaimsData with Audience := f aud } } := by
    intro c0 h0
    by_cases h : aud = []
    · subst h
      simp only [stringMember, if_true, mapMembers_nil, List.foldlM_nil, hf]
      rw [← h0]
      rfl
    · simp only [stringMember, if_neg h, mapMembers_cons, mapMembers_nil, mapValues_str,
        List.foldlM_cons, List.foldlM_nil, UserClaims.setMember, a1, if_true, decodeString,
        Option.map_some', Option.bind_eq_bind, Option.some_bind]
      rfl
  have step2 : ∀ c0 : UserClaims, c0.ClaimsData.Expires = 0 →
      (mapMembers f (intMember "exp" exp)).foldlM UserClaims.setMember c0 =
        some { c0 with ClaimsData := { c0.ClaimsData with Expires := exp } } := by
    intro c0 h0
    by_cases h : exp = 0
    · subst h
      simp only [intMember, if_true, mapMembers_nil, List.foldlM_nil]
      rw [← h0]
      rfl
    · simp only [intMember, if_neg h, mapMembers_cons, mapMembers_nil, mapValues_num,
        List.foldlM_cons, List.foldlM_nil, UserClaims.setMember, e1, e2, if_true, decodeInt,
        hexp, Option.map_some', Option.bind_eq_bind, Option.some_bind, Bool.false_eq_true,
        if_false]
      rfl
  have step3 : ∀ c0 : UserClaims, c0.ClaimsData.Issuer = [] →
      (mapMembers f (stringMember "iss" iss)).foldlM UserClaims.setMember c0 =
        some { c0 with ClaimsData := { c0.ClaimsData with Issuer := f iss } } := by
    intro c0 h0
    by_cases h : iss = []
    · subst h
      simp only [stringMember, if_true, mapMembers_nil, List.foldlM_nil, hf]
      rw [← h0]
      rfl
    · simp only [stringMember, if_neg h, mapMembers_cons, mapMembers_nil, mapValues_str,
        List.foldlM_cons, List.foldlM_nil, UserClaims.setMember, i1, i2, i3, if_true,
        decodeString, Option.map_some', Option.bind_eq_bind, Option.some_bind,
        Bool.false_eq_true, if_false]
      rfl
  have step4 : ∀ c0 : UserClaims, c0.ClaimsData.Subject = [] →
      (mapMembers f (stringMember "sub" sub)).foldlM UserClaims.setMember c0 =
        some { c0 with ClaimsData := { c0.ClaimsData with Subject := f sub } } := by
    intro c0 h0
    by_cases h : sub = []
    · subst h
      simp only [stringMember, if_true, mapMembers_nil, List.foldlM_nil, hf]
      rw [← h0]
      rfl
    · simp only [stringMember, if_neg h, mapMembers_cons, mapMembers_nil, mapValues_str,
        List.foldlM_cons, List.foldlM_nil, UserClaims.setMember, s1, s2, s3, s4, if_true,
        decodeString, Option.map_some', Option.bind_eq_bind, Option.some_bind,
        Bool.false_eq_true, if_false]
      rfl
  have step5 : ∀ c0 : UserClaims, c0.User = UserClaims.zero.User →
      (mapMembers f [("nats".toList, user.toJson)]).foldlM UserClaims.setMember c0 =
        some { c0 with User :=
          { Pub := { Allow := user.Pub.Allow.map f }, Sub := { Allow := user.Sub.Allow.map f },
            IssuerAccount := f user.IssuerAccount } } := by
    intro c0 h0
    simp only [mapMembers_cons, mapMembers_nil, List.foldlM_cons, List.foldlM_nil,
      UserClaims.setMember, n1, n2, n3, n4, n5, h0, hu, if_true, Option.map_some',
      Option.bind_eq_bind, Option.some_bind, Bool.false_eq_true, if_false]
    rfl
  simp only [UserClaims.toJson, mapValues_obj, mapMembers_append, UserClaims.decode,
    List.foldlM_append, Option.bind_eq_bind]
  rw [step1 _ rfl]
  simp only [Option.some_bind]
  rw [step2 _ rfl]
  simp only [Option.some_bind]
  rw [step3 _ rfl]
  simp only [Option.some_bind]
  rw [step4 _ rfl]
  simp only [Option.some_bind]
  rw [step5]
  · rfl
  · rfl

/-! ### The JSON form of a claims object is canonical -/

theorem canonicalMembers_append :
    ∀ (a b : List (Str × JVal)), canonicalMembers a → canonicalMembers b →
      canonicalMembers (a ++ b)
  | [], _, _, hb => by simpa using hb
  | (key, x) :: a, b, ha, hb => by
    simp only [List.cons_append, canonicalMembers] at ha ⊢
    exact ⟨ha.1, ha.2.1, canonicalMembers_append a b ha.2.2 hb⟩

theorem canonicalItems_strings (l : List Str) : canonicalItems (l.map JVal.str) := by
  induction l with
  | nil => simp [canonicalItems]
  | cons s l ih => simp [canonicalItems, JVal.canonical, ih]

theorem canonicalMembers_stringMember (name : String) (s : Str) (h : '{' ∉ name.toList) :
    canonicalMembers (stringMember name s) := by
  unfold stringMember
  split
  · simp [canonicalMembers]
  · simp only [canonicalMembers, JVal.canonical, and_true]
    exact h

theorem canonicalMembers_intMember (name : String) (n : Int) (h : '{' ∉ name.toList) :
    canonicalMembers (intMember name n) := by
  unfold intMember
  split
  · simp [canonicalMembers]
  · simp only [canonicalMembers, JVal.canonical, and_true]
    exact ⟨h, n, rfl⟩

theorem canonical_toJson_permission (p : Permission) : p.toJson.canonical := by
  unfold Permission.toJson stringsMember
  split
  · simp [JVal.canonical, canonicalMembers]
  · simp only [JVal.canonical, canonicalMembers, and_true]
    exact ⟨by decide, canonicalItems_strings p.Allow⟩

theorem canonical_toJson_user (u : User) : u.toJson.canonical := by
  unfold User.toJson
  simp only [JVal.canonical]
  apply canonicalMembers_append
  · simp only [canonicalMembers, and_true]
    exact ⟨by decide, canonical_toJson_permission u.Pub, by decide,
      canonical_toJson_permission u.Sub⟩
  · exact canonicalMembers_stringMember _ _ (by decide)

theorem canonical_toJson_claims (c : UserClaims) : c.toJson.canonical := by
  unfold UserClaims.toJson
  simp only [JVal.canonical]
  refine canonicalMembers_append _ _ (canonicalMembers_append _ _
    (canonicalMembers_append _ _ (canonicalMembers_append _ _ ?_ ?_) ?_) ?_) ?_
  · exact canonicalMembers_stringMember _ _ (by decide)
  · exact canonicalMembers_intMember _ _ (by decide)
  · exact canonicalMembers_stringMember _ _ (by decide)
  · exact canonicalMembers_stringMember _ _ (by decide)
  · simp only [canonicalMembers, and_true]
    exact ⟨by decide, canonical_toJson_user c.User⟩

theorem UserClaims.leaves_mapLeaves (f : Str → Str) (c : UserClaims) :
    (c.mapLeaves f).leaves = c.leaves.map f := by
  simp [UserClaims.leaves, UserClaims.mapLeaves]

/-- The text after the replacement loop, for plain names and values, decodes to
the template with the loop applied to every string leaf. -/
theorem unmarshal_substituteParameters (template : UserClaims) (parameters : Parameters)
    (hp : ∀ p, p ∈ parameters → jsonPlain p.1 ∧ jsonPlain p.2)
    (h1 : -(2 : Int) ^ 63 ≤ template.ClaimsData.Expires)
    (h2 : template.ClaimsData.Expires < (2 : Int) ^ 63) :
    unmarshal (substituteParameters (marshal template) parameters)
      = some (template.mapLeaves fun s => substituteParameters s parameters) := by
  unfold unmarshal marshal
  rw [substituteParameters_render parameters hp _ (canonical_toJson_claims template),
    parseDocument_render _ (canonical_mapValues _ _ (canonical_toJson_claims template))]
  exact decode_toJson_claims _ (substituteParameters_nil parameters) template h1 h2

/-! # The claims -/

/-- C1 as stated fails: the template with audience `{{a}}` and the map
`a ↦ {{b}}` cover every extracted name (`a`), yet the substituted text still
holds the placeholder `{{b}}`, and `applyTemplateParameters` returns it. -/
theorem substituteParameters_leaves_placeholder :
    (∀ n, n ∈ findTemplateVariables (marshal (demoTemplate (placeholder ['a']))) →
      Parameters.has [(['a'], placeholder ['b'])] n = true) ∧
    findTemplateVariables
      (substituteParameters (marshal (demoTemplate (placeholder ['a'])))
        [(['a'], placeholder ['b'])]) = [['b']] ∧
    applyTemplateParameters (demoTemplate (placeholder ['a'])) [(['a'], placeholder ['b'])]
      = Except.ok (demoTemplate (placeholder ['b'])) := by
  decide

/-- C1, amended: when the parameter map holds every extracted name, no
parameter name or value contains `{` or `}`, and every placeholder of the
serialized template is written without white space around its name, the
substituted text has no placeholder left. -/
theorem substituteParameters_no_placeholder_left (template : UserClaims)
    (parameters : Parameters)
    (hcover : ∀ n, n ∈ findTemplateVariables (marshal template) → parameters.has n = true)
    (hbrace : ∀ p, p ∈ parameters → braceFree p.1 ∧ braceFree p.2)
    (htight : ∀ r, r ∈ placeholders (marshal template) → trimSpace r = r) :
    findTemplateVariables (substituteParameters (marshal template) parameters) = [] := by
  have hkey : ∀ r, r ∈ placeholders (marshal template) → r ≠ [] → parameters.has r = true := by
    intro r hr hne
    apply hcover
    rw [findTemplateVariables_eq, mem_firstOccurrences, placeholderNames, List.mem_filter]
    refine ⟨List.mem_map.mpr ⟨r, hr, htight r hr⟩, by simpa using hne⟩
  have hbf : ∀ r, r ∈ placeholders (marshal template) → braceFree r := by
    intro r hr
    by_cases hne : r = []
    · subst hne; exact ⟨by simp, by simp⟩
    · have := hkey r hr hne
      simp only [Parameters.has, List.any_eq_true, beq_iff_eq] at this
      obtain ⟨p, hp, hpr⟩ := this
      rw [← hpr]
      exact (hbrace p hp).1
  rw [findTemplateVariables_eq, placeholderNames,
    placeholders_substituteParameters parameters hbrace _ hbf]
  have hnil : List.filter (fun n => decide (n ≠ []))
      (List.map trimSpace
        (List.filter (fun r => !parameters.has r) (placeholders (marshal template)))) = [] := by
    rw [List.filter_eq_nil_iff]
    intro n hn
    rw [List.mem_map] at hn
    obtain ⟨r, hr, rfl⟩ := hn
    rw [List.mem_filter] at hr
    rw [htight r hr.1]
    by_cases hne : r = []
    · simp [hne]
    · have := hkey r hr.1 hne
      rw [this] at hr
      simp at hr
  rw [hnil]
  rfl

/-- C1, amended, at the template with audience `{{region}}.x` and the map
`region ↦ eu`. -/
theorem substituteParameters_no_placeholder_left_witness :
    findTemplateVariables
      (substituteParameters (marshal (demoTemplate (placeholder "region".toList ++ ['.', 'x'])))
        [("region".toList, "eu".toList)]) = [] :=
  substituteParameters_no_placeholder_left
    (demoTemplate (placeholder "region".toList ++ ['.', 'x']))
    [("region".toList, "eu".toList)] (by decide) (by decide) (by decide)

/-- C4: for every text, `findTemplateVariables` returns every placeholder name
of the text exactly once (the result has no duplicates and holds the same
names as the scan), two names standing in the order of their first
occurrences in the left-to-right scan; names are compared character for
character, so `a` and `A` are two names. -/
theorem findTemplateVariables_first_occurrence_order (templateStr : Str) :
    (findTemplateVariables templateStr).Nodup ∧
    (∀ n, n ∈ findTemplateVariables templateStr ↔ n ∈ placeholderNames templateStr) ∧
    (∀ a b, (findTemplateVariables templateStr).indexOf a <
          (findTemplateVariables templateStr).indexOf b ↔
        (placeholderNames templateStr).indexOf a < (placeholderNames templateStr).indexOf b) ∧
    findTemplateVariables (placeholder ['a'] ++ placeholder ['A'] ++ placeholder ['a'])
      = [['a'], ['A']] := by
  rw [findTemplateVariables_eq]
  exact ⟨nodup_firstOccurrences _, mem_firstOccurrences _,
    indexOf_firstOccurrences_lt _, by decide⟩

/-- C5: when the first `{{` of a text starts at `p`, the first `}}` at or after
`p + 2` starts at `q`, and the text between `p + 2` and `q` is not blank, the
first name `findTemplateVariables` returns is that text without its
surrounding white space. -/
theorem findTemplateVariables_head (templateStr : Str) (p q : Nat)
    (hp : templateStr[p]? = some '{' ∧ templateStr[p + 1]? = some '{')
    (hfirst : ∀ p2, p2 < p → ¬ (templateStr[p2]? = some '{' ∧ templateStr[p2 + 1]? = some '{'))
    (hq : p + 2 ≤ q ∧ templateStr[q]? = some '}' ∧ templateStr[q + 1]? = some '}')
    (hqfirst : ∀ q2, p + 2 ≤ q2 → q2 < q →
      ¬ (templateStr[q2]? = some '}' ∧ templateStr[q2 + 1]? = some '}'))
    (hblank : (slice templateStr (p + 2) q).all isSpace = false) :
    (findTemplateVariables templateStr).head? =
      some (trimSpace (slice templateStr (p + 2) q)) := by
  have hne : trimSpace (slice templateStr (p + 2) q) ≠ [] := by
    intro h
    rw [trimSpace_eq_nil_iff, hblank] at h
    exact absurd h (by simp)
  rw [findTemplateVariables_eq, head_firstOccurrences, placeholderNames,
    placeholders_first templateStr p q hp hfirst hq hqfirst]
  simp [hne]

/-- C5, at the text `ab{{ n }}{{m}}`: the first `{{` starts at 2, the next
`}}` at 7, and the first name returned is `n`. -/
theorem findTemplateVariables_head_witness :
    (findTemplateVariables
        ("ab".toList ++ placeholder " n ".toList ++ placeholder "m".toList)).head? =
      some (trimSpace (slice
        ("ab".toList ++ placeholder " n ".toList ++ placeholder "m".toList) (2 + 2) 7)) ∧
    trimSpace (slice
        ("ab".toList ++ placeholder " n ".toList ++ placeholder "m".toList) (2 + 2) 7) = ['n'] :=
  ⟨findTemplateVariables_head
      ("ab".toList ++ placeholder " n ".toList ++ placeholder "m".toList) 2 7
      (by decide) (by decide) (by decide) (by decide) (by decide),
    by decide⟩

/-- C2: `applyTemplateParameters` fails with a missing-parameter error exactly
when some name extracted from the serialized template is not a key of the
parameter map; the names the error lists are the extracted names that are
not keys, in the order of extraction, each once, none of them supplied, and
all extracted names when the map is empty. -/
theorem applyTemplateParameters_missing_parameters (template : UserClaims)
    (parameters : Parameters) :
    ((∃ e names, applyTemplateParameters template parameters = Except.error e ∧
        e.missingNames = some names) ↔
      ∃ n, n ∈ findTemplateVariables (marshal template) ∧ parameters.has n = false) ∧
    (∀ e names, applyTemplateParameters template parameters = Except.error e →
      e.missingNames = some names →
        names = (findTemplateVariables (marshal template)).filter
          (fun n => !parameters.has n) ∧
        names.Nodup ∧ (∀ n, n ∈ names → parameters.has n = false) ∧
        (parameters = [] → names = findTemplateVariables (marshal template))) := by
  have hnodup : (findTemplateVariables (marshal template)).Nodup := by
    rw [findTemplateVariables_eq]; exact nodup_firstOccurrences _
  by_cases hA : 0 < (findTemplateVariables (marshal template)).length ∧ parameters.length = 0
  · have hp : parameters = [] := List.length_eq_zero.mp hA.2
    have hres : applyTemplateParameters template parameters =
        Except.error (Error.templateRequiresParameters
          (findTemplateVariables (marshal template))) := by
      simp only [applyTemplateParameters, if_pos hA]
    have hfil : (findTemplateVariables (marshal template)).filter
        (fun n => !parameters.has n) = findTemplateVariables (marshal template) := by
      subst hp
      simp [Parameters.has]
    refine ⟨⟨fun _ => ?_, fun _ => ⟨_, _, hres, rfl⟩⟩, ?_⟩
    · obtain ⟨n, hn⟩ := List.exists_mem_of_length_pos hA.1
      exact ⟨n, hn, by subst hp; simp [Parameters.has]⟩
    · intro e names he hm
      rw [hres] at he
      cases he
      simp only [Error.missingNames, Option.some.injEq] at hm
      subst hm
      refine ⟨hfil.symm, hnodup, ?_, fun _ => rfl⟩
      intro n _
      subst hp
      simp [Parameters.has]
  · by_cases hB : 0 < (findTemplateVariables (marshal template)).length ∧
        0 < ((findTemplateVariables (marshal template)).filter
          (fun n => !parameters.has n)).length
    · have hres : applyTemplateParameters template parameters =
          Except.error (Error.missingRequiredTemplateParameters
            ((findTemplateVariables (marshal template)).filter
              (fun n => !parameters.has n))) := by
        simp only [applyTemplateParameters, if_neg hA, if_pos hB]
      refine ⟨⟨fun _ => ?_, fun _ => ⟨_, _, hres, rfl⟩⟩, ?_⟩
      · obtain ⟨n, hn⟩ := List.exists_mem_of_length_pos hB.2
        rw [List.mem_filter] at hn
        exact ⟨n, hn.1, by simpa using hn.2⟩
      · intro e names he hm
        rw [hres] at he
        cases he
        simp only [Error.missingNames, Option.some.injEq] at hm
        subst hm
        refine ⟨rfl, hnodup.filter _, ?_, ?_⟩
        · intro n hn
          rw [List.mem_filter] at hn
          simpa using hn.2
        · intro hp
          subst hp
          simp [Parameters.has]
    · have hres : ∀ e names, applyTemplateParameters template parameters = Except.error e →
          e.missingNames = some names → False := by
        intro e names he hm
        simp only [applyTemplateParameters, if_neg hA, if_neg hB] at he
        split at he
        · cases he
        · cases he
          simp [Error.missingNames] at hm
      refine ⟨⟨fun ⟨e, names, he, hm⟩ => (hres e names he hm).elim, fun ⟨n, hn, hhas⟩ => ?_⟩,
        fun e names he hm => (hres e names he hm).elim⟩
      exfalso
      apply hB
      have hmem : n ∈ (findTemplateVariables (marshal template)).filter
          (fun n => !parameters.has n) := by
        rw [List.mem_filter]; exact ⟨hn, by simp [hhas]⟩
      exact ⟨List.length_pos_of_mem hn, List.length_pos_of_mem hmem⟩

/-- C6: in a token built by `generateUserJWT` the issuer is the public key of
the key pair that signed it, and that key pair comes from the stored seed of
the signing key named by `UseSigningKey` when the field is not empty, from
the account's own stored seed otherwise; this holds for every claims object
handed in, whatever issuer it carries. -/
theorem generateUserJWT_issuer (env : Env) (storage storage2 : Storage)
    (issue : IssueUserStorage) (claims : UserClaims) (token : Token) (expiresAt : Int)
    (h : generateUserJWT env storage issue claims = (Except.ok (token, expiresAt), storage2)) :
    ∃ seed,
      storage.entries.lookup
        (if issue.UseSigningKey = [] then getAccountNkeyPath issue.Operator issue.Account
          else getAccountSigningNkeyPath issue.Operator issue.Account issue.UseSigningKey)
        = some (Entry.nkey { Seed := seed }) ∧
      env.FromSeed seed = Except.ok token.signedBy ∧
      env.PublicKey token.signedBy = Except.ok token.claims.ClaimsData.Issuer := by
  obtain ⟨accountNkey, _, _, seed, signingPublicKey, _, _, _, hacc, _, _, hseed, hfrom, hpub,
    _, _, _, hclaims, _, _⟩ := generateUserJWT_ok h
  refine ⟨seed, ?_, hfrom, ?_⟩
  · by_cases hu : issue.UseSigningKey = []
    · rw [if_pos hu] at hseed ⊢
      rw [hseed, hacc]
    · rw [if_neg hu] at hseed ⊢
      exact hseed
  · rw [hclaims, stampClaims_issuer]
    exact hpub

/-- C6, at a store with a signing key `sk1` and a template whose issuer is
`someone`: the token is signed with the seed of `sk1` and its issuer is the
public key of that seed. -/
theorem generateUserJWT_issuer_witness :
    ∃ seed,
      (demoStorage (demoIssue "sk1".toList 0 UserClaims.zero)).entries.lookup
        (if (demoIssue "sk1".toList 0 UserClaims.zero).UseSigningKey = [] then
            getAccountNkeyPath "op1".toList "acc1".toList
          else getAccountSigningNkeyPath "op1".toList "acc1".toList "sk1".toList)
        = some (Entry.nkey { Seed := seed }) ∧
      (demoEnv ⟨1700000000, 0⟩).FromSeed seed = Except.ok { handle := "SAsig".toList } ∧
      (demoEnv ⟨1700000000, 0⟩).PublicKey { handle := "SAsig".toList } =
        Except.ok "PSAsig".toList :=
  generateUserJWT_issuer (demoEnv ⟨1700000000, 0⟩)
    (demoStorage (demoIssue "sk1".toList 0 UserClaims.zero))
    (demoStorage (demoIssue "sk1".toList 0 UserClaims.zero))
    (demoIssue "sk1".toList 0 UserClaims.zero)
    { UserClaims.zero with
      ClaimsData := { UserClaims.zero.ClaimsData with Issuer := "someone".toList } }
    { claims :=
        { ClaimsData :=
            { Audience := [], Expires := 0, Issuer := "PSAsig".toList,
              Subject := "PSUusr".toList },
          User := { Pub := { Allow := [] }, Sub := { Allow := [] },
                    IssuerAccount := "PSAacc".toList } },
      signedBy := { handle := "SAsig".toList } }
    0 (by decide)

/-- C7: in a token built by `generateUserJWT` the subject is the public key
derived from the stored seed of the user named in the issue record, for every
claims object handed in. -/
theorem generateUserJWT_subject (env : Env) (storage storage2 : Storage)
    (issue : IssueUserStorage) (claims : UserClaims) (token : Token) (expiresAt : Int)
    (h : generateUserJWT env storage issue claims = (Except.ok (token, expiresAt), storage2)) :
    ∃ userNkey userKeyPair,
      storage.entries.lookup (getUserNkeyPath issue.Operator issue.Account issue.User)
        = some (Entry.nkey userNkey) ∧
      env.FromSeed userNkey.Seed = Except.ok userKeyPair ∧
      env.PublicKey userKeyPair = Except.ok token.claims.ClaimsData.Subject := by
  obtain ⟨_, _, _, _, _, userNkey, userKeyPair, userPublicKey, _, _, _, _, _, _,
    huser, hfrom, hpub, hclaims, _, _⟩ := generateUserJWT_ok h
  refine ⟨userNkey, userKeyPair, huser, hfrom, ?_⟩
  rw [hclaims, stampClaims_subject]
  exact hpub

/-- C7, at a claims object whose subject is `intruder`: the subject of the
token is the public key of the stored seed of `u1`. -/
theorem generateUserJWT_subject_witness :
    ∃ userNkey userKeyPair,
      (demoStorage (demoIssue [] 0 UserClaims.zero)).entries.lookup
          (getUserNkeyPath "op1".toList "acc1".toList "u1".toList)
        = some (Entry.nkey userNkey) ∧
      (demoEnv ⟨1700000000, 0⟩).FromSeed userNkey.Seed = Except.ok userKeyPair ∧
      (demoEnv ⟨1700000000, 0⟩).PublicKey userKeyPair = Except.ok "PSUusr".toList :=
  generateUserJWT_subject (demoEnv ⟨1700000000, 0⟩)
    (demoStorage (demoIssue [] 0 UserClaims.zero))
    (demoStorage (demoIssue [] 0 UserClaims.zero))
    (demoIssue [] 0 UserClaims.zero)
    { UserClaims.zero with
      ClaimsData := { UserClaims.zero.ClaimsData with Subject := "intruder".toList } }
    { claims :=
        { ClaimsData :=
            { Audience := [], Expires := 0, Issuer := "PSAacc".toList,
              Subject := "PSUusr".toList },
          User := { Pub := { Allow := [] }, Sub := { Allow := [] }, IssuerAccount := [] } },
      signedBy := { handle := "SAacc".toList } }
    0 (by decide)

/-- C8: when `UseSigningKey` is not empty and no signing key of that name is
stored under the account, `generateUserJWT` returns an error for every claims
object, and so does `generateUserCreds` for every request that reads this
issue record: no token is produced, signed by the account key or otherwise. -/
theorem generateUserJWT_missing_signing_key (env : Env) (storage : Storage)
    (issue : IssueUserStorage)
    (hkey : issue.UseSigningKey ≠ [])
    (habsent : storage.entries.lookup
      (getAccountSigningNkeyPath issue.Operator issue.Account issue.UseSigningKey) = none) :
    (∀ claims, ∃ err, (generateUserJWT env storage issue claims).1 = Except.error err) ∧
    (∀ params : UserCredsParameters,
      storage.entries.lookup (getUserIssuePath params.Operator params.Account params.User)
          = some (Entry.userIssue issue) →
        ∃ err, (generateUserCreds env storage params).1 = Except.error err) := by
  refine ⟨fun claims =>
    generateUserJWT_fails_without_signing_key env storage issue claims hkey habsent, ?_⟩
  intro params hissue
  have hread := readUserIssue_spec storage
    { Operator := params.Operator, Account := params.Account, User := params.User,
      UseSigningKey := [], ClaimsTemplate := UserClaims.zero, ExpirationS := 0 }
  unfold generateUserCreds
  split
  · exact ⟨_, rfl⟩
  · exact ⟨_, rfl⟩
  · rename_i issue2 st1 heq
    rw [heq] at hread
    have hi := hread.2 issue2 rfl
    simp only at hi
    rw [hissue] at hi
    simp only [Option.some.injEq, Entry.userIssue.injEq] at hi
    subst hi
    split
    · exact ⟨_, rfl⟩
    · rename_i processedClaims _
      have hfail := generateUserJWT_fails_without_signing_key env st1 issue processedClaims
        hkey (by rw [hread.1]; exact habsent)
      obtain ⟨err, herr⟩ := hfail
      split
      · exact ⟨_, rfl⟩
      · rename_i heq2
        rw [heq2] at herr
        simp at herr

/-- C8, at a store whose only signing key is `sk1` and an issue record that
names `sk2`. -/
theorem generateUserJWT_missing_signing_key_witness :
    (∀ claims, ∃ err,
      (generateUserJWT (demoEnv ⟨1700000000, 0⟩)
        (demoStorage (demoIssue "sk2".toList 0 UserClaims.zero))
        (demoIssue "sk2".toList 0 UserClaims.zero) claims).1 = Except.error err) ∧
    (∀ params : UserCredsParameters,
      (demoStorage (demoIssue "sk2".toList 0 UserClaims.zero)).entries.lookup
          (getUserIssuePath params.Operator params.Account params.User)
          = some (Entry.userIssue (demoIssue "sk2".toList 0 UserClaims.zero)) →
        ∃ err, (generateUserCreds (demoEnv ⟨1700000000, 0⟩)
          (demoStorage (demoIssue "sk2".toList 0 UserClaims.zero)) params).1
            = Except.error err) :=
  generateUserJWT_missing_signing_key (demoEnv ⟨1700000000, 0⟩)
    (demoStorage (demoIssue "sk2".toList 0 UserClaims.zero))
    (demoIssue "sk2".toList 0 UserClaims.zero) (by decide) (by decide)

/-- C9: when `generateUserJWT` succeeds with a non-empty `UseSigningKey`, the
`IssuerAccount` of the token is the public key derived from the account's own
stored seed. -/
theorem generateUserJWT_issuerAccount (env : Env) (storage storage2 : Storage)
    (issue : IssueUserStorage) (claims : UserClaims) (token : Token) (expiresAt : Int)
    (h : generateUserJWT env storage issue claims = (Except.ok (token, expiresAt), storage2))
    (hkey : issue.UseSigningKey ≠ []) :
    ∃ accountNkey accountKeyPair,
      storage.entries.lookup (getAccountNkeyPath issue.Operator issue.Account)
        = some (Entry.nkey accountNkey) ∧
      env.FromSeed accountNkey.Seed = Except.ok accountKeyPair ∧
      env.PublicKey accountKeyPair = Except.ok token.claims.User.IssuerAccount := by
  obtain ⟨accountNkey, accountKeyPair, accountPublicKey, _, _, _, _, _, hacc, hfrom, hpub,
    _, _, _, _, _, _, hclaims, _, _⟩ := generateUserJWT_ok h
  refine ⟨accountNkey, accountKeyPair, hacc, hfrom, ?_⟩
  rw [hclaims, stampClaims_issuerAccount _ _ _ _ _ _ hkey]
  exact hpub

/-- C9, at a store with the signing key `sk1`: the token is signed by `sk1`
and its `IssuerAccount` is the public key of the seed of `acc1`. -/
theorem generateUserJWT_issuerAccount_witness :
    ∃ accountNkey accountKeyPair,
      (demoStorage (demoIssue "sk1".toList 0 UserClaims.zero)).entries.lookup
          (getAccountNkeyPath "op1".toList "acc1".toList)
        = some (Entry.nkey accountNkey) ∧
      (demoEnv ⟨1700000000, 0⟩).FromSeed accountNkey.Seed = Except.ok accountKeyPair ∧
      (demoEnv ⟨1700000000, 0⟩).PublicKey accountKeyPair = Except.ok "PSAacc".toList :=
  generateUserJWT_issuerAccount (demoEnv ⟨1700000000, 0⟩)
    (demoStorage (demoIssue "sk1".toList 0 UserClaims.zero))
    (demoStorage (demoIssue "sk1".toList 0 UserClaims.zero))
    (demoIssue "sk1".toList 0 UserClaims.zero) UserClaims.zero
    { claims :=
        { ClaimsData :=
            { Audience := [], Expires := 0, Issuer := "PSAsig".toList,
              Subject := "PSUusr".toList },
          User := { Pub := { Allow := [] }, Sub := { Allow := [] },
                    IssuerAccount := "PSAacc".toList } },
      signedBy := { handle := "SAsig".toList } }
    0 (by decide) (by decide)

/-- C10, evaluated at `ExpirationS = 9223372037` and the Unix time
1700000000: the product `time.Duration(ExpirationS) * time.Second` wraps
around to a negative duration, and `generateUserJWT` sets and returns the
expiry -7523372037, which is neither `now + ExpirationS` nor later than
`now`. -/
theorem generateUserJWT_expiry_wraps :
    generateUserJWT (demoEnv ⟨1700000000, 0⟩)
        (demoStorage (demoIssue [] 9223372037 UserClaims.zero))
        (demoIssue [] 9223372037 UserClaims.zero) UserClaims.zero =
      (Except.ok
        ({ claims :=
            { ClaimsData :=
                { Audience := [], Expires := -7523372037, Issuer := "PSAacc".toList,
                  Subject := "PSUusr".toList },
              User := { Pub := { Allow := [] }, Sub := { Allow := [] }, IssuerAccount := [] } },
           signedBy := { handle := "SAacc".toList } },
          -7523372037),
        demoStorage (demoIssue [] 9223372037 UserClaims.zero)) ∧
    (-7523372037 : Int) ≠ (demoEnv ⟨1700000000, 0⟩).Now.Unix + 9223372037 ∧
    (-7523372037 : Int) < (demoEnv ⟨1700000000, 0⟩).Now.Unix := by
  decide

/-- C3 as stated fails: the template with audience `{{v}}` and the map that
gives `v` the two-character value `\\` (two backslashes) cover every extracted
name, the audience leaf is exactly the placeholder `{{v}}`, yet the claims
object returned by `applyTemplateParameters` has the one-character audience
`\`: the value is pasted into the JSON text unescaped and read back as an
escape sequence. -/
theorem applyTemplateParameters_value_read_as_escape :
    (∀ n, n ∈ findTemplateVariables (marshal (demoTemplate (placeholder ['v']))) →
      Parameters.has [(['v'], ['\\', '\\'])] n = true) ∧
    (demoTemplate (placeholder ['v'])).leaves[0]? = some (placeholder ['v']) ∧
    List.lookup ['v'] [(['v'], ['\\', '\\'])] = some ['\\', '\\'] ∧
    applyTemplateParameters (demoTemplate (placeholder ['v'])) [(['v'], ['\\', '\\'])]
      = Except.ok (demoTemplate ['\\']) ∧
    (demoTemplate ['\\']).leaves[0]? ≠ some ['\\', '\\'] := by
  decide

/-- C3, amended: when the parameter map holds every extracted name and every
parameter name and value is free of `{` and `}` and made of characters that
JSON writes and reads as they are (no quote, backslash, control character or
escaped HTML character), `applyTemplateParameters` returns a claims object
with as many string leaves as the template, and each leaf of the template
that is exactly one placeholder `{{v}}` is there equal to `parameters[v]`. -/
theorem applyTemplateParameters_substitutes_leaf (template : UserClaims)
    (parameters : Parameters)
    (hcover : ∀ n, n ∈ findTemplateVariables (marshal template) → parameters.has n = true)
    (hplain : ∀ p, p ∈ parameters →
      (braceFree p.1 ∧ jsonPlain p.1) ∧ (braceFree p.2 ∧ jsonPlain p.2))
    (hmin : -(2 : Int) ^ 63 ≤ template.ClaimsData.Expires)
    (hmax : template.ClaimsData.Expires < (2 : Int) ^ 63) :
    ∃ processed, applyTemplateParameters template parameters = Except.ok processed ∧
      processed.leaves.length = template.leaves.length ∧
      ∀ (i : Nat) (v value : Str), template.leaves[i]? = some (placeholder v) →
        parameters.lookup v = some value → processed.leaves[i]? = some value := by
  have hjson : ∀ p, p ∈ parameters → jsonPlain p.1 ∧ jsonPlain p.2 :=
    fun p hp => ⟨(hplain p hp).1.2, (hplain p hp).2.2⟩
  have hbrace : ∀ p, p ∈ parameters → braceFree p.1 ∧ braceFree p.2 :=
    fun p hp => ⟨(hplain p hp).1.1, (hplain p hp).2.1⟩
  refine ⟨template.mapLeaves fun s => substituteParameters s parameters, ?_, ?_, ?_⟩
  · have hmissing : (findTemplateVariables (marshal template)).filter
        (fun v => !parameters.has v) = [] := by
      rw [List.filter_eq_nil_iff]
      intro n hn
      simp [hcover n hn]
    have hnone : ¬ (0 < (findTemplateVariables (marshal template)).length ∧
        parameters.length = 0) := by
      rintro ⟨hpos, hlen⟩
      obtain ⟨n, hn⟩ := List.exists_mem_of_length_pos hpos
      have := hcover n hn
      rw [List.length_eq_zero.mp hlen] at this
      simp [Parameters.has] at this
    unfold applyTemplateParameters
    simp only [hnone, if_false, hmissing, List.length_nil, lt_irrefl, and_false,
      unmarshal_substituteParameters template parameters hjson hmin hmax]
  · rw [UserClaims.leaves_mapLeaves, List.length_map]
  · intro i v value hleaf hlookup
    rw [UserClaims.leaves_mapLeaves, List.getElem?_map, hleaf, Option.map_some',
      substituteParameters_placeholder parameters hbrace v value hlookup]

/-- C3, amended, at the template with audience `{{region}}` and the map
`region ↦ eu`: the audience of the returned claims object is `eu`. -/
theorem applyTemplateParameters_substitutes_leaf_witness :
    ∃ processed,
      applyTemplateParameters (demoTemplate (placeholder "region".toList))
          [("region".toList, "eu".toList)] = Except.ok processed ∧
        processed.leaves.length = (demoTemplate (placeholder "region".toList)).leaves.length ∧
        ∀ (i : Nat) (v value : Str),
          (demoTemplate (placeholder "region".toList)).leaves[i]? = some (placeholder v) →
          List.lookup v [("region".toList, "eu".toList)] = some value →
          processed.leaves[i]? = some value :=
  applyTemplateParameters_substitutes_leaf (demoTemplate (placeholder "region".toList))
    [("region".toList, "eu".toList)] (by decide) (by decide) (by decide) (by decide)

/-! ### The store: `get`, `put`, `delete` -/

theorem lookup_filter_ne (l : List (Str × Entry)) (path p : Str) :
    (l.filter fun e => e.1 ≠ path).lookup p = if p = path then none else l.lookup p := by
  induction l with
  | nil => simp
  | cons e l ih =>
    obtain ⟨k, v⟩ := e
    by_cases hk : k = path
    · subst hk
      rw [List.filter_cons_of_neg (by simp), ih]
      by_cases hp : p = k
      · simp [hp]
      · have hpk : (p == k) = false := by simp [hp]
        simp [hp, List.lookup_cons, hpk]
    · rw [List.filter_cons_of_pos (by simpa using hk)]
      by_cases hp : p = k
      · subst hp
        simp [List.lookup_cons, hk]
      · have hpk : (p == k) = false := by simp [hp]
        simp only [List.lookup_cons, hpk]
        exact ih

/-- A backend that answers gives the entry stored at the path and consumes one
flag of the fault script. -/
theorem Storage.get_of_answers (storage : Storage) (path : Str) (h : storage.answers) :
    storage.get path =
      (Except.ok (storage.entries.lookup path),
        { entries := storage.entries, faults := storage.faults.tail }) := by
  obtain ⟨entries, faults⟩ := storage
  unfold Storage.answers at h
  unfold Storage.get
  match faults, h with
  | [], _ => rfl
  | false :: rest, _ => rfl
  | true :: rest, h => simp at h

/-- What a `put` does: it fails and leaves the entries, or it succeeds and the
entries are those before with the one at `path` replaced. -/
theorem Storage.put_spec (storage : Storage) (path : Str) (entry : Entry) :
    ((∃ err, (storage.put path entry).1 = Except.error err) ∧
        (storage.put path entry).2.entries = storage.entries) ∨
      ((storage.put path entry).1 = Except.ok () ∧
        (storage.put path entry).2.entries =
          (path, entry) :: storage.entries.filter fun e => e.1 ≠ path) := by
  obtain ⟨entries, faults⟩ := storage
  unfold Storage.put
  match faults with
  | [] => exact Or.inr ⟨rfl, rfl⟩
  | false :: rest => exact Or.inr ⟨rfl, rfl⟩
  | true :: rest => exact Or.inl ⟨⟨_, rfl⟩, rfl⟩

/-- What a `delete` does: it fails and leaves the entries, or it succeeds and
the entries are those before without the one at `path`. -/
theorem Storage.delete_spec (storage : Storage) (path : Str) :
    ((∃ err, (storage.delete path).1 = Except.error err) ∧
        (storage.delete path).2.entries = storage.entries) ∨
      ((storage.delete path).1 = Except.ok () ∧
        (storage.delete path).2.entries = storage.entries.filter fun e => e.1 ≠ path) := by
  obtain ⟨entries, faults⟩ := storage
  unfold Storage.delete
  match faults with
  | [] => exact Or.inr ⟨rfl, rfl⟩
  | false :: rest => exact Or.inr ⟨rfl, rfl⟩
  | true :: rest => exact Or.inl ⟨⟨_, rfl⟩, rfl⟩

/-- A `put` leaves every other path as it is, whether it succeeds or fails. -/
theorem Storage.put_lookup_other (storage : Storage) (path p : Str) (entry : Entry)
    (h : p ≠ path) :
    (storage.put path entry).2.entries.lookup p = storage.entries.lookup p := by
  rcases Storage.put_spec storage path entry with ⟨_, he⟩ | ⟨_, he⟩
  · rw [he]
  · have hpk : (p == path) = false := by simp [h]
    rw [he, List.lookup_cons, hpk, lookup_filter_ne, if_neg h]

/-- After a `put` that succeeded the path holds the entry. -/
theorem Storage.put_lookup_same {storage storage2 : Storage} {path : Str} {entry : Entry}
    (h : storage.put path entry = (Except.ok (), storage2)) :
    storage2.entries.lookup path = some entry := by
  rcases Storage.put_spec storage path entry with ⟨⟨err, h1⟩, _⟩ | ⟨_, he⟩
  · rw [h] at h1
    simp at h1
  · rw [h] at he
    simp only at he
    rw [he]
    simp [List.lookup_cons]

/-- A `put` that failed has changed no entry. -/
theorem Storage.put_error {storage storage2 : Storage} {path : Str} {entry : Entry}
    {err : Error} (h : storage.put path entry = (Except.error err, storage2)) :
    storage2.entries = storage.entries := by
  rcases Storage.put_spec storage path entry with ⟨_, he⟩ | ⟨h1, _⟩
  · rw [h] at he
    exact he
  · rw [h] at h1
    simp at h1

/-- A `delete` leaves every other path as it is, whether it succeeds or fails. -/
theorem Storage.delete_lookup_other (storage : Storage) (path p : Str) (h : p ≠ path) :
    (storage.delete path).2.entries.lookup p = storage.entries.lookup p := by
  rcases Storage.delete_spec storage path with ⟨_, he⟩ | ⟨_, he⟩
  · rw [he]
  · rw [he, lookup_filter_ne, if_neg h]

/-- After a `delete` that succeeded the path holds nothing. -/
theorem Storage.delete_lookup_same {storage storage2 : Storage} {path : Str}
    (h : storage.delete path = (Except.ok (), storage2)) :
    storage2.entries.lookup path = none := by
  rcases Storage.delete_spec storage path with ⟨⟨err, h1⟩, _⟩ | ⟨_, he⟩
  · rw [h] at h1
    simp at h1
  · rw [h] at he
    simp only at he
    rw [he, lookup_filter_ne, if_pos rfl]

/-- A `delete` that failed has changed no entry. -/
theorem Storage.delete_error {storage storage2 : Storage} {path : Str} {err : Error}
    (h : storage.delete path = (Except.error err, storage2)) :
    storage2.entries = storage.entries := by
  rcases Storage.delete_spec storage path with ⟨_, he⟩ | ⟨h1, _⟩
  · rw [h] at he
    exact he
  · rw [h] at h1
    simp at h1

/-! ### Paths of different kinds never meet -/

theorem getUserNkeyPath_ne_issue (o a u o2 a2 u2 : Str) :
    getUserNkeyPath o a u ≠ getUserIssuePath o2 a2 u2 := by
  simp [getUserNkeyPath, getUserIssuePath]

theorem getUserNkeyPath_ne_accountIssue (o a u o2 a2 : Str) :
    getUserNkeyPath o a u ≠ getAccountIssuePath o2 a2 := by
  simp [getUserNkeyPath, getAccountIssuePath]

theorem getUserNkeyPath_ne_accountJwt (o a u o2 a2 : Str) :
    getUserNkeyPath o a u ≠ getAccountJwtPath o2 a2 := by
  simp [getUserNkeyPath, getAccountJwtPath]

theorem getUserIssuePath_ne_accountJwt (o a u o2 a2 : Str) :
    getUserIssuePath o a u ≠ getAccountJwtPath o2 a2 := by
  simp [getUserIssuePath, getAccountJwtPath]

theorem getUserIssuePath_ne_account (o a u : Str) :
    getUserIssuePath o a u ≠ getAccountIssuePath o a := by
  intro h
  have hl := congrArg List.length h
  simp [getUserIssuePath, getAccountIssuePath] at hl

/-! ### Reading leaves the entries alone -/

theorem readUserNkey_entries (storage : Storage) (p : NkeyParameters) :
    (readUserNkey storage p).2.entries = storage.entries :=
  readNkey_entries storage _

theorem readAccountNkey_entries (storage : Storage) (p : NkeyParameters) :
    (readAccountNkey storage p).2.entries = storage.entries :=
  readNkey_entries storage _

theorem generateUserJWT_entries (env : Env) (storage : Storage) (issue : IssueUserStorage)
    (claims : UserClaims) :
    (generateUserJWT env storage issue claims).2.entries = storage.entries := by
  unfold generateUserJWT
  have e1 := readAccountNkey_entries storage
    { Operator := issue.Operator, Account := issue.Account, User := [], Signing := [] }
  split <;> rename_i h1 <;> rw [h1] at e1 <;> simp only at e1
  · exact e1
  · exact e1
  · rename_i accountNkey st1
    split
    · exact e1
    · split
      · exact e1
      · have e2 := signingSeed_entries st1 issue accountNkey
        split <;> rename_i h2 <;> rw [h2] at e2 <;> simp only at e2
        · exact e2.trans e1
        · rename_i seed st2
          split
          · exact e2.trans e1
          · split
            · exact e2.trans e1
            · have e3 := readUserNkey_entries st2
                { Operator := issue.Operator, Account := issue.Account, User := issue.User,
                  Signing := [] }
              split <;> rename_i h3 <;> rw [h3] at e3 <;> simp only at e3
              · exact e3.trans (e2.trans e1)
              · exact e3.trans (e2.trans e1)
              · split
                · exact e3.trans (e2.trans e1)
                · split
                  · exact e3.trans (e2.trans e1)
                  · split
                    split
                    · exact e3.trans (e2.trans e1)
                    · split
                      · exact e3.trans (e2.trans e1)
                      · exact e3.trans (e2.trans e1)

theorem readUserIssue_entries (storage : Storage) (params : IssueUserParameters) :
    (readUserIssue storage params).2.entries = storage.entries :=
  (readUserIssue_spec storage params).1

/-! ### A backend that never fails -/

theorem Storage.get_never_fails (entries : List (Str × Entry)) (path : Str) :
    ({ entries := entries, faults := [] } : Storage).get path =
      (Except.ok (entries.lookup path), { entries := entries, faults := [] }) := rfl

theorem Storage.put_never_fails (entries : List (Str × Entry)) (path : Str) (entry : Entry) :
    ({ entries := entries, faults := [] } : Storage).put path entry =
      (Except.ok (),
        { entries := (path, entry) :: entries.filter fun e => e.1 ≠ path, faults := [] }) := rfl

theorem Storage.delete_never_fails (entries : List (Str × Entry)) (path : Str) :
    ({ entries := entries, faults := [] } : Storage).delete path =
      (Except.ok (), { entries := entries.filter fun e => e.1 ≠ path, faults := [] }) := rfl

theorem readNkey_never_fails (entries : List (Str × Entry)) (path : Str) :
    readNkey { entries := entries, faults := [] } path =
      ((match entries.lookup path with
        | none => Except.ok none
        | some (Entry.nkey n) => Except.ok (some n)
        | some _ => Except.error Error.malformedEntry),
        { entries := entries, faults := [] }) := by
  unfold readNkey
  rw [Storage.get_never_fails]
  cases h : entries.lookup path with
  | none => rfl
  | some e => cases e <;> rfl

/-- On a backend that never fails and holds no record at the user's path,
`storeUserIssue` stores a fresh record with the values of the parameters. -/
theorem storeUserIssue_fresh (entries : List (Str × Entry)) (params : IssueUserParameters)
    (hrec : entries.lookup (getUserIssuePath params.Operator params.Account params.User)
      = none) :
    storeUserIssue { entries := entries, faults := [] } params =
      (Except.ok
        { Operator := params.Operator, Account := params.Account, User := params.User,
          UseSigningKey := params.UseSigningKey, ClaimsTemplate := params.ClaimsTemplate,
          ExpirationS := params.ExpirationS,
          Status := { User := { Nkey := false, JWT := false } } },
        { entries :=
            (getUserIssuePath params.Operator params.Account params.User,
              Entry.userIssue
                { Operator := params.Operator, Account := params.Account, User := params.User,
                  UseSigningKey := params.UseSigningKey,
                  ClaimsTemplate := params.ClaimsTemplate,
                  ExpirationS := params.ExpirationS,
                  Status := { User := { Nkey := false, JWT := false } } }) ::
            entries.filter fun e =>
              e.1 ≠ getUserIssuePath params.Operator params.Account params.User,
          faults := [] }) := by
  simp only [storeUserIssue, getUserIssueFromStorage, Storage.get_never_fails, hrec,
    storeInStorage, Storage.put_never_fails]
  rfl

/-- On a backend that never fails and holds no key pair for the user,
`issueUserNKeys` stores the freshly generated one. -/
theorem issueUserNKeys_fresh (c : Collaborators) (entries : List (Str × Entry))
    (issue : IssueUserStorage) (seed : Str)
    (hkey : entries.lookup (getUserNkeyPath issue.Operator issue.Account issue.User) = none)
    (hseed : c.CreateUserSeed = Except.ok seed) :
    issueUserNKeys c { entries := entries, faults := [] } issue =
      (Except.ok (),
        { entries :=
            (getUserNkeyPath issue.Operator issue.Account issue.User,
              Entry.nkey { Seed := seed }) ::
            entries.filter fun e =>
              e.1 ≠ getUserNkeyPath issue.Operator issue.Account issue.User,
          faults := [] }) := by
  simp only [issueUserNKeys, addUserNkey, readUserNkey, readNkey_never_fails, hkey, hseed,
    storeInStorage, Storage.put_never_fails]

/-- On a backend that never fails and holds a key pair for the user,
`updateUserStatus` sets the key flag. -/
theorem updateUserStatus_present (entries : List (Str × Entry)) (issue : IssueUserStorage)
    (n : NKeyStorage)
    (hkey : entries.lookup (getUserNkeyPath issue.Operator issue.Account issue.User)
      = some (Entry.nkey n)) :
    updateUserStatus { entries := entries, faults := [] } issue =
      ({ issue with Status := { User := { issue.Status.User with Nkey := true } } },
        { entries := entries, faults := [] }) := by
  simp only [updateUserStatus, readUserNkey, readNkey_never_fails, hkey]

theorem storeUserIssueUpdate_never_fails (entries : List (Str × Entry))
    (issue : IssueUserStorage) :
    storeUserIssueUpdate { entries := entries, faults := [] } issue =
      (Except.ok issue,
        { entries :=
            (getUserIssuePath issue.Operator issue.Account issue.User, Entry.userIssue issue) ::
            entries.filter fun e =>
              e.1 ≠ getUserIssuePath issue.Operator issue.Account issue.User,
          faults := [] }) := by
  simp only [storeUserIssueUpdate, storeInStorage, Storage.put_never_fails]

/-! ### Single steps of issuing, on any backend -/

theorem getUserIssueFromStorage_spec (storage : Storage) (path : Str) :
    (getUserIssueFromStorage storage path).2.entries = storage.entries ∧
    (∀ issue, (getUserIssueFromStorage storage path).1 = Except.ok (some issue) →
      storage.entries.lookup path = some (Entry.userIssue issue)) ∧
    ((getUserIssueFromStorage storage path).1 = Except.ok none →
      storage.entries.lookup path = none) := by
  have hg := Storage.get_spec storage path
  unfold getUserIssueFromStorage
  split <;> rename_i heq <;> rw [heq] at hg
  · exact ⟨hg.1, fun issue h => by simp at h, fun h => by simp at h⟩
  · exact ⟨hg.1, fun issue h => by simp at h, fun _ => (hg.2 _ rfl).symm⟩
  · refine ⟨hg.1, fun issue h => ?_, fun h => by simp at h⟩
    simp only [Except.ok.injEq, Option.some.injEq] at h
    rw [← h]
    exact (hg.2 _ rfl).symm
  · exact ⟨hg.1, fun issue h => by simp at h, fun h => by simp at h⟩

theorem storeInStorage_lookup_other (storage : Storage) (path p : Str) (entry : Entry)
    (h : p ≠ path) :
    (storeInStorage storage path entry).2.entries.lookup p = storage.entries.lookup p :=
  Storage.put_lookup_other storage path p entry h

theorem storeInStorage_lookup_same {storage storage2 : Storage} {path : Str} {entry : Entry}
    (h : storeInStorage storage path entry = (Except.ok (), storage2)) :
    storage2.entries.lookup path = some entry :=
  Storage.put_lookup_same h

/-- `storeUserIssue` leaves every path but the user's issue path as it is. -/
theorem storeUserIssue_lookup_other (storage : Storage) (params : IssueUserParameters)
    (p : Str) (h : p ≠ getUserIssuePath params.Operator params.Account params.User) :
    (storeUserIssue storage params).2.entries.lookup p = storage.entries.lookup p := by
  have hg := (getUserIssueFromStorage_spec storage
    (getUserIssuePath params.Operator params.Account params.User)).1
  unfold storeUserIssue
  simp only
  split <;> rename_i h1 <;> rw [h1] at hg <;> simp only at hg
  · rw [hg]
  · rename_i found st1
    have hs := storeInStorage_lookup_other st1 _ p
      (Entry.userIssue
        { (match found with
            | some issue => issue
            | none => IssueUserStorage.zero) with
          ClaimsTemplate := params.ClaimsTemplate
          ExpirationS := params.ExpirationS
          Operator := params.Operator
          Account := params.Account
          User := params.User
          UseSigningKey := params.UseSigningKey }) h
    split <;> rename_i h2 <;> rw [h2] at hs <;> simp only at hs <;> rw [hs, hg]

/-- What a successful `storeUserIssue` returns and stores: a record with the
six values of the parameters, at the user's issue path. -/
theorem storeUserIssue_ok {storage storage2 : Storage} {params : IssueUserParameters}
    {issue : IssueUserStorage}
    (h : storeUserIssue storage params = (Except.ok issue, storage2)) :
    (issue.Operator = params.Operator ∧ issue.Account = params.Account ∧
      issue.User = params.User ∧ issue.UseSigningKey = params.UseSigningKey ∧
      issue.ClaimsTemplate = params.ClaimsTemplate ∧
      issue.ExpirationS = params.ExpirationS) ∧
    storage2.entries.lookup (getUserIssuePath params.Operator params.Account params.User)
      = some (Entry.userIssue issue) := by
  unfold storeUserIssue at h
  simp only at h
  split at h
  · simp at h
  · split at h <;> rename_i h2
    · simp at h
    · simp only [Prod.mk.injEq, Except.ok.injEq] at h
      obtain ⟨hi, hs⟩ := h
      subst hs
      refine ⟨?_, ?_⟩
      · rw [← hi]
        exact ⟨rfl, rfl, rfl, rfl, rfl, rfl⟩
      · rw [← hi]
        exact storeInStorage_lookup_same h2

/-- `addUserNkey` leaves every path but the user's key path as it is. -/
theorem addUserNkey_lookup_other (c : Collaborators) (storage : Storage) (p : NkeyParameters)
    (path : Str) (h : path ≠ getUserNkeyPath p.Operator p.Account p.User) :
    (addUserNkey c storage p).2.entries.lookup path = storage.entries.lookup path := by
  have hr := readUserNkey_entries storage p
  unfold addUserNkey
  split <;> rename_i h1 <;> rw [h1] at hr <;> simp only at hr
  · rw [hr]
  · rw [hr]
  · split
    · rw [hr]
    · rw [storeInStorage_lookup_other _ _ _ _ h, hr]

/-- `issueUserNKeys` leaves every path but the user's key path as it is. -/
theorem issueUserNKeys_lookup_other (c : Collaborators) (storage : Storage)
    (issue : IssueUserStorage) (path : Str)
    (h : path ≠ getUserNkeyPath issue.Operator issue.Account issue.User) :
    (issueUserNKeys c storage issue).2.entries.lookup path = storage.entries.lookup path := by
  have hr := readUserNkey_entries storage
    { Operator := issue.Operator, Account := issue.Account, User := issue.User, Signing := [] }
  unfold issueUserNKeys
  simp only
  split <;> rename_i h1 <;> rw [h1] at hr <;> simp only at hr
  · rw [hr]
  · rw [hr]
  · rename_i st1
    have ha := addUserNkey_lookup_other c st1
      { Operator := issue.Operator, Account := issue.Account, User := issue.User,
        Signing := [] } path h
    split <;> rename_i h2 <;> rw [h2] at ha <;> simp only at ha <;> rw [ha, hr]

/-- `issueUserNKeys` never replaces an entry at the user's key path: a new key
pair is stored only when the read found none. -/
theorem issueUserNKeys_keeps (c : Collaborators) (storage : Storage)
    (issue : IssueUserStorage) (e : Entry)
    (he : storage.entries.lookup (getUserNkeyPath issue.Operator issue.Account issue.User)
      = some e) :
    (issueUserNKeys c storage issue).2.entries = storage.entries := by
  have hr := readUserNkey_entries storage
    { Operator := issue.Operator, Account := issue.Account, User := issue.User, Signing := [] }
  unfold issueUserNKeys
  simp only
  split <;> rename_i h1 <;> rw [h1] at hr <;> simp only at hr
  · exact hr
  · exact hr
  · unfold readUserNkey at h1
    rw [readNkey_none h1] at he
    simp at he

/-- After a successful `issueUserNKeys` the user's key path holds a key pair. -/
theorem issueUserNKeys_ok {c : Collaborators} {storage storage2 : Storage}
    {issue : IssueUserStorage} (h : issueUserNKeys c storage issue = (Except.ok (), storage2)) :
    ∃ n, storage2.entries.lookup (getUserNkeyPath issue.Operator issue.Account issue.User)
      = some (Entry.nkey n) := by
  unfold issueUserNKeys at h
  simp only at h
  split at h <;> rename_i h1
  · simp at h
  · rename_i n st1
    simp only [Prod.mk.injEq, true_and] at h
    subst h
    have hl := readNkey_some h1
    have he := readNkey_entries storage
      (getUserNkeyPath issue.Operator issue.Account issue.User)
    unfold readUserNkey at h1
    rw [h1] at he
    simp only at he
    exact ⟨n, by rw [he]; exact hl⟩
  · rename_i st1
    split at h <;> rename_i h2
    · simp at h
    · simp only [Prod.mk.injEq, true_and] at h
      subst h
      unfold addUserNkey at h2
      split at h2 <;> rename_i h3
      · simp at h2
      · rename_i n st2
        simp only [Prod.mk.injEq, true_and] at h2
        subst h2
        have hl := readNkey_some h3
        have he := readNkey_entries st1
          (getUserNkeyPath issue.Operator issue.Account issue.User)
        unfold readUserNkey at h3
        rw [h3] at he
        simp only at he
        exact ⟨n, by rw [he]; exact hl⟩
      · split at h2
        · simp at h2
        · exact ⟨_, storeInStorage_lookup_same h2⟩

/-- `updateUserStatus` changes the status of the record only, and no entry. -/
theorem updateUserStatus_spec (storage : Storage) (issue : IssueUserStorage) :
    (updateUserStatus storage issue).2.entries = storage.entries ∧
    ∃ nkey, (updateUserStatus storage issue).1 =
      { issue with Status := { User := { issue.Status.User with Nkey := nkey } } } := by
  have hr := readUserNkey_entries storage
    { Operator := issue.Operator, Account := issue.Account, User := issue.User, Signing := [] }
  unfold updateUserStatus
  split <;> rename_i h1 <;> rw [h1] at hr <;> simp only at hr
  · exact ⟨hr, true, rfl⟩
  · exact ⟨hr, false, rfl⟩

theorem storeUserIssueUpdate_lookup_other (storage : Storage) (issue : IssueUserStorage)
    (p : Str) (h : p ≠ getUserIssuePath issue.Operator issue.Account issue.User) :
    (storeUserIssueUpdate storage issue).2.entries.lookup p = storage.entries.lookup p := by
  have hs := storeInStorage_lookup_other storage _ p (Entry.userIssue issue) h
  unfold storeUserIssueUpdate
  simp only
  split <;> rename_i h2 <;> rw [h2] at hs <;> simp only at hs <;> rw [hs]

theorem storeUserIssueUpdate_ok {storage storage2 : Storage} {issue issue2 : IssueUserStorage}
    (h : storeUserIssueUpdate storage issue = (Except.ok issue2, storage2)) :
    storage2.entries.lookup (getUserIssuePath issue.Operator issue.Account issue.User)
      = some (Entry.userIssue issue) := by
  unfold storeUserIssueUpdate at h
  simp only at h
  split at h <;> rename_i h2
  · simp at h
  · simp only [Prod.mk.injEq, Except.ok.injEq] at h
    rw [← h.2]
    exact storeInStorage_lookup_same h2

theorem readOperatorIssue_entries (storage : Storage) (operator : Str) :
    (readOperatorIssue storage operator).2.entries = storage.entries := by
  have hg := (Storage.get_spec storage (getOperatorIssuePath operator)).1
  unfold readOperatorIssue
  split <;> rename_i heq <;> rw [heq] at hg <;> exact hg

/-- `refreshUser` leaves an entry at the user's key path as it is, as long as
the resolver refresh does. -/
theorem refreshUser_keeps_nkey (c : Collaborators) (storage : Storage)
    (issue : IssueUserStorage) (e : Entry)
    (hcollab : issue.User = c.DefaultPushUser → ∀ s op,
      (c.refreshAccountResolvers s op).2.entries.lookup
          (getUserNkeyPath issue.Operator issue.Account issue.User) =
        s.entries.lookup (getUserNkeyPath issue.Operator issue.Account issue.User))
    (he : storage.entries.lookup (getUserNkeyPath issue.Operator issue.Account issue.User)
      = some e) :
    (refreshUser c storage issue).2.entries.lookup
      (getUserNkeyPath issue.Operator issue.Account issue.User) = some e := by
  have h1 := issueUserNKeys_keeps c storage issue e he
  unfold refreshUser
  split <;> rename_i hk <;> rw [hk] at h1 <;> simp only at h1
  · rw [h1]
    exact he
  · rename_i st1
    obtain ⟨h2, nk, h3⟩ := updateUserStatus_spec st1 issue
    generalize updateUserStatus st1 issue = u at h2 h3
    obtain ⟨issue2, st2⟩ := u
    simp only at h2 h3 ⊢
    have hne : getUserNkeyPath issue.Operator issue.Account issue.User ≠
        getUserIssuePath issue2.Operator issue2.Account issue2.User :=
      getUserNkeyPath_ne_issue _ _ _ _ _ _
    have h4 := storeUserIssueUpdate_lookup_other st2 issue2 _ hne
    have hu : issue2.User = issue.User := by rw [h3]
    split <;> rename_i hs <;> rw [hs] at h4 <;> simp only at h4
    · rw [h4, h2, h1]
      exact he
    · rename_i st3
      split
      · rename_i hpush
        have h5 := readOperatorIssue_entries st3 issue2.Operator
        split <;> rename_i ho <;> rw [ho] at h5 <;> simp only at h5
        · rw [h5, h4, h2, h1]
          exact he
        · rw [h5, h4, h2, h1]
          exact he
        · rename_i op st4
          have h6 := hcollab (hu ▸ hpush) st4 op
          split <;> rename_i hr <;> rw [hr] at h6 <;> simp only at h6 <;>
            rw [h6, h5, h4, h2, h1] <;> exact he
      · rw [h4, h2, h1]
        exact he

/-- After a successful `refreshUser` the user's issue path holds the record
handed in, with a recomputed key flag. -/
theorem refreshUser_ok {c : Collaborators} {storage storage2 : Storage}
    {issue : IssueUserStorage}
    (hcollab : issue.User = c.DefaultPushUser → ∀ s op,
      (c.refreshAccountResolvers s op).2.entries.lookup
          (getUserIssuePath issue.Operator issue.Account issue.User) =
        s.entries.lookup (getUserIssuePath issue.Operator issue.Account issue.User))
    (h : refreshUser c storage issue = (Except.ok (), storage2)) :
    ∃ nkey, storage2.entries.lookup (getUserIssuePath issue.Operator issue.Account issue.User)
      = some (Entry.userIssue
          { issue with Status := { User := { issue.Status.User with Nkey := nkey } } }) := by
  unfold refreshUser at h
  split at h
  · simp at h
  · rename_i st1 _
    obtain ⟨_, nk, h3⟩ := updateUserStatus_spec st1 issue
    generalize updateUserStatus st1 issue = u at h3 h
    obtain ⟨issue2, st2⟩ := u
    simp only at h3 h
    refine ⟨nk, ?_⟩
    have hpath : getUserIssuePath issue2.Operator issue2.Account issue2.User =
        getUserIssuePath issue.Operator issue.Account issue.User := by rw [h3]
    have hu : issue2.User = issue.User := by rw [h3]
    split at h <;> rename_i hs
    · simp at h
    · rename_i st3
      have h4 := storeUserIssueUpdate_ok hs
      rw [hpath, h3] at h4
      split at h
      · rename_i hpush
        have h5 := readOperatorIssue_entries st3 issue2.Operator
        split at h <;> rename_i ho <;> rw [ho] at h5 <;> simp only at h5
        · simp at h
        · simp only [Prod.mk.injEq, true_and] at h
          rw [← h, h5]
          exact h4
        · rename_i op st4
          have h6 := hcollab (hu ▸ hpush) st4 op
          split at h <;> rename_i hr <;> rw [hr] at h6 <;> simp only at h6
          · simp at h
          · simp only [Prod.mk.injEq, true_and] at h
            rw [← h, h6, h5]
            exact h4
      · simp only [Prod.mk.injEq, true_and] at h
        rw [← h]
        exact h4

/-- A backend that answers gives the issue record stored for the user. -/
theorem readUserIssue_of_answers (storage : Storage) (params : IssueUserParameters)
    (h : storage.answers) :
    readUserIssue storage params =
      ((match storage.entries.lookup
            (getUserIssuePath params.Operator params.Account params.User) with
        | none => Except.ok none
        | some (Entry.userIssue issue) => Except.ok (some issue)
        | some _ => Except.error Error.malformedEntry),
        { entries := storage.entries, faults := storage.faults.tail }) := by
  unfold readUserIssue
  simp only
  rw [Storage.get_of_answers storage _ h]
  cases hl : storage.entries.lookup
      (getUserIssuePath params.Operator params.Account params.User) with
  | none => rfl
  | some e => cases e <;> rfl

/-- A backend that answers gives the key pair stored at the path. -/
theorem readNkey_of_answers (storage : Storage) (path : Str) (h : storage.answers) :
    readNkey storage path =
      ((match storage.entries.lookup path with
        | none => Except.ok none
        | some (Entry.nkey n) => Except.ok (some n)
        | some _ => Except.error Error.malformedEntry),
        { entries := storage.entries, faults := storage.faults.tail }) := by
  unfold readNkey
  rw [Storage.get_of_answers storage _ h]
  cases hl : storage.entries.lookup path with
  | none => rfl
  | some e => cases e <;> rfl

/-- `addUserIssue` leaves an entry at the user's key path as it is, as long as
the resolver refresh does. -/
theorem addUserIssue_lookup_nkey (c : Collaborators) (storage : Storage)
    (params : IssueUserParameters) (e : Entry)
    (hcollab : params.User = c.DefaultPushUser → ∀ s op,
      (c.refreshAccountResolvers s op).2.entries.lookup
          (getUserNkeyPath params.Operator params.Account params.User) =
        s.entries.lookup (getUserNkeyPath params.Operator params.Account params.User))
    (he : storage.entries.lookup (getUserNkeyPath params.Operator params.Account params.User)
      = some e) :
    (addUserIssue c storage params).2.entries.lookup
      (getUserNkeyPath params.Operator params.Account params.User) = some e := by
  have h1 := storeUserIssue_lookup_other storage params _
    (getUserNkeyPath_ne_issue params.Operator params.Account params.User
      params.Operator params.Account params.User)
  unfold addUserIssue
  split <;> rename_i hs <;> rw [hs] at h1 <;> simp only at h1
  · rw [h1]
    exact he
  · rename_i issue st1
    obtain ⟨⟨ho, ha, hu, _⟩, _⟩ := storeUserIssue_ok hs
    have := refreshUser_keeps_nkey c st1 issue e
      (by rw [ho, ha, hu]; exact hcollab) (by rw [ho, ha, hu, h1]; exact he)
    rw [ho, ha, hu] at this
    exact this

/-! ### Deleting a user -/

theorem readUserIssue_eq (storage : Storage) (params : IssueUserParameters) :
    readUserIssue storage params =
      getUserIssueFromStorage storage
        (getUserIssuePath params.Operator params.Account params.User) := rfl

theorem readUserIssue_none {storage storage2 : Storage} {params : IssueUserParameters}
    (h : readUserIssue storage params = (Except.ok none, storage2)) :
    storage.entries.lookup (getUserIssuePath params.Operator params.Account params.User)
      = none := by
  rw [readUserIssue_eq] at h
  have := (getUserIssueFromStorage_spec storage
    (getUserIssuePath params.Operator params.Account params.User)).2.2
  rw [h] at this
  exact this rfl

theorem readUserIssue_some {storage storage2 : Storage} {params : IssueUserParameters}
    {issue : IssueUserStorage}
    (h : readUserIssue storage params = (Except.ok (some issue), storage2)) :
    storage.entries.lookup (getUserIssuePath params.Operator params.Account params.User)
      = some (Entry.userIssue issue) := by
  have := (readUserIssue_spec storage params).2 issue
  rw [h] at this
  exact this rfl

theorem readAccountIssue_entries (storage : Storage) (operator account : Str) :
    (readAccountIssue storage operator account).2.entries = storage.entries := by
  have hg := (Storage.get_spec storage (getAccountIssuePath operator account)).1
  unfold readAccountIssue
  split <;> rename_i heq <;> rw [heq] at hg <;> exact hg

/-- The revocation step writes to the account's issue path and token path
only. -/
theorem addUserToRevocationList_lookup_other (c : Collaborators) (storage : Storage)
    (account : IssueAccountStorage) (issue : IssueUserStorage) (p : Str)
    (h1 : p ≠ getAccountIssuePath account.Operator account.Account)
    (h2 : p ≠ getAccountJwtPath account.Operator account.Account) :
    (addUserToRevocationList c storage account issue).2.entries.lookup p =
      storage.entries.lookup p := by
  have hr := readUserNkey_entries storage
    { Operator := issue.Operator, Account := issue.Account, User := issue.User, Signing := [] }
  unfold addUserToRevocationList
  split <;> rename_i hk <;> rw [hk] at hr <;> simp only at hr
  · rw [hr]
  · rw [hr]
  · rename_i userNkey st1
    split
    · rw [hr]
    · split
      · rw [hr]
      · have hs := storeInStorage_lookup_other st1 _ p (Entry.accountIssue account) h1
        split <;> rename_i hp <;> rw [hp] at hs <;> simp only at hs
        · rw [hs, hr]
        · rename_i st2
          split
          · rw [hs, hr]
          · rw [storeInStorage_lookup_other st2 _ p _ h2, hs, hr]

theorem deleteFromStorage_lookup_other (storage : Storage) (path p : Str) (h : p ≠ path) :
    (deleteFromStorage storage path).2.entries.lookup p = storage.entries.lookup p :=
  Storage.delete_lookup_other storage path p h

theorem deleteFromStorage_lookup_same {storage storage2 : Storage} {path : Str}
    (h : deleteFromStorage storage path = (Except.ok (), storage2)) :
    storage2.entries.lookup path = none :=
  Storage.delete_lookup_same h

theorem deleteFromStorage_error {storage storage2 : Storage} {path : Str} {err : Error}
    (h : deleteFromStorage storage path = (Except.error err, storage2)) :
    storage2.entries = storage.entries :=
  Storage.delete_error h

/-- The steps of `deleteUserIssue` once the user's record and the account's
record have been read: the revocation (when the account has a record), the
deletion of the key pair, the deletion of the record. -/
theorem deleteUserIssue_steps {c : Collaborators} {storage st1 st2 : Storage}
    {params : IssueUserParameters} {issue : IssueUserStorage}
    {account : Option IssueAccountStorage}
    (h1 : readUserIssue storage params = (Except.ok (some issue), st1))
    (h2 : readAccountIssue st1 issue.Operator issue.Account = (Except.ok account, st2)) :
    deleteUserIssue c storage params =
      match (match account with
          | some account => addUserToRevocationList c st2 account issue
          | none => (Except.ok (), st2)) with
      | (Except.error err, st3) => (Except.error err, st3)
      | (Except.ok (), st3) =>
        match deleteUserNkey st3
            { Operator := issue.Operator, Account := issue.Account, User := issue.User,
              Signing := [] } with
        | (Except.error err, st4) => (Except.error err, st4)
        | (Except.ok (), st4) =>
          deleteFromStorage st4 (getUserIssuePath issue.Operator issue.Account issue.User) := by
  unfold deleteUserIssue
  rw [h1]
  simp only
  rw [h2]

theorem Storage.ownRecord_names {storage : Storage} {operator account user : Str}
    {issue : IssueUserStorage} (h : storage.ownRecord operator account user)
    (hrec : storage.entries.lookup (getUserIssuePath operator account user)
      = some (Entry.userIssue issue)) :
    issue.Operator = operator ∧ issue.Account = account ∧ issue.User = user := by
  unfold Storage.ownRecord at h
  rw [hrec] at h
  exact h

/-- On a backend that answers, `deleteUserIssue` for a user without an issue
record returns success after the one read, with every entry as before. -/
theorem deleteUserIssue_absent (c : Collaborators) (storage : Storage)
    (params : IssueUserParameters)
    (habsent : storage.entries.lookup
      (getUserIssuePath params.Operator params.Account params.User) = none)
    (hanswers : storage.answers) :
    deleteUserIssue c storage params =
      (Except.ok (), { entries := storage.entries, faults := storage.faults.tail }) := by
  unfold deleteUserIssue
  rw [readUserIssue_of_answers storage params hanswers, habsent]

/-- After a successful `deleteUserIssue` the user has no issue record, and no
key pair if there was a record, provided that a record stored for the user
carries the user's names. -/
theorem deleteUserIssue_ok_lookup {c : Collaborators} {storage storage2 : Storage}
    {params : IssueUserParameters}
    (hown : storage.ownRecord params.Operator params.Account params.User)
    (h : deleteUserIssue c storage params = (Except.ok (), storage2)) :
    storage2.entries.lookup (getUserIssuePath params.Operator params.Account params.User)
      = none ∧
    (∀ issue, storage.entries.lookup
        (getUserIssuePath params.Operator params.Account params.User)
          = some (Entry.userIssue issue) →
      storage2.entries.lookup (getUserNkeyPath params.Operator params.Account params.User)
        = none) := by
  have he1 := readUserIssue_entries storage params
  cases hr : readUserIssue storage params with
  | mk r1 st1 =>
    rw [hr] at he1
    simp only at he1
    match r1, hr with
    | Except.error err, hr =>
      unfold deleteUserIssue at h
      rw [hr] at h
      simp at h
    | Except.ok none, hr =>
      unfold deleteUserIssue at h
      rw [hr] at h
      simp only [Prod.mk.injEq, true_and] at h
      have hn := readUserIssue_none hr
      subst h
      refine ⟨by rw [he1]; exact hn, fun issue hi => ?_⟩
      rw [hn] at hi
      simp at hi
    | Except.ok (some issue), hr =>
      have hrec := readUserIssue_some hr
      obtain ⟨ho, ha, hu⟩ := Storage.ownRecord_names hown hrec
      cases hacc : readAccountIssue st1 issue.Operator issue.Account with
      | mk r2 st2 =>
        match r2, hacc with
        | Except.error err, hacc =>
          unfold deleteUserIssue at h
          rw [hr] at h
          simp only at h
          rw [hacc] at h
          simp at h
        | Except.ok account, hacc =>
          rw [deleteUserIssue_steps hr hacc] at h
          generalize (match account with
            | some account => addUserToRevocationList c st2 account issue
            | none => (Except.ok (), st2)) = revoked at h
          obtain ⟨r3, st3⟩ := revoked
          match r3, h with
          | Except.error err, h => simp at h
          | Except.ok (), h =>
            simp only at h
            cases hd : deleteUserNkey st3
                { Operator := issue.Operator, Account := issue.Account, User := issue.User,
                  Signing := [] } with
            | mk r4 st4 =>
              rw [hd] at h
              match r4, hd, h with
              | Except.error err, _, h => simp at h
              | Except.ok (), hd, h =>
                simp only at h
                rw [ho, ha, hu] at h hd
                have hk : st4.entries.lookup
                    (getUserNkeyPath params.Operator params.Account params.User) = none :=
                  deleteFromStorage_lookup_same hd
                have hf := deleteFromStorage_lookup_other st4
                  (getUserIssuePath params.Operator params.Account params.User)
                  (getUserNkeyPath params.Operator params.Account params.User)
                  (getUserNkeyPath_ne_issue _ _ _ _ _ _)
                rw [h] at hf
                simp only at hf
                exact ⟨deleteFromStorage_lookup_same h, fun _ _ => by rw [hf]; exact hk⟩

/-! ### `parseKeyValueString` -/

theorem mem_dropWhile_of_not {p : Char → Bool} {c : Char} :
    ∀ {l : Str}, c ∈ l → p c = false → c ∈ l.dropWhile p
  | [], h, _ => by simp at h
  | a :: l, h, hp => by
    by_cases ha : p a = true
    · rw [List.dropWhile_cons_of_pos ha]
      rcases List.mem_cons.mp h with rfl | h
      · rw [hp] at ha
        simp at ha
      · exact mem_dropWhile_of_not h hp
    · rw [List.dropWhile_cons_of_neg ha]
      exact h

theorem mem_of_mem_dropWhile {p : Char → Bool} {c : Char} {l : Str}
    (h : c ∈ l.dropWhile p) : c ∈ l :=
  (List.dropWhile_sublist p).subset h

/-- Trimming keeps every character that is not white space, and adds none. -/
theorem mem_trimSpace {c : Char} {s : Str} (hc : isSpace c = false) :
    c ∈ trimSpace s ↔ c ∈ s := by
  unfold trimSpace
  rw [List.mem_reverse]
  constructor
  · intro h
    exact mem_of_mem_dropWhile (List.mem_reverse.mp (mem_of_mem_dropWhile h))
  · intro h
    exact mem_dropWhile_of_not (List.mem_reverse.mpr (mem_dropWhile_of_not h hc)) hc

theorem splitN2_length (sep : Char) (s : Str) :
    (splitN2 sep s).length = 2 ↔ sep ∈ s := by
  unfold splitN2
  by_cases h : sep ∈ s <;> simp [h]

theorem splitN2_key (sep : Char) (s : Str) (h : sep ∈ s) :
    (splitN2 sep s).getD 0 [] = s.takeWhile fun c => c ≠ sep := by
  unfold splitN2
  simp [h]

/-- An entry that `parseKeyValueString` rejects: it holds no `=`, or the text
before its first `=` is blank. -/
theorem parsePairs_step (pair : Str) (pairs : List Str) (result : Parameters) :
    (('=' ∉ pair ∨
        trimSpace ((trimSpace pair).takeWhile fun c => c ≠ '=') = []) →
      ∃ err, parsePairs (pair :: pairs) result = (some err, result)) ∧
    (¬ ('=' ∉ pair ∨
        trimSpace ((trimSpace pair).takeWhile fun c => c ≠ '=') = []) →
      parsePairs (pair :: pairs) result =
        parsePairs pairs
          (result.set (trimSpace ((splitN2 '=' (trimSpace pair)).getD 0 []))
            (trimSpace ((splitN2 '=' (trimSpace pair)).getD 1 [])))) := by
  have hsp : isSpace '=' = false := by decide
  constructor
  · intro h
    by_cases hmem : '=' ∈ pair
    · have hkey : trimSpace ((trimSpace pair).takeWhile fun c => c ≠ '=') = [] := by
        rcases h with h | h
        · exact absurd hmem h
        · exact h
      have hm : '=' ∈ trimSpace pair := (mem_trimSpace hsp).mpr hmem
      have hl := (splitN2_length '=' (trimSpace pair)).mpr hm
      refine ⟨FormatError.emptyKey pair, ?_⟩
      simp only [parsePairs, hl, ne_eq, not_true_eq_false, if_false,
        splitN2_key '=' _ hm, hkey, if_true]
    · have hm : '=' ∉ trimSpace pair := fun hm => hmem ((mem_trimSpace hsp).mp hm)
      have hl : (splitN2 '=' (trimSpace pair)).length ≠ 2 :=
        fun hl => hm ((splitN2_length '=' _).mp hl)
      refine ⟨FormatError.invalidPair pair, ?_⟩
      simp only [parsePairs, hl, ne_eq, not_false_eq_true, if_true]
  · intro h
    rw [not_or, not_not] at h
    have hm : '=' ∈ trimSpace pair := (mem_trimSpace hsp).mpr h.1
    have hl := (splitN2_length '=' (trimSpace pair)).mpr hm
    have hkey : trimSpace ((splitN2 '=' (trimSpace pair)).getD 0 []) ≠ [] := by
      rw [splitN2_key '=' _ hm]
      exact h.2
    simp only [parsePairs, hl, ne_eq, not_true_eq_false, if_false, hkey]

/-- The loop of `parseKeyValueString` returns an error exactly when some entry
is rejected. -/
theorem parsePairs_error_iff :
    ∀ (pairs : List Str) (result : Parameters),
      (parsePairs pairs result).1 ≠ none ↔
        ∃ pair, pair ∈ pairs ∧
          ('=' ∉ pair ∨ trimSpace ((trimSpace pair).takeWhile fun c => c ≠ '=') = [])
  | [], result => by simp [parsePairs]
  | pair :: pairs, result => by
    by_cases h : '=' ∉ pair ∨ trimSpace ((trimSpace pair).takeWhile fun c => c ≠ '=') = []
    · obtain ⟨err, he⟩ := (parsePairs_step pair pairs result).1 h
      rw [he]
      simp only [ne_eq, reduceCtorEq, not_false_eq_true, true_iff]
      exact ⟨pair, List.mem_cons_self _ _, h⟩
    · rw [(parsePairs_step pair pairs result).2 h, parsePairs_error_iff pairs]
      constructor
      · rintro ⟨p, hp, hr⟩
        exact ⟨p, List.mem_cons_of_mem _ hp, hr⟩
      · rintro ⟨p, hp, hr⟩
        rcases List.mem_cons.mp hp with rfl | hp
        · exact absurd hr h
        · exact ⟨p, hp, hr⟩

/-- `parseKeyValueString` returns an error exactly for the non-empty inputs
with a rejected entry. -/
theorem parseKeyValueString_error_iff (input : Str) (result : Parameters) :
    (parseKeyValueString input result).1 ≠ none ↔
      input ≠ [] ∧ ∃ pair, pair ∈ split ',' input ∧
        ('=' ∉ pair ∨ trimSpace ((trimSpace pair).takeWhile fun c => c ≠ '=') = []) := by
  unfold parseKeyValueString
  by_cases h : input = []
  · simp [h]
  · rw [if_neg h, parsePairs_error_iff]
    simp [h]

/-! ### Stored templates -/

/-- A claims template written as JSON and read back is the template: the
store may keep issue records as their JSON text. -/
theorem unmarshal_marshal (template : UserClaims)
    (h1 : -(2 : Int) ^ 63 ≤ template.ClaimsData.Expires)
    (h2 : template.ClaimsData.Expires < (2 : Int) ^ 63) :
    unmarshal (marshal template) = some template := by
  have h := unmarshal_substituteParameters template [] (by simp) h1 h2
  have hid : (UserClaims.mapLeaves (fun s => substituteParameters s []) template)
      = template := by
    simp [UserClaims.mapLeaves, substituteParameters]
  rw [hid] at h
  exact h

/-! # The claims, continued -/

/-- C11 as stated fails: with `ExpirationS = 0` and a claims object whose
expires claim is 1700000600, `generateUserJWT` returns `expiresAt = 0`, but the
token it builds carries the expires claim 1700000600, not 0. -/
theorem generateUserJWT_keeps_template_expiry :
    generateUserJWT (demoEnv ⟨1700000000, 0⟩)
        (demoStorage (demoIssue [] 0 UserClaims.zero))
        (demoIssue [] 0 UserClaims.zero)
        { UserClaims.zero with
          ClaimsData := { UserClaims.zero.ClaimsData with Expires := 1700000600 } } =
      (Except.ok
        ({ claims :=
            { ClaimsData :=
                { Audience := [], Expires := 1700000600, Issuer := "PSAacc".toList,
                  Subject := "PSUusr".toList },
              User := { Pub := { Allow := [] }, Sub := { Allow := [] }, IssuerAccount := [] } },
           signedBy := { handle := "SAacc".toList } },
          0),
        demoStorage (demoIssue [] 0 UserClaims.zero)) := by
  decide

/-- C11, amended: for an issue record with `ExpirationS` not greater than 0,
`generateUserJWT` returns `expiresAt = 0` and leaves the expires claim as the
claims object handed in carries it; the token has no expiration (expires 0)
when the claims object has none. -/
theorem generateUserJWT_no_expiration (env : Env) (storage storage2 : Storage)
    (issue : IssueUserStorage) (claims : UserClaims) (token : Token) (expiresAt : Int)
    (hexp : issue.ExpirationS ≤ 0)
    (h : generateUserJWT env storage issue claims = (Except.ok (token, expiresAt), storage2)) :
    expiresAt = 0 ∧
      token.claims.ClaimsData.Expires = claims.ClaimsData.Expires ∧
      (claims.ClaimsData.Expires = 0 → token.claims.ClaimsData.Expires = 0) := by
  obtain ⟨_, _, a, _, s, _, _, u, _, _, _, _, _, _, _, _, _, hclaims, hexpires, _⟩ :=
    generateUserJWT_ok h
  have hnot : ¬ issue.ExpirationS > 0 := not_lt.mpr hexp
  have h1 : (stampClaims env issue claims a s u).2 = 0 := by
    unfold stampClaims
    rw [if_neg hnot]
  have h2 : (stampClaims env issue claims a s u).1.ClaimsData.Expires
      = claims.ClaimsData.Expires := by
    unfold stampClaims
    rw [if_neg hnot]
    by_cases hk : issue.UseSigningKey ≠ [] <;> simp [hk]
  rw [hclaims, hexpires]
  exact ⟨h1, h2, fun h0 => h2.trans h0⟩

/-- C11, amended, at the demo store with `ExpirationS = -5` and a template
without an expires claim: the returned expiry and the expires claim are 0. -/
theorem generateUserJWT_no_expiration_witness :
    (demoIssue [] (-5) UserClaims.zero).ExpirationS ≤ 0 ∧
    (generateUserJWT (demoEnv ⟨1700000000, 0⟩)
        (demoStorage (demoIssue [] (-5) UserClaims.zero))
        (demoIssue [] (-5) UserClaims.zero) UserClaims.zero).1 =
      Except.ok
        ({ claims :=
            { ClaimsData :=
                { Audience := [], Expires := 0, Issuer := "PSAacc".toList,
                  Subject := "PSUusr".toList },
              User := { Pub := { Allow := [] }, Sub := { Allow := [] }, IssuerAccount := [] } },
           signedBy := { handle := "SAacc".toList } },
          0) ∧
    ((0 : Int) = 0 ∧
      (0 : Int) = UserClaims.zero.ClaimsData.Expires ∧
      (UserClaims.zero.ClaimsData.Expires = 0 → (0 : Int) = 0)) :=
  ⟨by decide, by decide,
    generateUserJWT_no_expiration (demoEnv ⟨1700000000, 0⟩)
      (demoStorage (demoIssue [] (-5) UserClaims.zero))
      (demoStorage (demoIssue [] (-5) UserClaims.zero))
      (demoIssue [] (-5) UserClaims.zero) UserClaims.zero
      { claims :=
          { ClaimsData :=
              { Audience := [], Expires := 0, Issuer := "PSAacc".toList,
                Subject := "PSUusr".toList },
            User := { Pub := { Allow := [] }, Sub := { Allow := [] }, IssuerAccount := [] } },
        signedBy := { handle := "SAacc".toList } }
      0 (by decide) (by decide)⟩

/-- C13: `generateUserCreds` is read-only: for every storage and every
parameters value, whether the call succeeds or fails, the entries of the
storage after the call are those before it. -/
theorem generateUserCreds_read_only (env : Env) (storage : Storage)
    (params : UserCredsParameters) :
    (generateUserCreds env storage params).2.entries = storage.entries := by
  unfold generateUserCreds
  have e1 := readUserIssue_entries storage
    { Operator := params.Operator, Account := params.Account, User := params.User,
      UseSigningKey := [], ClaimsTemplate := UserClaims.zero, ExpirationS := 0 }
  split <;> rename_i h1 <;> rw [h1] at e1 <;> simp only at e1
  · exact e1
  · exact e1
  · rename_i issue st1
    split
    · exact e1
    · rename_i processedClaims _
      have e2 := generateUserJWT_entries env st1 issue processedClaims
      split <;> rename_i h2 <;> rw [h2] at e2 <;> simp only at e2
      · exact e2.trans e1
      · rename_i jwtToken expiresAt st2
        have e3 := readUserNkey_entries st2
          { Operator := params.Operator, Account := params.Account, User := params.User,
            Signing := [] }
        split <;> rename_i h3 <;> rw [h3] at e3 <;> simp only at e3
        · exact e3.trans (e2.trans e1)
        · exact e3.trans (e2.trans e1)
        · split
          · exact e3.trans (e2.trans e1)
          · split
            · exact e3.trans (e2.trans e1)
            · split
              · exact e3.trans (e2.trans e1)
              · exact e3.trans (e2.trans e1)

/-- C12 as stated fails: on a store that holds nothing, so that account `acc1`
has no issue record, `addUserIssue` for user `u1` of `acc1` succeeds, and
afterwards the store holds the user's issue record and the user's key pair. -/
theorem addUserIssue_before_account :
    (readAccountIssue emptyStorage "op1".toList "acc1".toList).1 = Except.ok none ∧
    addUserIssue (demoCollaborators ⟨1700000000, 0⟩) emptyStorage
        (demoParams [] 0 UserClaims.zero) =
      (Except.ok (),
        { entries :=
            [(getUserIssuePath "op1".toList "acc1".toList "u1".toList,
               Entry.userIssue (demoIssue [] 0 UserClaims.zero)),
             (getUserNkeyPath "op1".toList "acc1".toList "u1".toList,
               Entry.nkey { Seed := "SUnew".toList })],
          faults := [] }) := by
  decide

/-- C12, amended: issuing a user does not look at the account's issue record.
On a store that never fails, where the account has no issue record and the
user neither an issue record nor a key pair, `addUserIssue` for a user other
than the push user succeeds once the key library generates a key pair; it
stores the user's issue record, with the values of the parameters and the
key flag set, and the generated key pair, and the account still has no issue
record. -/
theorem addUserIssue_needs_no_account (c : Collaborators) (storage : Storage)
    (params : IssueUserParameters) (seed : Str)
    (hacc : storage.entries.lookup (getAccountIssuePath params.Operator params.Account)
      = none)
    (hfaults : storage.faults = [])
    (hrec : storage.entries.lookup
      (getUserIssuePath params.Operator params.Account params.User) = none)
    (hkey : storage.entries.lookup
      (getUserNkeyPath params.Operator params.Account params.User) = none)
    (hseed : c.CreateUserSeed = Except.ok seed)
    (hpush : params.User ≠ c.DefaultPushUser) :
    ∃ storage2, addUserIssue c storage params = (Except.ok (), storage2) ∧
      storage2.entries.lookup (getUserIssuePath params.Operator params.Account params.User)
        = some (Entry.userIssue
            { Operator := params.Operator, Account := params.Account, User := params.User,
              UseSigningKey := params.UseSigningKey,
              ClaimsTemplate := params.ClaimsTemplate,
              ExpirationS := params.ExpirationS,
              Status := { User := { Nkey := true, JWT := false } } }) ∧
      storage2.entries.lookup (getUserNkeyPath params.Operator params.Account params.User)
        = some (Entry.nkey { Seed := seed }) ∧
      storage2.entries.lookup (getAccountIssuePath params.Operator params.Account) = none := by
  obtain ⟨entries, faults⟩ := storage
  simp only at hacc hfaults hrec hkey
  subst hfaults
  have hni := getUserNkeyPath_ne_issue params.Operator params.Account params.User
    params.Operator params.Account params.User
  have hna := getUserNkeyPath_ne_accountIssue params.Operator params.Account params.User
    params.Operator params.Account
  have hia := getUserIssuePath_ne_account params.Operator params.Account params.User
  have hni2 : (getUserNkeyPath params.Operator params.Account params.User ==
      getUserIssuePath params.Operator params.Account params.User) = false := by simp [hni]
  have hin2 : (getUserIssuePath params.Operator params.Account params.User ==
      getUserNkeyPath params.Operator params.Account params.User) = false := by
    simp [Ne.symm hni]
  have han : (getAccountIssuePath params.Operator params.Account ==
      getUserNkeyPath params.Operator params.Account params.User) = false := by
    simp [Ne.symm hna]
  have hai : (getAccountIssuePath params.Operator params.Account ==
      getUserIssuePath params.Operator params.Account params.User) = false := by
    simp [Ne.symm hia]
  unfold addUserIssue
  rw [storeUserIssue_fresh entries params hrec]
  simp only
  unfold refreshUser
  rw [issueUserNKeys_fresh c _ _ seed
    (by simp only [List.lookup_cons, hni2, lookup_filter_ne, if_neg hni]; exact hkey) hseed]
  simp only
  rw [updateUserStatus_present _ _ { Seed := seed } (by simp [List.lookup_cons])]
  simp only
  rw [storeUserIssueUpdate_never_fails]
  simp only [if_neg hpush]
  refine ⟨_, rfl, ?_, ?_, ?_⟩
  · simp [List.lookup_cons]
  · simp only [List.lookup_cons, hni2, lookup_filter_ne, if_neg hni]
    simp
  · simp only [List.lookup_cons, hai, han, lookup_filter_ne, if_neg (Ne.symm hia),
      if_neg (Ne.symm hna)]
    exact hacc

/-- C12, amended, at the store that holds nothing: user `u1` of `acc1` is
issued although `acc1` has no issue record. -/
theorem addUserIssue_needs_no_account_witness :
    ∃ storage2,
      addUserIssue (demoCollaborators ⟨1700000000, 0⟩) emptyStorage
          (demoParams [] 0 UserClaims.zero) = (Except.ok (), storage2) ∧
      storage2.entries.lookup (getUserIssuePath "op1".toList "acc1".toList "u1".toList)
        = some (Entry.userIssue (demoIssue [] 0 UserClaims.zero)) ∧
      storage2.entries.lookup (getUserNkeyPath "op1".toList "acc1".toList "u1".toList)
        = some (Entry.nkey { Seed := "SUnew".toList }) ∧
      storage2.entries.lookup (getAccountIssuePath "op1".toList "acc1".toList) = none :=
  addUserIssue_needs_no_account (demoCollaborators ⟨1700000000, 0⟩) emptyStorage
    (demoParams [] 0 UserClaims.zero) "SUnew".toList (by decide) rfl (by decide) (by decide)
    rfl (by decide)

/-- C18: re-issuing never replaces a key.  Whatever `addUserIssue` returns, an
entry stored at the user's key path before the call is the entry stored there
after it, so that the path holds something new only when it held nothing
before (the resolver refresh for the push user, a collaborator outside these
sources, is taken to leave the key path alone). -/
theorem addUserIssue_keeps_nkey (c : Collaborators) (storage : Storage)
    (params : IssueUserParameters)
    (hcollab : params.User = c.DefaultPushUser → ∀ s op,
      (c.refreshAccountResolvers s op).2.entries.lookup
          (getUserNkeyPath params.Operator params.Account params.User) =
        s.entries.lookup (getUserNkeyPath params.Operator params.Account params.User)) :
    (∀ e, storage.entries.lookup
          (getUserNkeyPath params.Operator params.Account params.User) = some e →
        (addUserIssue c storage params).2.entries.lookup
          (getUserNkeyPath params.Operator params.Account params.User) = some e) ∧
    ((addUserIssue c storage params).2.entries.lookup
          (getUserNkeyPath params.Operator params.Account params.User) ≠
        storage.entries.lookup (getUserNkeyPath params.Operator params.Account params.User) →
      storage.entries.lookup
        (getUserNkeyPath params.Operator params.Account params.User) = none) := by
  have hkeep := fun e => addUserIssue_lookup_nkey c storage params e hcollab
  refine ⟨hkeep, fun hne => ?_⟩
  cases hl : storage.entries.lookup
      (getUserNkeyPath params.Operator params.Account params.User) with
  | none => rfl
  | some e =>
    rw [hl, hkeep e hl] at hne
    exact absurd rfl hne

/-- C18, at the demo store, where user `u1` has the key pair `SUusr`: after
re-issuing `u1` with a signing key and an expiration the key pair is still
`SUusr`. -/
theorem addUserIssue_keeps_nkey_witness :
    (addUserIssue (demoCollaborators ⟨1700000000, 0⟩)
        (demoStorage (demoIssue [] 0 UserClaims.zero))
        (demoParams "sk1".toList 3600 UserClaims.zero)).2.entries.lookup
      (getUserNkeyPath "op1".toList "acc1".toList "u1".toList)
        = some (Entry.nkey { Seed := "SUusr".toList }) :=
  (addUserIssue_keeps_nkey (demoCollaborators ⟨1700000000, 0⟩)
    (demoStorage (demoIssue [] 0 UserClaims.zero))
    (demoParams "sk1".toList 3600 UserClaims.zero) (fun _ _ _ => rfl)).1 _ (by decide)

/-- C19: after `addUserIssue` has succeeded, `readUserIssue` for the same
operator, account and user returns a record whose `Operator`, `Account`,
`User`, `UseSigningKey`, `ClaimsTemplate` and `ExpirationS` are those of the
parameters, whatever record was stored before the call (the backend answers
the read; the resolver refresh for the push user, a collaborator outside these
sources, is taken to leave the user's issue path alone). -/
theorem addUserIssue_overwrites (c : Collaborators) (storage storage2 : Storage)
    (params : IssueUserParameters)
    (hcollab : params.User = c.DefaultPushUser → ∀ s op,
      (c.refreshAccountResolvers s op).2.entries.lookup
          (getUserIssuePath params.Operator params.Account params.User) =
        s.entries.lookup (getUserIssuePath params.Operator params.Account params.User))
    (h : addUserIssue c storage params = (Except.ok (), storage2))
    (hanswers : storage2.answers) :
    ∃ issue, (readUserIssue storage2 params).1 = Except.ok (some issue) ∧
      issue.Operator = params.Operator ∧ issue.Account = params.Account ∧
      issue.User = params.User ∧ issue.UseSigningKey = params.UseSigningKey ∧
      issue.ClaimsTemplate = params.ClaimsTemplate ∧
      issue.ExpirationS = params.ExpirationS := by
  unfold addUserIssue at h
  split at h <;> rename_i hs
  · simp at h
  · rename_i issue st1
    obtain ⟨⟨ho, ha, hu, hk, ht, hx⟩, _⟩ := storeUserIssue_ok hs
    obtain ⟨nk, hl⟩ := refreshUser_ok (by rw [ho, ha, hu]; exact hcollab) h
    have hpath : getUserIssuePath issue.Operator issue.Account issue.User =
        getUserIssuePath params.Operator params.Account params.User := by rw [ho, ha, hu]
    rw [hpath] at hl
    refine ⟨{ issue with Status := { User := { issue.Status.User with Nkey := nk } } },
      ?_, ho, ha, hu, hk, ht, hx⟩
    rw [readUserIssue_of_answers storage2 params hanswers, hl]

/-- C19, at the demo store, where user `u1` is stored without signing key,
without expiration and with an empty template: after re-issuing with the
signing key `sk1`, the expiration 3600 and a template with audience
`{{region}}`, the stored record carries the new values. -/
theorem addUserIssue_overwrites_witness :
    ∃ issue,
      (readUserIssue
        { entries :=
            [(getUserIssuePath "op1".toList "acc1".toList "u1".toList,
               Entry.userIssue
                 (demoIssue "sk1".toList 3600 (demoTemplate (placeholder "region".toList)))),
             (getAccountNkeyPath "op1".toList "acc1".toList,
               Entry.nkey { Seed := "SAacc".toList }),
             (getAccountSigningNkeyPath "op1".toList "acc1".toList "sk1".toList,
               Entry.nkey { Seed := "SAsig".toList }),
             (getUserNkeyPath "op1".toList "acc1".toList "u1".toList,
               Entry.nkey { Seed := "SUusr".toList })],
          faults := [] }
        (demoParams "sk1".toList 3600 (demoTemplate (placeholder "region".toList)))).1
        = Except.ok (some issue) ∧
      issue.Operator = "op1".toList ∧ issue.Account = "acc1".toList ∧
      issue.User = "u1".toList ∧ issue.UseSigningKey = "sk1".toList ∧
      issue.ClaimsTemplate = demoTemplate (placeholder "region".toList) ∧
      issue.ExpirationS = 3600 :=
  addUserIssue_overwrites (demoCollaborators ⟨1700000000, 0⟩)
    (demoStorage (demoIssue [] 0 UserClaims.zero)) _
    (demoParams "sk1".toList 3600 (demoTemplate (placeholder "region".toList)))
    (fun _ _ _ => rfl) (by decide) (by decide)

/-- C14: when no issue record is stored for operator, account and user, in
particular in the storage that a successful `deleteUserIssue` for that user
has left (of a storage whose record of the user carried the user's names),
and the backend answers the read, `generateUserCreds` fails with
the error `user template not found` for every parameter map, and
`pathReadUserCreds`, for a request that validates and whose parameters parse,
returns the error response `GeneratingCredsFailedError: user template not
found` with a nil Go error. -/
theorem pathReadUserCreds_without_template (env : Env) (texts : Texts) (storage : Storage)
    (data : FieldData)
    (habsent :
      storage.entries.lookup (getUserIssuePath data.operator data.account data.user) = none ∨
      ∃ (c : Collaborators) (storage0 : Storage) (params : IssueUserParameters),
        (params.Operator = data.operator ∧ params.Account = data.account ∧
          params.User = data.user) ∧
        deleteUserIssue c storage0 params = (Except.ok (), storage) ∧
        storage0.ownRecord params.Operator params.Account params.User)
    (hanswers : storage.answers) :
    (∀ parameters,
      (generateUserCreds env storage
        { Operator := data.operator, Account := data.account, User := data.user,
          Parameters := parameters }).1 = Except.error Error.userTemplateNotFound) ∧
    (data.valid = true → requestParameters data.parameters ≠ none →
      (pathReadUserCreds env texts storage data).1 =
        (Response.errorResponse
          "GeneratingCredsFailedError: user template not found".toList, none)) := by
  have hnone : storage.entries.lookup
      (getUserIssuePath data.operator data.account data.user) = none := by
    rcases habsent with h | ⟨c, storage0, params, ⟨ho, ha, hu⟩, hdel, hown⟩
    · exact h
    · have := (deleteUserIssue_ok_lookup hown hdel).1
      rw [ho, ha, hu] at this
      exact this
  have hgen : ∀ parameters,
      generateUserCreds env storage
        { Operator := data.operator, Account := data.account, User := data.user,
          Parameters := parameters } =
        (Except.error Error.userTemplateNotFound,
          { entries := storage.entries, faults := storage.faults.tail }) := by
    intro parameters
    unfold generateUserCreds
    simp only
    rw [readUserIssue_of_answers storage _ hanswers]
    simp only [hnone]
  refine ⟨fun parameters => by rw [hgen parameters], fun hvalid hparse => ?_⟩
  unfold pathReadUserCreds
  rw [if_neg (by simp [hvalid])]
  cases hp : requestParameters data.parameters with
  | none => exact absurd hp hparse
  | some parameters =>
    simp only
    rw [hgen parameters]
    rfl

/-- C14, at the storage that `deleteUserIssue` for `u1` has left of the demo
store: reading the credentials of `u1` with the parameters `region=eu` gives
the error response `GeneratingCredsFailedError: user template not found`. -/
theorem pathReadUserCreds_without_template_witness :
    (∀ parameters,
      (generateUserCreds (demoEnv ⟨1700000000, 0⟩) demoStorageAfterDelete
        { Operator := "op1".toList, Account := "acc1".toList, User := "u1".toList,
          Parameters := parameters }).1 = Except.error Error.userTemplateNotFound) ∧
    ((demoRequest (some "region=eu".toList)).valid = true →
      requestParameters (demoRequest (some "region=eu".toList)).parameters ≠ none →
      (pathReadUserCreds (demoEnv ⟨1700000000, 0⟩) demoTexts demoStorageAfterDelete
          (demoRequest (some "region=eu".toList))).1 =
        (Response.errorResponse
          "GeneratingCredsFailedError: user template not found".toList, none)) :=
  pathReadUserCreds_without_template (demoEnv ⟨1700000000, 0⟩) demoTexts
    demoStorageAfterDelete (demoRequest (some "region=eu".toList))
    (Or.inr ⟨demoCollaborators ⟨1700000000, 0⟩,
      demoStorageWithAccount (demoIssue [] 0 UserClaims.zero),
      demoParams [] 0 UserClaims.zero, by decide, by decide, by decide⟩)
    (by decide)

/-- C15: `deleteUserIssue` for a user without a stored issue record, also one
whose record a successful `deleteUserIssue` has just removed, returns success
and leaves every entry of the storage as it is, when the backend answers its
read; and a second call after it again returns success and leaves every
entry as it is. -/
theorem deleteUserIssue_idempotent (c : Collaborators) (storage : Storage)
    (params : IssueUserParameters)
    (habsent :
      storage.entries.lookup
        (getUserIssuePath params.Operator params.Account params.User) = none ∨
      ∃ (c0 : Collaborators) (storage0 : Storage),
        deleteUserIssue c0 storage0 params = (Except.ok (), storage) ∧
        storage0.ownRecord params.Operator params.Account params.User)
    (hanswers : storage.answers) :
    ∃ storage2, deleteUserIssue c storage params = (Except.ok (), storage2) ∧
      storage2.entries = storage.entries ∧
      (storage2.answers →
        ∃ storage3, deleteUserIssue c storage2 params = (Except.ok (), storage3) ∧
          storage3.entries = storage2.entries) := by
  have hnone : storage.entries.lookup
      (getUserIssuePath params.Operator params.Account params.User) = none := by
    rcases habsent with h | ⟨c0, storage0, hdel, hown⟩
    · exact h
    · exact (deleteUserIssue_ok_lookup hown hdel).1
  refine ⟨_, deleteUserIssue_absent c storage params hnone hanswers, rfl, fun h2 => ?_⟩
  exact ⟨_, deleteUserIssue_absent c _ params hnone h2, rfl⟩

/-- C15, at the demo store: after `deleteUserIssue` for `u1` has succeeded, a
second call succeeds and leaves the storage as the first call left it. -/
theorem deleteUserIssue_idempotent_witness :
    ∃ storage2,
      deleteUserIssue (demoCollaborators ⟨1700000000, 0⟩) demoStorageAfterDelete
          (demoParams [] 0 UserClaims.zero) = (Except.ok (), storage2) ∧
      storage2.entries = demoStorageAfterDelete.entries ∧
      (storage2.answers →
        ∃ storage3,
          deleteUserIssue (demoCollaborators ⟨1700000000, 0⟩) storage2
              (demoParams [] 0 UserClaims.zero) = (Except.ok (), storage3) ∧
          storage3.entries = storage2.entries) :=
  deleteUserIssue_idempotent (demoCollaborators ⟨1700000000, 0⟩) demoStorageAfterDelete
    (demoParams [] 0 UserClaims.zero)
    (Or.inr ⟨demoCollaborators ⟨1700000000, 0⟩,
      demoStorageWithAccount (demoIssue [] 0 UserClaims.zero), by decide, by decide⟩)
    (by decide)

/-- C16: in `deleteUserIssue`, when the user's record (carrying the user's
names) and the issue record of its account (carrying the account's names)
have been read, revocation precedes every deletion.  If
`addUserToRevocationList` returns an error, `deleteUserIssue` returns that
error and the user's key path and issue record are as before the call; if the
revocation has succeeded and the deletion of the key pair returns an error,
`deleteUserIssue` returns that error and the key path and the issue record
are as before; and only when both have succeeded the issue record, until
then untouched, is deleted. -/
theorem deleteUserIssue_revokes_first (c : Collaborators) (storage st1 st2 : Storage)
    (params : IssueUserParameters) (issue : IssueUserStorage) (account : IssueAccountStorage)
    (h1 : readUserIssue storage params = (Except.ok (some issue), st1))
    (h2 : readAccountIssue st1 issue.Operator issue.Account = (Except.ok (some account), st2))
    (hown : issue.Operator = params.Operator ∧ issue.Account = params.Account ∧
      issue.User = params.User)
    (hacc : account.Operator = issue.Operator ∧ account.Account = issue.Account) :
    (∀ err st3, addUserToRevocationList c st2 account issue = (Except.error err, st3) →
      deleteUserIssue c storage params = (Except.error err, st3) ∧
      st3.entries.lookup (getUserNkeyPath params.Operator params.Account params.User) =
        storage.entries.lookup (getUserNkeyPath params.Operator params.Account params.User) ∧
      st3.entries.lookup (getUserIssuePath params.Operator params.Account params.User) =
        some (Entry.userIssue issue)) ∧
    (∀ st3 err st4, addUserToRevocationList c st2 account issue = (Except.ok (), st3) →
      deleteUserNkey st3
          { Operator := issue.Operator, Account := issue.Account, User := issue.User,
            Signing := [] } = (Except.error err, st4) →
      deleteUserIssue c storage params = (Except.error err, st4) ∧
      st4.entries.lookup (getUserNkeyPath params.Operator params.Account params.User) =
        storage.entries.lookup (getUserNkeyPath params.Operator params.Account params.User) ∧
      st4.entries.lookup (getUserIssuePath params.Operator params.Account params.User) =
        some (Entry.userIssue issue)) ∧
    (∀ st3 st4, addUserToRevocationList c st2 account issue = (Except.ok (), st3) →
      deleteUserNkey st3
          { Operator := issue.Operator, Account := issue.Account, User := issue.User,
            Signing := [] } = (Except.ok (), st4) →
      deleteUserIssue c storage params =
        deleteFromStorage st4 (getUserIssuePath params.Operator params.Account params.User) ∧
      st4.entries.lookup (getUserNkeyPath params.Operator params.Account params.User) = none ∧
      st4.entries.lookup (getUserIssuePath params.Operator params.Account params.User) =
        some (Entry.userIssue issue)) := by
  obtain ⟨ho, ha, hu⟩ := hown
  obtain ⟨hao, haa⟩ := hacc
  have hrec := readUserIssue_some h1
  have e1 : st1.entries = storage.entries := by
    have := readUserIssue_entries storage params
    rw [h1] at this
    exact this
  have e2 : st2.entries = st1.entries := by
    have := readAccountIssue_entries st1 issue.Operator issue.Account
    rw [h2] at this
    exact this
  have hsteps := deleteUserIssue_steps (c := c) h1 h2
  simp only at hsteps
  rw [ho, ha, hu] at hsteps
  have hframe : ∀ p, p ≠ getAccountIssuePath account.Operator account.Account →
      p ≠ getAccountJwtPath account.Operator account.Account →
      (addUserToRevocationList c st2 account issue).2.entries.lookup p =
        storage.entries.lookup p := by
    intro p hp1 hp2
    rw [addUserToRevocationList_lookup_other c st2 account issue p hp1 hp2, e2, e1]
  have hk := hframe (getUserNkeyPath params.Operator params.Account params.User)
    (getUserNkeyPath_ne_accountIssue _ _ _ _ _) (getUserNkeyPath_ne_accountJwt _ _ _ _ _)
  have hi := hframe (getUserIssuePath params.Operator params.Account params.User)
    (by rw [hao, haa, ho, ha]; exact getUserIssuePath_ne_account _ _ _)
    (getUserIssuePath_ne_accountJwt _ _ _ _ _)
  rw [hrec] at hi
  have hne := getUserNkeyPath_ne_issue params.Operator params.Account params.User
    params.Operator params.Account params.User
  refine ⟨fun err st3 hrev => ?_, fun st3 err st4 hrev hdel => ?_,
    fun st3 st4 hrev hdel => ?_⟩
  · rw [hrev] at hsteps hk hi
    exact ⟨hsteps, hk, hi⟩
  · rw [ho, ha, hu] at hdel
    rw [hrev] at hsteps hk hi
    simp only at hsteps hk hi
    rw [hdel] at hsteps
    have e4 : st4.entries = st3.entries := deleteFromStorage_error hdel
    exact ⟨hsteps, by rw [e4]; exact hk, by rw [e4]; exact hi⟩
  · rw [ho, ha, hu] at hdel
    rw [hrev] at hsteps hk hi
    simp only at hsteps hk hi
    rw [hdel] at hsteps
    have hf := deleteFromStorage_lookup_other st3
      (getUserNkeyPath params.Operator params.Account params.User)
      (getUserIssuePath params.Operator params.Account params.User) (Ne.symm hne)
    have hd : deleteFromStorage st3
        (getUserNkeyPath params.Operator params.Account params.User) = (Except.ok (), st4) :=
      hdel
    rw [hd] at hf
    exact ⟨hsteps, deleteFromStorage_lookup_same hd, by rw [hf]; exact hi⟩

/-- C16, at the demo store behind a backend whose fourth call fails (the
write of the account's record in the revocation step): `deleteUserIssue`
returns the storage error, and the key pair and the issue record of `u1` are
still stored. -/
theorem deleteUserIssue_revokes_first_witness :
    deleteUserIssue (demoCollaborators ⟨1700000000, 0⟩)
        (demoStorageFailing (demoIssue [] 0 UserClaims.zero) [false, false, false, true])
        (demoParams [] 0 UserClaims.zero) =
      (Except.error Error.storageFailure,
        demoStorageFailing (demoIssue [] 0 UserClaims.zero) []) ∧
    (demoStorageFailing (demoIssue [] 0 UserClaims.zero) []).entries.lookup
        (getUserNkeyPath "op1".toList "acc1".toList "u1".toList) =
      (demoStorageFailing (demoIssue [] 0 UserClaims.zero)
        [false, false, false, true]).entries.lookup
        (getUserNkeyPath "op1".toList "acc1".toList "u1".toList) ∧
    (demoStorageFailing (demoIssue [] 0 UserClaims.zero) []).entries.lookup
        (getUserIssuePath "op1".toList "acc1".toList "u1".toList) =
      some (Entry.userIssue (demoIssue [] 0 UserClaims.zero)) :=
  (deleteUserIssue_revokes_first (demoCollaborators ⟨1700000000, 0⟩)
    (demoStorageFailing (demoIssue [] 0 UserClaims.zero) [false, false, false, true])
    (demoStorageFailing (demoIssue [] 0 UserClaims.zero) [false, false, true])
    (demoStorageFailing (demoIssue [] 0 UserClaims.zero) [false, true])
    (demoParams [] 0 UserClaims.zero) (demoIssue [] 0 UserClaims.zero)
    { Operator := "op1".toList, Account := "acc1".toList }
    (by decide) (by decide) (by decide) (by decide)).1 Error.storageFailure
    (demoStorageFailing (demoIssue [] 0 UserClaims.zero) []) (by decide)

/-- C17: after `deleteUserIssue` has succeeded for a user whose issue record
existed (and carried the user's names), a backend that answers returns absent
from `readUserIssue` and from `readUserNkey` for that user: neither the issue
record nor the key pair is stored any more. -/
theorem deleteUserIssue_removes (c : Collaborators) (storage storage2 : Storage)
    (params : IssueUserParameters) (issue : IssueUserStorage)
    (hrec : storage.entries.lookup
      (getUserIssuePath params.Operator params.Account params.User)
        = some (Entry.userIssue issue))
    (hown : issue.Operator = params.Operator ∧ issue.Account = params.Account ∧
      issue.User = params.User)
    (h : deleteUserIssue c storage params = (Except.ok (), storage2))
    (hanswers : storage2.answers) :
    (readUserIssue storage2 params).1 = Except.ok none ∧
    (readUserNkey storage2
      { Operator := params.Operator, Account := params.Account, User := params.User,
        Signing := [] }).1 = Except.ok none ∧
    storage2.entries.lookup (getUserIssuePath params.Operator params.Account params.User)
      = none ∧
    storage2.entries.lookup (getUserNkeyPath params.Operator params.Account params.User)
      = none := by
  have hown2 : storage.ownRecord params.Operator params.Account params.User := by
    unfold Storage.ownRecord
    rw [hrec]
    exact hown
  obtain ⟨hi, hk⟩ := deleteUserIssue_ok_lookup hown2 h
  have hk := hk issue hrec
  refine ⟨?_, ?_, hi, hk⟩
  · rw [readUserIssue_of_answers storage2 params hanswers, hi]
  · unfold readUserNkey
    rw [readNkey_of_answers storage2 _ hanswers, hk]

/-- C17, at the demo store: after `deleteUserIssue` for `u1`, neither the issue
record nor the key pair of `u1` is read any more. -/
theorem deleteUserIssue_removes_witness :
    (readUserIssue demoStorageAfterDelete (demoParams [] 0 UserClaims.zero)).1
      = Except.ok none ∧
    (readUserNkey demoStorageAfterDelete
      { Operator := "op1".toList, Account := "acc1".toList, User := "u1".toList,
        Signing := [] }).1 = Except.ok none ∧
    demoStorageAfterDelete.entries.lookup
      (getUserIssuePath "op1".toList "acc1".toList "u1".toList) = none ∧
    demoStorageAfterDelete.entries.lookup
      (getUserNkeyPath "op1".toList "acc1".toList "u1".toList) = none :=
  deleteUserIssue_removes (demoCollaborators ⟨1700000000, 0⟩)
    (demoStorageWithAccount (demoIssue [] 0 UserClaims.zero)) demoStorageAfterDelete
    (demoParams [] 0 UserClaims.zero) (demoIssue [] 0 UserClaims.zero)
    (by decide) (by decide) (by decide) (by decide)

/-- C20 as stated fails: the input `a=b=c` is one entry with two `=`
characters, yet `parseKeyValueString` returns no error and maps `a` to `b=c`;
and the empty input, whose one entry holds no `=`, is accepted too. -/
theorem parseKeyValueString_accepts_two_equals :
    split ',' "a=b=c".toList = ["a=b=c".toList] ∧
    "a=b=c".toList.count '=' = 2 ∧
    parseKeyValueString "a=b=c".toList [] = (none, [("a".toList, "b=c".toList)]) ∧
    split ',' [] = [[]] ∧
    parseKeyValueString [] [] = (none, []) := by
  decide

/-- C20, amended: `parseKeyValueString` returns an error for every input that
is not empty and in which some comma-separated entry contains no `=`
character. -/
theorem parseKeyValueString_rejects_missing_equals (input : Str) (result : Parameters)
    (hne : input ≠ [])
    (h : ∃ pair, pair ∈ split ',' input ∧ '=' ∉ pair) :
    ∃ err, (parseKeyValueString input result).1 = some err := by
  obtain ⟨pair, hp, hm⟩ := h
  have := (parseKeyValueString_error_iff input result).mpr ⟨hne, pair, hp, Or.inl hm⟩
  exact Option.ne_none_iff_exists'.mp this

/-- C20, amended, at the input `a=1,b`: the entry `b` holds no `=`, and the
call returns an error. -/
theorem parseKeyValueString_rejects_missing_equals_witness :
    ∃ err, (parseKeyValueString "a=1,b".toList []).1 = some err :=
  parseKeyValueString_rejects_missing_equals "a=1,b".toList [] (by decide)
    ⟨"b".toList, by decide, by decide⟩

/-! ### The path of a user's issue record -/

/-- Two texts that agree up to a separator which neither holds before it agree
piece by piece. -/
theorem append_sep_cancel (sep : Char) :
    ∀ (a b x y : Str), sep ∉ a → sep ∉ b → a ++ sep :: x = b ++ sep :: y → a = b ∧ x = y
  | [], [], x, y, _, _, h => by simpa using h
  | [], d :: b, x, y, _, hb, h => by
    simp only [List.nil_append, List.cons_append, List.cons.injEq] at h
    exact absurd (h.1 ▸ List.mem_cons_self _ _) hb
  | c :: a, [], x, y, ha, _, h => by
    simp only [List.nil_append, List.cons_append, List.cons.injEq] at h
    exact absurd (h.1 ▸ List.mem_cons_self _ _) ha
  | c :: a, d :: b, x, y, ha, hb, h => by
    simp only [List.cons_append, List.cons.injEq] at h
    obtain ⟨hab, hxy⟩ := append_sep_cancel sep a b x y
      (fun hm => ha (List.mem_cons_of_mem _ hm)) (fun hm => hb (List.mem_cons_of_mem _ hm)) h.2
    exact ⟨by rw [h.1, hab], hxy⟩

/-! ### Trimming, and the pieces of an entry -/

theorem dropWhile_append_of_not (p : Char → Bool) (b : Char) (c : Str) (hb : p b = false) :
    ∀ (a : Str), (a ++ b :: c).dropWhile p = a.dropWhile p ++ b :: c
  | [] => by simp [List.dropWhile_cons, hb]
  | x :: a => by
    by_cases hx : p x = true
    · simp only [List.cons_append, List.dropWhile_cons_of_pos hx]
      exact dropWhile_append_of_not p b c hb a
    · simp only [List.cons_append, List.dropWhile_cons_of_neg hx]

theorem trimSpace_eq (s : Str) : trimSpace s = (s.dropWhile isSpace).rdropWhile isSpace := rfl

/-- Dropping at the left and dropping at the right commute. -/
theorem dropWhile_rdropWhile (p : Char → Bool) (l : Str) :
    (l.rdropWhile p).dropWhile p = (l.dropWhile p).rdropWhile p := by
  induction l using List.reverseRecOn with
  | nil => simp [List.rdropWhile]
  | append_singleton l x ih =>
    by_cases hx : p x = true
    · rw [List.rdropWhile_concat_pos _ _ _ hx, ih]
      by_cases hl : l.dropWhile p = []
      · have hall : ∀ a, a ∈ l → p a = true := by
          intro a ha
          by_contra hcon
          have := mem_dropWhile_of_not ha (by simpa using hcon)
          rw [hl] at this
          simp at this
        rw [hl, List.dropWhile_append_of_pos hall]
        simp [List.dropWhile_cons, hx, List.rdropWhile]
      · have : (l ++ [x]).dropWhile p = l.dropWhile p ++ [x] := by
          rw [List.dropWhile_append]
          simp [hl]
        rw [this, List.rdropWhile_concat_pos _ _ _ hx]
    · have hx2 : p x = false := by simpa using hx
      rw [List.rdropWhile_concat_neg _ _ _ hx, dropWhile_append_of_not p x [] hx2,
        List.rdropWhile_concat_neg _ _ _ hx]

theorem trimSpace_dropWhile (s : Str) : trimSpace (s.dropWhile isSpace) = trimSpace s := by
  rw [trimSpace_eq, trimSpace_eq, List.dropWhile_idempotent]

theorem trimSpace_rdropWhile (s : Str) : trimSpace (s.rdropWhile isSpace) = trimSpace s := by
  rw [trimSpace_eq, trimSpace_eq, dropWhile_rdropWhile, List.rdropWhile_idempotent]

/-- Trimming an entry `k=v` trims `k` at the left and `v` at the right. -/
theorem trimSpace_pair (k v : Str) :
    trimSpace (k ++ '=' :: v) = k.dropWhile isSpace ++ '=' :: v.rdropWhile isSpace := by
  have hsp : isSpace '=' = false := by decide
  rw [trimSpace_eq, dropWhile_append_of_not isSpace '=' v hsp]
  unfold List.rdropWhile
  rw [List.reverse_append, List.reverse_cons, List.append_assoc, List.singleton_append,
    dropWhile_append_of_not isSpace '=' _ hsp, List.reverse_append, List.reverse_cons,
    List.reverse_reverse, List.append_assoc, List.singleton_append]

theorem takeWhile_append_sep (sep : Char) (x : Str) :
    ∀ (a : Str), sep ∉ a → (a ++ sep :: x).takeWhile (fun c => c ≠ sep) = a
  | [], _ => by simp [List.takeWhile_cons]
  | c :: a, h => by
    have hc : c ≠ sep := fun hc => h (by simp [hc])
    simp only [List.cons_append, List.takeWhile_cons, ne_eq, hc, not_false_eq_true,
      decide_True, if_true, List.cons.injEq, true_and]
    exact takeWhile_append_sep sep x a (fun hm => h (List.mem_cons_of_mem _ hm))

theorem dropWhile_append_sep (sep : Char) (x : Str) :
    ∀ (a : Str), sep ∉ a → (a ++ sep :: x).dropWhile (fun c => c ≠ sep) = sep :: x
  | [], _ => by simp [List.dropWhile_cons]
  | c :: a, h => by
    have hc : c ≠ sep := fun hc => h (by simp [hc])
    simp only [List.cons_append, List.dropWhile_cons, ne_eq, hc, not_false_eq_true,
      decide_True, if_true]
    exact dropWhile_append_sep sep x a (fun hm => h (List.mem_cons_of_mem _ hm))

/-! ### The loop of `parseKeyValueString` -/

theorem rejected_iff (pair : Str) :
    rejected pair ↔
      ('=' ∉ pair ∨ trimSpace ((trimSpace pair).takeWhile fun c => c ≠ '=') = []) := by
  unfold rejected entryKey
  by_cases hm : '=' ∈ pair
  · have hm2 : '=' ∈ trimSpace pair := (mem_trimSpace (by decide)).mpr hm
    rw [splitN2_key '=' _ hm2]
  · simp [hm]

/-- A rejected entry ends the loop with an error and the map as it is. -/
theorem parsePairs_rejected (pair : Str) (pairs : List Str) (result : Parameters)
    (h : rejected pair) : ∃ err, parsePairs (pair :: pairs) result = (some err, result) :=
  (parsePairs_step pair pairs result).1 ((rejected_iff pair).mp h)

/-- An accepted entry sets its key to its value, and the loop goes on. -/
theorem parsePairs_accepted (pair : Str) (pairs : List Str) (result : Parameters)
    (h : ¬ rejected pair) :
    parsePairs (pair :: pairs) result =
      parsePairs pairs (result.set (entryKey pair) (entryValue pair)) :=
  (parsePairs_step pair pairs result).2 (fun hr => h ((rejected_iff pair).mpr hr))

/-- The loop over entries that are all accepted applies them in order. -/
theorem parsePairs_all_accepted :
    ∀ (pairs : List Str) (result : Parameters), (∀ pair, pair ∈ pairs → ¬ rejected pair) →
      parsePairs pairs result =
        (none, pairs.foldl (fun m pair => m.set (entryKey pair) (entryValue pair)) result)
  | [], _, _ => rfl
  | pair :: pairs, result, h => by
    rw [parsePairs_accepted pair pairs result (h pair (List.mem_cons_self _ _)),
      parsePairs_all_accepted pairs _ (fun q hq => h q (List.mem_cons_of_mem _ hq))]
    rfl

/-- When the loop returns an error, the entries split into accepted ones, the
first rejected one and the rest, and the map has got the accepted ones. -/
theorem parsePairs_error :
    ∀ (pairs : List Str) (result result2 : Parameters) (err : FormatError),
      parsePairs pairs result = (some err, result2) →
      ∃ front bad back, pairs = front ++ bad :: back ∧
        (∀ pair, pair ∈ front → ¬ rejected pair) ∧ rejected bad ∧
        result2 = front.foldl (fun m pair => m.set (entryKey pair) (entryValue pair)) result
  | [], result, result2, err, h => by simp [parsePairs] at h
  | pair :: pairs, result, result2, err, h => by
    by_cases hr : rejected pair
    · obtain ⟨err2, he⟩ := parsePairs_rejected pair pairs result hr
      rw [he] at h
      simp only [Prod.mk.injEq] at h
      exact ⟨[], pair, pairs, rfl, by simp, hr, h.2.symm⟩
    · rw [parsePairs_accepted pair pairs result hr] at h
      obtain ⟨front, bad, back, hp, hf, hb, hres⟩ := parsePairs_error pairs _ _ _ h
      refine ⟨pair :: front, bad, back, by rw [hp]; rfl, ?_, hb, hres⟩
      intro q hq
      rcases List.mem_cons.mp hq with rfl | hq
      · exact hr
      · exact hf q hq

/-! ### Entries written as `k=v` -/

theorem not_mem_dropWhile {p : Char → Bool} {c : Char} {l : Str} (h : c ∉ l) :
    c ∉ l.dropWhile p :=
  fun hm => h (mem_of_mem_dropWhile hm)

/-- What `parseKeyValueString` takes from an entry `k=v` without a further `=`:
the trimmed `k` and the trimmed `v`. -/
theorem entry_of_pair (k v : Str) (hk : '=' ∉ k) :
    '=' ∈ k ++ '=' :: v ∧ entryKey (k ++ '=' :: v) = trimSpace k ∧
      entryValue (k ++ '=' :: v) = trimSpace v := by
  have hk2 : '=' ∉ k.dropWhile isSpace := not_mem_dropWhile hk
  have hm : '=' ∈ k.dropWhile isSpace ++ '=' :: v.rdropWhile isSpace := by simp
  refine ⟨by simp, ?_, ?_⟩
  · unfold entryKey
    rw [trimSpace_pair, splitN2_key '=' _ hm, takeWhile_append_sep '=' _ _ hk2,
      trimSpace_dropWhile]
  · unfold entryValue
    rw [trimSpace_pair]
    unfold splitN2
    rw [if_pos hm, dropWhile_append_sep '=' _ _ hk2]
    simp only [List.getD_cons_succ, List.getD_cons_zero, List.drop_succ_cons, List.drop_zero]
    exact trimSpace_rdropWhile v

theorem split_of_not_mem (sep : Char) : ∀ (a : Str), sep ∉ a → split sep a = [a]
  | [], _ => rfl
  | c :: a, h => by
    have hc : c ≠ sep := fun hc => h (by simp [hc])
    rw [split, if_neg hc, split_of_not_mem sep a (fun hm => h (List.mem_cons_of_mem _ hm))]

theorem split_append_sep (sep : Char) (x : Str) :
    ∀ (a : Str), sep ∉ a → split sep (a ++ sep :: x) = a :: split sep x
  | [], _ => by simp [split]
  | c :: a, h => by
    have hc : c ≠ sep := fun hc => h (by simp [hc])
    rw [List.cons_append, split, if_neg hc,
      split_append_sep sep x a (fun hm => h (List.mem_cons_of_mem _ hm))]

theorem intercalate_cons_cons (sep a b : Str) (l : List Str) :
    sep.intercalate (a :: b :: l) = a ++ sep ++ sep.intercalate (b :: l) := by
  simp [List.intercalate, List.intersperse]

/-- Splitting the comma-joined text of pieces without a comma gives the pieces
back. -/
theorem split_intercalate :
    ∀ (pieces : List Str), pieces ≠ [] → (∀ p, p ∈ pieces → ',' ∉ p) →
      split ',' (",".toList.intercalate pieces) = pieces
  | [], h, _ => absurd rfl h
  | [a], _, hp => by
    have : ",".toList.intercalate [a] = a := by simp [List.intercalate, List.intersperse]
    rw [this]
    exact split_of_not_mem ',' a (hp a (by simp))
  | a :: b :: l, _, hp => by
    have ih := split_intercalate (b :: l) (by simp)
      (fun p h => hp p (List.mem_cons_of_mem _ h))
    have hs : ",".toList = [','] := rfl
    rw [hs] at ih ⊢
    rw [intercalate_cons_cons, List.append_assoc, List.singleton_append,
      split_append_sep ',' _ a (hp a (by simp)), ih]

/-! ### The result map -/

theorem lookup_of_not_has : ∀ (m : Parameters) (k : Str), m.has k = false → m.lookup k = none
  | [], _, _ => rfl
  | (a, b) :: m, k, h => by
    simp only [Parameters.has, List.any_cons, Bool.or_eq_false_iff, beq_eq_false_iff_ne,
      ne_eq] at h
    have hka : (k == a) = false := by simp [Ne.symm h.1]
    rw [List.lookup_cons, hka]
    exact lookup_of_not_has m k h.2

theorem lookup_map_set_other (k v k2 : Str) (h : k2 ≠ k) :
    ∀ (m : Parameters),
      (m.map fun p => if p.1 = k then (k, v) else p).lookup k2 = m.lookup k2
  | [] => rfl
  | (a, b) :: m => by
    have hk : (k2 == k) = false := by simp [h]
    by_cases ha : a = k
    · simp only [List.map_cons, ha, if_true, List.lookup_cons, hk]
      exact lookup_map_set_other k v k2 h m
    · simp only [List.map_cons, if_neg ha, List.lookup_cons]
      rw [lookup_map_set_other k v k2 h m]

theorem lookup_map_set_same (k v : Str) :
    ∀ (m : Parameters), m.has k = true →
      (m.map fun p => if p.1 = k then (k, v) else p).lookup k = some v
  | [], h => by simp [Parameters.has] at h
  | (a, b) :: m, h => by
    by_cases ha : a = k
    · simp [ha, List.lookup_cons]
    · have hka : (k == a) = false := by simp [Ne.symm ha]
      have hm : Parameters.has m k = true := by
        simp only [Parameters.has, List.any_cons, Bool.or_eq_true, beq_iff_eq] at h
        rcases h with h | h
        · exact absurd h ha
        · exact h
      simp only [List.map_cons, if_neg ha, List.lookup_cons, hka]
      exact lookup_map_set_same k v m hm

/-- After `m[key] = value` the key has the value. -/
theorem Parameters.lookup_set_same (m : Parameters) (k v : Str) :
    (m.set k v).lookup k = some v := by
  unfold Parameters.set
  by_cases h : m.has k = true
  · rw [if_pos h]
    exact lookup_map_set_same k v m h
  · rw [if_neg h, List.lookup_append, lookup_of_not_has m k (by simpa using h)]
    simp [List.lookup_cons]

/-- After `m[key] = value` every other key has the value it had. -/
theorem Parameters.lookup_set_other (m : Parameters) (k v k2 : Str) (h : k2 ≠ k) :
    (m.set k v).lookup k2 = m.lookup k2 := by
  have hk : (k2 == k) = false := by simp [h]
  unfold Parameters.set
  by_cases hm : m.has k = true
  · rw [if_pos hm]
    exact lookup_map_set_other k v k2 h m
  · rw [if_neg hm, List.lookup_append]
    simp [List.lookup_cons, hk]

/-- After `m[key] = value` the keys are those before and `key`. -/
theorem Parameters.has_set (m : Parameters) (k v k2 : Str) :
    (m.set k v).has k2 = true ↔ m.has k2 = true ∨ k2 = k := by
  unfold Parameters.set
  by_cases hm : m.has k = true
  · rw [if_pos hm]
    simp only [Parameters.has, List.any_map, List.any_eq_true, Function.comp_apply,
      beq_iff_eq] at hm ⊢
    constructor
    · rintro ⟨p, hp, hpk⟩
      by_cases hpk2 : p.1 = k
      · rw [if_pos hpk2] at hpk
        exact Or.inr hpk.symm
      · rw [if_neg hpk2] at hpk
        exact Or.inl ⟨p, hp, hpk⟩
    · rintro (⟨p, hp, hpk⟩ | rfl)
      · refine ⟨p, hp, ?_⟩
        by_cases hpk2 : p.1 = k
        · rw [if_pos hpk2, ← hpk, hpk2]
        · rw [if_neg hpk2]
          exact hpk
      · obtain ⟨p, hp, hpk⟩ := hm
        exact ⟨p, hp, by rw [if_pos hpk]⟩
  · rw [if_neg hm]
    simp only [Parameters.has, List.any_append, List.any_cons, List.any_nil, Bool.or_false,
      Bool.or_eq_true, beq_iff_eq]
    constructor
    · rintro (h | h)
      · exact Or.inl h
      · exact Or.inr h.symm
    · rintro (h | h)
      · exact Or.inl h
      · exact Or.inr h.symm

/-- Setting the entries of a list in order leaves a key that none of them has
as it was. -/
theorem foldl_set_lookup_other {α : Type} (key value : α → Str) (k2 : Str) :
    ∀ (l : List α) (m : Parameters), (∀ e, e ∈ l → key e ≠ k2) →
      (l.foldl (fun m e => m.set (key e) (value e)) m).lookup k2 = m.lookup k2
  | [], _, _ => rfl
  | e :: l, m, h => by
    rw [List.foldl_cons,
      foldl_set_lookup_other key value k2 l _ (fun e2 h2 => h e2 (List.mem_cons_of_mem _ h2)),
      Parameters.lookup_set_other m _ _ k2 (Ne.symm (h e (List.mem_cons_self _ _)))]

/-- Setting the entries of a list in order adds no key but theirs. -/
theorem foldl_set_has {α : Type} (key value : α → Str) (k2 : Str) :
    ∀ (l : List α) (m : Parameters),
      (l.foldl (fun m e => m.set (key e) (value e)) m).has k2 = true →
        m.has k2 = true ∨ ∃ e, e ∈ l ∧ k2 = key e
  | [], _, h => Or.inl h
  | e :: l, m, h => by
    rw [List.foldl_cons] at h
    rcases foldl_set_has key value k2 l _ h with h1 | ⟨e2, he2, hk⟩
    · rcases (Parameters.has_set m _ _ k2).mp h1 with h2 | h2
      · exact Or.inl h2
      · exact Or.inr ⟨e, List.mem_cons_self _ _, h2⟩
    · exact Or.inr ⟨e2, List.mem_cons_of_mem _ he2, hk⟩

/-- Over entries written `k=v`, the loop sets the trimmed keys to the trimmed
values. -/
theorem foldl_pairs :
    ∀ (entries : List (Str × Str)) (m : Parameters), (∀ e, e ∈ entries → '=' ∉ e.1) →
      (entries.map fun e => e.1 ++ '=' :: e.2).foldl
          (fun m pair => m.set (entryKey pair) (entryValue pair)) m =
        entries.foldl (fun m e => m.set (trimSpace e.1) (trimSpace e.2)) m
  | [], _, _ => rfl
  | e :: entries, m, h => by
    obtain ⟨_, hk, hv⟩ := entry_of_pair e.1 e.2 (h e (List.mem_cons_self _ _))
    rw [List.map_cons, List.foldl_cons, List.foldl_cons, hk, hv]
    exact foldl_pairs entries _ (fun e2 h2 => h e2 (List.mem_cons_of_mem _ h2))

/-! ### What a successful `generateUserCreds` has done -/

theorem FormatUserConfig_ok {jwtString : Token} {seed : Str} {creds : List CredsPart}
    (h : FormatUserConfig jwtString seed = Except.ok creds) :
    creds =
      [CredsPart.text "-----BEGIN NATS USER JWT-----\n".toList,
       CredsPart.token jwtString,
       CredsPart.text "\n------END NATS USER JWT------\n\n".toList,
       CredsPart.text ("************************* IMPORTANT *************************\n" ++
         "NKEY Seed printed below can be used to sign and prove identity.\n" ++
         "NKEYs are sensitive and should be treated as secrets.\n\n" ++
         "-----BEGIN USER NKEY SEED-----\n").toList,
       CredsPart.seed seed,
       CredsPart.text ("\n------END USER NKEY SEED------\n\n" ++
         "*************************************************************\n").toList] := by
  unfold FormatUserConfig at h
  split at h
  · simp only [Except.ok.injEq] at h
    exact h.symm
  · simp at h

/-- The steps behind a successful `generateUserCreds`: the issue record read,
the claims instantiated, the token built by `generateUserJWT`, the user's key
pair read, and the bundle formatted from that token and the seed of that key
pair. -/
theorem generateUserCreds_ok {env : Env} {storage storage2 : Storage}
    {params : UserCredsParameters} {data : UserCredsData}
    (h : generateUserCreds env storage params = (Except.ok data, storage2)) :
    ∃ issue processedClaims st1 jwtToken expiresAt st2 userNkey userKeyPair seed,
      storage.entries.lookup (getUserIssuePath params.Operator params.Account params.User)
        = some (Entry.userIssue issue) ∧
      applyTemplateParameters issue.ClaimsTemplate params.Parameters
        = Except.ok processedClaims ∧
      st1.entries = storage.entries ∧
      generateUserJWT env st1 issue processedClaims
        = (Except.ok (jwtToken, expiresAt), st2) ∧
      storage.entries.lookup (getUserNkeyPath params.Operator params.Account params.User)
        = some (Entry.nkey userNkey) ∧
      env.FromSeed userNkey.Seed = Except.ok userKeyPair ∧
      env.Seed userKeyPair = Except.ok seed ∧
      FormatUserConfig jwtToken seed = Except.ok data.Creds ∧
      data.Operator = params.Operator ∧ data.Account = params.Account ∧
      data.User = params.User ∧ data.Parameters = params.Parameters ∧
      data.ExpiresAt = expiresAt := by
  unfold generateUserCreds at h
  split at h
  · simp at h
  · simp at h
  · rename_i issue st1 h1
    have hrec := readUserIssue_some h1
    have e1 : st1.entries = storage.entries := by
      have := readUserIssue_entries storage
        { Operator := params.Operator, Account := params.Account, User := params.User,
          UseSigningKey := [], ClaimsTemplate := UserClaims.zero, ExpirationS := 0 }
      rw [h1] at this
      exact this
    split at h
    · simp at h
    · rename_i processedClaims hp
      split at h
      · simp at h
      · rename_i jwtToken expiresAt st2 hj
        have e2 : st2.entries = st1.entries := by
          have := generateUserJWT_entries env st1 issue processedClaims
          rw [hj] at this
          exact this
        split at h
        · simp at h
        · simp at h
        · rename_i userNkey st3 hk
          have hkey := readNkey_some hk
          rw [e2, e1] at hkey
          split at h
          · simp at h
          · rename_i userKeyPair hf
            split at h
            · simp at h
            · rename_i seed hs
              split at h
              · simp at h
              · rename_i creds hc
                simp only [Prod.mk.injEq, Except.ok.injEq] at h
                obtain ⟨hd, _⟩ := h
                subst hd
                exact ⟨issue, processedClaims, st1, jwtToken, expiresAt, st2, userNkey,
                  userKeyPair, seed, hrec, hp, e1, hj, hkey, hf, hs, hc, rfl, rfl, rfl, rfl,
                  rfl⟩

/-! ### The steps of `refreshUser` -/

/-- `refreshUser` behind its first three steps: for the push user the
operator's record is read and, if there is one, the resolvers are refreshed;
for any other user nothing follows. -/
theorem refreshUser_steps {c : Collaborators} {storage st1 st2 : Storage}
    {issue issue2 : IssueUserStorage}
    (h1 : issueUserNKeys c storage issue = (Except.ok (), st1))
    (h2 : storeUserIssueUpdate (updateUserStatus st1 issue).2 (updateUserStatus st1 issue).1
      = (Except.ok issue2, st2)) :
    refreshUser c storage issue =
      if issue.User = c.DefaultPushUser then
        match readOperatorIssue st2 issue.Operator with
        | (Except.error err, st3) => (Except.error err, st3)
        | (Except.ok none, st3) => (Except.ok (), st3)
        | (Except.ok (some op), st3) =>
          match c.refreshAccountResolvers st3 op with
          | (Except.error err, st4) => (Except.error err, st4)
          | (Except.ok (), st4) => (Except.ok (), st4)
      else (Except.ok (), st2) := by
  obtain ⟨_, nk, h3⟩ := updateUserStatus_spec st1 issue
  have hu : (updateUserStatus st1 issue).1.User = issue.User := by rw [h3]
  have ho : (updateUserStatus st1 issue).1.Operator = issue.Operator := by rw [h3]
  unfold refreshUser
  rw [h1]
  simp only
  rw [h2]
  simp only [hu, ho]
  try rfl

/-- The first steps of a `refreshUser` that has succeeded. -/
theorem refreshUser_ok_steps {c : Collaborators} {storage storage2 : Storage}
    {issue : IssueUserStorage} (h : refreshUser c storage issue = (Except.ok (), storage2)) :
    ∃ st1 issue2 st2, issueUserNKeys c storage issue = (Except.ok (), st1) ∧
      storeUserIssueUpdate (updateUserStatus st1 issue).2 (updateUserStatus st1 issue).1
        = (Except.ok issue2, st2) := by
  cases h1 : issueUserNKeys c storage issue with
  | mk r1 st1 =>
    match r1, h1 with
    | Except.error err, h1 =>
      unfold refreshUser at h
      rw [h1] at h
      simp at h
    | Except.ok (), h1 =>
      cases h2 : storeUserIssueUpdate (updateUserStatus st1 issue).2
          (updateUserStatus st1 issue).1 with
      | mk r2 st2 =>
        match r2, h2 with
        | Except.error err, h2 =>
          unfold refreshUser at h
          rw [h1] at h
          simp only at h
          rw [h2] at h
          simp at h
        | Except.ok issue2, h2 => exact ⟨st1, issue2, st2, rfl, h2⟩

/-- A failed read of the key pair makes `updateUserStatus` clear the key flag. -/
theorem updateUserStatus_of_error {storage storage2 : Storage} {issue : IssueUserStorage}
    {err : Error}
    (h : readUserNkey storage
      { Operator := issue.Operator, Account := issue.Account, User := issue.User,
        Signing := [] } = (Except.error err, storage2)) :
    updateUserStatus storage issue =
      ({ issue with Status := { User := { issue.Status.User with Nkey := false } } },
        storage2) := by
  unfold updateUserStatus
  rw [h]

/-- A read that finds the key pair makes `updateUserStatus` set the key flag. -/
theorem updateUserStatus_of_some {storage storage2 : Storage} {issue : IssueUserStorage}
    {n : NKeyStorage}
    (h : readUserNkey storage
      { Operator := issue.Operator, Account := issue.Account, User := issue.User,
        Signing := [] } = (Except.ok (some n), storage2)) :
    updateUserStatus storage issue =
      ({ issue with Status := { User := { issue.Status.User with Nkey := true } } },
        storage2) := by
  unfold updateUserStatus
  rw [h]

theorem readOperatorIssue_of_answers (storage : Storage) (operator : Str)
    (h : storage.answers) :
    readOperatorIssue storage operator =
      ((match storage.entries.lookup (getOperatorIssuePath operator) with
        | none => Except.ok none
        | some (Entry.operatorIssue issue) => Except.ok (some issue)
        | some _ => Except.error Error.malformedEntry),
        { entries := storage.entries, faults := storage.faults.tail }) := by
  unfold readOperatorIssue
  rw [Storage.get_of_answers storage _ h]
  cases hl : storage.entries.lookup (getOperatorIssuePath operator) with
  | none => rfl
  | some e => cases e <;> rfl

theorem getOperatorIssuePath_ne_nkey (o o2 a u : Str) :
    getOperatorIssuePath o ≠ getUserNkeyPath o2 a u := by
  simp [getOperatorIssuePath, getUserNkeyPath]

theorem getOperatorIssuePath_ne_user (o a u : Str) :
    getOperatorIssuePath o ≠ getUserIssuePath o a u := by
  intro h
  have hl := congrArg List.length h
  simp [getOperatorIssuePath, getUserIssuePath] at hl

/-! ### The fault script only gets shorter -/

theorem Storage.get_faults (storage : Storage) (path : Str) (b : Bool)
    (h : b ∈ (storage.get path).2.faults) : b ∈ storage.faults := by
  obtain ⟨entries, faults⟩ := storage
  unfold Storage.get at h
  match faults, h with
  | [], h => exact h
  | false :: rest, h => exact List.mem_cons_of_mem _ h
  | true :: rest, h => exact List.mem_cons_of_mem _ h

theorem Storage.put_faults (storage : Storage) (path : Str) (entry : Entry) (b : Bool)
    (h : b ∈ (storage.put path entry).2.faults) : b ∈ storage.faults := by
  obtain ⟨entries, faults⟩ := storage
  unfold Storage.put at h
  match faults, h with
  | [], h => exact h
  | false :: rest, h => exact List.mem_cons_of_mem _ h
  | true :: rest, h => exact List.mem_cons_of_mem _ h

theorem readNkey_faults (storage : Storage) (path : Str) (b : Bool)
    (h : b ∈ (readNkey storage path).2.faults) : b ∈ storage.faults := by
  have hg := Storage.get_faults storage path b
  unfold readNkey at h
  split at h <;> rename_i heq <;> rw [heq] at hg <;> exact hg h

theorem getUserIssueFromStorage_faults (storage : Storage) (path : Str) (b : Bool)
    (h : b ∈ (getUserIssueFromStorage storage path).2.faults) : b ∈ storage.faults := by
  have hg := Storage.get_faults storage path b
  unfold getUserIssueFromStorage at h
  split at h <;> rename_i heq <;> rw [heq] at hg <;> exact hg h

theorem storeUserIssue_faults (storage : Storage) (params : IssueUserParameters) (b : Bool)
    (h : b ∈ (storeUserIssue storage params).2.faults) : b ∈ storage.faults := by
  have hg := getUserIssueFromStorage_faults storage
    (getUserIssuePath params.Operator params.Account params.User) b
  unfold storeUserIssue at h
  simp only at h
  split at h <;> rename_i h1 <;> rw [h1] at hg <;> simp only at hg
  · exact hg h
  · rename_i found st1
    apply hg
    split at h <;> rename_i h2
    · have := Storage.put_faults st1 _ _ b (by unfold storeInStorage at h2; rw [h2]; exact h)
      exact this
    · have := Storage.put_faults st1 _ _ b (by unfold storeInStorage at h2; rw [h2]; exact h)
      exact this

theorem issueUserNKeys_faults (c : Collaborators) (storage : Storage)
    (issue : IssueUserStorage) (b : Bool)
    (h : b ∈ (issueUserNKeys c storage issue).2.faults) : b ∈ storage.faults := by
  have hr := readNkey_faults storage
    (getUserNkeyPath issue.Operator issue.Account issue.User) b
  unfold issueUserNKeys at h
  simp only at h
  unfold readUserNkey at h
  split at h <;> rename_i h1 <;> rw [h1] at hr <;> simp only at hr
  · exact hr h
  · exact hr h
  · rename_i st1
    apply hr
    have ha : b ∈ (addUserNkey c st1
        { Operator := issue.Operator, Account := issue.Account, User := issue.User,
          Signing := [] }).2.faults := by
      split at h <;> rename_i h2 <;> rw [h2] <;> exact h
    have hr2 := readNkey_faults st1
      (getUserNkeyPath issue.Operator issue.Account issue.User) b
    unfold addUserNkey readUserNkey at ha
    split at ha <;> rename_i h3 <;> rw [h3] at hr2 <;> simp only at hr2
    · exact hr2 ha
    · exact hr2 ha
    · rename_i st2
      apply hr2
      split at ha
      · exact ha
      · exact Storage.put_faults st2 _ _ b ha

/-- A storage whose fault script holds no failure answers its next call. -/
theorem answers_of_no_fault {storage : Storage} (h : true ∉ storage.faults) :
    storage.answers := by
  unfold Storage.answers
  intro hh
  cases hf : storage.faults with
  | nil => rw [hf] at hh; simp at hh
  | cons b rest =>
    rw [hf] at hh
    simp only [List.head?_cons, Option.some.injEq] at hh
    rw [hf, hh] at h
    simp at h

/-- On a storage without a record for the user, the record that
`storeUserIssue` writes has both status flags cleared. -/
theorem storeUserIssue_fresh_status {storage storage2 : Storage}
    {params : IssueUserParameters} {issue : IssueUserStorage}
    (hfresh : storage.entries.lookup
      (getUserIssuePath params.Operator params.Account params.User) = none)
    (h : storeUserIssue storage params = (Except.ok issue, storage2)) :
    issue.Status = { User := { Nkey := false, JWT := false } } := by
  have hs := (getUserIssueFromStorage_spec storage
    (getUserIssuePath params.Operator params.Account params.User)).2.1
  unfold storeUserIssue at h
  simp only at h
  split at h <;> rename_i h1
  · simp at h
  · rename_i found st1
    rw [h1] at hs
    have hfound : found = none := by
      cases found with
      | none => rfl
      | some i =>
        have := hs i rfl
        rw [hfresh] at this
        simp at this
    subst hfound
    split at h
    · simp at h
    · simp only [Prod.mk.injEq, Except.ok.injEq] at h
      rw [← h.1]
      rfl

/-- After a successful `refreshUser` the user's issue path holds the record
with the status that `updateUserStatus` computed behind `issueUserNKeys`, as
long as the resolver refresh leaves that path alone. -/
theorem refreshUser_ok_record {c : Collaborators} {storage storage2 st1 : Storage}
    {issue : IssueUserStorage}
    (hcollab : issue.User = c.DefaultPushUser → ∀ s op,
      (c.refreshAccountResolvers s op).2.entries.lookup
          (getUserIssuePath issue.Operator issue.Account issue.User) =
        s.entries.lookup (getUserIssuePath issue.Operator issue.Account issue.User))
    (h1 : issueUserNKeys c storage issue = (Except.ok (), st1))
    (h : refreshUser c storage issue = (Except.ok (), storage2)) :
    storage2.entries.lookup (getUserIssuePath issue.Operator issue.Account issue.User) =
      some (Entry.userIssue (updateUserStatus st1 issue).1) := by
  obtain ⟨st1b, issue2, st2, h1b, h2⟩ := refreshUser_ok_steps h
  rw [h1] at h1b
  simp only [Prod.mk.injEq, true_and] at h1b
  subst h1b
  obtain ⟨_, nk, h3⟩ := updateUserStatus_spec st1 issue
  have hpath : getUserIssuePath (updateUserStatus st1 issue).1.Operator
      (updateUserStatus st1 issue).1.Account (updateUserStatus st1 issue).1.User =
      getUserIssuePath issue.Operator issue.Account issue.User := by rw [h3]
  have hrec := storeUserIssueUpdate_ok h2
  rw [hpath] at hrec
  rw [refreshUser_steps h1 h2] at h
  split at h
  · rename_i hpush
    have h5 := readOperatorIssue_entries st2 issue.Operator
    split at h <;> rename_i ho <;> rw [ho] at h5 <;> simp only at h5
    · simp at h
    · simp only [Prod.mk.injEq, true_and] at h
      rw [← h, h5]
      exact hrec
    · rename_i op st3
      have h6 := hcollab hpush st3 op
      split at h <;> rename_i hr <;> rw [hr] at h6 <;> simp only at h6
      · simp at h
      · simp only [Prod.mk.injEq, true_and] at h
        rw [← h, h6, h5]
        exact hrec
  · simp only [Prod.mk.injEq, true_and] at h
    rw [← h]
    exact hrec

/-! ### The logged scan -/

theorem pairReads_lt (s : Str) (j : Nat) (c : Char) (h : j + 1 < s.length) :
    ∀ r ∈ pairReads s j c, r < s.length := by
  intro r hr
  unfold pairReads at hr
  split at hr
  · simp only [List.mem_cons, List.mem_singleton, List.not_mem_nil, or_false] at hr
    rcases hr with rfl | rfl <;> omega
  · simp only [List.mem_singleton] at hr
    omega

theorem findClosingLog_result (s : Str) (fuel j : Nat) :
    (findClosingLog s fuel j).1 = findClosing s fuel j := by
  induction fuel generalizing j with
  | zero => rfl
  | succ n ih =>
    rw [findClosingLog, findClosing]
    split
    · split
      · rfl
      · exact ih (j + 1)
    · rfl

theorem findClosingLog_reads (s : Str) (fuel j : Nat) :
    ∀ r ∈ (findClosingLog s fuel j).2.1, r < s.length := by
  induction fuel generalizing j with
  | zero => intro r hr; simp [findClosingLog] at hr
  | succ n ih =>
    rw [findClosingLog]
    split
    · rename_i hj
      split
      · exact pairReads_lt s j '}' hj
      · intro r hr
        simp only [List.mem_append] at hr
        rcases hr with hr | hr
        · exact pairReads_lt s j '}' hj r hr
        · exact ih (j + 1) r hr
    · intro r hr; simp at hr

theorem findClosingLog_finished (s : Str) (fuel j : Nat) (h : s.length ≤ fuel + j) :
    (findClosingLog s fuel j).2.2 = true := by
  induction fuel generalizing j with
  | zero =>
    simp only [findClosingLog, decide_eq_true_eq]
    omega
  | succ n ih =>
    rw [findClosingLog]
    split
    · split
      · rfl
      · exact ih (j + 1) (by omega)
    · rfl

theorem findClosing_bounds {s : Str} {fuel j stop : Nat}
    (h : findClosing s fuel j = some stop) : j ≤ stop ∧ stop + 1 < s.length := by
  induction fuel generalizing j with
  | zero => simp [findClosing] at h
  | succ n ih =>
    rw [findClosing] at h
    split at h
    · rename_i hj
      split at h
      · simp only [Option.some.injEq] at h
        subst h
        exact ⟨le_refl _, hj⟩
      · have := ih h
        omega
    · simp at h

theorem ScanLog.inOrder_stop (s : Str) (i : Nat) (result : List Str) (finished : Bool) :
    (ScanLog.stop result finished).inOrder s i := by
  refine ⟨?_, ?_, ?_, ?_⟩ <;> simp [ScanLog.stop]

theorem ScanLog.inOrder_step {s : Str} {i next : Nat} {reads : List Nat}
    {slice : Option (Nat × Nat)} {innerFinished : Bool} {rest : ScanLog}
    (hreads : ∀ r ∈ reads, r < s.length) (hnext : i < next)
    (hslice : ∀ p, slice = some p → p.1 = i + 2 ∧ p.1 ≤ p.2 ∧ p.2 + 1 < s.length ∧
      p.2 + 2 ≤ next)
    (hrest : rest.inOrder s next) :
    (ScanLog.step i reads slice innerFinished rest).inOrder s i := by
  obtain ⟨h1, h2, h3, h4⟩ := hrest
  refine ⟨?_, ?_, ?_, ?_⟩
  · intro r hr
    simp only [ScanLog.step, List.mem_append] at hr
    rcases hr with hr | hr
    · exact hreads r hr
    · exact h1 r hr
  · intro v hv
    simp only [ScanLog.step, List.mem_cons] at hv
    rcases hv with rfl | hv
    · exact le_refl _
    · have := h2 v hv
      omega
  · simp only [ScanLog.step, List.pairwise_cons]
    refine ⟨?_, h3⟩
    intro v hv
    have := h2 v hv
    omega
  · intro p hp
    simp only [ScanLog.step, List.mem_append, Option.mem_toList, Option.mem_def] at hp
    rcases hp with hp | hp
    · obtain ⟨ha, hb, hc, hd⟩ := hslice p hp
      refine ⟨by omega, hb, hc, ?_⟩
      intro v hv
      simp only [ScanLog.step, List.mem_cons] at hv
      rcases hv with rfl | hv
      · left; omega
      · right
        have := h2 v hv
        omega
    · obtain ⟨ha, hb, hc, hd⟩ := h4 p hp
      refine ⟨by omega, hb, hc, ?_⟩
      intro v hv
      simp only [ScanLog.step, List.mem_cons] at hv
      rcases hv with rfl | hv
      · left; omega
      · exact hd v hv

theorem ScanLog.step_result (i : Nat) (reads : List Nat) (slice : Option (Nat × Nat))
    (innerFinished : Bool) (rest : ScanLog) :
    (ScanLog.step i reads slice innerFinished rest).result = rest.result := rfl

theorem ScanLog.step_finished (i : Nat) (reads : List Nat) (slice : Option (Nat × Nat))
    (innerFinished : Bool) (rest : ScanLog) :
    (ScanLog.step i reads slice innerFinished rest).finished =
      (innerFinished && rest.finished) := rfl

theorem findLoopLog_result (s : Str) (fuel i : Nat) (variableList variableMap : List Str) :
    (findLoopLog s fuel i variableList variableMap).result =
      findLoop s fuel i variableList variableMap := by
  induction fuel generalizing i variableList variableMap with
  | zero => rfl
  | succ n ih =>
    rw [findLoopLog, findLoop]
    split
    · split
      · simp only
        have hres := findClosingLog_result s s.length (i + 2)
        split <;> rename_i hlog <;> rw [hlog] at hres <;> simp only at hres <;> rw [← hres]
        · simp only
          split
          · rw [ScanLog.step_result, ih]
          · rw [ScanLog.step_result, ih]
        · simp only
          rw [ScanLog.step_result, ih]
      · rw [ScanLog.step_result, ih]
    · rfl

theorem findLoopLog_inOrder (s : Str) (fuel i : Nat) (variableList variableMap : List Str) :
    (findLoopLog s fuel i variableList variableMap).inOrder s i := by
  induction fuel generalizing i variableList variableMap with
  | zero => exact ScanLog.inOrder_stop s i _ _
  | succ n ih =>
    rw [findLoopLog]
    split
    · rename_i hi
      have hpair := pairReads_lt s i '{' hi
      split
      · simp only
        have hres := findClosingLog_result s s.length (i + 2)
        have hreads := findClosingLog_reads s s.length (i + 2)
        split <;> rename_i hlog <;> rw [hlog] at hres hreads <;> simp only at hres hreads
        · rename_i stop reads innerFinished
          obtain ⟨hb1, hb2⟩ := findClosing_bounds hres.symm
          have hall : ∀ r ∈ pairReads s i '{' ++ reads, r < s.length := by
            intro r hr
            rcases List.mem_append.1 hr with hr | hr
            · exact hpair r hr
            · exact hreads r hr
          have hslice : ∀ p, some (i + 2, stop) = some p →
              p.1 = i + 2 ∧ p.1 ≤ p.2 ∧ p.2 + 1 < s.length ∧ p.2 + 2 ≤ stop + 1 + 1 := by
            intro p hp
            simp only [Option.some.injEq] at hp
            subst hp
            exact ⟨rfl, hb1, hb2, le_refl _⟩
          split
          · exact ScanLog.inOrder_step hall (by omega) hslice (ih _ _ _)
          · exact ScanLog.inOrder_step hall (by omega) hslice (ih _ _ _)
        · rename_i reads innerFinished
          have hall : ∀ r ∈ pairReads s i '{' ++ reads, r < s.length := by
            intro r hr
            rcases List.mem_append.1 hr with hr | hr
            · exact hpair r hr
            · exact hreads r hr
          exact ScanLog.inOrder_step hall (Nat.lt_succ_self i) (by intro p hp; simp at hp)
            (ih _ _ _)
      · exact ScanLog.inOrder_step hpair (Nat.lt_succ_self i) (by intro p hp; simp at hp)
          (ih _ _ _)
    · exact ScanLog.inOrder_stop s i _ _

theorem findLoopLog_finished (s : Str) (fuel i : Nat) (variableList variableMap : List Str)
    (h : s.length ≤ fuel + i) :
    (findLoopLog s fuel i variableList variableMap).finished = true := by
  induction fuel generalizing i variableList variableMap with
  | zero =>
    simp only [findLoopLog, ScanLog.stop, decide_eq_true_eq]
    omega
  | succ n ih =>
    rw [findLoopLog]
    split
    · split
      · simp only
        have hres := findClosingLog_result s s.length (i + 2)
        have hfin := findClosingLog_finished s s.length (i + 2) (by omega)
        split <;> rename_i hlog <;> rw [hlog] at hres hfin <;> simp only at hres hfin
        · rename_i stop reads innerFinished
          obtain ⟨hb1, hb2⟩ := findClosing_bounds hres.symm
          split
          · rw [ScanLog.step_finished, hfin, ih _ _ _ (by omega)]
            rfl
          · rw [ScanLog.step_finished, hfin, ih _ _ _ (by omega)]
            rfl
        · rw [ScanLog.step_finished, hfin, ih _ _ _ (by omega)]
          rfl
      · rw [ScanLog.step_finished, ih _ _ _ (by omega)]
        rfl
    · rfl

theorem findLoop_fuel (s : Str) (fuel : Nat) (h : s.length ≤ fuel) :
    findLoop s fuel 0 [] [] = findTemplateVariables s := by
  unfold findTemplateVariables
  rw [findLoop_eq s fuel 0 [] [] (by omega), findLoop_eq s s.length 0 [] [] (by omega)]

/-- The logged run on a text with a closed and an unclosed `{{`. -/
theorem findLoopLog_closed_then_unclosed :
    findLoopLog "a\x7b\x7bx\x7d\x7d\x7b\x7b y".toList 10 0 [] [] =
      { result := ["x".toList], visited := [0, 1, 6, 7, 8],
        reads := [0, 1, 2, 3, 4, 5, 6, 7, 8, 7, 8, 8], slices := [(3, 4)],
        finished := true } := by
  decide

/-! ### The order of the replacements -/

/-- At an occurrence of the placeholder of `k`, the replacement writes the
value and goes on behind the occurrence. -/
theorem replaceAll_placeholder_hit (k v after : Str) :
    replaceAll ('{' :: '{' :: (k ++ '}' :: '}' :: after)) (placeholder k) v =
      v ++ replaceAll after (placeholder k) v := by
  have hpre : (placeholder k).isPrefixOf ('{' :: '{' :: (k ++ '}' :: '}' :: after)) = true := by
    rw [List.isPrefixOf_iff_prefix]
    exact ⟨after, by simp [placeholder]⟩
  have hdrop : ('{' :: '{' :: (k ++ '}' :: '}' :: after)).drop (placeholder k).length =
      after := by
    simp [placeholder]
  rw [replaceAll_cons _ _ (placeholder_ne_nil _), if_pos hpre, hdrop]

/-- An occurrence of another brace-free name stays, and the replacement goes
on behind it. -/
theorem replaceAll_placeholder_miss (k v content after : Str) (hk : '}' ∉ k)
    (hcontent : braceFree content) (hck : content ≠ k) :
    replaceAll ('{' :: '{' :: (content ++ '}' :: '}' :: after)) (placeholder k) v =
      '{' :: '{' :: (content ++ '}' :: '}' :: replaceAll after (placeholder k) v) := by
  have hpre : (placeholder k).isPrefixOf ('{' :: '{' :: (content ++ '}' :: '}' :: after)) =
      false := by
    rw [Bool.eq_false_iff, ne_eq, placeholder_prefix_iff k content after hk hcontent.2]
    exact hck
  have hsecond : (placeholder k).isPrefixOf ('{' :: (content ++ '}' :: '}' :: after)) =
      false := by
    cases content with
    | nil => exact placeholder_not_prefix_of_second k _ _ _ (by decide)
    | cons e es =>
      have he : e ≠ '{' := fun h => hcontent.1 (by simp [h])
      exact placeholder_not_prefix_of_second k _ _ _ he
  rw [replaceAll_cons_skip _ _ (placeholder_ne_nil k) _ _ hpre,
    replaceAll_cons_skip _ _ (placeholder_ne_nil k) _ _ hsecond,
    replaceAll_append_of_no_lbrace _ _ _ _ hcontent.1,
    replaceAll_cons_skip _ _ (placeholder_ne_nil k) _ _
      (placeholder_not_prefix_of_head k '}' _ (by decide)),
    replaceAll_cons_skip _ _ (placeholder_ne_nil k) _ _
      (placeholder_not_prefix_of_head k '}' _ (by decide))]

/-- Where no `{{` starts, the replacement copies the character. -/
theorem replaceAll_skip_pair (k v : Str) (c d : Char) (rest : Str)
    (hcd : ¬ (c = '{' ∧ d = '{')) :
    replaceAll (c :: d :: rest) (placeholder k) v =
      c :: replaceAll (d :: rest) (placeholder k) v := by
  have hpre : (placeholder k).isPrefixOf (c :: d :: rest) = false := by
    by_cases hc : c = '{'
    · exact placeholder_not_prefix_of_second k _ _ _ (fun h => hcd ⟨hc, h⟩)
    · exact placeholder_not_prefix_of_head k _ _ hc
  rw [replaceAll_cons_skip _ _ (placeholder_ne_nil k) _ _ hpre]

/-- The same, for the two replacements in a row. -/
theorem replaceAll_twice_skip (k1 v1 k2 v2 : Str) (c d : Char) (rest : Str)
    (hcd : ¬ (c = '{' ∧ d = '{')) :
    replaceAll (replaceAll (c :: d :: rest) (placeholder k1) v1) (placeholder k2) v2 =
      c :: replaceAll (replaceAll (d :: rest) (placeholder k1) v1) (placeholder k2) v2 := by
  rw [replaceAll_skip_pair k1 v1 c d rest hcd]
  by_cases hc : c = '{'
  · have hd : d ≠ '{' := fun h => hcd ⟨hc, h⟩
    rw [replaceAll_skip_char k1 v1 d rest hd]
    exact replaceAll_skip_pair k2 v2 c d _ hcd
  · exact replaceAll_skip_char k2 v2 c _ hc

/-- Two replacements of placeholders of different brace-free names by
brace-free values give the same text in either order, on a text whose
occurrences are brace-free. -/
theorem replaceAll_comm (k1 v1 k2 v2 : Str) (hk1 : braceFree k1) (hv1 : braceFree v1)
    (hk2 : braceFree k2) (hv2 : braceFree v2) (hne : k1 ≠ k2) (t : Str)
    (ht : ∀ r, r ∈ placeholders t → braceFree r) :
    replaceAll (replaceAll t (placeholder k1) v1) (placeholder k2) v2 =
      replaceAll (replaceAll t (placeholder k2) v2) (placeholder k1) v1 := by
  generalize hn : t.length = n
  induction n using Nat.strong_induction_on generalizing t with
  | _ n ih =>
    match t, ht, hn with
    | [], _, _ => simp [replaceAll_nil _ _ (placeholder_ne_nil _)]
    | [c], _, _ =>
      simp [replaceAll_cons_skip _ _ (placeholder_ne_nil _) _ _
        (placeholder_not_prefix_single _ c), replaceAll_nil _ _ (placeholder_ne_nil _)]
    | c :: d :: rest, ht, hn =>
      by_cases hcd : c = '{' ∧ d = '{'
      · obtain ⟨rfl, rfl⟩ := hcd
        cases hs : splitAtClose rest with
        | none =>
          have hnone : splitAtClose ('{' :: '{' :: rest) = none :=
            splitAtClose_none_cons (by decide) (splitAtClose_none_cons (by decide) hs)
          rw [replaceAll_of_no_close k1 _ _ hnone, replaceAll_of_no_close k2 _ _ hnone,
            replaceAll_of_no_close k1 _ _ hnone]
        | some p =>
          obtain ⟨content, after⟩ := p
          have hrest := splitAtClose_eq hs
          have hl := splitAtClose_length hs
          have hpl : placeholders ('{' :: '{' :: rest) = content :: placeholders after := by
            rw [placeholders_cons_cons, if_pos ⟨rfl, rfl⟩, hs]
          have hcontent : braceFree content := ht content (by rw [hpl]; simp)
          have hafter : ∀ r, r ∈ placeholders after → braceFree r :=
            fun r hr => ht r (by rw [hpl]; simp [hr])
          have ih2 := ih after.length (by simp at hn; omega) after hafter rfl
          rw [hrest]
          by_cases h1 : content = k1
          · subst h1
            rw [replaceAll_placeholder_hit,
              replaceAll_placeholder_miss k2 v2 content after hk2.2 hcontent hne,
              replaceAll_placeholder_hit, replaceAll_append_of_no_lbrace _ _ _ _ hv1.1, ih2]
          · by_cases h2 : content = k2
            · subst h2
              rw [replaceAll_placeholder_hit,
                replaceAll_placeholder_miss k1 v1 content after hk1.2 hcontent h1,
                replaceAll_placeholder_hit, replaceAll_append_of_no_lbrace _ _ _ _ hv2.1, ih2]
            · rw [replaceAll_placeholder_miss k1 v1 content after hk1.2 hcontent h1,
                replaceAll_placeholder_miss k2 v2 content after hk2.2 hcontent h2,
                replaceAll_placeholder_miss k2 v2 content _ hk2.2 hcontent h2,
                replaceAll_placeholder_miss k1 v1 content _ hk1.2 hcontent h1, ih2]
      · have hpl : placeholders (c :: d :: rest) = placeholders (d :: rest) := by
          rw [placeholders_cons_cons, if_neg hcd]
        have ih2 := ih (d :: rest).length (by simp at hn ⊢; omega) (d :: rest)
          (by rw [← hpl]; exact ht) rfl
        rw [replaceAll_twice_skip k1 v1 k2 v2 c d rest hcd,
          replaceAll_twice_skip k2 v2 k1 v1 c d rest hcd, ih2]

/-- One replacement keeps the occurrences brace-free. -/
theorem braceFree_placeholders_replaceAll (k v : Str) (hk : braceFree k) (hv : braceFree v)
    (t : Str) (ht : ∀ r, r ∈ placeholders t → braceFree r) :
    ∀ r, r ∈ placeholders (replaceAll t (placeholder k) v) → braceFree r := by
  intro r hr
  rw [placeholders_replaceAll k v hk hv t ht, List.mem_filter] at hr
  exact ht r hr.1

/-- The replacement loop gives the same text for every order of a map with
brace-free names and values, on a text whose occurrences are brace-free. -/
theorem substituteParameters_perm {parameters parameters2 : Parameters}
    (hperm : parameters.Perm parameters2)
    (hnodup : (parameters.map Prod.fst).Nodup)
    (hp : ∀ p, p ∈ parameters → braceFree p.1 ∧ braceFree p.2) (t : Str)
    (ht : ∀ r, r ∈ placeholders t → braceFree r) :
    substituteParameters t parameters = substituteParameters t parameters2 := by
  induction hperm generalizing t with
  | nil => rfl
  | cons x _ ih =>
    have hx := hp x (by simp)
    simp only [List.map_cons, List.nodup_cons] at hnodup
    simp only [substituteParameters, List.foldl_cons] at ih ⊢
    exact ih hnodup.2 (fun p h => hp p (List.mem_cons_of_mem _ h)) _
      (braceFree_placeholders_replaceAll x.1 x.2 hx.1 hx.2 t ht)
  | swap x y l =>
    have hx := hp x (by simp)
    have hy := hp y (by simp)
    simp only [List.map_cons, List.nodup_cons, List.mem_cons, not_or] at hnodup
    simp only [substituteParameters, List.foldl_cons]
    rw [replaceAll_comm y.1 y.2 x.1 x.2 hy.1 hy.2 hx.1 hx.2 hnodup.1.1 t ht]
  | trans h1 _ ih1 ih2 =>
    rw [ih1 hnodup hp t ht]
    exact ih2 ((h1.map Prod.fst).nodup_iff.1 hnodup) (fun p h => hp p (h1.mem_iff.2 h)) t ht

/-- A text is brace-free when its trimmed form is. -/
theorem braceFree_of_trimSpace {r : Str} (h : braceFree (trimSpace r)) : braceFree r :=
  ⟨fun hm => h.1 ((mem_trimSpace (by decide)).2 hm),
    fun hm => h.2 ((mem_trimSpace (by decide)).2 hm)⟩

theorem Parameters.has_perm {parameters parameters2 : Parameters}
    (hperm : parameters.Perm parameters2) (key : Str) :
    parameters.has key = parameters2.has key := by
  rw [Bool.eq_iff_iff]
  simp only [Parameters.has, List.any_eq_true]
  constructor
  · rintro ⟨p, hp, h⟩
    exact ⟨p, hperm.mem_iff.1 hp, h⟩
  · rintro ⟨p, hp, h⟩
    exact ⟨p, hperm.mem_iff.2 hp, h⟩

/-- When the map holds every extracted name and its names are brace-free, the
occurrences of the text are brace-free. -/
theorem braceFree_placeholders_of_cover (t : Str) (parameters : Parameters)
    (hp : ∀ p, p ∈ parameters → braceFree p.1 ∧ braceFree p.2)
    (hcover : ∀ n, n ∈ findTemplateVariables t → parameters.has n = true) :
    ∀ r, r ∈ placeholders t → braceFree r := by
  intro r hr
  apply braceFree_of_trimSpace
  by_cases hne : trimSpace r = []
  · rw [hne]
    exact ⟨by simp, by simp⟩
  · have hmem : trimSpace r ∈ findTemplateVariables t := by
      rw [findTemplateVariables_eq, mem_firstOccurrences, placeholderNames, List.mem_filter]
      exact ⟨List.mem_map.mpr ⟨r, hr, rfl⟩, by simpa using hne⟩
    have := hcover _ hmem
    simp only [Parameters.has, List.any_eq_true, beq_iff_eq] at this
    obtain ⟨p, hpm, hpr⟩ := this
    rw [← hpr]
    exact (hp p hpm).1

/-- `applyTemplateParameters` gives the same result for every order of a map
with brace-free names and values. -/
theorem applyTemplateParameters_perm (template : UserClaims)
    {parameters parameters2 : Parameters} (hperm : parameters.Perm parameters2)
    (hnodup : (parameters.map Prod.fst).Nodup)
    (hp : ∀ p, p ∈ parameters → braceFree p.1 ∧ braceFree p.2) :
    applyTemplateParameters template parameters =
      applyTemplateParameters template parameters2 := by
  have hfilter : (findTemplateVariables (marshal template)).filter
        (fun v => !parameters2.has v) =
      (findTemplateVariables (marshal template)).filter (fun v => !parameters.has v) := by
    apply List.filter_congr
    intro v _
    rw [Parameters.has_perm hperm v]
  unfold applyTemplateParameters
  simp only
  rw [← hperm.length_eq, hfilter]
  split
  · rfl
  · split
    · rfl
    · rename_i hcov
      have hcover : ∀ n, n ∈ findTemplateVariables (marshal template) →
          parameters.has n = true := by
        intro n hn
        by_contra hhas
        apply hcov
        have hmiss : n ∈ (findTemplateVariables (marshal template)).filter
            (fun v => !parameters.has v) := by
          rw [List.mem_filter]
          exact ⟨hn, by simpa using hhas⟩
        exact ⟨List.length_pos_of_mem hn, List.length_pos_of_mem hmiss⟩
      rw [substituteParameters_perm hperm hnodup hp _
        (braceFree_placeholders_of_cover _ parameters hp hcover)]

/-- The clock enters the stamped claims through `Expires` only. -/
theorem stampClaims_static (env : Env) (now2 : Time) (issue : IssueUserStorage)
    (claims : UserClaims) (a s u : Str) :
    staticClaims (stampClaims env issue claims a s u).1 =
      staticClaims (stampClaims { env with Now := now2 } issue claims a s u).1 := by
  unfold stampClaims staticClaims
  by_cases h1 : issue.UseSigningKey ≠ [] <;> by_cases h2 : issue.ExpirationS > 0 <;>
    simp [h1, h2]

/-- The token of a formatted bundle. -/
theorem token_of_FormatUserConfig {jwtString token : Token} {seed : Str}
    {creds : List CredsPart} (h : FormatUserConfig jwtString seed = Except.ok creds)
    (hmem : CredsPart.token token ∈ creds) : token = jwtString := by
  rw [FormatUserConfig_ok h] at hmem
  simpa using hmem

/-- Two tokens built by `generateUserJWT` from the same entries, issue record
and claims, at two clock readings, differ in `Expires` at most. -/
theorem generateUserJWT_static {env : Env} {now2 : Time} {st1 st2 st3 st4 : Storage}
    {issue : IssueUserStorage} {claims : UserClaims} {token token2 : Token}
    {expiresAt expiresAt2 : Int} (hentries : st3.entries = st1.entries)
    (h1 : generateUserJWT env st1 issue claims = (Except.ok (token, expiresAt), st2))
    (h2 : generateUserJWT { env with Now := now2 } st3 issue claims =
      (Except.ok (token2, expiresAt2), st4)) :
    staticClaims token.claims = staticClaims token2.claims ∧
      token.signedBy = token2.signedBy := by
  obtain ⟨an, akp, apk, seed, spk, un, ukp, upk, ha1, ha2, ha3, hs1, hs2, hs3, hu1, hu2, hu3,
    hc, _, _⟩ := generateUserJWT_ok h1
  obtain ⟨an2, akp2, apk2, seed2, spk2, un2, ukp2, upk2, hb1, hb2, hb3, ht1, ht2, ht3, hv1,
    hv2, hv3, hc2, _, _⟩ := generateUserJWT_ok h2
  simp only at hb2 hb3 ht2 ht3 hv2 hv3
  rw [hentries] at hb1 ht1 hv1
  rw [ha1] at hb1
  simp only [Option.some.injEq, Entry.nkey.injEq] at hb1
  subst hb1
  rw [ha2] at hb2
  simp only [Except.ok.injEq] at hb2
  subst hb2
  rw [ha3] at hb3
  simp only [Except.ok.injEq] at hb3
  subst hb3
  have hseed : seed2 = seed := by
    by_cases hk : issue.UseSigningKey = []
    · rw [if_pos hk] at hs1 ht1
      rw [hs1, ht1]
    · rw [if_neg hk] at hs1 ht1
      rw [hs1] at ht1
      simp only [Option.some.injEq, Entry.nkey.injEq, NKeyStorage.mk.injEq] at ht1
      exact ht1.symm
  subst hseed
  rw [hs2] at ht2
  simp only [Except.ok.injEq] at ht2
  rw [← ht2, hs3] at ht3
  simp only [Except.ok.injEq] at ht3
  subst ht3
  rw [hu1] at hv1
  simp only [Option.some.injEq, Entry.nkey.injEq] at hv1
  subst hv1
  rw [hu2] at hv2
  simp only [Except.ok.injEq] at hv2
  subst hv2
  rw [hu3] at hv3
  simp only [Except.ok.injEq] at hv3
  subst hv3
  refine ⟨?_, ht2⟩
  rw [hc, hc2]
  exact stampClaims_static env now2 issue claims _ _ _

/-! # The claims, concluded -/

/-- C30: `getUserIssuePath` is injective on identifiers without `/`: two
triples of operator, account and user that give the same path are the same
triple, when the operator and account names are free of `/` (of the user
names, which end the path, nothing needs to be asked). -/
theorem getUserIssuePath_injective (operator account user operator2 account2 user2 : Str)
    (ho : '/' ∉ operator) (ha : '/' ∉ account)
    (ho2 : '/' ∉ operator2) (ha2 : '/' ∉ account2)
    (h : getUserIssuePath operator account user = getUserIssuePath operator2 account2 user2) :
    operator = operator2 ∧ account = account2 ∧ user = user2 := by
  unfold getUserIssuePath at h
  simp only [List.append_assoc] at h
  have h1 := List.append_cancel_left h
  have hs1 : "/account/".toList ++ (account ++ ("/user/".toList ++ user)) =
      '/' :: ("account/".toList ++ (account ++ ("/user/".toList ++ user))) := rfl
  have hs2 : "/account/".toList ++ (account2 ++ ("/user/".toList ++ user2)) =
      '/' :: ("account/".toList ++ (account2 ++ ("/user/".toList ++ user2))) := rfl
  rw [hs1, hs2] at h1
  obtain ⟨hop, h2⟩ := append_sep_cancel '/' _ _ _ _ ho ho2 h1
  have h3 := List.append_cancel_left h2
  have ht1 : "/user/".toList ++ user = '/' :: ("user/".toList ++ user) := rfl
  have ht2 : "/user/".toList ++ user2 = '/' :: ("user/".toList ++ user2) := rfl
  rw [ht1, ht2] at h3
  obtain ⟨hac, h4⟩ := append_sep_cancel '/' _ _ _ _ ha ha2 h3
  exact ⟨hop, hac, List.append_cancel_left h4⟩

/-- C30, at the users `u1` of `op1/acc1`: equal paths, equal names. -/
theorem getUserIssuePath_injective_witness :
    "op1".toList = "op1".toList ∧ "acc1".toList = "acc1".toList ∧
      "u1".toList = "u1".toList :=
  getUserIssuePath_injective "op1".toList "acc1".toList "u1".toList
    "op1".toList "acc1".toList "u1".toList
    (by decide) (by decide) (by decide) (by decide) rfl

/-- C21: for the text `k1=v1,...,kn=vn` of keys and values without `=` and
without comma, the keys not blank, `parseKeyValueString` returns no error, and
afterwards the result map gives for every trimmed key the trimmed value of
the last entry with that key, and it has no key that it did not have before
other than the trimmed keys. -/
theorem parseKeyValueString_well_formed (entries : List (Str × Str)) (result : Parameters)
    (hwell : ∀ e, e ∈ entries →
      (',' ∉ e.1 ∧ '=' ∉ e.1 ∧ trimSpace e.1 ≠ []) ∧ ',' ∉ e.2 ∧ '=' ∉ e.2) :
    ∃ result2, parseKeyValueString (joinEntries entries) result = (none, result2) ∧
      (∀ front e back, entries = front ++ e :: back →
        (∀ e2, e2 ∈ back → trimSpace e2.1 ≠ trimSpace e.1) →
        result2.lookup (trimSpace e.1) = some (trimSpace e.2)) ∧
      (∀ key, result2.has key = true →
        result.has key = true ∨ ∃ e, e ∈ entries ∧ key = trimSpace e.1) := by
  refine ⟨entries.foldl (fun m e => m.set (trimSpace e.1) (trimSpace e.2)) result, ?_, ?_, ?_⟩
  · cases hent : entries with
    | nil => rfl
    | cons e0 rest =>
      rw [← hent]
      have hne : (entries.map fun e => e.1 ++ '=' :: e.2) ≠ [] := by simp [hent]
      have hcomma : ∀ p, p ∈ (entries.map fun e => e.1 ++ '=' :: e.2) → ',' ∉ p := by
        intro p hp
        obtain ⟨e, he, rfl⟩ := List.mem_map.mp hp
        have := hwell e he
        simp only [List.mem_append, List.mem_cons, not_or]
        exact ⟨this.1.1, by decide, this.2.1⟩
      have hsplit := split_intercalate _ hne hcomma
      have hinput : joinEntries entries ≠ [] := by
        intro h0
        unfold joinEntries at h0
        rw [h0, hent] at hsplit
        simp [split] at hsplit
      have hacc : ∀ pair, pair ∈ (entries.map fun e => e.1 ++ '=' :: e.2) →
          ¬ rejected pair := by
        intro pair hp
        obtain ⟨e, he, rfl⟩ := List.mem_map.mp hp
        have hw := hwell e he
        obtain ⟨hm, hk, _⟩ := entry_of_pair e.1 e.2 hw.1.2.1
        unfold rejected
        rw [hk]
        exact fun h => h.elim (fun h1 => h1 hm) (fun h2 => hw.1.2.2 h2)
      unfold parseKeyValueString
      rw [if_neg hinput]
      unfold joinEntries
      rw [hsplit, parsePairs_all_accepted _ _ hacc,
        foldl_pairs entries result (fun e he => (hwell e he).1.2.1)]
  · intro front e back hent hlast
    rw [hent, List.foldl_append, List.foldl_cons,
      foldl_set_lookup_other (fun e : Str × Str => trimSpace e.1)
        (fun e : Str × Str => trimSpace e.2) _ back _ hlast,
      Parameters.lookup_set_same]
  · intro key hkey
    exact foldl_set_has (fun e : Str × Str => trimSpace e.1)
      (fun e : Str × Str => trimSpace e.2) key entries result hkey

/-- C21, at the text ` a = 1 ,b=2,a=3`: the call returns no error and maps `a`
to `3` and `b` to `2`. -/
theorem parseKeyValueString_well_formed_witness :
    joinEntries [(" a ".toList, " 1 ".toList), ("b".toList, "2".toList),
        ("a".toList, "3".toList)] = " a = 1 ,b=2,a=3".toList ∧
    parseKeyValueString " a = 1 ,b=2,a=3".toList [] =
      (none, [("a".toList, "3".toList), ("b".toList, "2".toList)]) ∧
    ∃ result2,
      parseKeyValueString
          (joinEntries [(" a ".toList, " 1 ".toList), ("b".toList, "2".toList),
            ("a".toList, "3".toList)]) [] = (none, result2) ∧
        (∀ front e back,
          [(" a ".toList, " 1 ".toList), ("b".toList, "2".toList), ("a".toList, "3".toList)]
              = front ++ e :: back →
          (∀ e2, e2 ∈ back → trimSpace e2.1 ≠ trimSpace e.1) →
          result2.lookup (trimSpace e.1) = some (trimSpace e.2)) ∧
        (∀ key, result2.has key = true →
          Parameters.has [] key = true ∨
            ∃ e, e ∈ [(" a ".toList, " 1 ".toList), ("b".toList, "2".toList),
              ("a".toList, "3".toList)] ∧ key = trimSpace e.1) :=
  ⟨by decide, by decide,
    parseKeyValueString_well_formed
      [(" a ".toList, " 1 ".toList), ("b".toList, "2".toList), ("a".toList, "3".toList)] []
      (by decide)⟩

/-- C29: when `parseKeyValueString` returns an error, the entries of the input
split into entries that are accepted, the first rejected entry (one without
`=` or with a blank key) and the entries behind it, and the result map is the
map before the call with the keys and values of the accepted entries in front
set in their order: nothing behind the rejected entry has been applied. -/
theorem parseKeyValueString_stops_at_rejected (input : Str) (result result2 : Parameters)
    (err : FormatError)
    (h : parseKeyValueString input result = (some err, result2)) :
    ∃ front bad back, split ',' input = front ++ bad :: back ∧
      (∀ pair, pair ∈ front → ¬ rejected pair) ∧ rejected bad ∧
      result2 =
        front.foldl (fun m pair => m.set (entryKey pair) (entryValue pair)) result := by
  unfold parseKeyValueString at h
  by_cases h0 : input = []
  · rw [if_pos h0] at h
    simp at h
  · rw [if_neg h0] at h
    exact parsePairs_error _ _ _ _ h

/-- C29, at the text `a=1,,b=2`, whose second entry is empty: the call returns
an error, `a` has been set and `b` has not. -/
theorem parseKeyValueString_stops_at_rejected_witness :
    rejected ([] : Str) ∧
    parseKeyValueString "a=1,,b=2".toList [("b".toList, "0".toList)] =
      (some (FormatError.invalidPair []),
        [("b".toList, "0".toList), ("a".toList, "1".toList)]) ∧
    ∃ front bad back, split ',' "a=1,,b=2".toList = front ++ bad :: back ∧
      (∀ pair, pair ∈ front → ¬ rejected pair) ∧ rejected bad ∧
      [("b".toList, "0".toList), ("a".toList, "1".toList)] =
        front.foldl (fun (m : Parameters) pair => m.set (entryKey pair) (entryValue pair))
          [("b".toList, "0".toList)] :=
  ⟨by decide, by decide,
    parseKeyValueString_stops_at_rejected "a=1,,b=2".toList [("b".toList, "0".toList)]
      [("b".toList, "0".toList), ("a".toList, "1".toList)] (FormatError.invalidPair [])
      (by decide)⟩

/-- C23: whenever `generateUserCreds` succeeds, its `Creds` is the bundle made
of the token that `generateUserJWT` has just built and of the seed of the key
pair stored at the user's own key path: the block headed
`-----BEGIN NATS USER JWT-----` with that token first, then the block headed
`-----BEGIN USER NKEY SEED-----` with that seed. -/
theorem generateUserCreds_bundle (env : Env) (storage storage2 : Storage)
    (params : UserCredsParameters) (data : UserCredsData)
    (h : generateUserCreds env storage params = (Except.ok data, storage2)) :
    ∃ issue processedClaims st1 jwtToken expiresAt st2 userNkey userKeyPair seed,
      st1.entries = storage.entries ∧
      generateUserJWT env st1 issue processedClaims
        = (Except.ok (jwtToken, expiresAt), st2) ∧
      storage.entries.lookup (getUserNkeyPath params.Operator params.Account params.User)
        = some (Entry.nkey userNkey) ∧
      env.FromSeed userNkey.Seed = Except.ok userKeyPair ∧
      env.Seed userKeyPair = Except.ok seed ∧
      data.Creds =
        [CredsPart.text "-----BEGIN NATS USER JWT-----\n".toList,
         CredsPart.token jwtToken,
         CredsPart.text "\n------END NATS USER JWT------\n\n".toList,
         CredsPart.text
           ("************************* IMPORTANT *************************\n" ++
            "NKEY Seed printed below can be used to sign and prove identity.\n" ++
            "NKEYs are sensitive and should be treated as secrets.\n\n" ++
            "-----BEGIN USER NKEY SEED-----\n").toList,
         CredsPart.seed seed,
         CredsPart.text ("\n------END USER NKEY SEED------\n\n" ++
           "*************************************************************\n").toList] := by
  obtain ⟨issue, processedClaims, st1, jwtToken, expiresAt, st2, userNkey, userKeyPair, seed,
    _, _, e1, hj, hkey, hf, hs, hc, _⟩ := generateUserCreds_ok h
  exact ⟨issue, processedClaims, st1, jwtToken, expiresAt, st2, userNkey, userKeyPair, seed,
    e1, hj, hkey, hf, hs, FormatUserConfig_ok hc⟩

/-- C23, at the demo store, where the account has the seed `SAacc` and user
`u1` the seed `SUusr`: the bundle holds the token signed with `SAacc` and the
seed `SUusr`. -/
theorem generateUserCreds_bundle_witness :
    ∃ issue processedClaims st1 jwtToken expiresAt st2 userNkey userKeyPair seed,
      st1.entries = (demoStorage (demoIssue [] 0 UserClaims.zero)).entries ∧
      generateUserJWT (demoEnv ⟨1700000000, 0⟩) st1 issue processedClaims
        = (Except.ok (jwtToken, expiresAt), st2) ∧
      (demoStorage (demoIssue [] 0 UserClaims.zero)).entries.lookup
          (getUserNkeyPath "op1".toList "acc1".toList "u1".toList)
        = some (Entry.nkey userNkey) ∧
      (demoEnv ⟨1700000000, 0⟩).FromSeed userNkey.Seed = Except.ok userKeyPair ∧
      (demoEnv ⟨1700000000, 0⟩).Seed userKeyPair = Except.ok seed ∧
      demoCredsData.Creds =
        [CredsPart.text "-----BEGIN NATS USER JWT-----\n".toList,
         CredsPart.token jwtToken,
         CredsPart.text "\n------END NATS USER JWT------\n\n".toList,
         CredsPart.text
           ("************************* IMPORTANT *************************\n" ++
            "NKEY Seed printed below can be used to sign and prove identity.\n" ++
            "NKEYs are sensitive and should be treated as secrets.\n\n" ++
            "-----BEGIN USER NKEY SEED-----\n").toList,
         CredsPart.seed seed,
         CredsPart.text ("\n------END USER NKEY SEED------\n\n" ++
           "*************************************************************\n").toList] :=
  generateUserCreds_bundle (demoEnv ⟨1700000000, 0⟩)
    (demoStorage (demoIssue [] 0 UserClaims.zero))
    (demoStorage (demoIssue [] 0 UserClaims.zero))
    { Operator := "op1".toList, Account := "acc1".toList, User := "u1".toList,
      Parameters := [] } demoCredsData rfl

/-- C26: when `refreshUser` runs for a user named `DefaultPushUser`, its first
steps have succeeded and the operator of the user has no issue record (the
backend answering the read), it returns success whatever the resolver refresh
would do, so without invoking `refreshAccountResolvers`; and the issue record
and the key pair of the user written before are stored. -/
theorem refreshUser_push_without_operator (c : Collaborators) (storage st1 st2 : Storage)
    (issue issue2 : IssueUserStorage)
    (hpush : issue.User = c.DefaultPushUser)
    (hop : storage.entries.lookup (getOperatorIssuePath issue.Operator) = none)
    (h1 : issueUserNKeys c storage issue = (Except.ok (), st1))
    (h2 : storeUserIssueUpdate (updateUserStatus st1 issue).2 (updateUserStatus st1 issue).1
      = (Except.ok issue2, st2))
    (hanswers : st2.answers) :
    refreshUser c storage issue =
      (Except.ok (), { entries := st2.entries, faults := st2.faults.tail }) ∧
    (∀ resolve, refreshUser { c with refreshAccountResolvers := resolve } storage issue =
      (Except.ok (), { entries := st2.entries, faults := st2.faults.tail })) ∧
    st2.entries.lookup (getUserIssuePath issue.Operator issue.Account issue.User) =
      some (Entry.userIssue (updateUserStatus st1 issue).1) ∧
    ∃ n, st2.entries.lookup (getUserNkeyPath issue.Operator issue.Account issue.User) =
      some (Entry.nkey n) := by
  obtain ⟨he, nk, h3⟩ := updateUserStatus_spec st1 issue
  have hpath : getUserIssuePath (updateUserStatus st1 issue).1.Operator
      (updateUserStatus st1 issue).1.Account (updateUserStatus st1 issue).1.User =
      getUserIssuePath issue.Operator issue.Account issue.User := by rw [h3]
  have hframe : ∀ p, p ≠ getUserIssuePath issue.Operator issue.Account issue.User →
      st2.entries.lookup p = (updateUserStatus st1 issue).2.entries.lookup p := by
    intro p hp
    have := storeUserIssueUpdate_lookup_other (updateUserStatus st1 issue).2
      (updateUserStatus st1 issue).1 p (by rw [hpath]; exact hp)
    rw [h2] at this
    exact this
  have hop2 : st2.entries.lookup (getOperatorIssuePath issue.Operator) = none := by
    rw [hframe _ (getOperatorIssuePath_ne_user _ _ _), he]
    have := issueUserNKeys_lookup_other c storage issue (getOperatorIssuePath issue.Operator)
      (getOperatorIssuePath_ne_nkey _ _ _ _)
    rw [h1] at this
    rw [this]
    exact hop
  have hread : readOperatorIssue st2 issue.Operator =
      (Except.ok none, { entries := st2.entries, faults := st2.faults.tail }) := by
    rw [readOperatorIssue_of_answers st2 _ hanswers, hop2]
  have hall : ∀ resolve, refreshUser { c with refreshAccountResolvers := resolve } storage issue
      = (Except.ok (), { entries := st2.entries, faults := st2.faults.tail }) := by
    intro resolve
    have h1b : issueUserNKeys { c with refreshAccountResolvers := resolve } storage issue
        = (Except.ok (), st1) := h1
    rw [refreshUser_steps h1b h2, if_pos hpush, hread]
  refine ⟨hall c.refreshAccountResolvers, hall, ?_, ?_⟩
  · have := storeUserIssueUpdate_ok h2
    rw [hpath] at this
    exact this
  · obtain ⟨n, hn⟩ := issueUserNKeys_ok h1
    refine ⟨n, ?_⟩
    rw [hframe _ (getUserNkeyPath_ne_issue _ _ _ _ _ _), he]
    exact hn

/-- C26, at a store that holds nothing, with a resolver refresh that always
fails: `refreshUser` for the push user returns success, and the record and
the key pair it has written are stored. -/
theorem refreshUser_push_without_operator_witness :
    refreshUser (demoCollaboratorsFailing ⟨1700000000, 0⟩) emptyStorage demoPushIssue =
      (Except.ok (),
        { entries :=
            [(getUserIssuePath "op1".toList "SYS".toList "default-push".toList,
               Entry.userIssue
                 { demoPushIssue with Status := { User := { Nkey := true, JWT := false } } }),
             (getUserNkeyPath "op1".toList "SYS".toList "default-push".toList,
               Entry.nkey { Seed := "SUnew".toList })],
          faults := [] }) :=
  (refreshUser_push_without_operator (demoCollaboratorsFailing ⟨1700000000, 0⟩) emptyStorage
    { entries :=
        [(getUserNkeyPath "op1".toList "SYS".toList "default-push".toList,
           Entry.nkey { Seed := "SUnew".toList })],
      faults := [] }
    { entries :=
        [(getUserIssuePath "op1".toList "SYS".toList "default-push".toList,
           Entry.userIssue
             { demoPushIssue with Status := { User := { Nkey := true, JWT := false } } }),
         (getUserNkeyPath "op1".toList "SYS".toList "default-push".toList,
           Entry.nkey { Seed := "SUnew".toList })],
      faults := [] }
    demoPushIssue
    { demoPushIssue with Status := { User := { Nkey := true, JWT := false } } }
    (by decide) (by decide) (by decide) (by decide) (by decide)).1

/-- C28: behind its first steps (the key pair ensured, the record written),
`refreshUser` invokes `refreshAccountResolvers` exactly when the user is
named `DefaultPushUser` and the read of the operator's issue record gives a
record, whatever the account: then its result is the result of the resolver
refresh.  For a user of any other name it returns success with the storage as
the record write left it, no further call of the backend made, whatever the
resolver refresh would do; and for the push user without an operator record,
or with a failing read of it, the result does not depend on the resolver
refresh either. -/
theorem refreshUser_invokes_resolvers (c : Collaborators) (storage st1 st2 : Storage)
    (issue issue2 : IssueUserStorage)
    (h1 : issueUserNKeys c storage issue = (Except.ok (), st1))
    (h2 : storeUserIssueUpdate (updateUserStatus st1 issue).2 (updateUserStatus st1 issue).1
      = (Except.ok issue2, st2)) :
    (issue.User ≠ c.DefaultPushUser → ∀ resolve,
      refreshUser { c with refreshAccountResolvers := resolve } storage issue =
        (Except.ok (), st2)) ∧
    (issue.User = c.DefaultPushUser → ∀ op st3,
      readOperatorIssue st2 issue.Operator = (Except.ok (some op), st3) →
      ∀ result st4, c.refreshAccountResolvers st3 op = (result, st4) →
        refreshUser c storage issue = (result, st4)) ∧
    (issue.User = c.DefaultPushUser → ∀ st3,
      readOperatorIssue st2 issue.Operator = (Except.ok none, st3) →
      ∀ resolve, refreshUser { c with refreshAccountResolvers := resolve } storage issue =
        (Except.ok (), st3)) ∧
    (issue.User = c.DefaultPushUser → ∀ err st3,
      readOperatorIssue st2 issue.Operator = (Except.error err, st3) →
      ∀ resolve, refreshUser { c with refreshAccountResolvers := resolve } storage issue =
        (Except.error err, st3)) := by
  have hsteps : ∀ resolve,
      refreshUser { c with refreshAccountResolvers := resolve } storage issue =
        if issue.User = c.DefaultPushUser then
          match readOperatorIssue st2 issue.Operator with
          | (Except.error err, st3) => (Except.error err, st3)
          | (Except.ok none, st3) => (Except.ok (), st3)
          | (Except.ok (some op), st3) =>
            match resolve st3 op with
            | (Except.error err, st4) => (Except.error err, st4)
            | (Except.ok (), st4) => (Except.ok (), st4)
        else (Except.ok (), st2) := by
    intro resolve
    have h1b : issueUserNKeys { c with refreshAccountResolvers := resolve } storage issue
        = (Except.ok (), st1) := h1
    exact refreshUser_steps h1b h2
  refine ⟨fun hne resolve => ?_, fun hpush op st3 hread result st4 hres => ?_,
    fun hpush st3 hread resolve => ?_, fun hpush err st3 hread resolve => ?_⟩
  · rw [hsteps resolve, if_neg hne]
  · have := hsteps c.refreshAccountResolvers
    rw [if_pos hpush, hread] at this
    simp only [hres] at this
    rw [show refreshUser c storage issue =
      refreshUser { c with refreshAccountResolvers := c.refreshAccountResolvers } storage issue
      from rfl, this]
    cases result with
    | error err => rfl
    | ok u => cases u; rfl
  · rw [hsteps resolve, if_pos hpush, hread]
  · rw [hsteps resolve, if_pos hpush, hread]

/-- C28, at a store with the issue record of operator `op1` and a resolver
refresh that always fails: `refreshUser` for the push user returns the error
of the resolver refresh, which has therefore been invoked. -/
theorem refreshUser_invokes_resolvers_witness :
    refreshUser (demoCollaboratorsFailing ⟨1700000000, 0⟩) demoStorageWithOperator
        demoPushIssue =
      (Except.error (Error.library "resolver unreachable".toList), demoStoragePushIssued) :=
  (refreshUser_invokes_resolvers (demoCollaboratorsFailing ⟨1700000000, 0⟩)
    demoStorageWithOperator demoStoragePushKey demoStoragePushIssued demoPushIssue
    { demoPushIssue with Status := { User := { Nkey := true, JWT := false } } }
    (by decide) (by decide)).2.1 (by decide) { Operator := "op1".toList }
    demoStoragePushIssued (by decide) _ _ rfl

/-- C24 as stated fails: on a store that holds nothing, behind a backend whose
sixth call fails (the read of the key pair in `updateUserStatus`),
`addUserIssue` succeeds and stores the key pair, but the record that
`readUserIssue` returns afterwards has `Status.User.Nkey = false`. -/
theorem addUserIssue_status_read_failed :
    emptyStorageSixthFails.entries.lookup
        (getUserIssuePath "op1".toList "acc1".toList "u1".toList) = none ∧
    addUserIssue (demoCollaborators ⟨1700000000, 0⟩) emptyStorageSixthFails
        (demoParams [] 0 UserClaims.zero) =
      (Except.ok (),
        { entries :=
            [(getUserIssuePath "op1".toList "acc1".toList "u1".toList,
               Entry.userIssue
                 { demoIssue [] 0 UserClaims.zero with
                   Status := { User := { Nkey := false, JWT := false } } }),
             (getUserNkeyPath "op1".toList "acc1".toList "u1".toList,
               Entry.nkey { Seed := "SUnew".toList })],
          faults := [] }) ∧
    (readUserIssue
        { entries :=
            [(getUserIssuePath "op1".toList "acc1".toList "u1".toList,
               Entry.userIssue
                 { demoIssue [] 0 UserClaims.zero with
                   Status := { User := { Nkey := false, JWT := false } } }),
             (getUserNkeyPath "op1".toList "acc1".toList "u1".toList,
               Entry.nkey { Seed := "SUnew".toList })],
          faults := [] }
        (demoParams [] 0 UserClaims.zero)).1 =
      Except.ok (some
        { demoIssue [] 0 UserClaims.zero with
          Status := { User := { Nkey := false, JWT := false } } }) := by
  decide

/-- C24, amended: after `addUserIssue` has succeeded on a storage that held no
issue record for the user and whose backend did not fail during the call, the
record that `readUserIssue` returns has `Status.User.Nkey = true` and
`Status.User.JWT = false` (the backend answers the read; the resolver refresh
for the push user, a collaborator outside these sources, is taken to leave
the user's issue path alone). -/
theorem addUserIssue_fresh_status (c : Collaborators) (storage storage2 : Storage)
    (params : IssueUserParameters)
    (hfresh : storage.entries.lookup
      (getUserIssuePath params.Operator params.Account params.User) = none)
    (hfaults : true ∉ storage.faults)
    (hcollab : params.User = c.DefaultPushUser → ∀ s op,
      (c.refreshAccountResolvers s op).2.entries.lookup
          (getUserIssuePath params.Operator params.Account params.User) =
        s.entries.lookup (getUserIssuePath params.Operator params.Account params.User))
    (h : addUserIssue c storage params = (Except.ok (), storage2))
    (hanswers : storage2.answers) :
    ∃ issue, (readUserIssue storage2 params).1 = Except.ok (some issue) ∧
      issue.Status.User.Nkey = true ∧ issue.Status.User.JWT = false := by
  unfold addUserIssue at h
  split at h <;> rename_i hs
  · simp at h
  · rename_i issue st1
    obtain ⟨⟨ho, ha, hu, _⟩, _⟩ := storeUserIssue_ok hs
    have hstatus := storeUserIssue_fresh_status hfresh hs
    have hf1 : true ∉ st1.faults := by
      intro hm
      have := storeUserIssue_faults storage params true (by rw [hs]; exact hm)
      exact hfaults this
    obtain ⟨st2, issue2, st3, h1, h2⟩ := refreshUser_ok_steps h
    have hf2 : true ∉ st2.faults := by
      intro hm
      have := issueUserNKeys_faults c st1 issue true (by rw [h1]; exact hm)
      exact hf1 this
    obtain ⟨n, hn⟩ := issueUserNKeys_ok h1
    have hread : readUserNkey st2
        { Operator := issue.Operator, Account := issue.Account, User := issue.User,
          Signing := [] } =
        (Except.ok (some n), { entries := st2.entries, faults := st2.faults.tail }) := by
      unfold readUserNkey
      rw [readNkey_of_answers st2 _ (answers_of_no_fault hf2), hn]
    have hupd := updateUserStatus_of_some hread
    have hrec := refreshUser_ok_record (by rw [ho, ha, hu]; exact hcollab) h1 h
    rw [hupd] at hrec
    have hpath : getUserIssuePath issue.Operator issue.Account issue.User =
        getUserIssuePath params.Operator params.Account params.User := by rw [ho, ha, hu]
    rw [hpath] at hrec
    rw [readUserIssue_of_answers storage2 params hanswers, hrec]
    refine ⟨_, rfl, rfl, ?_⟩
    show issue.Status.User.JWT = false
    rw [hstatus]

/-- C24, amended, at the store that holds nothing and never fails: the record
of `u1` after `addUserIssue` has the key flag set and the token flag
cleared. -/
theorem addUserIssue_fresh_status_witness :
    ∃ issue,
      (readUserIssue
        { entries :=
            [(getUserIssuePath "op1".toList "acc1".toList "u1".toList,
               Entry.userIssue (demoIssue [] 0 UserClaims.zero)),
             (getUserNkeyPath "op1".toList "acc1".toList "u1".toList,
               Entry.nkey { Seed := "SUnew".toList })],
          faults := [] }
        (demoParams [] 0 UserClaims.zero)).1 = Except.ok (some issue) ∧
      issue.Status.User.Nkey = true ∧ issue.Status.User.JWT = false :=
  addUserIssue_fresh_status (demoCollaborators ⟨1700000000, 0⟩) emptyStorage _
    (demoParams [] 0 UserClaims.zero) (by decide) (by decide) (fun _ _ _ => rfl) (by decide)
    (by decide)

/-- C25 as stated fails: on the demo store behind a backend whose fourth call
fails, the read of the key pair in `updateUserStatus` fails with a storage
error, and `addUserIssue` returns no error: it stores the record of `u1` with
`Status.User.Nkey = false`, although the key pair is in the store. -/
theorem addUserIssue_swallows_read_error :
    storeUserIssue demoStorageFourthFails (demoParams [] 0 UserClaims.zero) =
      (Except.ok (demoIssue [] 0 UserClaims.zero),
        demoStorageRewritten (demoIssue [] 0 UserClaims.zero) [false, true]) ∧
    issueUserNKeys (demoCollaborators ⟨1700000000, 0⟩)
        (demoStorageRewritten (demoIssue [] 0 UserClaims.zero) [false, true])
        (demoIssue [] 0 UserClaims.zero) =
      (Except.ok (), demoStorageRewritten (demoIssue [] 0 UserClaims.zero) [true]) ∧
    readUserNkey (demoStorageRewritten (demoIssue [] 0 UserClaims.zero) [true])
        { Operator := "op1".toList, Account := "acc1".toList, User := "u1".toList,
          Signing := [] } =
      (Except.error Error.storageFailure,
        demoStorageRewritten (demoIssue [] 0 UserClaims.zero) []) ∧
    addUserIssue (demoCollaborators ⟨1700000000, 0⟩) demoStorageFourthFails
        (demoParams [] 0 UserClaims.zero) =
      (Except.ok (), demoStorageRewritten demoIssueFlagCleared []) ∧
    demoIssueFlagCleared.Status.User.Nkey = false ∧
    (demoStorageRewritten demoIssueFlagCleared []).entries.lookup
        (getUserNkeyPath "op1".toList "acc1".toList "u1".toList) =
      some (Entry.nkey { Seed := "SUusr".toList }) := by
  decide

/-- C25, amended: when the read of the user's key pair fails while
`refreshUser` recomputes the status flags, `updateUserStatus` clears
`Status.User.Nkey` and `addUserIssue` goes on to write the record with that
status: a failure of that write is what it returns, and when the write
succeeds for a user other than the push user it returns no error and the
record with the cleared flag is stored.  The error of the read is not
returned. -/
theorem addUserIssue_read_error_clears_flag (c : Collaborators)
    (storage st1 st2 st3 : Storage) (params : IssueUserParameters)
    (issue : IssueUserStorage) (err : Error)
    (h1 : storeUserIssue storage params = (Except.ok issue, st1))
    (h2 : issueUserNKeys c st1 issue = (Except.ok (), st2))
    (h3 : readUserNkey st2
      { Operator := issue.Operator, Account := issue.Account, User := issue.User,
        Signing := [] } = (Except.error err, st3)) :
    (∀ err2 st4,
      storeUserIssueUpdate st3
          { issue with Status := { User := { issue.Status.User with Nkey := false } } } =
        (Except.error err2, st4) →
      addUserIssue c storage params = (Except.error err2, st4)) ∧
    (∀ issue2 st4,
      storeUserIssueUpdate st3
          { issue with Status := { User := { issue.Status.User with Nkey := false } } } =
        (Except.ok issue2, st4) →
      issue.User ≠ c.DefaultPushUser →
      addUserIssue c storage params = (Except.ok (), st4) ∧
      st4.entries.lookup (getUserIssuePath issue.Operator issue.Account issue.User) =
        some (Entry.userIssue
          { issue with Status := { User := { issue.Status.User with Nkey := false } } })) := by
  have hupd := updateUserStatus_of_error h3
  constructor
  · intro err2 st4 h4
    unfold addUserIssue
    rw [h1]
    simp only
    unfold refreshUser
    rw [h2]
    simp only
    rw [hupd]
    simp only
    rw [h4]
  · intro issue2 st4 h4 hpush
    constructor
    · unfold addUserIssue
      rw [h1]
      simp only
      unfold refreshUser
      rw [h2]
      simp only
      rw [hupd]
      simp only
      rw [h4]
      simp only
      rw [if_neg hpush]
    · exact storeUserIssueUpdate_ok h4

/-- C25, amended, on the demo store behind a backend whose fourth call
fails. -/
theorem addUserIssue_read_error_clears_flag_witness :
    (∀ err2 st4,
      storeUserIssueUpdate (demoStorageRewritten (demoIssue [] 0 UserClaims.zero) [])
          demoIssueFlagCleared = (Except.error err2, st4) →
      addUserIssue (demoCollaborators ⟨1700000000, 0⟩) demoStorageFourthFails
        (demoParams [] 0 UserClaims.zero) = (Except.error err2, st4)) ∧
    (∀ issue2 st4,
      storeUserIssueUpdate (demoStorageRewritten (demoIssue [] 0 UserClaims.zero) [])
          demoIssueFlagCleared = (Except.ok issue2, st4) →
      "u1".toList ≠ "default-push".toList →
      addUserIssue (demoCollaborators ⟨1700000000, 0⟩) demoStorageFourthFails
          (demoParams [] 0 UserClaims.zero) = (Except.ok (), st4) ∧
      st4.entries.lookup (getUserIssuePath "op1".toList "acc1".toList "u1".toList) =
        some (Entry.userIssue demoIssueFlagCleared)) :=
  addUserIssue_read_error_clears_flag (demoCollaborators ⟨1700000000, 0⟩)
    demoStorageFourthFails
    (demoStorageRewritten (demoIssue [] 0 UserClaims.zero) [false, true])
    (demoStorageRewritten (demoIssue [] 0 UserClaims.zero) [true])
    (demoStorageRewritten (demoIssue [] 0 UserClaims.zero) [])
    (demoParams [] 0 UserClaims.zero) (demoIssue [] 0 UserClaims.zero) Error.storageFailure
    (by decide) (by decide) (by decide)

/-- C27: `findTemplateVariables` is total.  For every text the outer loop ends
through its condition within `len(templateStr)` iterations (more fuel changes
nothing, and in the logged run every loop ends through its condition or its
`break`), every index it reads is inside the text, the values of `i` at which
the body runs strictly increase, and every slice `[start:stop]` it takes lies
inside the text, with the next iteration at `stop + 2` or later; the empty
text and a text of one character give no name, and so does an unclosed
`{{`. -/
theorem findTemplateVariables_total (templateStr : Str) :
    (∀ extra, findLoop templateStr (templateStr.length + extra) 0 [] [] =
      findTemplateVariables templateStr) ∧
    (findLoopLog templateStr templateStr.length 0 [] []).result =
      findTemplateVariables templateStr ∧
    (findLoopLog templateStr templateStr.length 0 [] []).finished = true ∧
    (∀ r ∈ (findLoopLog templateStr templateStr.length 0 [] []).reads,
      r < templateStr.length) ∧
    (findLoopLog templateStr templateStr.length 0 [] []).visited.Pairwise
      (fun a b => a < b) ∧
    (∀ p ∈ (findLoopLog templateStr templateStr.length 0 [] []).slices,
      p.1 ≤ p.2 ∧ p.2 + 1 < templateStr.length ∧
      ∀ v ∈ (findLoopLog templateStr templateStr.length 0 [] []).visited,
        v + 2 ≤ p.1 ∨ p.2 + 2 ≤ v) ∧
    findTemplateVariables [] = [] ∧
    (∀ c, findTemplateVariables [c] = []) ∧
    findTemplateVariables "a \x7b\x7b b \x7d c".toList = [] := by
  obtain ⟨h1, _, h3, h4⟩ := findLoopLog_inOrder templateStr templateStr.length 0 [] []
  refine ⟨fun extra => findLoop_fuel templateStr _ (by omega),
    findLoopLog_result templateStr _ 0 [] [],
    findLoopLog_finished templateStr _ 0 [] [] (by omega), h1, h3, ?_, rfl, fun c => rfl,
    by decide⟩
  intro p hp
  obtain ⟨_, hb, hc, hd⟩ := h4 p hp
  exact ⟨hb, hc, hd⟩

/-- C22 as stated fails: at one storage state, with the template of audience
`{{a}}` and the one parameter map `a ↦ {{b}}, b ↦ x`, the run that replaces
`a` first gives a token with audience `x` and the run that replaces `b` first
gives a token with audience `{{b}}`. -/
theorem generateUserCreds_order_dependent :
    List.Perm [(['a'], placeholder ['b']), (['b'], ['x'])]
      [(['b'], ['x']), (['a'], placeholder ['b'])] ∧
    generateUserCreds (demoEnv ⟨1700000000, 0⟩)
        (demoStorage (demoIssue [] 0 (demoTemplate (placeholder ['a']))))
        (demoCredsParams [(['a'], placeholder ['b']), (['b'], ['x'])]) =
      (Except.ok (demoCredsFor ['x'] 0 [(['a'], placeholder ['b']), (['b'], ['x'])]),
        demoStorage (demoIssue [] 0 (demoTemplate (placeholder ['a'])))) ∧
    generateUserCreds (demoEnv ⟨1700000000, 0⟩)
        (demoStorage (demoIssue [] 0 (demoTemplate (placeholder ['a']))))
        (demoCredsParams [(['b'], ['x']), (['a'], placeholder ['b'])]) =
      (Except.ok (demoCredsFor (placeholder ['b']) 0
          [(['b'], ['x']), (['a'], placeholder ['b'])]),
        demoStorage (demoIssue [] 0 (demoTemplate (placeholder ['a'])))) ∧
    (demoTokenFor ['x'] 0).claims.ClaimsData.Audience ≠
      (demoTokenFor (placeholder ['b']) 0).claims.ClaimsData.Audience :=
  ⟨List.Perm.swap _ _ _, rfl, rfl, by decide⟩

/-- C22, amended: for a fixed storage state and a fixed parameter map whose
names and values contain no `{` and no `}`, two successful runs of
`generateUserCreds`, whatever the order in which each takes the parameters
and whatever the clock reads, produce tokens with the same subject, issuer,
issuer account, permissions and audience, signed by the same key: the claims
differ in `Expires` at most. -/
theorem generateUserCreds_static_claims (env : Env) (now2 : Time)
    (storage storage2 storage3 : Storage) (params : UserCredsParameters)
    (parameters2 : Parameters) (data data2 : UserCredsData) (token token2 : Token)
    (hperm : params.Parameters.Perm parameters2)
    (hnodup : (params.Parameters.map Prod.fst).Nodup)
    (hbrace : ∀ p, p ∈ params.Parameters → braceFree p.1 ∧ braceFree p.2)
    (h1 : generateUserCreds env storage params = (Except.ok data, storage2))
    (h2 : generateUserCreds { env with Now := now2 } storage
      { params with Parameters := parameters2 } = (Except.ok data2, storage3))
    (ht1 : CredsPart.token token ∈ data.Creds)
    (ht2 : CredsPart.token token2 ∈ data2.Creds) :
    token.claims.ClaimsData.Subject = token2.claims.ClaimsData.Subject ∧
    token.claims.ClaimsData.Issuer = token2.claims.ClaimsData.Issuer ∧
    token.claims.User.IssuerAccount = token2.claims.User.IssuerAccount ∧
    token.claims.User.Pub = token2.claims.User.Pub ∧
    token.claims.User.Sub = token2.claims.User.Sub ∧
    token.claims.ClaimsData.Audience = token2.claims.ClaimsData.Audience ∧
    staticClaims token.claims = staticClaims token2.claims ∧
    token.signedBy = token2.signedBy := by
  obtain ⟨issue, pc, st1, jwt, exp, st2, _, _, seed, hl, happly, he, hjwt, _, _, _, hfmt, _⟩ :=
    generateUserCreds_ok h1
  obtain ⟨issue2, pc2, st3, jwt2, exp2, st4, _, _, seed2, hl2, happly2, he2, hjwt2, _, _, _,
    hfmt2, _⟩ := generateUserCreds_ok h2
  simp only at hl2 happly2
  rw [hl] at hl2
  simp only [Option.some.injEq, Entry.userIssue.injEq] at hl2
  subst hl2
  rw [← applyTemplateParameters_perm issue.ClaimsTemplate hperm hnodup hbrace, happly] at happly2
  simp only [Except.ok.injEq] at happly2
  subst happly2
  have hj := token_of_FormatUserConfig hfmt ht1
  have hj2 := token_of_FormatUserConfig hfmt2 ht2
  subst hj hj2
  obtain ⟨hstatic, hsigned⟩ := generateUserJWT_static (he2.trans he.symm) hjwt hjwt2
  have hcd := congrArg UserClaims.ClaimsData hstatic
  have hu := congrArg UserClaims.User hstatic
  simp only [staticClaims, ClaimsData.mk.injEq] at hcd hu
  refine ⟨hcd.2.2.2, hcd.2.2.1, ?_, ?_, ?_, hcd.1, hstatic, hsigned⟩
  · rw [hu]
  · rw [hu]
  · rw [hu]

/-- C22, amended, at the demo store with the template of audience `{{a}}{{b}}`
and the map `a ↦ x, b ↦ y`, expiring after 60 seconds: the run that takes `a`
first at second 1700000000 and the run that takes `b` first at second
1800000000 give tokens of audience `xy` that differ in `Expires` only. -/
theorem generateUserCreds_static_claims_witness :
    (demoTokenFor "xy".toList 1700000060).claims.ClaimsData.Subject =
      (demoTokenFor "xy".toList 1800000060).claims.ClaimsData.Subject ∧
    (demoTokenFor "xy".toList 1700000060).claims.ClaimsData.Issuer =
      (demoTokenFor "xy".toList 1800000060).claims.ClaimsData.Issuer ∧
    (demoTokenFor "xy".toList 1700000060).claims.User.IssuerAccount =
      (demoTokenFor "xy".toList 1800000060).claims.User.IssuerAccount ∧
    (demoTokenFor "xy".toList 1700000060).claims.User.Pub =
      (demoTokenFor "xy".toList 1800000060).claims.User.Pub ∧
    (demoTokenFor "xy".toList 1700000060).claims.User.Sub =
      (demoTokenFor "xy".toList 1800000060).claims.User.Sub ∧
    (demoTokenFor "xy".toList 1700000060).claims.ClaimsData.Audience =
      (demoTokenFor "xy".toList 1800000060).claims.ClaimsData.Audience ∧
    staticClaims (demoTokenFor "xy".toList 1700000060).claims =
      staticClaims (demoTokenFor "xy".toList 1800000060).claims ∧
    (demoTokenFor "xy".toList 1700000060).signedBy =
      (demoTokenFor "xy".toList 1800000060).signedBy :=
  generateUserCreds_static_claims (demoEnv ⟨1700000000, 0⟩) ⟨1800000000, 0⟩
    (demoStorage (demoIssue [] 60 (demoTemplate (placeholder ['a'] ++ placeholder ['b']))))
    (demoStorage (demoIssue [] 60 (demoTemplate (placeholder ['a'] ++ placeholder ['b']))))
    (demoStorage (demoIssue [] 60 (demoTemplate (placeholder ['a'] ++ placeholder ['b']))))
    (demoCredsParams [(['a'], ['x']), (['b'], ['y'])]) [(['b'], ['y']), (['a'], ['x'])]
    (demoCredsFor "xy".toList 1700000060 [(['a'], ['x']), (['b'], ['y'])])
    (demoCredsFor "xy".toList 1800000060 [(['b'], ['y']), (['a'], ['x'])])
    (demoTokenFor "xy".toList 1700000060) (demoTokenFor "xy".toList 1800000060)
    (List.Perm.swap _ _ _) (by decide) (by decide) rfl rfl
    (List.mem_cons_of_mem _ (List.mem_cons_self _ _))
    (List.mem_cons_of_mem _ (List.mem_cons_self _ _))

end NatsBackend
